import Mathlib

/-! xserializer: a shallow embedding of the save walker and of the loader

The embedding follows `source/xserializer.h`, `source/xserializer.cpp` and
`source/implementation/xserializer_inline.h`.

* Machine integers are natural numbers, narrowed with an explicit `%` wherever the
  source stores a value in a narrower field (`u16`, `u32`) or casts it (`i32`).
* The host is a 64-bit little-endian machine: a pointer occupies 8 bytes, least
  significant byte first.
* The memory of the saving process is a function from addresses to bytes.
* A user type and its `SerializeIO` descriptor are described by `Ty` / `Stmts`: the
  compile-time dispatch of `stream::Serialize` becomes a match on `Ty`, and the body
  of a descriptor is the sequence of `Serialize` calls it makes.
* Debug assertions of the source are not executed (release build); where a theorem
  needs one of them it appears as a hypothesis.
-/

namespace xserializer

/-! ## Machine integers -/

/-- Conversion to `std::uint16_t`. -/
def u16 (x : Nat) : Nat := x % 65536

/-- Conversion to `std::uint32_t`. -/
def u32 (x : Nat) : Nat := x % 4294967296

/-- Conversion of a mathematical integer to `std::int32_t` (two's complement). -/
def i32 (x : Int) : Int := (x + 2147483648) % 4294967296 - 2147483648

/-- Conversion of a (possibly negative) integer to `std::uint32_t`. -/
def u32i (x : Int) : Nat := (x % 4294967296).toNat

/-! ## Memory of the running process -/

/-- Byte-addressed memory: the byte stored at every address. -/
abbrev Mem := Nat → Nat

/-- The `n` bytes stored at `addr`, `addr + 1`, ... -/
def readBytes (mem : Mem) (addr n : Nat) : List Nat :=
  (List.range n).map (fun i => mem (addr + i))

/-- Value of a little-endian byte string. -/
def leValue : List Nat → Nat
  | [] => 0
  | b :: bs => b + 256 * leValue bs

/-- The `n` little-endian bytes of `v`. -/
def leBytes : Nat → Nat → List Nat
  | 0, _ => []
  | n + 1, v => v % 256 :: leBytes n (v / 256)

/-- The pointer stored in the 8-byte slot at `addr`. -/
def readPtr (mem : Mem) (addr : Nat) : Nat := leValue (readBytes mem addr 8)

/-- Store the bytes `bs` at `addr`, `addr + 1`, ... -/
def writeBytes (mem : Mem) (addr : Nat) (bs : List Nat) : Mem :=
  fun a => if addr ≤ a ∧ a < addr + bs.length then bs.getD (a - addr) 0 else mem a

/-- A `for (i = 0; i < n; ++i)` loop threading a state. -/
def forLoop {σ : Type} (n : Nat) (body : Nat → σ → σ) (s : σ) : σ :=
  (List.range n).foldl (fun s i => body i s) s

/-! ## The byte stream (`xfile::stream`) -/

/-- Modelled from the spec: the seekable byte stream `xfile::stream` that the serializer
consumes (offset, read, write, seek, align-pad, tell, length) is an external collaborator
whose code is not part of the sources.  A stream is its bytes and its cursor. -/
structure xfile where
  data : List Nat := []
  pos : Nat := 0
deriving DecidableEq, Repr

instance : Inhabited xfile := ⟨{}⟩

/-- Overwrite `data` from position `pos` on with `bytes`, growing the data when the bytes
reach past its end (a gap between the old end and `pos` is zero-filled).  Writing no byte
changes nothing. -/
def overwrite (data : List Nat) (pos : Nat) (bytes : List Nat) : List Nat :=
  match bytes with
  | [] => data
  | _ :: _ =>
    data.take pos ++ List.replicate (pos - data.length) 0 ++ bytes
      ++ data.drop (pos + bytes.length)

/-- Modelled from the spec: `Tell`, the cursor of the stream. -/
def xfile.Tell (f : xfile) : Nat := f.pos

/-- Modelled from the spec: `SeekOrigin(offset)`. -/
def xfile.SeekOrigin (f : xfile) (offset : Nat) : xfile := { f with pos := offset }

/-- Modelled from the spec: `SeekEnd(offset)`; the serializer only calls `SeekEnd(0)`. -/
def xfile.SeekEnd (f : xfile) (offset : Nat) : xfile := { f with pos := f.data.length - offset }

/-- Modelled from the spec: `getFileLength`. -/
def xfile.getFileLength (f : xfile) : Nat := f.data.length

/-- Modelled from the spec: `ToMemory(buffer)`, the whole content of the stream. -/
def xfile.ToMemory (f : xfile) : List Nat := f.data

/-- Modelled from the spec: `WriteSpan`, write at the cursor and advance it. -/
def xfile.WriteSpan (f : xfile) (bytes : List Nat) : xfile :=
  { data := overwrite f.data f.pos bytes, pos := f.pos + bytes.length }

/-- Modelled from the spec: `putC(fill, count, immediate)` writes `count` copies of the
filler at the cursor; the cursor advances when `immediate` is set and stays otherwise. -/
def xfile.putC (f : xfile) (C Count : Nat) (bUpdatePos : Bool) : xfile :=
  let g := f.WriteSpan (List.replicate Count C)
  if bUpdatePos then g else { g with pos := f.pos }

/-- Round `x` up to a multiple of `a`. -/
def Align (x a : Nat) : Nat := ((x + a - 1) / a) * a

/-- Modelled from the spec: `AlignPutC(fill, count, alignment, immediate)`, by the words of
the pointer operation ("Reserve the pointee region.  Seek the target pack to end; pad to
8-byte alignment with a neutral filler byte; the current end position is `P`").  The filler
is written from the cursor up to the next multiple of `alignment`, where the cursor then
stands (`P`); the `count` bytes of the region are then written with the filler from `P` on,
and the cursor moves past them only when `immediate` is set.  `HandlePtrDetails` calls it
with `immediate = false` and then takes `Tell` as the start of the pointee. -/
def xfile.AlignPutC (f : xfile) (C Count Alignment : Nat) (bUpdatePos : Bool) : xfile :=
  (f.putC C (Align f.pos Alignment - f.pos) true).putC C Count bUpdatePos

/-! ## Data model (`xserializer.h`) -/

/-- The union `mem_type`: the byte `m_Value`, seen as its eight bits.  The bit-field struct
of the union names bits 0, 1 and 2 (`m_bUnique`, `m_bTempMemory`, `m_bVRam`); bits 3 to 7
have no name in the source and are reached through `m_Value` only. -/
structure mem_type where
  m_bUnique : Bool := false
  m_bTempMemory : Bool := false
  m_bVRam : Bool := false
  m_bBit3 : Bool := false
  m_bBit4 : Bool := false
  m_bBit5 : Bool := false
  m_bBit6 : Bool := false
  m_bBit7 : Bool := false
deriving DecidableEq, Repr

/-- The byte `m_Value` of a `mem_type`: bit 0 is `m_bUnique`, bit 1 `m_bTempMemory`,
bit 2 `m_bVRam`, then the five bits without a name. -/
def mem_type.m_Value (m : mem_type) : Nat :=
  m.m_bUnique.toNat + 2 * m.m_bTempMemory.toNat + 4 * m.m_bVRam.toNat
    + 8 * m.m_bBit3.toNat + 16 * m.m_bBit4.toNat + 32 * m.m_bBit5.toNat
    + 64 * m.m_bBit6.toNat + 128 * m.m_bBit7.toNat

/-- The enumeration `compression_level`. -/
inductive compression_level where
  | FAST
  | LOW
  | MEDIUM
  | HIGH
deriving DecidableEq, Repr

/-- The enumeration `state` of error kinds. -/
inductive state where
  | OK
  | FAILURE
  | WRONG_VERSION
  | UNKOWN_FILE_TYPE
deriving DecidableEq, Repr

/-- The persisted pointer-table entry `stream::ref`. -/
structure ref where
  m_PointingAT : Nat := 0
  m_OffSet : Nat := 0
  m_Count : Nat := 0
  m_OffsetPack : Nat := 0
  m_PointingATPack : Nat := 0
deriving DecidableEq, Repr

/-- The persisted pack record `stream::pack`. -/
structure pack where
  m_PackFlags : mem_type := {}
  m_UncompressSize : Nat := 0
  m_nBlocks : Nat := 0
deriving DecidableEq, Repr

/-- The save-side pack `stream::pack_writing`. -/
structure pack_writing extends pack where
  m_Data : xfile := {}
  m_BlockSize : Nat := 0
  m_CompressSize : Nat := 0
  m_CompressData : List Nat := []
deriving DecidableEq, Repr

instance : Inhabited pack_writing := ⟨{}⟩

/-- The persisted file header `stream::header`. -/
structure header where
  m_SizeOfData : Nat := 0
  m_SerialFileVersion : Nat := 0
  m_PackSize : Nat := 0
  m_nPointers : Nat := 0
  m_nPacks : Nat := 0
  m_nBlockSizes : Nat := 0
  m_ResourceVersion : Nat := 0
  m_MaxQualities : Nat := 0
  m_AutomaticVersion : Nat := 0
deriving DecidableEq, Repr

/-- The save context `stream::writing`. -/
structure writing where
  m_CSizeStream : List Nat := []
  m_PointerTable : List ref := []
  m_Packs : List pack_writing := []
  m_pFile : xfile := {}
  m_bEndian : Bool := false
deriving DecidableEq, Repr

/-- The members of `class stream` used while saving: the shared save context and the
frame of the object being serialized. -/
structure stream where
  m_pWrite : writing := {}
  m_CompressionLevel : compression_level := compression_level.MEDIUM
  m_iPack : Nat := 0
  m_ClassPos : Nat := 0
  m_pClass : Nat := 0
  m_ClassSize : Nat := 0
  m_Header : header := {}
deriving DecidableEq, Repr

/-- The constant `stream::version_id_v`. -/
def version_id_v : Nat := 1

/-- The constant `stream::max_block_size_v`. -/
def max_block_size_v : Nat := 1024 * 64

/-! ## User types and descriptors -/

mutual
/-- A serializable C++ type, by the branch of `stream::Serialize(const T&)` it takes. -/
inductive Ty where
  /-- An integral, floating point or enumeration type of `size` bytes. -/
  | prim (size : Nat)
  /-- A trivially copyable type of `size` bytes without descriptor. -/
  | pod (size : Nat)
  /-- A C array, `std::array` or span of `n` elements. -/
  | array (elem : Ty) (n : Nat)
  /-- A type of `size` bytes with a descriptor; `io` is the body of its descriptor. -/
  | desc (size : Nat) (io : Stmts)
/-- The body of a descriptor: the calls it makes on the stream, in order.  Offsets are
relative to the address of the described object. -/
inductive Stmts where
  /-- The descriptor returns. -/
  | done
  /-- A call `Stream.Serialize(Data.field)` for the field at offset `off`. -/
  | serialize (off : Nat) (ty : Ty) (rest : Stmts)
  /-- A call `Stream.Serialize(Data.pointer, count, flags)` for the pointer slot at offset
  `off`; `count` is computed by the descriptor from the memory and the object address. -/
  | serializePtr (off : Nat) (count : Mem → Nat → Nat) (elem : Ty) (flags : mem_type)
      (rest : Stmts)
  /-- A call `Stream.setResourceVersion(v)`. -/
  | setResourceVersion (v : Nat) (rest : Stmts)
end

/-- The value of `sizeof(T)`. -/
def sizeOfTy : Ty → Nat
  | .prim n => n
  | .pod n => n
  | .array e n => n * sizeOfTy e
  | .desc n _ => n

/-! ## The save walker -/

/-- Replace element `i` of a list by its image under `f` (nothing happens out of range). -/
def updateAt {α : Type} (f : α → α) : Nat → List α → List α
  | _, [] => []
  | 0, x :: xs => f x :: xs
  | i + 1, x :: xs => x :: updateAt f i xs

/-- The function `writing::AllocatePack`: append an empty pack carrying the flags and return
its index (opening the in-memory pack stream is taken to succeed; the index is returned in
a `std::uint32_t`, which a vector of pack streams held in memory never exceeds). -/
def writing.AllocatePack (w : writing) (DefaultPackFlags : mem_type) : writing × Nat :=
  let WPack : pack_writing := { m_PackFlags := DefaultPackFlags }
  let w1 := { w with m_Packs := w.m_Packs ++ [WPack] }
  (w1, w1.m_Packs.length - 1)

/-- The function `stream::getW`: the byte stream of the current pack. -/
def stream.getW (s : stream) : xfile := (s.m_pWrite.m_Packs.getD s.m_iPack default).m_Data

/-- Store back the byte stream of the current pack (the source mutates it in place). -/
def stream.setW (s : stream) (f : xfile) : stream :=
  { s with m_pWrite := { s.m_pWrite with
      m_Packs := updateAt (fun p => { p with m_Data := f }) s.m_iPack s.m_pWrite.m_Packs } }

/-- The function `stream::isLocalVariable`. -/
def stream.isLocalVariable (s : stream) (pRange : Nat) : Bool :=
  decide (pRange ≥ s.m_pClass) && decide (pRange < s.m_pClass + s.m_ClassSize)

/-- The function `stream::ComputeLocalOffset` (asserts `isLocalVariable(pItem)`). -/
def stream.ComputeLocalOffset (s : stream) (pItem : Nat) : Int :=
  i32 ((pItem : Int) - (s.m_pClass : Int))

/-- The expression `m_ClassPos + ComputeLocalOffset(p)`, computed in `std::uint32_t`. -/
def stream.localPos (s : stream) (p : Nat) : Nat :=
  u32i ((s.m_ClassPos : Int) + s.ComputeLocalOffset p)

/-- The function `stream::Handle` on the view of `size` bytes at `addr` (asserts
`isLocalVariable(addr)`): seek the current pack to the local offset and write the bytes. -/
def stream.Handle (s : stream) (mem : Mem) (addr size : Nat) : stream :=
  let f := s.getW.SeekOrigin (s.localPos addr)
  s.setW (f.WriteSpan (readBytes mem addr size))

/-- The constant `non_unique_v` of `HandlePtrDetails`: temp and vram set, unique clear. -/
def non_unique_v : mem_type := { m_bUnique := false, m_bTempMemory := true, m_bVRam := true }

/-- The pool search loop of `HandlePtrDetails`: the value of `i` when the loop ends, which
is the number of packs when no pack matches. -/
def findPool (MemoryFlags : mem_type) : List pack_writing → Nat
  | [] => 0
  | p :: ps =>
    if p.m_PackFlags.m_Value &&& non_unique_v.m_Value = MemoryFlags.m_Value then 0
    else findPool MemoryFlags ps + 1

/-- The pack selection of `HandlePtrDetails` ("Choose the right pack for this allocation"). -/
def stream.choosePack (s : stream) (MemoryFlags : mem_type) : stream :=
  if MemoryFlags.m_bUnique then
    let r := s.m_pWrite.AllocatePack MemoryFlags
    { s with m_pWrite := r.1, m_iPack := r.2 }
  else
    let i := findPool MemoryFlags s.m_pWrite.m_Packs
    if i = s.m_pWrite.m_Packs.length then
      let r := s.m_pWrite.AllocatePack MemoryFlags
      { s with m_pWrite := r.1, m_iPack := r.2 }
    else
      { s with m_iPack := i }

/-- The function `stream::HandlePtrDetails` for the pointer slot at address `pA`.  The
product `SizeofA * Count` is computed in `int` by the source; the model takes the exact
product, which is what the source computes whenever it is below `2^31`. -/
def stream.HandlePtrDetails (s : stream) (mem : Mem) (pA SizeofA Count : Nat)
    (MemoryFlags : mem_type) : stream :=
  if Count = 0 then
    s.Handle mem pA 8
  else
    let BackupPackIndex := s.m_iPack
    let s1 := s.choosePack MemoryFlags
    let s2 := s1.setW (s1.getW.SeekEnd 0)
    let s3 := s2.setW (s2.getW.AlignPutC 32 (SizeofA * Count) 8 false)
    let Pos := s3.getW.Tell
    let Ref : ref :=
      { m_PointingAT := u32 Pos
        m_OffsetPack := u16 BackupPackIndex
        m_OffSet := s3.localPos pA
        m_Count := u32 Count
        m_PointingATPack := u16 s3.m_iPack }
    { s3 with m_pWrite := { s3.m_pWrite with
        m_PointerTable := s3.m_pWrite.m_PointerTable ++ [Ref] } }

/-- The frame `File` that `Serialize` builds for a value outside the current frame: a copy
of the stream whose class range is the `size` bytes at `addr`, placed at the cursor of the
current pack. -/
def stream.pushFrame (s : stream) (addr size : Nat) : stream :=
  { s with m_ClassPos := u32 s.getW.Tell, m_pClass := addr, m_ClassSize := u32 size }

/-- Return from the frame `File`: the save context is shared with the caller, whose own
members are untouched, and the caller seeks its pack to the end of the class. -/
def stream.popFrame (s File : stream) : stream :=
  let s1 := { s with m_pWrite := File.m_pWrite }
  s1.setW (s1.getW.SeekOrigin (u32 (File.m_ClassPos + File.m_ClassSize)))

/-- Whether `T` is an integral, floating point or enumeration type (the short-cut test of
the pointer operation). -/
def Ty.isPrim : Ty → Bool
  | .prim _ => true
  | _ => false

/-- The pointer operation `stream::Serialize(T* const& pView, Size, MemoryFlags)` for the
pointer slot at address `pA`, which holds `pView`.  `SerializeElem a` stands for the call
`Serialize(pView[i])` on the element at address `a`; `isPrim` selects the short-cut taken
for integral, floating point and enumeration elements. -/
def stream.SerializePtrWith (SerializeElem : Nat → stream → stream) (isPrim : Bool)
    (sizeofT : Nat) (s : stream) (mem : Mem) (pA Size : Nat) (MemoryFlags : mem_type) :
    stream :=
  let pView := readPtr mem pA
  if pView = 0 then s
  else
    let BackupPackIndex := s.m_iPack
    let s1 := s.HandlePtrDetails mem pA sizeofT Size MemoryFlags
    let s2 : stream :=
      if isPrim then
        if s1.isLocalVariable pView then s1.Handle mem pView (sizeofT * Size)
        else s1.popFrame ((s1.pushFrame pView (sizeofT * Size)).Handle mem pView (sizeofT * Size))
      else
        forLoop Size (fun i s => SerializeElem (pView + i * sizeofT) s) s1
    { s2 with m_iPack := BackupPackIndex }

mutual
/-- The function `stream::Serialize(const T&)` for the value of type `T` at `addr`. -/
def stream.Serialize : Ty → Mem → Nat → stream → stream
  | .prim n, mem, addr, s => s.Handle mem addr n
  | .pod n, mem, addr, s => s.Handle mem addr n
  | .array elem n, mem, addr, s =>
    forLoop n (fun i s => stream.Serialize elem mem (addr + i * sizeOfTy elem) s) s
  | .desc size io, mem, addr, s =>
    if s.isLocalVariable addr then
      io_functions.SerializeIO io mem addr s
    else
      s.popFrame ( io_functions.SerializeIO io mem addr (s.pushFrame addr size))
/-- The descriptor `io_functions::SerializeIO` of the object at `obj`, running the calls of
its body on the stream. -/
def io_functions.SerializeIO : Stmts → Mem → Nat → stream → stream
  | .done, _, _, s => s
  | .serialize off ty rest, mem, obj, s =>
    io_functions.SerializeIO rest mem obj (stream.Serialize ty mem (obj + off) s)
  | .setResourceVersion v rest, mem, obj, s =>
    io_functions.SerializeIO rest mem obj
      { s with m_Header := { s.m_Header with m_ResourceVersion := u16 v } }
  | .serializePtr off count elem flags rest, mem, obj, s =>
    io_functions.SerializeIO rest mem obj
      (stream.SerializePtrWith (fun a s => stream.Serialize elem mem a s) elem.isPrim
        (sizeOfTy elem) s mem (obj + off) (count mem obj) flags)
end

/-- The pointer operation `stream::Serialize(T* const& pView, Size, MemoryFlags)` for
elements of type `elem`. -/
def stream.SerializePtr (s : stream) (elem : Ty) (mem : Mem) (pA Size : Nat)
    (MemoryFlags : mem_type) : stream :=
  stream.SerializePtrWith (fun a s => stream.Serialize elem mem a s) elem.isPrim
    (sizeOfTy elem) s mem pA Size MemoryFlags

/-- The part of `stream::Save` that precedes the call of the root descriptor: a fresh save
context, the root pack with the caller's flags, the frame of the root object and the
`sizeof(Object)` filler bytes reserved at offset 0. -/
def stream.SaveBegin (s : stream) (File : xfile) (Object sizeofObject VERSION : Nat)
    (CompressionLevel : compression_level) (ObjectFlags : mem_type) (bSwapEndian : Bool) :
    stream :=
  let s1 := { s with m_Header := { s.m_Header with m_ResourceVersion := u16 VERSION } }
  let Write : writing := { m_pFile := File }
  let r := Write.AllocatePack ObjectFlags
  let s2 : stream :=
    { s1 with
      m_pWrite := { r.1 with m_bEndian := bSwapEndian }
      m_iPack := r.2
      m_ClassPos := 0
      m_CompressionLevel := CompressionLevel
      m_pClass := Object
      m_ClassSize := u32 sizeofObject }
  s2.setW (s2.getW.putC 32 s2.m_ClassSize true)

/-- The save walk of `stream::Save`: everything up to the call of `SaveFile`, for a root
object at address `Object` whose type has size `sizeofObject` and descriptor body `io`. -/
def stream.SaveWalk (s : stream) (File : xfile) (mem : Mem) (Object sizeofObject : Nat)
    (io : Stmts) (VERSION : Nat) (CompressionLevel : compression_level)
    (ObjectFlags : mem_type) (bSwapEndian : Bool) : stream :=
  io_functions.SerializeIO io mem Object
    (s.SaveBegin File Object sizeofObject VERSION CompressionLevel ObjectFlags bSwapEndian)

/-! ## Relations between walker states -/

/-- The flags of the packs, in pack order. -/
def writing.packFlags (w : writing) : List mem_type := w.m_Packs.map (fun p => p.m_PackFlags)

/-- The packs of `w'` are the packs of `w`, in the same order and with the same flags,
followed by newly allocated ones. -/
def PacksExtend (w w' : writing) : Prop := ∃ t, w'.packFlags = w.packFlags ++ t

/-- The pointer table of `w'` is the pointer table of `w` followed by new refs. -/
def RefsExtend (w w' : writing) : Prop := ∃ t, w'.m_PointerTable = w.m_PointerTable ++ t

/-- The size of the byte stream of pack `i`. -/
def writing.packSize (w : writing) (i : Nat) : Nat := (w.m_Packs.getD i default).m_Data.data.length

/-- The bytes of pack `i`. -/
def writing.packData (w : writing) (i : Nat) : List Nat := (w.m_Packs.getD i default).m_Data.data

/-- No pack of `w'` is shorter than it is in `w`. -/
def PacksGrow (w w' : writing) : Prop := ∀ i, w.packSize i ≤ w'.packSize i

/-- A relation between save contexts that holds across every step of the walker. -/
structure WalkInv (R : writing → writing → Prop) : Prop where
  refl : ∀ w, R w w
  trans : ∀ a b c, R a b → R b c → R a c
  handle : ∀ (s : stream) (mem : Mem) (a n : Nat), R s.m_pWrite (s.Handle mem a n).m_pWrite
  hpd : ∀ (s : stream) (mem : Mem) (pA sz cnt : Nat) (fl : mem_type),
    R s.m_pWrite (s.HandlePtrDetails mem pA sz cnt fl).m_pWrite
  seek : ∀ (s : stream) (o : Nat), R s.m_pWrite (s.setW (s.getW.SeekOrigin o)).m_pWrite

/-- The frame of the walker: current pack, class position, class address and class size. -/
def stream.frame (s : stream) : Nat × Nat × Nat × Nat :=
  (s.m_iPack, s.m_ClassPos, s.m_pClass, s.m_ClassSize)

/-- The byte stream of the target pack after the reservation made by `HandlePtrDetails`:
the pack is padded to a multiple of 8, the `n` bytes of the pointee follow, and the cursor
stands at the start of the pointee. -/
def reserved (f : xfile) (n : Nat) : xfile :=
  { data := f.data ++ List.replicate (Align f.data.length 8 - f.data.length) 32
      ++ List.replicate n 32
    pos := Align f.data.length 8 }

/-- The ref emitted by `HandlePtrDetails`. -/
def emittedRef (s : stream) (pA Count : Nat) (MemoryFlags : mem_type) : ref :=
  { m_PointingAT := u32 (Align (s.choosePack MemoryFlags).getW.data.length 8)
    m_OffsetPack := u16 s.m_iPack
    m_OffSet := s.localPos pA
    m_Count := u32 Count
    m_PointingATPack := u16 (s.choosePack MemoryFlags).m_iPack }

/-! ## States of one save walk -/

/-- The states that the walker reaches after the state `s` within the same save walk:
`Reach s t` holds when `t` is obtained from `s` by any sequence of walker steps (values and
descriptors serialized at any address, pointer operations, their pack selection, raw
writes, seeks, and changes of frame). -/
inductive Reach : stream → stream → Prop where
  | refl (s : stream) : Reach s s
  | serialize {s t : stream} (ty : Ty) (mem : Mem) (a : Nat) :
      Reach s t → Reach s (stream.Serialize ty mem a t)
  | descriptor {s t : stream} (io : Stmts) (mem : Mem) (obj : Nat) :
      Reach s t → Reach s ( io_functions.SerializeIO io mem obj t)
  | pointer {s t : stream} (elem : Ty) (mem : Mem) (pA n : Nat) (fl : mem_type) :
      Reach s t → Reach s (t.SerializePtr elem mem pA n fl)
  | details {s t : stream} (mem : Mem) (pA sz n : Nat) (fl : mem_type) :
      Reach s t → Reach s (t.HandlePtrDetails mem pA sz n fl)
  | handle {s t : stream} (mem : Mem) (a n : Nat) : Reach s t → Reach s (t.Handle mem a n)
  | seek {s t : stream} (o : Nat) : Reach s t → Reach s (t.setW (t.getW.SeekOrigin o))
  | frame {s t : stream} (u : stream) : Reach s t → u.m_pWrite = t.m_pWrite → Reach s u

/-! ## Concrete inputs -/

/-- Memory holding the given byte strings at the given addresses and zero elsewhere. -/
def memOf : List (Nat × List Nat) → Mem
  | [] => fun _ => 0
  | (a, bs) :: rest => writeBytes (memOf rest) a bs

/-- The count that a descriptor reads from the 8-byte field at offset `off` of its object. -/
def countField (off : Nat) : Mem → Nat → Nat :=
  fun mem obj => leValue (readBytes mem (obj + off) 8)

/-- The type `data1` of the unit test: one 16-bit field `m_A`, serialized by its descriptor. -/
def data1 : Ty := .desc 2 (.serialize 0 (.prim 2) .done)

/-- The descriptor calls for a `{ count, data_ptr<data1> }` pair at offset `off`:
`Serialize(count)` and `Serialize(pointer, count, fl)`. -/
def arrayField (off : Nat) (fl : mem_type) (rest : Stmts) : Stmts :=
  .serialize off (.prim 8) (.serializePtr (off + 8) (countField off) data1 fl rest)

/-- Descriptor of a root made of eight `{ count, data_ptr<data1> }` pairs, all serialized
with the temp flag. -/
def eightTemp : Stmts :=
  (List.range 8).foldr (fun k rest => arrayField (16 * k) { m_bTempMemory := true } rest) .done

/-- A root of eight `{ count, data_ptr<data1> }` pairs at address 4096; pair `k` has
`k % 3 + 1` elements stored at address `8192 + 256 * k`. -/
def eightMem : Mem :=
  memOf ((List.range 8).flatMap (fun k =>
    [(4096 + 16 * k, leBytes 8 (k % 3 + 1) ++ leBytes 8 (8192 + 256 * k)),
     (8192 + 256 * k, (List.range (2 * (k % 3 + 1))).map (fun i => (k + i) % 256))]))

/-- The save walk of the root of eight temp arrays with root flags `{}`. -/
def eightWalk : stream :=
  ({} : stream).SaveWalk {} eightMem 4096 128 eightTemp 1 compression_level.MEDIUM {} false

/-- A walker state with 65536 packs: the 16-byte root pack followed by 65535 unique packs of
8 bytes each; the current frame is the root object at address 4096. -/
def manyPacks : stream :=
  { m_pWrite :=
      { m_Packs :=
          { m_Data := { data := List.replicate 16 32, pos := 16 } }
            :: List.replicate 65535
                { m_PackFlags := { m_bUnique := true }
                  m_Data := { data := List.replicate 8 32, pos := 0 } } }
    m_iPack := 0
    m_ClassPos := 0
    m_pClass := 4096
    m_ClassSize := 16 }

/-- The walker state at the start of the root descriptor, for a root object of `size` bytes
at address 4096 saved with the root flags `fl`. -/
def rootBegin (size : Nat) (fl : mem_type) : stream :=
  ({} : stream).SaveBegin {} 4096 size 1 compression_level.MEDIUM fl false

/-- A 16-byte root `{ count, data_ptr<data1> }` at address 4096 whose count is 0 and whose
pointer is null. -/
def nullMem : Mem := memOf [(4096, leBytes 8 0 ++ leBytes 8 0)]

/-- A 16-byte root `{ count, data_ptr<data1> }` at address 4096 whose count is 0 and whose
pointer holds the address 12288. -/
def emptyMem : Mem := memOf [(4096, leBytes 8 0 ++ leBytes 8 12288)]

/-- A 16-byte root made of two pointer slots, holding the addresses 8192 and 12288 of two
4-byte arrays. -/
def twoPtrMem : Mem :=
  memOf [(4096, leBytes 8 8192 ++ leBytes 8 12288), (8192, [1, 2, 3, 4]), (12288, [5, 6, 7, 8])]

/-- Descriptor of the root of two pointer slots: the first array is serialized with the
flags `{unique, vram}`, the second with `{vram}`; both have 4 one-byte elements. -/
def uniqueThenPooled : Stmts :=
  .serializePtr 0 (fun _ _ => 4) (.prim 1) { m_bUnique := true, m_bVRam := true }
    (.serializePtr 8 (fun _ _ => 4) (.prim 1) { m_bVRam := true } .done)

/-- Descriptor of a root of two `{ count, data_ptr<data1> }` pairs, both serialized with
the temp flag. -/
def twoTemp : Stmts :=
  arrayField 0 { m_bTempMemory := true } (arrayField 16 { m_bTempMemory := true } .done)

/-- Descriptor of a root of two `{ count, data_ptr<data1> }` pairs, both serialized with
the `mem_type` whose byte `m_Value` is 66: the temp bit and bit 6, which has no name. -/
def twoOdd : Stmts :=
  arrayField 0 { m_bTempMemory := true, m_bBit6 := true }
    (arrayField 16 { m_bTempMemory := true, m_bBit6 := true } .done)

/-! ## Endian helpers, headers and the info region -/

/-- The function `endian::Convert(std::uint8_t)`. -/
def endian.Convert8 (value : Nat) : Nat := value

/-- The function `endian::Convert(std::uint16_t)`. -/
def endian.Convert16 (value : Nat) : Nat := u16 ((value >>> 8) ||| (value <<< 8))

/-- The function `endian::Convert(std::uint32_t)`. -/
def endian.Convert32 (value : Nat) : Nat :=
  u32 (((value >>> 24) &&& 0xFF) ||| ((value >>> 8) &&& 0xFF00)
    ||| ((value <<< 8) &&& 0xFF0000) ||| (value <<< 24))

/-- The function `endian::Convert(std::uint64_t)`. -/
def endian.Convert64 (value : Nat) : Nat :=
  (((value >>> 56) &&& 0xFF) ||| ((value >>> 40) &&& 0xFF00)
    ||| ((value >>> 24) &&& 0xFF0000) ||| ((value >>> 8) &&& 0xFF000000)
    ||| ((value <<< 8) &&& 0xFF00000000) ||| ((value <<< 24) &&& 0xFF0000000000)
    ||| ((value <<< 40) &&& 0xFF000000000000) ||| (value <<< 56)) % 18446744073709551616

/-- The value of `sizeof(header)`: one 32-bit and eight 16-bit fields. -/
def sizeof_header : Nat := 20

/-- The value of `sizeof(pack)`: the flag byte, three padding bytes and two 32-bit fields
(natural alignment; the sources set no packing). -/
def sizeof_pack : Nat := 12

/-- The value of `sizeof(ref)`: three 32-bit and two 16-bit fields. -/
def sizeof_ref : Nat := 16

/-- The bytes of a `header` in memory. -/
def header.bytes (h : header) : List Nat :=
  leBytes 4 h.m_SizeOfData ++ leBytes 2 h.m_SerialFileVersion ++ leBytes 2 h.m_PackSize
    ++ leBytes 2 h.m_nPointers ++ leBytes 2 h.m_nPacks ++ leBytes 2 h.m_nBlockSizes
    ++ leBytes 2 h.m_ResourceVersion ++ leBytes 2 h.m_MaxQualities
    ++ leBytes 2 h.m_AutomaticVersion

/-- The little-endian value of the `n` bytes of `bs` at offset `off` (bytes past the end of
`bs` read as 0). -/
def leAt (bs : List Nat) (off n : Nat) : Nat :=
  leValue ((List.range n).map (fun i => bs.getD (off + i) 0))

/-- The `header` stored in the given bytes. -/
def header.ofBytes (bs : List Nat) : header :=
  { m_SizeOfData := leAt bs 0 4
    m_SerialFileVersion := leAt bs 4 2
    m_PackSize := leAt bs 6 2
    m_nPointers := leAt bs 8 2
    m_nPacks := leAt bs 10 2
    m_nBlockSizes := leAt bs 12 2
    m_ResourceVersion := leAt bs 14 2
    m_MaxQualities := leAt bs 16 2
    m_AutomaticVersion := leAt bs 18 2 }

/-- The `mem_type` whose byte `m_Value` is `b`: bit `k` of the byte is flag `k`. -/
def mem_type.ofValue (b : Nat) : mem_type :=
  { m_bUnique := b % 2 == 1, m_bTempMemory := b / 2 % 2 == 1, m_bVRam := b / 4 % 2 == 1
    m_bBit3 := b / 8 % 2 == 1, m_bBit4 := b / 16 % 2 == 1, m_bBit5 := b / 32 % 2 == 1
    m_bBit6 := b / 64 % 2 == 1, m_bBit7 := b / 128 % 2 == 1 }

/-- The bytes of a `pack` in memory (padding bytes are zero). -/
def pack.bytes (p : pack) : List Nat :=
  [p.m_PackFlags.m_Value, 0, 0, 0] ++ leBytes 4 p.m_UncompressSize ++ leBytes 4 p.m_nBlocks

/-- The `pack` stored at offset `off` of the given bytes. -/
def pack.at (bs : List Nat) (off : Nat) : pack :=
  { m_PackFlags := mem_type.ofValue (leAt bs off 1)
    m_UncompressSize := leAt bs (off + 4) 4
    m_nBlocks := leAt bs (off + 8) 4 }

/-- The bytes of a `ref` in memory. -/
def ref.bytes (r : ref) : List Nat :=
  leBytes 4 r.m_PointingAT ++ leBytes 4 r.m_OffSet ++ leBytes 4 r.m_Count
    ++ leBytes 2 r.m_OffsetPack ++ leBytes 2 r.m_PointingATPack

/-- The `ref` stored at offset `off` of the given bytes. -/
def ref.at (bs : List Nat) (off : Nat) : ref :=
  { m_PointingAT := leAt bs off 4
    m_OffSet := leAt bs (off + 4) 4
    m_Count := leAt bs (off + 8) 4
    m_OffsetPack := leAt bs (off + 12) 2
    m_PointingATPack := leAt bs (off + 14) 2 }

/-! ## The block codec (`xcompression`) -/

/-- The result states of the codec that the serializer tells apart. -/
inductive xcompression.state where
  | OK
  | NOT_DONE
  | INCOMPRESSIBLE
  | FAILURE
deriving DecidableEq, Repr

/-- The levels of the two compression engines. -/
inductive xcompression.level where
  | FAST
  | MEDIUM
  | HIGH
deriving DecidableEq, Repr

/-- Modelled from the spec: the external block codec `xcompression`, which is not part of
the sources.  `κ` is the state of a compression engine (`dynamic_block_compress` or
`fixed_block_compress`), `δ` the state of `dynamic_block_decompress`.
* `Init dynamic BlockSize Source level` starts an engine (`none`: it reports an error);
* `Position` is the member `m_Position`, the input offset reached;
* `Pack e n` is one call `Pack(CompressedSize, Destination)` with a destination of `n`
  bytes: the state reported, the bytes written (`CompressedSize` is their number) and the
  engine afterwards;
* `DecompressInit BlockSize` starts a decompressor;
* `Unpack d n Source` is one call `Unpack(DecompressSize, Destination, Source)` with a
  destination of `n` bytes: the state reported, the bytes written and the decompressor
  afterwards. -/
structure xcompression.codec (κ δ : Type) where
  Init : Bool → Nat → List Nat → xcompression.level → Option κ
  Position : κ → Nat
  Pack : κ → Nat → xcompression.state × List Nat × κ
  DecompressInit : Nat → Option δ
  Unpack : δ → Nat → List Nat → xcompression.state × List Nat × δ

/-- The errors `xerr` that Save and Load return: a failure of the byte stream, a state of
the codec, or a state of the serializer. -/
inductive xerr where
  | file
  | compression (s : xcompression.state)
  | serializer (s : state)
deriving DecidableEq, Repr

deriving instance DecidableEq for Except

/-- The outcome of a computation that loops: a value, an error, no answer within the given
number of iterations, or no defined answer because the source has run into undefined
behaviour (a span that ends past the end of its buffer). -/
inductive Outcome (α : Type) where
  | ok (a : α)
  | error (e : xerr)
  | unfinished
  | undefined
deriving Repr

/-- The driver `struct compressor` once initialised: the engine in use, `m_LastPosition`
and `m_bUseDynamic`. -/
structure compressor (κ : Type) where
  engine : κ
  m_LastPosition : Nat := 0
  m_bUseDynamic : Bool := false

/-- The function `compressor::Init`: the level selects the engine and its level. -/
def compressor.Init {κ δ : Type} (codec : xcompression.codec κ δ) (BlockSize : Nat)
    (SourceUncompress : List Nat) (CompressionLevel : compression_level) :
    Option (compressor κ) :=
  let sel : Bool × xcompression.level :=
    match CompressionLevel with
    | .FAST => (false, .FAST)
    | .LOW => (false, .MEDIUM)
    | .MEDIUM => (true, .MEDIUM)
    | .HIGH => (true, .HIGH)
  (codec.Init sel.1 BlockSize SourceUncompress sel.2).map
    (fun e => { engine := e, m_LastPosition := 0, m_bUseDynamic := sel.1 })

/-- The function `compressor::getPos`. -/
def compressor.getPos {κ δ : Type} (codec : xcompression.codec κ δ) (c : compressor κ) : Nat :=
  codec.Position c.engine

/-- The function `compressor::getLastPosition`. -/
def compressor.getLastPosition {κ : Type} (c : compressor κ) : Nat := c.m_LastPosition

/-- The function `compressor::Pack`: remember the position, then pack one block. -/
def compressor.Pack {κ δ : Type} (codec : xcompression.codec κ δ) (c : compressor κ)
    (DestinationSize : Nat) : xcompression.state × List Nat × compressor κ :=
  let r := codec.Pack c.engine DestinationSize
  (r.1, r.2.1, { c with m_LastPosition := codec.Position c.engine, engine := r.2.2 })

/-! ## SaveFile -/

/-- Subtraction of two `std::size_t` values (64 bits, wrapping). -/
def u64sub (a b : Nat) : Nat :=
  (a % 18446744073709551616 + 18446744073709551616 - b % 18446744073709551616)
    % 18446744073709551616

/-- One more block of `n` bytes recorded for a pack: `m_CompressSize += n; m_nBlocks++`. -/
def pack_writing.addBlock (Pack : pack_writing) (n : Nat) : pack_writing :=
  { Pack with
    m_CompressSize := u32 (Pack.m_CompressSize + u32 n)
    m_nBlocks := u32 (Pack.m_nBlocks + 1) }

/-- The block loop of `SaveFile` for one pack (`while(true)`), run for at most `fuel`
iterations: the pack and the list of block sizes after the loop. -/
def compressLoop {κ δ : Type} (codec : xcompression.codec κ δ) :
    Nat → List Nat → compressor κ → pack_writing → List Nat →
      Outcome (pack_writing × List Nat)
  | 0, _, _, _, _ => .unfinished
  | fuel + 1, RawData, Compress, Pack, m_CSizeStream =>
    let ToCompressSize := min (u64sub RawData.length (Compress.getPos codec)) Pack.m_BlockSize
    let r := Compress.Pack codec ToCompressSize
    let Err := r.1
    let CompressedSize := r.2.1.length
    let Compress1 := r.2.2
    let Pack1 : pack_writing :=
      { Pack with m_CompressData := overwrite Pack.m_CompressData Pack.m_CompressSize r.2.1 }
    if Err = .INCOMPRESSIBLE then
      let raw := (RawData.drop Compress1.getLastPosition).take ToCompressSize
      compressLoop codec fuel RawData Compress1
        ({ Pack1 with
            m_CompressData := overwrite Pack1.m_CompressData Pack1.m_CompressSize raw }.addBlock
          ToCompressSize)
        (m_CSizeStream ++ [u32 ToCompressSize])
    else if Err ≠ .OK ∧ Err ≠ .NOT_DONE then
      .error (.compression Err)
    else
      let Pack2 := if CompressedSize > 0 then Pack1.addBlock CompressedSize else Pack1
      let CSize2 :=
        if CompressedSize > 0 then m_CSizeStream ++ [u32 CompressedSize] else m_CSizeStream
      if Err = .OK then .ok (Pack2, CSize2)
      else compressLoop codec fuel RawData Compress1 Pack2 CSize2

/-- The body of the first loop of `SaveFile` for one pack: take the size of the pack, copy
it to memory, and compress it block by block. -/
def compressPack {κ δ : Type} (codec : xcompression.codec κ δ) (fuel : Nat)
    (m_CompressionLevel : compression_level) (Pack : pack_writing) (m_CSizeStream : List Nat) :
    Outcome (pack_writing × List Nat) :=
  let Length := Pack.m_Data.getFileLength
  let Pack1 : pack_writing :=
    { Pack with
      m_UncompressSize := u32 Length
      m_CompressSize := 0
      m_BlockSize := min max_block_size_v (u32 Length) }
  let RawData := Pack1.m_Data.ToMemory.take Pack1.m_UncompressSize
  match compressor.Init codec Pack1.m_BlockSize RawData m_CompressionLevel with
  | none => .error (.compression .FAILURE)
  | some Compress =>
    compressLoop codec fuel RawData Compress
      { Pack1 with
        m_CompressData :=
          List.replicate ((Pack1.m_UncompressSize / Pack1.m_BlockSize + 1) * Pack1.m_BlockSize) 0
        m_nBlocks := 0 }
      m_CSizeStream

/-- The first loop of `SaveFile`: compress every pack, in pack order. -/
def compressPacks {κ δ : Type} (codec : xcompression.codec κ δ) (fuel : Nat)
    (m_CompressionLevel : compression_level) :
    List pack_writing → List Nat → Outcome (List pack_writing × List Nat)
  | [], cs => .ok ([], cs)
  | p :: ps, cs =>
    match compressPack codec fuel m_CompressionLevel p cs with
    | .ok r =>
      match compressPacks codec fuel m_CompressionLevel ps r.2 with
      | .ok r' => .ok (r.1 :: r'.1, r'.2)
      | .error e => .error e
      | .unfinished => .unfinished
      | .undefined => .undefined
    | .error e => .error e
    | .unfinished => .unfinished
    | .undefined => .undefined

/-- The endian update of `SaveFile` ("First update endianess"): when `m_bEndian` is set
every field of the refs, of the packs and of the block sizes is byte-swapped in place. -/
def writing.updateEndian (w : writing) : writing :=
  if w.m_bEndian then
    { w with
      m_PointerTable := w.m_PointerTable.map (fun E =>
        { m_OffSet := endian.Convert32 E.m_OffSet
          m_Count := endian.Convert32 E.m_Count
          m_PointingAT := endian.Convert32 E.m_PointingAT
          m_OffsetPack := endian.Convert16 E.m_OffsetPack
          m_PointingATPack := endian.Convert16 E.m_PointingATPack })
      m_Packs := w.m_Packs.map (fun E =>
        { E with
          m_PackFlags := mem_type.ofValue (endian.Convert8 E.m_PackFlags.m_Value)
          m_UncompressSize := endian.Convert32 E.m_UncompressSize
          m_nBlocks := endian.Convert32 E.m_nBlocks })
      m_CSizeStream := w.m_CSizeStream.map endian.Convert32 }
  else w

/-- The buffer `InfoData` of `SaveFile`: the packs, then the refs, then the block sizes. -/
def writing.InfoData (w : writing) : List Nat :=
  w.m_Packs.flatMap (fun p => p.topack.bytes)
    ++ w.m_PointerTable.flatMap (fun r => r.bytes)
    ++ w.m_CSizeStream.flatMap (fun c => leBytes 4 c)

/-- The compression of the info region in `SaveFile`: the bytes to write after the header
(`CompressInfoData` cut at `CompressInfoDataSize`: the bytes the codec wrote, or the whole
of `InfoData` when the codec reports it incompressible). -/
def compressInfo {κ δ : Type} (codec : xcompression.codec κ δ)
    (m_CompressionLevel : compression_level) (InfoData : List Nat) : Except xerr (List Nat) :=
  match compressor.Init codec InfoData.length InfoData m_CompressionLevel with
  | none => .error (.compression .FAILURE)
  | some Compress =>
    let r := Compress.Pack codec InfoData.length
    if r.1 ≠ .OK then
      if r.1 = .INCOMPRESSIBLE then .ok InfoData
      else .error (.compression r.1)
    else
      .ok r.2.1

/-- The header that `SaveFile` fills in `m_Header` (before any byte swap). -/
def stream.fillHeader (s : stream) (CompressInfoDataSize : Nat) : header :=
  { s.m_Header with
    m_SerialFileVersion := u16 version_id_v
    m_nPacks := u16 s.m_pWrite.m_Packs.length
    m_nPointers := u16 s.m_pWrite.m_PointerTable.length
    m_nBlockSizes := u16 s.m_pWrite.m_CSizeStream.length
    m_SizeOfData := 0
    m_PackSize := u16 (u32 CompressInfoDataSize)
    m_AutomaticVersion := u16 s.m_ClassSize }

/-- The local `Header` that `SaveFile` writes: `m_Header`, byte-swapped field by field when
`m_bEndian` is set. -/
def header.forFile (h : header) (m_bEndian : Bool) : header :=
  if m_bEndian then
    { m_SerialFileVersion := endian.Convert16 h.m_SerialFileVersion
      m_PackSize := endian.Convert16 h.m_PackSize
      m_MaxQualities := endian.Convert16 h.m_MaxQualities
      m_SizeOfData := endian.Convert32 h.m_SizeOfData
      m_nPointers := endian.Convert16 h.m_nPointers
      m_nPacks := endian.Convert16 h.m_nPacks
      m_nBlockSizes := endian.Convert16 h.m_nBlockSizes
      m_ResourceVersion := endian.Convert16 h.m_ResourceVersion
      m_AutomaticVersion := endian.Convert16 h.m_AutomaticVersion }
  else h

/-- The payload loop of `SaveFile`: each pack's compressed bytes, back to back.  The span
written for a pack ends at `m_CompressSize`, or at its byte-swapped value when `m_bEndian`
is set; `none` when that end lies past the end of `m_CompressData`, where the span is not
one of the buffer and the behaviour of the source is undefined. -/
def writePayload (m_bEndian : Bool) : List pack_writing → xfile → Option xfile
  | [], File => some File
  | Pack :: rest, File =>
    let n := if m_bEndian then endian.Convert32 Pack.m_CompressSize else Pack.m_CompressSize
    if n ≤ Pack.m_CompressData.length then
      writePayload m_bEndian rest (File.WriteSpan (Pack.m_CompressData.take n))
    else none

/-- The function `stream::SaveFile`, with at most `fuel` iterations of the block loop per
pack: the stream afterwards (its save context holds the output file `m_pFile`).  Writes to
the output stream are taken to succeed.  The outcome is `undefined` when the payload loop
forms a span that ends past the end of a pack's buffer. -/
def stream.SaveFile {κ δ : Type} (codec : xcompression.codec κ δ) (fuel : Nat) (s : stream) :
    Outcome stream :=
  match compressPacks codec fuel s.m_CompressionLevel s.m_pWrite.m_Packs
      s.m_pWrite.m_CSizeStream with
  | .error e => .error e
  | .unfinished => .unfinished
  | .undefined => .undefined
  | .ok r =>
    let w1 := ({ s.m_pWrite with m_Packs := r.1, m_CSizeStream := r.2 } : writing).updateEndian
    let s1 := { s with m_pWrite := w1 }
    match compressInfo codec s.m_CompressionLevel w1.InfoData with
    | .error e => .error e
    | .ok CompressInfoData =>
      let m_Header := s1.fillHeader CompressInfoData.length
      let Header := m_Header.forFile w1.m_bEndian
      let Pos := w1.m_pFile.Tell
      let File1 := w1.m_pFile.WriteSpan Header.bytes
      let File2 := File1.WriteSpan CompressInfoData
      match writePayload w1.m_bEndian w1.m_Packs File2 with
      | none => .undefined
      | some File3 =>
        let BytePos := File3.Tell
        let Pos1 := u64sub (u64sub BytePos Pos) sizeof_header
        let SizeOfData := u32 Pos1
        let File4 := File3.SeekOrigin 0
        let File5 := File4.WriteSpan
          (leBytes 4 (if w1.m_bEndian then endian.Convert32 SizeOfData else SizeOfData))
        let File6 := File5.SeekEnd 0
        .ok { s1 with m_Header := m_Header, m_pWrite := { w1 with m_pFile := File6 } }

/-- The function `stream::Save(File, Object, Level, ObjectFlags, bSwapEndian)` for a root
object at address `Object` whose type has size `sizeofObject`, version `VERSION` and the
descriptor body `io`. -/
def stream.Save {κ δ : Type} (codec : xcompression.codec κ δ) (fuel : Nat) (s : stream)
    (File : xfile) (mem : Mem) (Object sizeofObject : Nat) (io : Stmts) (VERSION : Nat)
    (CompressionLevel : compression_level) (ObjectFlags : mem_type) (bSwapEndian : Bool) :
    Outcome stream :=
  stream.SaveFile codec fuel
    (s.SaveWalk File mem Object sizeofObject io VERSION CompressionLevel ObjectFlags bSwapEndian)

/-- The bytes that the payload loop of `SaveFile` writes (`writePayload`), as one list. -/
def payloadBytes (m_bEndian : Bool) (packs : List pack_writing) : List Nat :=
  packs.flatMap (fun Pack =>
    Pack.m_CompressData.take
      (if m_bEndian then endian.Convert32 Pack.m_CompressSize else Pack.m_CompressSize))

/-- The save context of `SaveFile` after the packs are compressed and the endian update is
done: `packs` and `cs` are the compressed packs and the block sizes. -/
def stream.compressed (s : stream) (packs : List pack_writing) (cs : List Nat) : writing :=
  ({ s.m_pWrite with m_Packs := packs, m_CSizeStream := cs } : writing).updateEndian

/-- The value that `SaveFile` stores in the field `m_SizeOfData` of the file, for an info
region `info` and a payload of `payload` bytes written after a header at offset 0. -/
def storedSizeOfData (m_bEndian : Bool) (info payload : Nat) : Nat :=
  let SizeOfData := u32 (u64sub (u64sub (sizeof_header + info + payload) 0) sizeof_header)
  if m_bEndian then endian.Convert32 SizeOfData else SizeOfData

/-- The walk leaves the output file, the endian flag and the block sizes of the save
context alone. -/
def SameOutput (w w' : writing) : Prop :=
  w'.m_pFile = w.m_pFile ∧ w'.m_bEndian = w.m_bEndian ∧ w'.m_CSizeStream = w.m_CSizeStream

/-! ## Load -/

/-- Modelled from the spec: `ReadSpan` reads `n` bytes at the cursor and advances it; it
fails when fewer than `n` bytes remain.  Reads complete at once, so `Synchronize` has
nothing to wait for. -/
def xfile.ReadSpan (f : xfile) (n : Nat) : Option (List Nat × xfile) :=
  if f.pos + n ≤ f.data.length then
    some ((f.data.drop f.pos).take n, { f with pos := f.pos + n })
  else none

/-- The function `stream::LoadHeader`: the error returned, if any, and the stream and file
afterwards (`m_Header` holds whatever was read). -/
def stream.LoadHeader (s : stream) (File : xfile) (SizeOfT : Nat) :
    Except xerr Unit × stream × xfile :=
  match File.ReadSpan sizeof_header with
  | none => (.error .file, s, File)
  | some (bs, File1) =>
    let s1 := { s with m_Header := header.ofBytes bs }
    if s1.m_Header.m_SerialFileVersion ≠ version_id_v then
      if endian.Convert16 s1.m_Header.m_SerialFileVersion = version_id_v then
        (.error (.serializer .WRONG_VERSION), s1, File1)
      else
        (.error (.serializer .UNKOWN_FILE_TYPE), s1, File1)
    else if s1.m_Header.m_AutomaticVersion ≠ SizeOfT then
      (.error (.serializer .WRONG_VERSION), s1, File1)
    else
      (.ok (), s1, File1)

/-- The local state of `stream::LoadObject` while it reads the packs. -/
structure loading where
  File : xfile
  /-- The memory of the loading process. -/
  mem : Mem
  /-- The table `pPackPointers`, one pointer per pack allocated so far. -/
  pPackPointers : List Nat := []
  /-- The memory of `ReadBuffer`, an array of two blocks of `max_block_size_v` bytes each:
  block `b` starts at offset `b * max_block_size_v`, so that the bytes of a read longer than a
  block run on into what follows the block. -/
  ReadBuffer : Mem := fun _ => 0
  iCurrentBuffer : Nat := 0
  iBlock : Nat := 0
  m_pTempBlockData : Nat := 0

/-- The info region as `LoadObject` interprets it: the bytes of `InfoData` and the three
counts of the header. -/
structure info where
  InfoData : List Nat
  m_nPacks : Nat
  m_nPointers : Nat
  m_nBlockSizes : Nat

/-- The entry `pPack[i]`. -/
def info.pPack (I : info) (i : Nat) : pack := pack.at I.InfoData (sizeof_pack * i)

/-- The entry `pRef[i]`. -/
def info.pRef (I : info) (i : Nat) : ref :=
  ref.at I.InfoData (sizeof_pack * I.m_nPacks + sizeof_ref * i)

/-- The entry `pBlockSizes[i]`. -/
def info.pBlockSizes (I : info) (i : Nat) : Nat :=
  leAt I.InfoData (sizeof_pack * I.m_nPacks + sizeof_ref * I.m_nPointers + 4 * i) 4

/-- The call `File.ReadSpan(std::span(&ReadBuffer[b], n))`: `n` bytes of the file are stored
from the start of block `b` of `ReadBuffer` on.  The source does not compare `n` with the
size of a block, so a read longer than `max_block_size_v` bytes runs on past block `b`. -/
def loading.read (L : loading) (b n : Nat) : Option loading :=
  (L.File.ReadSpan n).map (fun r =>
    { L with
      File := r.2
      ReadBuffer := writeBytes L.ReadBuffer (b * max_block_size_v) r.1 })

/-- The span `{ &ReadBuffer[b], n }`: the `n` bytes from the start of block `b` of
`ReadBuffer` on. -/
def loading.span (L : loading) (b n : Nat) : List Nat :=
  readBytes L.ReadBuffer (b * max_block_size_v) n

/-- The C expression `!iCurrentBuffer`. -/
def flip (b : Nat) : Nat := if b = 0 then 1 else 0

/-- The info region read of `LoadObject` ("Read the refs and packs"): the file afterwards
and the bytes of `InfoData`, or `none` when `LoadObject` returns `nullptr`. -/
def readInfo {κ δ : Type} (codec : xcompression.codec κ δ) (m_Header : header) (File : xfile) :
    Option (xfile × List Nat) :=
  let DecompressSize := m_Header.m_nPacks * sizeof_pack + m_Header.m_nPointers * sizeof_ref
    + m_Header.m_nBlockSizes * 4
  let size := DecompressSize + m_Header.m_nPacks * 8
  if m_Header.m_PackSize < DecompressSize then
    match File.ReadSpan m_Header.m_PackSize with
    | none => none
    | some (CompressData, File1) =>
      if CompressData.length = DecompressSize then
        -- the copy of `InfoData` over `CompressData`: `InfoData` stays zero-filled
        some (File1, List.replicate size 0)
      else
        match codec.DecompressInit (u32 DecompressSize) with
        | none => none
        | some Decompress =>
          let r := codec.Unpack Decompress size CompressData
          if r.1 ≠ .OK then none
          else some (File1, overwrite (List.replicate size 0) 0 r.2.1)
  else
    match File.ReadSpan m_Header.m_PackSize with
    | none => none
    | some (bs, File1) => some (File1, overwrite (List.replicate size 0) 0 bs)

/-- The inner loop of `LoadObject` over the blocks `1 .. m_nBlocks - 1` of a pack
("Read each block"), for the `n` remaining iterations: the local state, the decompressor
and `ReadSoFar` afterwards, or `none` when `LoadObject` returns `nullptr`. -/
def readBlocks {κ δ : Type} (codec : xcompression.codec κ δ) (I : info) (Pack : pack)
    (BlockSize p : Nat) : Nat → loading → δ → Nat → Option (loading × δ × Nat)
  | 0, L, Decompress, ReadSoFar => some (L, Decompress, ReadSoFar)
  | n + 1, L, Decompress, ReadSoFar =>
    let L1 := { L with iCurrentBuffer := flip L.iCurrentBuffer, iBlock := L.iBlock + 1 }
    match L1.read L1.iCurrentBuffer (I.pBlockSizes L1.iBlock) with
    | none => none
    | some L2 =>
      let src := L2.span (flip L2.iCurrentBuffer) (I.pBlockSizes (L2.iBlock - 1))
      if I.pBlockSizes (L2.iBlock - 1) = BlockSize then
        readBlocks codec I Pack BlockSize p n
          { L2 with mem := writeBytes L2.mem (p + ReadSoFar) src } Decompress
          (u32 (ReadSoFar + BlockSize))
      else
        let r := codec.Unpack Decompress (u32 (Pack.m_UncompressSize + 4294967296 - ReadSoFar)) src
        readBlocks codec I Pack BlockSize p n
          { L2 with mem := writeBytes L2.mem (p + ReadSoFar) r.2.1 } r.2.2
          (u32 (ReadSoFar + r.2.1.length))

/-- The body of the pack loop of `LoadObject` for pack `iPack`
("Start the reading and decompressing of the packs").  `Allocate k Type Size Alignment` is
the pointer returned by the `k`-th call of the memory handler. -/
def loadPack {κ δ : Type} (codec : xcompression.codec κ δ)
    (Allocate : Nat → mem_type → Nat → Nat → Nat) (I : info) (iPack : Nat) (L : loading) :
    Option loading :=
  let Pack := I.pPack iPack
  let BlockSize := min max_block_size_v Pack.m_UncompressSize
  match codec.DecompressInit BlockSize with
  | none => none
  | some Decompress =>
    match (if iPack = 0 then L.read L.iCurrentBuffer (I.pBlockSizes L.iBlock) else some L) with
    | none => none
    | some L1 =>
      let p := Allocate iPack Pack.m_PackFlags Pack.m_UncompressSize 16
      let L2 : loading :=
        { L1 with
          pPackPointers := L1.pPackPointers ++ [p]
          m_pTempBlockData := if Pack.m_PackFlags.m_bTempMemory then p else L1.m_pTempBlockData }
      match readBlocks codec I Pack BlockSize p (Pack.m_nBlocks - 1) L2 Decompress 0 with
      | none => none
      | some (L3, Decompress3, ReadSoFar) =>
        match (if iPack + 1 < I.m_nPacks then
                L3.read (flip L3.iCurrentBuffer) (I.pBlockSizes (L3.iBlock + 1))
               else some L3) with
        | none => none
        | some L4 =>
          let n := I.pBlockSizes L4.iBlock
          let src := L4.span L4.iCurrentBuffer n
          let bytes :=
            if n = BlockSize ∨ Pack.m_UncompressSize = u32 (ReadSoFar + n) then src
            else (codec.Unpack Decompress3 BlockSize src).2.1
          some
            { L4 with
              mem := writeBytes L4.mem (p + ReadSoFar) bytes
              iCurrentBuffer := flip L4.iCurrentBuffer
              iBlock := L4.iBlock + 1 }

/-- The pack loop of `LoadObject`, for the packs `iPack, iPack + 1, ...` (`n` of them). -/
def loadPacks {κ δ : Type} (codec : xcompression.codec κ δ)
    (Allocate : Nat → mem_type → Nat → Nat → Nat) (I : info) :
    Nat → Nat → loading → Option loading
  | 0, _, L => some L
  | n + 1, iPack, L =>
    match loadPack codec Allocate I iPack L with
    | none => none
    | some L1 => loadPacks codec Allocate I n (iPack + 1) L1

/-- One step of the loop "Resolve pointers" of `LoadObject`: store the address of the
pointee in the 8-byte slot of the ref. -/
def resolveRef (pPackPointers : List Nat) (mem : Mem) (Ref : ref) : Mem :=
  let pSrcData := pPackPointers.getD Ref.m_PointingATPack 0 + Ref.m_PointingAT
  let pDestData := pPackPointers.getD Ref.m_OffsetPack 0 + Ref.m_OffSet
  writeBytes mem pDestData (leBytes 8 pSrcData)

/-- The refs `pRef[0], ..., pRef[m_nPointers - 1]` of the info region. -/
def info.refs (I : info) : List ref := (List.range I.m_nPointers).map I.pRef

/-- The result of `stream::LoadObject` when it does not return `nullptr`: the pointer
returned, the memory, the table of pack pointers, the temp pointer, the file and the info
region it interpreted. -/
structure loaded where
  pObject : Nat
  mem : Mem
  pPackPointers : List Nat
  m_pTempBlockData : Nat
  File : xfile
  I : info

/-- The function `stream::LoadObject`, reading the file on from its cursor into the memory
`mem`; `none` stands for a returned `nullptr`.  The pointer returned is `pPackPointers[0]`;
for a header with `m_nPacks = 0` the source reads this entry past the end of the table, which
is undefined, and the model yields 0. -/
def stream.LoadObject {κ δ : Type} (codec : xcompression.codec κ δ)
    (Allocate : Nat → mem_type → Nat → Nat → Nat) (s : stream) (File : xfile) (mem : Mem) :
    Option loaded :=
  match readInfo codec s.m_Header File with
  | none => none
  | some (File1, InfoData) =>
    let I : info :=
      { InfoData := InfoData
        m_nPacks := s.m_Header.m_nPacks
        m_nPointers := s.m_Header.m_nPointers
        m_nBlockSizes := s.m_Header.m_nBlockSizes }
    match loadPacks codec Allocate I I.m_nPacks 0 { File := File1, mem := mem } with
    | none => none
    | some L =>
      some
        { pObject := L.pPackPointers.getD 0 0
          mem := I.refs.foldl (resolveRef L.pPackPointers) L.mem
          pPackPointers := L.pPackPointers
          m_pTempBlockData := L.m_pTempBlockData
          File := L.File
          I := I }

/-- The result of `stream::Load`: the object pointer handed back (0 for `nullptr`) and the
memory. -/
structure load_result where
  pObject : Nat
  mem : Mem

/-- The function `stream::Load(File, pObject)` for a root type of size `sizeofT` and version
`VERSION` (not polymorphic, so that `ResolveObject` constructs nothing). -/
def stream.Load {κ δ : Type} (codec : xcompression.codec κ δ)
    (Allocate : Nat → mem_type → Nat → Nat → Nat) (s : stream) (File : xfile) (mem : Mem)
    (sizeofT VERSION : Nat) : Except xerr load_result :=
  match s.LoadHeader File sizeofT with
  | (.error e, _, _) => .error e
  | (.ok _, s1, File1) =>
    if s1.m_Header.m_ResourceVersion ≠ VERSION then .error (.serializer .WRONG_VERSION)
    else
      match stream.LoadObject codec Allocate s1 File1 mem with
      | none => .ok { pObject := 0, mem := mem }
      | some r => .ok { pObject := r.pObject, mem := r.mem }

/-! ## A concrete codec -/

/-- State of the run-length engine: the source, the block size and the position. -/
structure rle_engine where
  Source : List Nat
  BlockSize : Nat
  m_Position : Nat

/-- A small codec used to run Save and Load on concrete inputs.  A block of at least 5 equal
bytes is packed into 4 bytes (the byte and the 24-bit length of the run); any other block
is reported incompressible.  One call packs one block; the call that reaches the end of the
source reports `OK`, the earlier ones `NOT_DONE`. -/
def rle : xcompression.codec rle_engine Unit where
  Init := fun _ BlockSize Source _ => some { Source := Source, BlockSize := BlockSize, m_Position := 0 }
  Position := fun e => e.m_Position
  Pack := fun e _ =>
    let block := (e.Source.drop e.m_Position).take e.BlockSize
    let e1 := { e with m_Position := e.m_Position + block.length }
    match block with
    | [] => (.OK, [], e1)
    | b :: _ =>
      if 5 ≤ block.length ∧ block.all (fun x => x == b) then
        (if e1.m_Position < e.Source.length then .NOT_DONE else .OK, b :: leBytes 3 block.length, e1)
      else (.INCOMPRESSIBLE, [], e1)
  DecompressInit := fun _ => some ()
  Unpack := fun _ _ Source =>
    (.OK, List.replicate (leAt Source 1 3) (Source.getD 0 0), ())

/-- A memory handler that returns the address `65536 * (k + 1)` for its `k`-th call. -/
def bumpAllocate (k : Nat) (_Type : mem_type) (_Size _Alignment : Nat) : Nat := 65536 * (k + 1)

/-- Whether a Save returned without error. -/
def Outcome.isOk {α : Type} : Outcome α → Bool
  | .ok _ => true
  | _ => false

/-- The output file of a Save, rewound to its start (the empty file when Save failed). -/
def Outcome.file : Outcome stream → xfile
  | .ok s => s.m_pWrite.m_pFile.SeekOrigin 0
  | _ => {}

/-- Save, with the run-length codec, of the 16-byte root `{ count = 0, pointer = nullptr }`
of type `{ count, data_ptr<data1> }`, with the default level and flags. -/
def savedNull : Outcome stream :=
  stream.Save rle 8 {} {} nullMem 4096 16 (arrayField 0 {} .done) 1 compression_level.MEDIUM {}
    false

/-- Load of the file written by `savedNull`, into a zeroed memory. -/
def loadedNull : Except xerr load_result :=
  stream.Load rle bumpAllocate {} savedNull.file (fun _ => 0) 16 1

/-- A 16-byte root `{ count = 2, data_ptr<data1> }` at address 4096 whose pointer holds the
address 8192 of two `data1` elements. -/
def twiceMem : Mem := memOf [(4096, leBytes 8 2 ++ leBytes 8 8192), (8192, [7, 0, 9, 0])]

/-- A descriptor that serializes the count and then the same pointer field twice. -/
def twiceDescriptor : Stmts :=
  arrayField 0 {} (.serializePtr 8 (countField 0) data1 {} .done)

/-- Save, with the run-length codec, of the root of `twiceMem` with `twiceDescriptor`. -/
def savedTwice : Outcome stream :=
  stream.Save rle 8 {} {} twiceMem 4096 16 twiceDescriptor 1 compression_level.MEDIUM {} false

/-- The header of the file written by `savedTwice`, as `LoadHeader` reads it, and the file
after the header. -/
def headerTwice : Except xerr Unit × stream × xfile :=
  ({} : stream).LoadHeader savedTwice.file 16

/-- The result of `LoadObject` on the file written by `savedTwice`, into a zeroed memory. -/
def loadedTwice : Option loaded :=
  stream.LoadObject rle bumpAllocate headerTwice.2.1 headerTwice.2.2 (fun _ => 0)

/-- The pointer the memory handler returns for pack `k` in `LoadObject`:
`Allocate(Pack.m_PackFlags, Pack.m_UncompressSize, 16)`. -/
def info.packPointer (Allocate : Nat → mem_type → Nat → Nat → Nat) (I : info) (k : Nat) : Nat :=
  Allocate k (I.pPack k).m_PackFlags (I.pPack k).m_UncompressSize 16

/-- The value `loadedTwice` holds (an empty result if `LoadObject` had returned `nullptr`). -/
def loadedTwiceResult : loaded :=
  match loadedTwice with
  | some r => r
  | none =>
    { pObject := 0, mem := fun _ => 0, pPackPointers := [], m_pTempBlockData := 0, File := {}
      I := { InfoData := [], m_nPacks := 0, m_nPointers := 0, m_nBlockSizes := 0 } }

/-- Save, with the run-length codec, of the root of eight temp arrays of `eightMem`. -/
def savedEight : Outcome stream :=
  stream.Save rle 8 {} {} eightMem 4096 128 eightTemp 1 compression_level.MEDIUM {} false

/-- Load of the file written by `savedEight`, into a zeroed memory. -/
def loadedEight : Except xerr load_result :=
  stream.Load rle bumpAllocate {} savedEight.file (fun _ => 0) 128 1

/-- The descriptor-visible content of a root of eight `{ count, data_ptr<data1> }` pairs at
address `p`: for each pair the count and the bytes of the elements the pointer leads to. -/
def eightContent (mem : Mem) (p : Nat) : List (Nat × List Nat) :=
  (List.range 8).map (fun k =>
    (countField (16 * k) mem p,
     readBytes mem (readPtr mem (p + 16 * k + 8)) (2 * countField (16 * k) mem p)))

/-- Modelled from the spec: the test step "byte-swap the header in the file".  Every field of
the 20-byte header at the start of the file is byte-swapped in place; the rest of the file is
left as it is. -/
def swapHeaderInFile (f : xfile) : xfile :=
  { f with
    data := ((header.ofBytes (f.data.take sizeof_header)).forFile true).bytes
      ++ f.data.drop sizeof_header }

/-- The stream that a successful Save leaves (the initial stream when Save failed). -/
def Outcome.result (o : Outcome stream) : stream :=
  match o with
  | .ok t => t
  | _ => {}

/-- A 20-byte file whose every byte is 7: its `format_version` is 0x0707. -/
def unknownFile : xfile := { data := List.replicate 20 7, pos := 0 }

/-- A 20-byte file holding a header with `format_version = 1` and `auto_version = 16`, all
other fields zero. -/
def versionedFile : xfile :=
  { data := leBytes 4 0 ++ leBytes 2 1 ++ List.replicate 12 0 ++ leBytes 2 16, pos := 0 }

/-- The first 30 bytes of the file written by `savedEight`: the header and 10 of the 160
bytes of the info region. -/
def truncatedEight : xfile := { data := savedEight.file.data.take 30, pos := 0 }

/-- The root pack of `manyPacks` after `SaveFile` has compressed it with the run-length
codec: one block of 4 bytes. -/
def compressedRootPack : pack_writing :=
  { m_PackFlags := {}
    m_UncompressSize := 16
    m_nBlocks := 1
    m_Data := { data := List.replicate 16 32, pos := 16 }
    m_BlockSize := 16
    m_CompressSize := 4
    m_CompressData := [32, 16, 0, 0] ++ List.replicate 28 0 }

/-- A unique pack of `manyPacks` after `SaveFile` has compressed it with the run-length
codec: one block of 4 bytes. -/
def compressedUniquePack : pack_writing :=
  { m_PackFlags := { m_bUnique := true }
    m_UncompressSize := 8
    m_nBlocks := 1
    m_Data := { data := List.replicate 8 32, pos := 0 }
    m_BlockSize := 8
    m_CompressSize := 4
    m_CompressData := [32, 8, 0, 0] ++ List.replicate 12 0 }

/-- A memory whose byte at address 4096 is 7 and whose other bytes are 0. -/
def bigRootMem : Mem := memOf [(4096, [7])]

/-- A descriptor that serializes the one-byte field at offset 0. -/
def oneByteField : Stmts := .serialize 0 (.prim 1) .done

/-- The save walk of a root of 65536 bytes at address 4096 with the descriptor
`oneByteField` and the given `swap_endian`. -/
def bigRootWalk (bSwapEndian : Bool) : stream :=
  ({} : stream).SaveWalk {} bigRootMem 4096 65536 oneByteField 1 compression_level.MEDIUM {}
    bSwapEndian

/-! ## Object graphs read alike by the walker -/

/-- The test of `isLocalVariable` for a class range of `csz` bytes at address `c`. -/
def isLocal (a c csz : Nat) : Bool := decide (a ≥ c) && decide (a < c + csz)

mutual
/-- Whether the walker reads the same from the value of type `ty` at address `a` of `mem`,
met in a frame whose class range starts at `c`, as from the value at `a'` of `mem'`, met in a
frame whose class range starts at `c'` (both ranges `csz` bytes long): scalar fields hold the
same bytes at the same offset of the class range, and a described object lies inside the
class range in both or in neither. -/
def sameValue : Ty → Mem → Nat → Nat → Mem → Nat → Nat → Nat → Bool
  | .prim n, mem, a, c, mem', a', c', _ =>
    decide ((a : Int) - (c : Int) = (a' : Int) - (c' : Int))
      && decide (readBytes mem a n = readBytes mem' a' n)
  | .pod n, mem, a, c, mem', a', c', _ =>
    decide ((a : Int) - (c : Int) = (a' : Int) - (c' : Int))
      && decide (readBytes mem a n = readBytes mem' a' n)
  | .array elem n, mem, a, c, mem', a', c', csz =>
    (List.range n).all (fun i =>
      sameValue elem mem (a + i * sizeOfTy elem) c mem' (a' + i * sizeOfTy elem) c' csz)
  | .desc size io, mem, a, c, mem', a', c', csz =>
    (isLocal a c csz == isLocal a' c' csz)
      && (if isLocal a c csz then sameObject io mem a c mem' a' c' csz
          else sameObject io mem a a mem' a' a' (u32 size))
/-- Whether the walker reads the same from the object at `obj` of `mem` as from the object
at `obj'` of `mem'`, both described by `io`: the serialized fields are the same values, the
counts are equal, the same pointers are null, every non-null pointer has a count above 0,
and the pointees are the same values, placed alike with respect to the class range (inside
it at the same offset, or outside it). -/
def sameObject : Stmts → Mem → Nat → Nat → Mem → Nat → Nat → Nat → Bool
  | .done, _, _, _, _, _, _, _ => true
  | .serialize off ty rest, mem, obj, c, mem', obj', c', csz =>
    sameValue ty mem (obj + off) c mem' (obj' + off) c' csz
      && sameObject rest mem obj c mem' obj' c' csz
  | .setResourceVersion _ rest, mem, obj, c, mem', obj', c', csz =>
    sameObject rest mem obj c mem' obj' c' csz
  | .serializePtr off count elem _ rest, mem, obj, c, mem', obj', c', csz =>
    decide (count mem obj = count mem' obj')
      && (if readPtr mem (obj + off) = 0 then decide (readPtr mem' (obj' + off) = 0)
          else
            decide (readPtr mem' (obj' + off) ≠ 0)
            && decide (count mem obj ≠ 0)
            && decide (((obj + off : Nat) : Int) - (c : Int) = ((obj' + off : Nat) : Int) - (c' : Int))
            && (if elem.isPrim then
                  (isLocal (readPtr mem (obj + off)) c csz
                      == isLocal (readPtr mem' (obj' + off)) c' csz)
                  && (!isLocal (readPtr mem (obj + off)) c csz
                      || decide (((readPtr mem (obj + off) : Nat) : Int) - (c : Int)
                          = ((readPtr mem' (obj' + off) : Nat) : Int) - (c' : Int)))
                  && decide (readBytes mem (readPtr mem (obj + off)) (sizeOfTy elem * count mem obj)
                      = readBytes mem' (readPtr mem' (obj' + off)) (sizeOfTy elem * count mem obj))
                else
                  (List.range (count mem obj)).all (fun i =>
                    sameValue elem mem (readPtr mem (obj + off) + i * sizeOfTy elem) c
                      mem' (readPtr mem' (obj' + off) + i * sizeOfTy elem) c' csz)))
      && sameObject rest mem obj c mem' obj' c' csz
end

/-- The stream with its class address replaced. -/
def stream.rebase (s : stream) (c : Nat) : stream := { s with m_pClass := c }

/-- The image of an outcome under a function of its value. -/
def Outcome.map {α β : Type} (f : α → β) : Outcome α → Outcome β
  | .ok a => .ok (f a)
  | .error e => .error e
  | .unfinished => .unfinished
  | .undefined => .undefined

/-- A header announcing one pack, no pointer and one block size, whose info region of 16
bytes is stored raw. -/
def rawInfoHeader : header := { m_nPacks := 1, m_nBlockSizes := 1, m_PackSize := 16 }

/-- A header announcing the same counts whose info region is stored in 4 bytes. -/
def packedInfoHeader : header := { m_nPacks := 1, m_nBlockSizes := 1, m_PackSize := 4 }

/-- A file of 16 bytes, the cursor at its start. -/
def rawInfoFile : xfile := { data := (List.range 16).map (fun i => i + 1), pos := 0 }

/-- A file of 4 bytes (a run of 16 bytes 7 for the run-length codec), the cursor at its
start. -/
def packedInfoFile : xfile := { data := [7, 16, 0, 0], pos := 0 }

mutual
/-- Whether the descriptor of a type, or of a type nested in it, calls
`setResourceVersion`. -/
def Ty.callsSetResourceVersion : Ty → Bool
  | .prim _ => false
  | .pod _ => false
  | .array elem _ => elem.callsSetResourceVersion
  | .desc _ io => io.callsSetResourceVersion
/-- Whether a descriptor body, or a descriptor nested in it, calls `setResourceVersion`. -/
def Stmts.callsSetResourceVersion : Stmts → Bool
  | .done => false
  | .serialize _ ty rest => ty.callsSetResourceVersion || rest.callsSetResourceVersion
  | .serializePtr _ _ elem _ rest => elem.callsSetResourceVersion || rest.callsSetResourceVersion
  | .setResourceVersion _ _ => true
end

/-- A pack of six different bytes, set up by `SaveFile` for the block loop: block size 6 and
a zeroed output buffer of 12 bytes. -/
def sixBytePack : pack_writing :=
  { m_Data := { data := [1, 2, 3, 4, 5, 6], pos := 6 }
    m_UncompressSize := 6
    m_BlockSize := 6
    m_CompressSize := 0
    m_CompressData := List.replicate 12 0
    m_nBlocks := 0 }

/-- The driver of the run-length codec initialised on the six bytes of `sixBytePack`. -/
def sixByteCompressor : compressor rle_engine :=
  { engine := { Source := [1, 2, 3, 4, 5, 6], BlockSize := 6, m_Position := 0 }
    m_LastPosition := 0
    m_bUseDynamic := true }

/-- The error a looping computation returned, if it returned one. -/
def Outcome.failure {α : Type} : Outcome α → Option xerr
  | .error e => some e
  | _ => none

/-- A codec that stores every block as it is and tells the end of the source apart with a
further call: a call that packs a block reports `NOT_DONE`, the call made once the source is
exhausted writes nothing and reports `OK`. -/
def storeCodec : xcompression.codec rle_engine Unit where
  Init := fun _ BlockSize Source _ =>
    some { Source := Source, BlockSize := BlockSize, m_Position := 0 }
  Position := fun e => e.m_Position
  Pack := fun e _ =>
    let block := (e.Source.drop e.m_Position).take e.BlockSize
    let e1 := { e with m_Position := e.m_Position + block.length }
    match block with
    | [] => (.OK, [], e1)
    | _ :: _ => (.NOT_DONE, block, e1)
  DecompressInit := fun _ => some ()
  Unpack := fun _ n Source => (.OK, Source.take n, ())

/-- Save, with the codec `storeCodec`, of the root of eight temp arrays of `eightMem`. -/
def savedStored : Outcome stream :=
  stream.Save storeCodec 8 {} {} eightMem 4096 128 eightTemp 1 compression_level.MEDIUM {} false

/-- The packs `pPack[0], ..., pPack[m_nPacks - 1]` of the info region. -/
def info.packs (I : info) : List pack := (List.range I.m_nPacks).map I.pPack

/-- The block sizes `pBlockSizes[0], ..., pBlockSizes[m_nBlockSizes - 1]` of the info
region. -/
def info.blockSizes (I : info) : List Nat := (List.range I.m_nBlockSizes).map I.pBlockSizes

/-- The info region as `LoadObject` sets it up ("Set up the all the pointers"): the bytes of
`InfoData` with the three counts of the header. -/
def header.info (h : header) (InfoData : List Nat) : info :=
  { InfoData := InfoData
    m_nPacks := h.m_nPacks
    m_nPointers := h.m_nPointers
    m_nBlockSizes := h.m_nBlockSizes }

/-- The type `data2` of the unit test: a count and a `data_ptr<data1>`; its descriptor
serializes the count and then the pointer with the default flags. -/
def data2 : Ty := .desc 16 (arrayField 0 {} .done)

/-- The constant `data3::STATIC_COUNT` (`sizeof(data2)` is 16). -/
def STATIC_COUNT : Nat := 1024 * 1024 / 16 + 4

/-- The constant `data3::DYNAMIC_COUNT` (`sizeof(data1)` is 2). -/
def DYNAMIC_COUNT : Nat := 1024 * 1024 / 2 + 4

/-- The descriptor `SerializeIO<data3>` of the unit test.  `data3` is 168 bytes: the base
`data1` at offset 0, `m_GoInStatic` at 8, `m_DontDynamic` at 24 and `m_GoTemp[k]` at
`40 + 16 * k`; the last call is the descriptor of the base `data1`, called directly. -/
def data3IO : Stmts :=
  .setResourceVersion 1
    (.serialize 8 data2
      (.serialize 24 (.prim 8)
        (.serializePtr 32 (countField 24) data1 { m_bUnique := true }
          ((List.range 8).foldr
            (fun k rest => arrayField (40 + 16 * k) { m_bTempMemory := true } rest)
            (.serialize 0 (.prim 2) .done)))))

/-- The bytes of the object `TheData` that the constructor of `data3` builds: `m_A = 100`,
the array of `m_GoInStatic` at address 1048576, the array of `m_DontDynamic` at address
2097152 and the array of `m_GoTemp[k]` at address `4194304 + 262144 * k`. -/
def data3Root : List Nat :=
  leBytes 2 100 ++ List.replicate 6 0
    ++ leBytes 8 STATIC_COUNT ++ leBytes 8 1048576
    ++ leBytes 8 DYNAMIC_COUNT ++ leBytes 8 2097152
    ++ (List.range 8).flatMap (fun k => leBytes 8 STATIC_COUNT ++ leBytes 8 (4194304 + 262144 * k))

/-- The memory of the unit test when `TheData` is saved: the object at address 4096 and the
ten arrays of `data1` that its constructor fills (`m_A = 22 + i` in `m_DontDynamic`,
`m_A = 100 / (i + 1)` in the others). -/
def data3Mem : Mem := fun a =>
  if 4096 ≤ a ∧ a < 4096 + 168 then data3Root.getD (a - 4096) 0
  else if 1048576 ≤ a ∧ a < 1048576 + 2 * STATIC_COUNT then
    (leBytes 2 (100 / ((a - 1048576) / 2 + 1))).getD (a % 2) 0
  else if 2097152 ≤ a ∧ a < 2097152 + 2 * DYNAMIC_COUNT then
    (leBytes 2 (22 + (a - 2097152) / 2)).getD (a % 2) 0
  else if 4194304 ≤ a ∧ a < 4194304 + 262144 * 8 ∧ (a - 4194304) % 262144 < 2 * STATIC_COUNT then
    (leBytes 2 (100 / ((a - 4194304) % 262144 / 2 + 1))).getD (a % 2) 0
  else 0

/-- The save walk of the unit test: `TheData` saved with the default level, root flags and
endianness. -/
def data3Walk : stream :=
  ({} : stream).SaveWalk {} data3Mem 4096 168 data3IO 1 compression_level.MEDIUM {} false

/-- The flags and the size of every pack, in pack order. -/
def stream.layout (s : stream) : List (mem_type × Nat) :=
  s.m_pWrite.m_Packs.map (fun p => (p.m_PackFlags, p.m_Data.data.length))

/-- A walker state whose packs are empty and carry the given flags. -/
def flagsOnly (F : List mem_type) : stream :=
  { m_pWrite := { m_Packs := F.map (fun f => { m_PackFlags := f }) } }

/-- The walker is in the frame of the root object of the unit test (168 bytes at address
4096, at offset 0 of pack 0), its packs have the flags `F` and the sizes `S`, and its pointer
table is `T`. -/
def data3State (s : stream) (F : List mem_type) (S : List Nat) (T : List ref) : Prop :=
  s.frame = (0, 0, 4096, 168) ∧ s.m_pWrite.packFlags = F
    ∧ (∀ j, s.m_pWrite.packSize j = S.getD j 0) ∧ s.m_pWrite.m_PointerTable = T

/-! ## The pack loop of `LoadObject`, block by block -/

/-- The sum of the `block_count` of the packs before pack `i`. -/
def info.blockStart (I : info) (i : Nat) : Nat :=
  ((List.range i).map (fun k => (I.pPack k).m_nBlocks)).sum

/-- The offset of block `j` in the payload: the sum of the block sizes before entry `j`. -/
def info.blockOffset (I : info) (j : Nat) : Nat := ((List.range j).map I.pBlockSizes).sum

/-- The bytes of block `j` in the payload: `pBlockSizes[j]` bytes at the offset of the
block. -/
def info.block (I : info) (payload : List Nat) (j : Nat) : List Nat :=
  (payload.drop (I.blockOffset j)).take (I.pBlockSizes j)

/-- The blocks of the payload, one for each of the `m_nBlockSizes` entries of the block-size
table, in table order. -/
def info.blocks (I : info) (payload : List Nat) : List (List Nat) :=
  (List.range I.m_nBlockSizes).map (I.block payload)

/-- Decoding one block of a pack that is not its last block, given its bytes: a block as
long as the pack's block size is copied, any other block is unpacked; the memory, the
decompressor and `ReadSoFar` afterwards. -/
def decodeBlock {κ δ : Type} (codec : xcompression.codec κ δ) (Pack : pack)
    (BlockSize p : Nat) (b : List Nat) (st : Mem × δ × Nat) : Mem × δ × Nat :=
  if b.length = BlockSize then
    (writeBytes st.1 (p + st.2.2) b, st.2.1, u32 (st.2.2 + BlockSize))
  else
    let r := codec.Unpack st.2.1 (u32 (Pack.m_UncompressSize + 4294967296 - st.2.2)) b
    (writeBytes st.1 (p + st.2.2) r.2.1, r.2.2, u32 (st.2.2 + r.2.1.length))

/-- Decoding the blocks of a pack that come before its last block, in order. -/
def decodeInner {κ δ : Type} (codec : xcompression.codec κ δ) (Pack : pack)
    (BlockSize p : Nat) : List (List Nat) → Mem × δ × Nat → Mem × δ × Nat
  | [], st => st
  | b :: rest, st => decodeInner codec Pack BlockSize p rest (decodeBlock codec Pack BlockSize p b st)

/-- The bytes that the last block `b` of a pack decodes to when `ReadSoFar` bytes are
written: the block itself when it is as long as the block size or fills the pack exactly,
what `Unpack` produces otherwise. -/
def decodeLast {κ δ : Type} (codec : xcompression.codec κ δ) (Pack : pack)
    (BlockSize : Nat) (b : List Nat) (Decompress : δ) (ReadSoFar : Nat) : List Nat :=
  if b.length = BlockSize ∨ Pack.m_UncompressSize = u32 (ReadSoFar + b.length) then b
  else (codec.Unpack Decompress BlockSize b).2.1

/-- Decoding a pack from the list of its blocks, one block after the other, each from its
own bytes, into the memory at `p`: the memory and the number of bytes written
(`ReadSoFar`), or `none` when the decompressor cannot be initialised. -/
def decodePack {κ δ : Type} (codec : xcompression.codec κ δ) (Pack : pack) (p : Nat)
    (blocks : List (List Nat)) (mem : Mem) : Option (Mem × Nat) :=
  let BlockSize := min max_block_size_v Pack.m_UncompressSize
  match codec.DecompressInit BlockSize with
  | none => none
  | some Decompress =>
    let r := decodeInner codec Pack BlockSize p blocks.dropLast (mem, Decompress, 0)
    let bytes := decodeLast codec Pack BlockSize (blocks.getLastD []) r.2.1 r.2.2
    some (writeBytes r.1 (p + r.2.2) bytes, u32 (r.2.2 + bytes.length))

/-- The pack loop of `LoadObject` told block by block: pack `i` is decoded from the blocks
of the entries `[blockStart i, blockStart i + block_count)` of the block-size table.  The
state is the memory, the table of pack pointers and the temp pointer. -/
def sequentialLoad {κ δ : Type} (codec : xcompression.codec κ δ)
    (Allocate : Nat → mem_type → Nat → Nat → Nat) (I : info) (blocks : List (List Nat)) :
    Nat → Nat → Mem × List Nat × Nat → Option (Mem × List Nat × Nat)
  | 0, _, st => some st
  | n + 1, iPack, st =>
    let Pack := I.pPack iPack
    let p := Allocate iPack Pack.m_PackFlags Pack.m_UncompressSize 16
    match decodePack codec Pack p ((blocks.drop (I.blockStart iPack)).take Pack.m_nBlocks)
        st.1 with
    | none => none
    | some r =>
      sequentialLoad codec Allocate I blocks n (iPack + 1)
        (r.1, st.2.1 ++ [p], if Pack.m_PackFlags.m_bTempMemory then p else st.2.2)

/-- The current buffer of `L` holds block `j` of the payload that starts at offset `q0` of
the file data `D`, and the file stands right behind that block. -/
def Holds (I : info) (D : List Nat) (q0 : Nat) (L : loading) (j : Nat) : Prop :=
  L.File.data = D ∧ L.File.pos = q0 + I.blockOffset (j + 1)
    ∧ L.span L.iCurrentBuffer (I.pBlockSizes j) = I.block (D.drop q0) j
    ∧ L.iBlock = j ∧ L.iCurrentBuffer ≤ 1

/-- The state of the pack loop before pack `i`: the block index is the sum of the block counts
of the earlier packs; for the first pack, and after the last one, the file stands at the
start of that block; for the other packs the first block of the pack is already in the
current buffer and the file stands behind it. -/
def Before (I : info) (D : List Nat) (q0 : Nat) (L : loading) (i : Nat) : Prop :=
  L.File.data = D ∧ L.iBlock = I.blockStart i ∧ L.iCurrentBuffer ≤ 1
    ∧ (if i = 0 ∨ I.m_nPacks ≤ i then L.File.pos = q0 + I.blockOffset (I.blockStart i)
       else Holds I D q0 L (I.blockStart i))

/-- The info region of the file written by `savedEight`, as `LoadObject` interprets it. -/
def eightInfo : info := savedEight.result.m_Header.info savedEight.result.m_pWrite.InfoData

/-- The state in which `LoadObject` enters its pack loop on the file written by
`savedEight`: the file stands behind the info region. -/
def eightLoading : loading :=
  { File := { data := savedEight.file.data
              pos := sizeof_header + savedEight.result.m_Header.m_PackSize }
    mem := fun _ => 0 }

/-- An info region of one pack of 65539 bytes in three blocks, whose block-size table holds
the sizes 4, 4 and 65537: the last entry is longer than a read buffer. -/
def overflowInfo : info :=
  { InfoData :=
      ({ m_PackFlags := {}, m_UncompressSize := 65539, m_nBlocks := 3 } : pack).bytes
        ++ (leBytes 4 4 ++ (leBytes 4 4 ++ leBytes 4 65537))
    m_nPacks := 1
    m_nPointers := 0
    m_nBlockSizes := 3 }

/-- The payload for `overflowInfo`: two blocks of 4 bytes, which the run-length codec unpacks
to the bytes 5 and 7, and a block of 65537 bytes, 65536 zeros and then the byte 9. -/
def overflowPayload : List Nat :=
  [5, 1, 0, 0] ++ ([7, 1, 0, 0] ++ (List.replicate 65536 0 ++ [9]))

/-- The state in which the pack loop of `LoadObject` is entered on `overflowPayload`. -/
def overflowLoading : loading :=
  { File := { data := overflowPayload, pos := 0 }, mem := fun _ => 0 }

/-! ## Saving and loading one pack -/

set_option maxRecDepth 100000

/-! ## Lemmas on list updates and on the pack streams -/

theorem updateAt_length {α : Type} (f : α → α) (i : Nat) (l : List α) :
    (updateAt f i l).length = l.length := by
  induction l generalizing i with
  | nil => cases i <;> rfl
  | cons x xs ih => cases i with
    | zero => rfl
    | succ i => simp [updateAt, ih]

theorem updateAt_map_eq {α β : Type} (f : α → α) (g : α → β) (h : ∀ x, g (f x) = g x)
    (i : Nat) (l : List α) : (updateAt f i l).map g = l.map g := by
  induction l generalizing i with
  | nil => cases i <;> rfl
  | cons x xs ih => cases i with
    | zero => simp [updateAt, h]
    | succ i => simp [updateAt, ih]

theorem updateAt_getD_same {α : Type} (f : α → α) (i : Nat) (l : List α) (d : α)
    (h : i < l.length) : (updateAt f i l).getD i d = f (l.getD i d) := by
  induction l generalizing i with
  | nil => simp at h
  | cons x xs ih => cases i with
    | zero => simp [updateAt]
    | succ i => simp at h; simpa [updateAt] using ih i h

theorem updateAt_getD_ne {α : Type} (f : α → α) (i j : Nat) (l : List α) (d : α)
    (h : i ≠ j) : (updateAt f i l).getD j d = l.getD j d := by
  induction l generalizing i j with
  | nil => cases i <;> rfl
  | cons x xs ih => cases i with
    | zero => cases j with
      | zero => exact absurd rfl h
      | succ j => simp [updateAt]
    | succ i => cases j with
      | zero => simp [updateAt]
      | succ j => simpa [updateAt] using ih i j (by omega)

theorem updateAt_of_le {α : Type} (f : α → α) (i : Nat) (l : List α) (h : l.length ≤ i) :
    updateAt f i l = l := by
  induction l generalizing i with
  | nil => cases i <;> rfl
  | cons x xs ih => cases i with
    | zero => simp at h
    | succ i => simp at h; simp [updateAt, ih i h]

/-! ### setW / getW -/

@[simp] theorem setW_frame (s : stream) (f : xfile) : (s.setW f).frame = s.frame := rfl
@[simp] theorem setW_iPack (s : stream) (f : xfile) : (s.setW f).m_iPack = s.m_iPack := rfl
@[simp] theorem setW_ClassPos (s : stream) (f : xfile) : (s.setW f).m_ClassPos = s.m_ClassPos := rfl
@[simp] theorem setW_pClass (s : stream) (f : xfile) : (s.setW f).m_pClass = s.m_pClass := rfl
@[simp] theorem setW_ClassSize (s : stream) (f : xfile) : (s.setW f).m_ClassSize = s.m_ClassSize := rfl
@[simp] theorem setW_Header (s : stream) (f : xfile) : (s.setW f).m_Header = s.m_Header := rfl
@[simp] theorem setW_PointerTable (s : stream) (f : xfile) :
    (s.setW f).m_pWrite.m_PointerTable = s.m_pWrite.m_PointerTable := rfl
@[simp] theorem setW_packs_length (s : stream) (f : xfile) :
    (s.setW f).m_pWrite.m_Packs.length = s.m_pWrite.m_Packs.length := by
  simp [stream.setW, updateAt_length]
@[simp] theorem setW_packFlags (s : stream) (f : xfile) :
    (s.setW f).m_pWrite.packFlags = s.m_pWrite.packFlags := by
  simp only [stream.setW, writing.packFlags]
  exact updateAt_map_eq (fun p : pack_writing => { p with m_Data := f })
    (fun p : pack_writing => p.m_PackFlags) (fun _ => rfl) _ _

theorem getW_setW (s : stream) (f : xfile) (h : s.m_iPack < s.m_pWrite.m_Packs.length) :
    (s.setW f).getW = f := by
  simp only [stream.getW, stream.setW]
  rw [updateAt_getD_same _ _ _ _ h]

theorem setW_pack_ne (s : stream) (f : xfile) (j : Nat) (h : s.m_iPack ≠ j) :
    (s.setW f).m_pWrite.m_Packs.getD j default = s.m_pWrite.m_Packs.getD j default := by
  simp only [stream.setW]
  exact updateAt_getD_ne _ _ _ _ _ h

theorem setW_pack_same (s : stream) (f : xfile) (h : s.m_iPack < s.m_pWrite.m_Packs.length) :
    ((s.setW f).m_pWrite.m_Packs.getD s.m_iPack default).m_Data = f := by
  simp only [stream.setW]
  rw [updateAt_getD_same _ _ _ _ h]

theorem setW_of_le (s : stream) (f : xfile) (h : s.m_pWrite.m_Packs.length ≤ s.m_iPack) :
    s.setW f = s := by
  simp only [stream.setW, updateAt_of_le _ _ _ h]

/-! ### Handle -/

@[simp] theorem Handle_frame (s : stream) (mem : Mem) (a n : Nat) :
    (s.Handle mem a n).frame = s.frame := rfl
@[simp] theorem Handle_iPack (s : stream) (mem : Mem) (a n : Nat) :
    (s.Handle mem a n).m_iPack = s.m_iPack := rfl
@[simp] theorem Handle_PointerTable (s : stream) (mem : Mem) (a n : Nat) :
    (s.Handle mem a n).m_pWrite.m_PointerTable = s.m_pWrite.m_PointerTable := rfl
@[simp] theorem Handle_packFlags (s : stream) (mem : Mem) (a n : Nat) :
    (s.Handle mem a n).m_pWrite.packFlags = s.m_pWrite.packFlags := by
  simp [stream.Handle]
@[simp] theorem Handle_packs_length (s : stream) (mem : Mem) (a n : Nat) :
    (s.Handle mem a n).m_pWrite.m_Packs.length = s.m_pWrite.m_Packs.length := by
  simp [stream.Handle]
@[simp] theorem Handle_Header (s : stream) (mem : Mem) (a n : Nat) :
    (s.Handle mem a n).m_Header = s.m_Header := rfl

/-! ### Frames -/

@[simp] theorem pushFrame_pWrite (s : stream) (a n : Nat) : (s.pushFrame a n).m_pWrite = s.m_pWrite := rfl
@[simp] theorem pushFrame_iPack (s : stream) (a n : Nat) : (s.pushFrame a n).m_iPack = s.m_iPack := rfl
@[simp] theorem popFrame_frame (s File : stream) : (s.popFrame File).frame = s.frame := rfl
@[simp] theorem popFrame_iPack (s File : stream) : (s.popFrame File).m_iPack = s.m_iPack := rfl
@[simp] theorem popFrame_Header (s File : stream) : (s.popFrame File).m_Header = s.m_Header := rfl
@[simp] theorem popFrame_PointerTable (s File : stream) :
    (s.popFrame File).m_pWrite.m_PointerTable = File.m_pWrite.m_PointerTable := rfl
@[simp] theorem popFrame_packFlags (s File : stream) :
    (s.popFrame File).m_pWrite.packFlags = File.m_pWrite.packFlags := by
  simp [stream.popFrame]
@[simp] theorem popFrame_packs_length (s File : stream) :
    (s.popFrame File).m_pWrite.m_Packs.length = File.m_pWrite.m_Packs.length := by
  simp [stream.popFrame]

@[simp] theorem Handle_ClassPos (s : stream) (mem : Mem) (a n : Nat) :
    (s.Handle mem a n).m_ClassPos = s.m_ClassPos := rfl
@[simp] theorem Handle_pClass (s : stream) (mem : Mem) (a n : Nat) :
    (s.Handle mem a n).m_pClass = s.m_pClass := rfl
@[simp] theorem Handle_ClassSize (s : stream) (mem : Mem) (a n : Nat) :
    (s.Handle mem a n).m_ClassSize = s.m_ClassSize := rfl
@[simp] theorem popFrame_ClassPos (s File : stream) : (s.popFrame File).m_ClassPos = s.m_ClassPos := rfl
@[simp] theorem popFrame_pClass (s File : stream) : (s.popFrame File).m_pClass = s.m_pClass := rfl
@[simp] theorem popFrame_ClassSize (s File : stream) : (s.popFrame File).m_ClassSize = s.m_ClassSize := rfl

@[simp] theorem forLoop_zero {σ : Type} (body : Nat → σ → σ) (s : σ) : forLoop 0 body s = s := rfl

theorem forLoop_succ {σ : Type} (n : Nat) (body : Nat → σ → σ) (s : σ) :
    forLoop (n + 1) body s = body n (forLoop n body s) := by
  simp [forLoop, List.range_succ]

theorem forLoop_induction {σ : Type} (P : σ → Prop) (n : Nat) (body : Nat → σ → σ) (s : σ)
    (h0 : P s) (hstep : ∀ i s, P s → P (body i s)) : P (forLoop n body s) := by
  induction n with
  | zero => simpa using h0
  | succ n ih => rw [forLoop_succ]; exact hstep _ _ ih

theorem HandlePtrDetails_zero (s : stream) (mem : Mem) (pA sz : Nat) (fl : mem_type) :
    s.HandlePtrDetails mem pA sz 0 fl = s.Handle mem pA 8 := by
  simp [stream.HandlePtrDetails]

/-! ### Pack selection and `HandlePtrDetails` -/

@[simp] theorem choosePack_ClassPos (s : stream) (fl : mem_type) :
    (s.choosePack fl).m_ClassPos = s.m_ClassPos := by
  unfold stream.choosePack; dsimp only; split_ifs <;> rfl
@[simp] theorem choosePack_pClass (s : stream) (fl : mem_type) :
    (s.choosePack fl).m_pClass = s.m_pClass := by
  unfold stream.choosePack; dsimp only; split_ifs <;> rfl
@[simp] theorem choosePack_ClassSize (s : stream) (fl : mem_type) :
    (s.choosePack fl).m_ClassSize = s.m_ClassSize := by
  unfold stream.choosePack; dsimp only; split_ifs <;> rfl
@[simp] theorem choosePack_Header (s : stream) (fl : mem_type) :
    (s.choosePack fl).m_Header = s.m_Header := by
  unfold stream.choosePack; dsimp only; split_ifs <;> rfl
@[simp] theorem choosePack_PointerTable (s : stream) (fl : mem_type) :
    (s.choosePack fl).m_pWrite.m_PointerTable = s.m_pWrite.m_PointerTable := by
  unfold stream.choosePack; dsimp only; split_ifs <;> rfl

@[simp] theorem HandlePtrDetails_ClassPos (s : stream) (mem : Mem) (pA sz cnt : Nat) (fl : mem_type) :
    (s.HandlePtrDetails mem pA sz cnt fl).m_ClassPos = s.m_ClassPos := by
  unfold stream.HandlePtrDetails; split <;> simp
@[simp] theorem HandlePtrDetails_pClass (s : stream) (mem : Mem) (pA sz cnt : Nat) (fl : mem_type) :
    (s.HandlePtrDetails mem pA sz cnt fl).m_pClass = s.m_pClass := by
  unfold stream.HandlePtrDetails; split <;> simp
@[simp] theorem HandlePtrDetails_ClassSize (s : stream) (mem : Mem) (pA sz cnt : Nat) (fl : mem_type) :
    (s.HandlePtrDetails mem pA sz cnt fl).m_ClassSize = s.m_ClassSize := by
  unfold stream.HandlePtrDetails; split <;> simp
@[simp] theorem HandlePtrDetails_Header (s : stream) (mem : Mem) (pA sz cnt : Nat) (fl : mem_type) :
    (s.HandlePtrDetails mem pA sz cnt fl).m_Header = s.m_Header := by
  unfold stream.HandlePtrDetails; split <;> simp

theorem frame_eq_iff (s t : stream) : s.frame = t.frame ↔
    s.m_iPack = t.m_iPack ∧ s.m_ClassPos = t.m_ClassPos ∧ s.m_pClass = t.m_pClass
      ∧ s.m_ClassSize = t.m_ClassSize := by
  simp [stream.frame, Prod.ext_iff]

theorem SerializePtrWith_frame (SerializeElem : Nat → stream → stream) (isPrim : Bool)
    (sizeofT : Nat) (s : stream) (mem : Mem) (pA Size : Nat) (fl : mem_type)
    (hE : ∀ a s, (SerializeElem a s).frame = s.frame) :
    (stream.SerializePtrWith SerializeElem isPrim sizeofT s mem pA Size fl).frame = s.frame := by
  unfold stream.SerializePtrWith
  by_cases hp : readPtr mem pA = 0
  · simp [hp]
  · simp only [hp, if_false]
    rw [frame_eq_iff]
    refine ⟨rfl, ?_⟩
    cases isPrim
    · simp only [Bool.false_eq_true, if_false]
      have := forLoop_induction
        (fun t : stream => t.m_ClassPos = s.m_ClassPos ∧ t.m_pClass = s.m_pClass
          ∧ t.m_ClassSize = s.m_ClassSize) Size
        (fun i s => SerializeElem (readPtr mem pA + i * sizeofT) s)
        (s.HandlePtrDetails mem pA sizeofT Size fl) (by simp)
        (fun i t ht => by
          have h := (frame_eq_iff _ _).1 (hE (readPtr mem pA + i * sizeofT) t)
          exact ⟨h.2.1.trans ht.1, h.2.2.1.trans ht.2.1, h.2.2.2.trans ht.2.2⟩)
      exact this
    · simp only [if_true]
      split <;> simp

mutual
theorem Serialize_frame : ∀ (ty : Ty) (mem : Mem) (a : Nat) (s : stream),
    (stream.Serialize ty mem a s).frame = s.frame
  | .prim n, mem, a, s => by simp [stream.Serialize]
  | .pod n, mem, a, s => by simp [stream.Serialize]
  | .array elem n, mem, a, s => by
    simp only [stream.Serialize]
    exact forLoop_induction (fun t : stream => t.frame = s.frame) n _ s rfl
      (fun i t ht => (Serialize_frame elem mem _ t).trans ht)
  | .desc size io, mem, a, s => by
    simp only [stream.Serialize]
    split
    · exact SerializeIO_frame io mem a s
    · simp
theorem SerializeIO_frame : ∀ (io : Stmts) (mem : Mem) (obj : Nat) (s : stream),
    ( io_functions.SerializeIO io mem obj s).frame = s.frame
  | .done, mem, obj, s => by simp [io_functions.SerializeIO]
  | .serialize off ty rest, mem, obj, s => by
    simp only [io_functions.SerializeIO]
    exact (SerializeIO_frame rest mem obj _).trans (Serialize_frame ty mem _ s)
  | .setResourceVersion v rest, mem, obj, s => by
    simp only [io_functions.SerializeIO]
    exact (SerializeIO_frame rest mem obj _).trans rfl
  | .serializePtr off count elem flags rest, mem, obj, s => by
    simp only [io_functions.SerializeIO]
    exact (SerializeIO_frame rest mem obj _).trans
      (SerializePtrWith_frame _ _ _ _ _ _ _ _ (fun a t => Serialize_frame elem mem a t))
end

theorem SerializePtr_frame (s : stream) (elem : Ty) (mem : Mem) (pA Size : Nat) (fl : mem_type) :
    (s.SerializePtr elem mem pA Size fl).frame = s.frame :=
  SerializePtrWith_frame _ _ _ _ _ _ _ _ (fun a t => Serialize_frame elem mem a t)

/-! ### Relations kept by every step of the walk -/

theorem popFrame_inv {R : writing → writing → Prop} (hR : WalkInv R) (s File : stream) :
    R File.m_pWrite (s.popFrame File).m_pWrite :=
  hR.seek { s with m_pWrite := File.m_pWrite } _

theorem SerializePtrWith_inv {R : writing → writing → Prop} (hR : WalkInv R)
    (SerializeElem : Nat → stream → stream) (isPrim : Bool)
    (sizeofT : Nat) (s : stream) (mem : Mem) (pA Size : Nat) (fl : mem_type)
    (hE : ∀ a s, R s.m_pWrite (SerializeElem a s).m_pWrite) :
    R s.m_pWrite (stream.SerializePtrWith SerializeElem isPrim sizeofT s mem pA Size fl).m_pWrite := by
  unfold stream.SerializePtrWith
  by_cases hp : readPtr mem pA = 0
  · simp only [hp, if_true]; exact hR.refl _
  · simp only [hp, if_false]
    refine hR.trans _ _ _ (hR.hpd s mem pA sizeofT Size fl) ?_
    cases isPrim
    · simp only [Bool.false_eq_true, if_false]
      exact forLoop_induction
        (fun t : stream => R (s.HandlePtrDetails mem pA sizeofT Size fl).m_pWrite t.m_pWrite) Size _ _
        (hR.refl _) (fun i t ht => hR.trans _ _ _ ht (hE _ t))
    · simp only [if_true]
      split
      · exact hR.handle _ _ _ _
      · exact hR.trans _ _ _ (hR.handle (stream.pushFrame _ _ _) _ _ _) (popFrame_inv hR _ _)

mutual
theorem Serialize_inv {R : writing → writing → Prop} (hR : WalkInv R) :
    ∀ (ty : Ty) (mem : Mem) (a : Nat) (s : stream), R s.m_pWrite (stream.Serialize ty mem a s).m_pWrite
  | .prim n, mem, a, s => by simp only [stream.Serialize]; exact hR.handle _ _ _ _
  | .pod n, mem, a, s => by simp only [stream.Serialize]; exact hR.handle _ _ _ _
  | .array elem n, mem, a, s => by
    simp only [stream.Serialize]
    exact forLoop_induction (fun t : stream => R s.m_pWrite t.m_pWrite) n _ s (hR.refl _)
      (fun i t ht => hR.trans _ _ _ ht (Serialize_inv hR elem mem _ t))
  | .desc size io, mem, a, s => by
    simp only [stream.Serialize]
    split
    · exact SerializeIO_inv hR io mem a s
    · exact hR.trans _ _ _ (SerializeIO_inv hR io mem a (s.pushFrame a size)) (popFrame_inv hR _ _)
theorem SerializeIO_inv {R : writing → writing → Prop} (hR : WalkInv R) :
    ∀ (io : Stmts) (mem : Mem) (obj : Nat) (s : stream),
      R s.m_pWrite ( io_functions.SerializeIO io mem obj s).m_pWrite
  | .done, mem, obj, s => by simp only [io_functions.SerializeIO]; exact hR.refl _
  | .serialize off ty rest, mem, obj, s => by
    simp only [io_functions.SerializeIO]
    exact hR.trans _ _ _ (Serialize_inv hR ty mem _ s) (SerializeIO_inv hR rest mem obj _)
  | .setResourceVersion v rest, mem, obj, s => by
    simp only [io_functions.SerializeIO]
    exact SerializeIO_inv hR rest mem obj
      { s with m_Header := { s.m_Header with m_ResourceVersion := u16 v } }
  | .serializePtr off count elem flags rest, mem, obj, s => by
    simp only [io_functions.SerializeIO]
    exact hR.trans _ _ _
      (SerializePtrWith_inv hR _ _ _ _ _ _ _ _ (fun a t => Serialize_inv hR elem mem a t))
      (SerializeIO_inv hR rest mem obj _)
end

theorem SerializePtr_inv {R : writing → writing → Prop} (hR : WalkInv R)
    (s : stream) (elem : Ty) (mem : Mem) (pA Size : Nat) (fl : mem_type) :
    R s.m_pWrite (s.SerializePtr elem mem pA Size fl).m_pWrite :=
  SerializePtrWith_inv hR _ _ _ _ _ _ _ _ (fun a t => Serialize_inv hR elem mem a t)

/-! ### The byte stream -/

theorem overwrite_length_ge (d : List Nat) (p : Nat) (bs : List Nat) :
    d.length ≤ (overwrite d p bs).length := by
  unfold overwrite
  cases bs with
  | nil => simp
  | cons b bs => simp only [List.length_append, List.length_take, List.length_replicate,
      List.length_drop, List.length_cons]; omega

theorem overwrite_length (d : List Nat) (p : Nat) (bs : List Nat) (h : bs ≠ []) :
    (overwrite d p bs).length = max d.length (p + bs.length) := by
  unfold overwrite
  cases bs with
  | nil => exact absurd rfl h
  | cons b bs => simp only [List.length_append, List.length_take, List.length_replicate,
      List.length_drop, List.length_cons]; omega

theorem overwrite_take (d : List Nat) (p : Nat) (bs : List Nat) (h : p ≤ d.length) :
    (overwrite d p bs).take p = d.take p := by
  unfold overwrite
  cases bs with
  | nil => rfl
  | cons b bs =>
    have : p - d.length = 0 := by omega
    simp only [this, List.replicate_zero, List.append_nil, List.append_assoc]
    rw [List.take_append_of_le_length (by simp [List.length_take]; omega)]
    simp [List.take_take]

theorem overwrite_drop_take (d : List Nat) (p : Nat) (bs : List Nat) :
    ((overwrite d p bs).drop p).take bs.length = bs := by
  unfold overwrite
  cases bs with
  | nil => simp
  | cons b bs =>
    have hl : (List.take p d ++ List.replicate (p - d.length) 0).length = p := by
      simp only [List.length_append, List.length_take, List.length_replicate]; omega
    rw [List.append_assoc (List.take p d ++ List.replicate (p - d.length) 0)]
    rw [List.drop_append_of_le_length (by omega)]
    rw [List.drop_of_length_le (by omega)]
    simp

@[simp] theorem SeekOrigin_data (f : xfile) (o : Nat) : (f.SeekOrigin o).data = f.data := rfl
@[simp] theorem SeekOrigin_pos (f : xfile) (o : Nat) : (f.SeekOrigin o).pos = o := rfl
@[simp] theorem SeekEnd_data (f : xfile) (o : Nat) : (f.SeekEnd o).data = f.data := rfl
@[simp] theorem SeekEnd_zero_pos (f : xfile) : (f.SeekEnd 0).pos = f.data.length := rfl
@[simp] theorem WriteSpan_data (f : xfile) (bs : List Nat) :
    (f.WriteSpan bs).data = overwrite f.data f.pos bs := rfl
@[simp] theorem WriteSpan_pos (f : xfile) (bs : List Nat) :
    (f.WriteSpan bs).pos = f.pos + bs.length := rfl
@[simp] theorem putC_data (f : xfile) (C n : Nat) (b : Bool) :
    (f.putC C n b).data = overwrite f.data f.pos (List.replicate n C) := by
  unfold xfile.putC; cases b <;> rfl
@[simp] theorem putC_false_pos (f : xfile) (C n : Nat) : (f.putC C n false).pos = f.pos := rfl
@[simp] theorem putC_true_pos (f : xfile) (C n : Nat) : (f.putC C n true).pos = f.pos + n := by
  simp [xfile.putC]
@[simp] theorem AlignPutC_false_pos (f : xfile) (C n a : Nat) :
    (f.AlignPutC C n a false).pos = f.pos + (Align f.pos a - f.pos) := by
  simp [xfile.AlignPutC]
@[simp] theorem AlignPutC_data (f : xfile) (C n a : Nat) (b : Bool) :
    (f.AlignPutC C n a b).data
      = overwrite (overwrite f.data f.pos (List.replicate (Align f.pos a - f.pos) C))
          (f.pos + (Align f.pos a - f.pos)) (List.replicate n C) := by
  simp [xfile.AlignPutC]
@[simp] theorem Tell_eq (f : xfile) : f.Tell = f.pos := rfl

theorem Align_ge (x : Nat) : x ≤ Align x 8 := by
  unfold Align; omega

theorem Align_mod (x : Nat) : Align x 8 % 8 = 0 := by
  unfold Align; omega

theorem Align_lt (x : Nat) : Align x 8 < x + 8 := by
  unfold Align; omega

/-! ### Sizes of the packs -/

theorem packSize_setW (s : stream) (f : xfile) (i : Nat) :
    (s.setW f).m_pWrite.packSize i
      = if i = s.m_iPack ∧ i < s.m_pWrite.m_Packs.length then f.data.length
        else s.m_pWrite.packSize i := by
  unfold writing.packSize
  by_cases h : i = s.m_iPack
  · subst h
    by_cases hl : s.m_iPack < s.m_pWrite.m_Packs.length
    · rw [setW_pack_same s f hl, if_pos ⟨rfl, hl⟩]
    · rw [setW_of_le s f (by omega), if_neg (fun e => hl e.2)]
  · rw [setW_pack_ne s f i (fun e => h e.symm), if_neg (fun e => h e.1)]

theorem getW_data_length (s : stream) : s.getW.data.length = s.m_pWrite.packSize s.m_iPack := rfl

theorem packSize_of_le (w : writing) (i : Nat) (h : w.m_Packs.length ≤ i) : w.packSize i = 0 := by
  unfold writing.packSize
  rw [List.getD_eq_default _ _ h]; rfl

/-! ### The pool search -/

theorem mask_value (p : mem_type) :
    p.m_Value &&& non_unique_v.m_Value
      = 2 * p.m_bTempMemory.toNat + 4 * p.m_bVRam.toNat := by
  rcases p with ⟨b0, b1, b2, b3, b4, b5, b6, b7⟩
  cases b0 <;> cases b1 <;> cases b2 <;> cases b3 <;> cases b4 <;> cases b5 <;> cases b6
    <;> cases b7 <;> rfl

theorem m_Value_lt_8_iff (fl : mem_type) :
    fl.m_Value < 8 ↔ fl.m_bBit3 = false ∧ fl.m_bBit4 = false ∧ fl.m_bBit5 = false
      ∧ fl.m_bBit6 = false ∧ fl.m_bBit7 = false := by
  rcases fl with ⟨b0, b1, b2, b3, b4, b5, b6, b7⟩
  cases b0 <;> cases b1 <;> cases b2 <;> cases b3 <;> cases b4 <;> cases b5 <;> cases b6
    <;> cases b7 <;> decide

theorem mask_nonunique (fl : mem_type) (h : fl.m_bUnique = false) (h8 : fl.m_Value < 8) :
    fl.m_Value &&& non_unique_v.m_Value = fl.m_Value := by
  rw [mask_value]
  obtain ⟨h3, h4, h5, h6, h7⟩ := (m_Value_lt_8_iff fl).1 h8
  unfold mem_type.m_Value
  rw [h, h3, h4, h5, h6, h7]
  simp

theorem mask_eq_iff (p fl : mem_type) (h : fl.m_bUnique = false) (h8 : fl.m_Value < 8) :
    p.m_Value &&& non_unique_v.m_Value = fl.m_Value
      ↔ p.m_bTempMemory = fl.m_bTempMemory ∧ p.m_bVRam = fl.m_bVRam := by
  rw [mask_value]
  obtain ⟨h3, h4, h5, h6, h7⟩ := (m_Value_lt_8_iff fl).1 h8
  unfold mem_type.m_Value
  rw [h, h3, h4, h5, h6, h7]
  cases p.m_bTempMemory <;> cases p.m_bVRam <;> cases fl.m_bTempMemory <;> cases fl.m_bVRam
    <;> decide

theorem mask_ne_of_upper (p fl : mem_type) (h8 : ¬ fl.m_Value < 8) :
    p.m_Value &&& non_unique_v.m_Value ≠ fl.m_Value := by
  rw [mask_value]
  intro h
  apply h8
  rw [← h]
  cases p.m_bTempMemory <;> cases p.m_bVRam <;> decide

theorem findPool_le (fl : mem_type) (ps : List pack_writing) : findPool fl ps ≤ ps.length := by
  induction ps with
  | nil => simp [findPool]
  | cons p ps ih =>
    simp only [findPool]
    split
    · simp
    · simp only [List.length_cons]; omega

theorem findPool_none (fl : mem_type) (ps : List pack_writing)
    (h : ∀ p ∈ ps, p.m_PackFlags.m_Value &&& non_unique_v.m_Value ≠ fl.m_Value) :
    findPool fl ps = ps.length := by
  induction ps with
  | nil => rfl
  | cons p ps ih =>
    simp only [findPool, List.length_cons]
    rw [if_neg (h p (List.mem_cons_self _ _)), ih (fun q hq => h q (List.mem_cons_of_mem _ hq))]

theorem findPool_flags (fl : mem_type) (ps qs : List pack_writing) (t : List mem_type)
    (h : qs.map (fun p => p.m_PackFlags) = ps.map (fun p => p.m_PackFlags) ++ t)
    (hf : findPool fl ps < ps.length) : findPool fl qs = findPool fl ps := by
  induction ps generalizing qs with
  | nil => simp at hf
  | cons p ps ih =>
    cases qs with
    | nil => simp at h
    | cons q qs =>
      simp only [List.map_cons, List.cons_append, List.cons.injEq] at h
      simp only [findPool, h.1]
      split
      · rfl
      · rename_i hne
        simp only [findPool, hne, if_false, List.length_cons] at hf
        rw [ih qs h.2 (by omega)]

theorem findPool_match (fl : mem_type) (ps : List pack_writing)
    (hf : findPool fl ps < ps.length) :
    (ps.getD (findPool fl ps) default).m_PackFlags.m_Value &&& non_unique_v.m_Value
      = fl.m_Value := by
  induction ps with
  | nil => simp at hf
  | cons p ps ih =>
    simp only [findPool]
    split
    · rename_i h; simpa using h
    · rename_i hne
      simp only [findPool, hne, if_false, List.length_cons] at hf
      simpa using ih (by omega)

theorem findPool_append_new (fl : mem_type) (ps : List pack_writing) (q : pack_writing)
    (hq : q.m_PackFlags.m_Value &&& non_unique_v.m_Value = fl.m_Value)
    (hf : findPool fl ps = ps.length) : findPool fl (ps ++ [q]) = ps.length := by
  induction ps with
  | nil => simp [findPool, hq]
  | cons p ps ih =>
    simp only [findPool, List.length_cons] at hf
    split at hf
    · omega
    · rename_i hne
      have := ih (by omega)
      simp only [List.cons_append, findPool, hne, if_false, List.length_cons]
      simpa using this

/-! ### Pack selection -/

theorem choosePack_unique (s : stream) (fl : mem_type) (h : fl.m_bUnique = true) :
    (s.choosePack fl).m_pWrite.m_Packs = s.m_pWrite.m_Packs ++ [{ m_PackFlags := fl }]
    ∧ (s.choosePack fl).m_iPack = s.m_pWrite.m_Packs.length := by
  simp [stream.choosePack, h, writing.AllocatePack]

theorem choosePack_iPack_nonunique (s : stream) (fl : mem_type) (h : fl.m_bUnique = false) :
    (s.choosePack fl).m_iPack = findPool fl s.m_pWrite.m_Packs := by
  unfold stream.choosePack
  simp only [h, Bool.false_eq_true, if_false]
  split
  · rename_i he; simp [writing.AllocatePack, he]
  · rfl

theorem choosePack_packs_nonunique (s : stream) (fl : mem_type) (h : fl.m_bUnique = false) :
    (s.choosePack fl).m_pWrite.m_Packs
      = if findPool fl s.m_pWrite.m_Packs = s.m_pWrite.m_Packs.length
        then s.m_pWrite.m_Packs ++ [{ m_PackFlags := fl }] else s.m_pWrite.m_Packs := by
  unfold stream.choosePack
  simp only [h, Bool.false_eq_true, if_false]
  split <;> simp [writing.AllocatePack]

theorem choosePack_packs (s : stream) (fl : mem_type) :
    (s.choosePack fl).m_pWrite.m_Packs = s.m_pWrite.m_Packs
    ∨ ((s.choosePack fl).m_pWrite.m_Packs = s.m_pWrite.m_Packs ++ [{ m_PackFlags := fl }]
        ∧ (s.choosePack fl).m_iPack = s.m_pWrite.m_Packs.length) := by
  cases h : fl.m_bUnique
  · rw [choosePack_packs_nonunique s fl h, choosePack_iPack_nonunique s fl h]
    split
    · rename_i he; exact Or.inr ⟨rfl, he⟩
    · exact Or.inl rfl
  · exact Or.inr (choosePack_unique s fl h)

theorem choosePack_iPack_lt (s : stream) (fl : mem_type) :
    (s.choosePack fl).m_iPack < (s.choosePack fl).m_pWrite.m_Packs.length := by
  cases hu : fl.m_bUnique
  · rw [choosePack_packs_nonunique s fl hu, choosePack_iPack_nonunique s fl hu]
    have := findPool_le fl s.m_pWrite.m_Packs
    split
    · rename_i he; simp [he]
    · rename_i hne; omega
  · have := choosePack_unique s fl hu
    rw [this.1, this.2]; simp

/-! ### The shape of `HandlePtrDetails` -/

theorem updateAt_updateAt {α : Type} (f g : α → α) (i : Nat) (l : List α) :
    updateAt g i (updateAt f i l) = updateAt (fun x => g (f x)) i l := by
  induction l generalizing i with
  | nil => cases i <;> rfl
  | cons x xs ih => cases i with
    | zero => rfl
    | succ i => simp [updateAt, ih]

theorem setW_setW (s : stream) (f g : xfile) : (s.setW f).setW g = s.setW g := by
  simp only [stream.setW, updateAt_updateAt]

theorem localPos_congr (s t : stream) (p : Nat) (h1 : t.m_ClassPos = s.m_ClassPos)
    (h2 : t.m_pClass = s.m_pClass) : t.localPos p = s.localPos p := by
  simp [stream.localPos, stream.ComputeLocalOffset, h1, h2]

theorem overwrite_at_end (d bs : List Nat) : overwrite d d.length bs = d ++ bs := by
  unfold overwrite
  cases bs with
  | nil => simp
  | cons b bs => simp

theorem SeekEnd_AlignPutC (f : xfile) (n : Nat) :
    (f.SeekEnd 0).AlignPutC 32 n 8 false = reserved f n := by
  have hge := Align_ge f.data.length
  unfold xfile.AlignPutC xfile.putC xfile.WriteSpan xfile.SeekEnd reserved
  simp only [Nat.sub_zero, if_true, List.length_replicate, Bool.false_eq_true, if_false]
  rw [overwrite_at_end]
  have hl : f.data.length + (Align f.data.length 8 - f.data.length)
      = (f.data ++ List.replicate (Align f.data.length 8 - f.data.length) 32).length := by
    rw [List.length_append, List.length_replicate]
  have hp : f.data.length + (Align f.data.length 8 - f.data.length)
      = Align f.data.length 8 := by omega
  conv => lhs; arg 1; rw [hl, overwrite_at_end]
  rw [hp]

theorem HandlePtrDetails_pos (s : stream) (mem : Mem) (pA sz cnt : Nat) (fl : mem_type)
    (h : cnt ≠ 0) :
    s.HandlePtrDetails mem pA sz cnt fl =
      { (s.choosePack fl).setW (reserved (s.choosePack fl).getW (sz * cnt)) with
        m_pWrite := { ((s.choosePack fl).setW (reserved (s.choosePack fl).getW (sz * cnt))).m_pWrite with
          m_PointerTable := s.m_pWrite.m_PointerTable ++ [emittedRef s pA cnt fl] } } := by
  have hlt := choosePack_iPack_lt s fl
  unfold stream.HandlePtrDetails
  simp only [h, if_false]
  have e1 : ((s.choosePack fl).setW ((s.choosePack fl).getW.SeekEnd 0)).getW
      = (s.choosePack fl).getW.SeekEnd 0 := getW_setW _ _ hlt
  have e3 : (((s.choosePack fl).setW ((s.choosePack fl).getW.SeekEnd 0)).setW
      (((s.choosePack fl).getW.SeekEnd 0).AlignPutC 32 (sz * cnt) 8 false))
      = (s.choosePack fl).setW (reserved (s.choosePack fl).getW (sz * cnt)) := by
    rw [setW_setW, SeekEnd_AlignPutC]
  simp only [e1, e3]
  have e4 : ((s.choosePack fl).setW (reserved (s.choosePack fl).getW (sz * cnt))).getW
      = reserved (s.choosePack fl).getW (sz * cnt) := getW_setW _ _ hlt
  have e5 : ((s.choosePack fl).setW (reserved (s.choosePack fl).getW (sz * cnt))).localPos pA
      = s.localPos pA :=
    localPos_congr _ _ _ (by simp) (by simp)
  simp only [e4, e5, emittedRef, Tell_eq, setW_PointerTable, choosePack_PointerTable,
    setW_iPack]
  rfl

/-! ### `PacksExtend`, `RefsExtend` and `PacksGrow` hold across the walk -/

theorem HandlePtrDetails_packFlags (s : stream) (mem : Mem) (pA sz cnt : Nat) (fl : mem_type) :
    (s.HandlePtrDetails mem pA sz cnt fl).m_pWrite.packFlags
      = if cnt = 0 then s.m_pWrite.packFlags else (s.choosePack fl).m_pWrite.packFlags := by
  by_cases h : cnt = 0
  · subst h; simp [HandlePtrDetails_zero]
  · rw [HandlePtrDetails_pos s mem pA sz cnt fl h, if_neg h]
    exact setW_packFlags _ _

theorem choosePack_PacksExtend (s : stream) (fl : mem_type) :
    PacksExtend s.m_pWrite (s.choosePack fl).m_pWrite := by
  rcases choosePack_packs s fl with h | h
  · exact ⟨[], by simp [writing.packFlags, h]⟩
  · exact ⟨[fl], by simp [writing.packFlags, h.1]⟩

theorem PacksExtend_walk : WalkInv PacksExtend where
  refl := fun w => ⟨[], by simp⟩
  trans := fun a b c ⟨t, ht⟩ ⟨u, hu⟩ => ⟨t ++ u, by rw [hu, ht, List.append_assoc]⟩
  handle := fun s mem a n => ⟨[], by simp⟩
  hpd := fun s mem pA sz cnt fl => by
    by_cases h : cnt = 0
    · exact ⟨[], by simp [HandlePtrDetails_packFlags, h]⟩
    · obtain ⟨t, ht⟩ := choosePack_PacksExtend s fl
      exact ⟨t, by simp [HandlePtrDetails_packFlags, h, ht]⟩
  seek := fun s o => ⟨[], by simp⟩

theorem RefsExtend_walk : WalkInv RefsExtend where
  refl := fun w => ⟨[], by simp⟩
  trans := fun a b c ⟨t, ht⟩ ⟨u, hu⟩ => ⟨t ++ u, by rw [hu, ht, List.append_assoc]⟩
  handle := fun s mem a n => ⟨[], by simp⟩
  hpd := fun s mem pA sz cnt fl => by
    by_cases h : cnt = 0
    · subst h; exact ⟨[], by simp [HandlePtrDetails_zero]⟩
    · rw [HandlePtrDetails_pos s mem pA sz cnt fl h]
      exact ⟨[emittedRef s pA cnt fl], rfl⟩
  seek := fun s o => ⟨[], by simp⟩

theorem PacksGrow_setW (s : stream) (f : xfile) (h : s.getW.data.length ≤ f.data.length) :
    PacksGrow s.m_pWrite (s.setW f).m_pWrite := by
  intro i
  rw [packSize_setW]
  split
  · rename_i hi; rw [hi.1]; exact h
  · exact Nat.le_refl _

theorem PacksGrow_choosePack (s : stream) (fl : mem_type) :
    PacksGrow s.m_pWrite (s.choosePack fl).m_pWrite := by
  intro i
  rcases choosePack_packs s fl with h | h
  · simp [writing.packSize, h]
  · unfold writing.packSize
    rw [h.1]
    by_cases hi : i < s.m_pWrite.m_Packs.length
    · rw [List.getD_append _ _ _ _ hi]
    · rw [List.getD_eq_default _ _ (by omega)]; exact Nat.zero_le _

theorem PacksGrow_walk : WalkInv PacksGrow where
  refl := fun w i => Nat.le_refl _
  trans := fun a b c h1 h2 i => Nat.le_trans (h1 i) (h2 i)
  handle := fun s mem a n => by
    unfold stream.Handle
    exact PacksGrow_setW _ _ (by simp [overwrite_length_ge])
  hpd := fun s mem pA sz cnt fl => by
    by_cases h : cnt = 0
    · subst h; rw [HandlePtrDetails_zero]
      unfold stream.Handle
      exact PacksGrow_setW _ _ (by simp [overwrite_length_ge])
    · rw [HandlePtrDetails_pos s mem pA sz cnt fl h]
      intro i
      exact Nat.le_trans (PacksGrow_choosePack s fl i)
        (PacksGrow_setW (s.choosePack fl) _ (by simp [reserved, overwrite_length_ge]) i)
  seek := fun s o => PacksGrow_setW _ _ (by simp)

theorem Reach_inv {R : writing → writing → Prop} (hR : WalkInv R) {s t : stream}
    (h : Reach s t) : R s.m_pWrite t.m_pWrite := by
  induction h with
  | refl => exact hR.refl _
  | serialize ty mem a _ ih => exact hR.trans _ _ _ ih (Serialize_inv hR ty mem a _)
  | descriptor io mem obj _ ih => exact hR.trans _ _ _ ih (SerializeIO_inv hR io mem obj _)
  | pointer elem mem pA n fl _ ih => exact hR.trans _ _ _ ih (SerializePtr_inv hR _ elem mem pA n fl)
  | details mem pA sz n fl _ ih => exact hR.trans _ _ _ ih (hR.hpd _ mem pA sz n fl)
  | handle mem a n _ ih => exact hR.trans _ _ _ ih (hR.handle _ mem a n)
  | seek o _ ih => exact hR.trans _ _ _ ih (hR.seek _ o)
  | frame u _ hu ih => rw [hu]; exact ih

theorem updateAt_append_length {α : Type} (f : α → α) (l : List α) (x : α) :
    updateAt f l.length (l ++ [x]) = l ++ [f x] := by
  induction l with
  | nil => rfl
  | cons y ys ih => simp [updateAt, ih]

theorem HandlePtrDetails_unique_packs (s : stream) (mem : Mem) (pA sz cnt : Nat) (fl : mem_type)
    (hcnt : cnt ≠ 0) (hu : fl.m_bUnique = true) :
    (s.HandlePtrDetails mem pA sz cnt fl).m_pWrite.m_Packs
      = s.m_pWrite.m_Packs ++ [{ m_PackFlags := fl, m_Data := reserved {} (sz * cnt) }] := by
  rw [HandlePtrDetails_pos s mem pA sz cnt fl hcnt]
  have h := choosePack_unique s fl hu
  have hg : (s.choosePack fl).getW = {} := by
    unfold stream.getW
    rw [h.1, h.2, List.getD_append_right _ _ _ _ (Nat.le_refl _)]
    simp
  simp only [stream.setW, h.1, h.2, hg, updateAt_append_length]

theorem HandlePtrDetails_iPack (s : stream) (mem : Mem) (pA sz cnt : Nat) (fl : mem_type)
    (hcnt : cnt ≠ 0) : (s.HandlePtrDetails mem pA sz cnt fl).m_iPack = (s.choosePack fl).m_iPack := by
  rw [HandlePtrDetails_pos s mem pA sz cnt fl hcnt]; rfl

theorem HandlePtrDetails_PointerTable (s : stream) (mem : Mem) (pA sz cnt : Nat) (fl : mem_type)
    (hcnt : cnt ≠ 0) : (s.HandlePtrDetails mem pA sz cnt fl).m_pWrite.m_PointerTable
      = s.m_pWrite.m_PointerTable ++ [emittedRef s pA cnt fl] := by
  rw [HandlePtrDetails_pos s mem pA sz cnt fl hcnt]

theorem manyPacks_length : manyPacks.m_pWrite.m_Packs.length = 65536 := by
  unfold manyPacks
  exact (List.length_cons _ _).trans (congrArg (fun n => n + 1) (List.length_replicate _ _))

set_option maxRecDepth 100000

/-! ### The target of pooled pointer operations -/

theorem packFlags_map (w : writing) : w.m_Packs.map (fun p => p.m_PackFlags) = w.packFlags := rfl

theorem HandlePtrDetails_findPool (s : stream) (mem : Mem) (pA sz cnt : Nat) (fl : mem_type)
    (hcnt : cnt ≠ 0) (hfl : fl.m_bUnique = false) (h8 : fl.m_Value < 8) :
    findPool fl (s.HandlePtrDetails mem pA sz cnt fl).m_pWrite.m_Packs
        = (s.HandlePtrDetails mem pA sz cnt fl).m_iPack
    ∧ (s.HandlePtrDetails mem pA sz cnt fl).m_iPack
        < (s.HandlePtrDetails mem pA sz cnt fl).m_pWrite.m_Packs.length := by
  have hfl' : (s.HandlePtrDetails mem pA sz cnt fl).m_pWrite.packFlags
      = (s.choosePack fl).m_pWrite.packFlags := by
    rw [HandlePtrDetails_packFlags, if_neg hcnt]
  have hlen : (s.HandlePtrDetails mem pA sz cnt fl).m_pWrite.m_Packs.length
      = (s.choosePack fl).m_pWrite.m_Packs.length := by
    have := congrArg List.length hfl'
    simpa [writing.packFlags] using this
  have hlt := choosePack_iPack_lt s fl
  rw [HandlePtrDetails_iPack s mem pA sz cnt fl hcnt, hlen]
  refine ⟨?_, hlt⟩
  have key : findPool fl (s.choosePack fl).m_pWrite.m_Packs = (s.choosePack fl).m_iPack := by
    rw [choosePack_packs_nonunique s fl hfl, choosePack_iPack_nonunique s fl hfl]
    split
    · rename_i he
      have hq : ({ m_PackFlags := fl } : pack_writing).m_PackFlags.m_Value
          &&& non_unique_v.m_Value = fl.m_Value := mask_nonunique fl hfl h8
      rw [findPool_append_new fl _ _ hq he, he]
    · rfl
  rw [← key]
  exact findPool_flags fl _ _ [] (by simpa [writing.packFlags] using hfl') (by rw [key]; exact hlt)

theorem HandlePtrDetails_same_target (s t : stream) (mem mem' : Mem) (pA sz cnt pA' sz' cnt' : Nat)
    (fl : mem_type) (hcnt : cnt ≠ 0) (hcnt' : cnt' ≠ 0) (hfl : fl.m_bUnique = false)
    (h8 : fl.m_Value < 8)
    (hext : PacksExtend (s.HandlePtrDetails mem pA sz cnt fl).m_pWrite t.m_pWrite) :
    (t.HandlePtrDetails mem' pA' sz' cnt' fl).m_iPack
      = (s.HandlePtrDetails mem pA sz cnt fl).m_iPack := by
  obtain ⟨hf, hlt⟩ := HandlePtrDetails_findPool s mem pA sz cnt fl hcnt hfl h8
  obtain ⟨u, hu⟩ := hext
  have h1 : findPool fl t.m_pWrite.m_Packs
      = findPool fl (s.HandlePtrDetails mem pA sz cnt fl).m_pWrite.m_Packs :=
    findPool_flags fl _ _ u hu (by rw [hf]; exact hlt)
  rw [HandlePtrDetails_iPack t mem' pA' sz' cnt' fl hcnt', choosePack_iPack_nonunique t fl hfl,
    h1, hf]

theorem SerializePtr_reach (s : stream) (elem : Ty) (mem : Mem) (pA n : Nat) (fl : mem_type)
    (hp : readPtr mem pA ≠ 0) :
    Reach (s.HandlePtrDetails mem pA (sizeOfTy elem) n fl) (s.SerializePtr elem mem pA n fl) := by
  unfold stream.SerializePtr stream.SerializePtrWith
  simp only [hp, if_false]
  have key : ∀ s2 : stream, Reach (s.HandlePtrDetails mem pA (sizeOfTy elem) n fl) s2 →
      Reach (s.HandlePtrDetails mem pA (sizeOfTy elem) n fl) { s2 with m_iPack := s.m_iPack } :=
    fun s2 hr => Reach.frame _ hr rfl
  apply key
  cases elem.isPrim
  · simp only [Bool.false_eq_true, if_false]
    exact forLoop_induction (fun t => Reach (s.HandlePtrDetails mem pA (sizeOfTy elem) n fl) t)
      n _ _ (Reach.refl _) (fun i t ht => Reach.serialize elem mem _ ht)
  · simp only [if_true]
    split
    · exact Reach.handle _ _ _ (Reach.refl _)
    · exact Reach.seek _ (Reach.frame _ (Reach.handle _ _ _
        (Reach.frame (stream.pushFrame _ _ _) (Reach.refl _) rfl)) rfl)

theorem localPos_eq (s : stream) (p : Nat) (h1 : s.m_pClass ≤ p)
    (h2 : p - s.m_pClass < 2147483648) (h3 : s.m_ClassPos + (p - s.m_pClass) < 4294967296) :
    s.localPos p = s.m_ClassPos + (p - s.m_pClass) := by
  unfold stream.localPos stream.ComputeLocalOffset i32 u32i
  omega

theorem reserved_data (f : xfile) (n : Nat) :
    (reserved f n).data
      = f.data ++ List.replicate (Align f.data.length 8 - f.data.length) 32
          ++ List.replicate n 32 := rfl

theorem reserved_size (f : xfile) (n : Nat) :
    (reserved f n).data.length = Align f.data.length 8 + n := by
  rw [reserved_data]
  have := Align_ge f.data.length
  simp only [List.length_append, List.length_replicate]; omega

theorem HandlePtrDetails_getW (s : stream) (mem : Mem) (pA sz cnt : Nat) (fl : mem_type)
    (hcnt : cnt ≠ 0) :
    (s.HandlePtrDetails mem pA sz cnt fl).getW = reserved (s.choosePack fl).getW (sz * cnt) := by
  rw [HandlePtrDetails_pos s mem pA sz cnt fl hcnt]
  exact getW_setW _ _ (choosePack_iPack_lt s fl)

theorem choosePack_getW_size (s : stream) (fl : mem_type) :
    (s.choosePack fl).getW.data.length = s.m_pWrite.packSize (s.choosePack fl).m_iPack := by
  rcases choosePack_packs s fl with h | h
  · simp [stream.getW, writing.packSize, h]
  · unfold stream.getW
    rw [h.1, h.2, List.getD_append_right _ _ _ _ (Nat.le_refl _),
      packSize_of_le _ _ (Nat.le_refl _)]
    simp

theorem choosePack_iPack_le (s : stream) (fl : mem_type) :
    (s.choosePack fl).m_iPack ≤ s.m_pWrite.m_Packs.length := by
  cases hu : fl.m_bUnique
  · rw [choosePack_iPack_nonunique s fl hu]; exact findPool_le _ _
  · rw [(choosePack_unique s fl hu).2]

theorem packData_setW (s : stream) (f : xfile) (i : Nat) :
    (s.setW f).m_pWrite.packData i
      = if i = s.m_iPack ∧ i < s.m_pWrite.m_Packs.length then f.data
        else s.m_pWrite.packData i := by
  unfold writing.packData
  by_cases h : i = s.m_iPack
  · subst h
    by_cases hl : s.m_iPack < s.m_pWrite.m_Packs.length
    · rw [setW_pack_same s f hl, if_pos ⟨rfl, hl⟩]
    · rw [setW_of_le s f (by omega), if_neg (fun e => hl e.2)]
  · rw [setW_pack_ne s f i (fun e => h e.symm), if_neg (fun e => h e.1)]

theorem getW_data (s : stream) : s.getW.data = s.m_pWrite.packData s.m_iPack := rfl

theorem packData_setW_same_data (s : stream) (f : xfile) (h : f.data = s.getW.data) (i : Nat) :
    (s.setW f).m_pWrite.packData i = s.m_pWrite.packData i := by
  rw [packData_setW]
  split
  · rename_i hi; rw [h, getW_data, hi.1]
  · rfl

theorem readBytes_zero (mem : Mem) (a : Nat) : readBytes mem a 0 = [] := rfl

theorem readBytes_length (mem : Mem) (a n : Nat) : (readBytes mem a n).length = n := by
  simp [readBytes]

theorem Handle_zero_packData (s : stream) (mem : Mem) (a i : Nat) :
    (s.Handle mem a 0).m_pWrite.packData i = s.m_pWrite.packData i := by
  unfold stream.Handle
  exact packData_setW_same_data _ _ (by simp [readBytes_zero, overwrite]) i

theorem popFrame_packData (s File : stream) (i : Nat) :
    (s.popFrame File).m_pWrite.packData i = File.m_pWrite.packData i := by
  unfold stream.popFrame
  exact packData_setW_same_data { s with m_pWrite := File.m_pWrite }
    (({ s with m_pWrite := File.m_pWrite } : stream).getW.SeekOrigin
      (u32 (File.m_ClassPos + File.m_ClassSize))) rfl i

theorem Handle_packData_same (s : stream) (mem : Mem) (a n : Nat)
    (h : s.m_iPack < s.m_pWrite.m_Packs.length) :
    (s.Handle mem a n).m_pWrite.packData s.m_iPack
      = overwrite (s.m_pWrite.packData s.m_iPack) (s.localPos a) (readBytes mem a n) := by
  unfold stream.Handle
  rw [packData_setW, if_pos ⟨rfl, h⟩]
  rfl

theorem isLocalVariable_iff (s : stream) (p : Nat) :
    s.isLocalVariable p = true ↔ s.m_pClass ≤ p ∧ p < s.m_pClass + s.m_ClassSize := by
  simp [stream.isLocalVariable]

theorem HandlePtrDetails_packSize_target (s : stream) (mem : Mem) (pA sz cnt : Nat)
    (fl : mem_type) (hcnt : cnt ≠ 0) :
    (s.HandlePtrDetails mem pA sz cnt fl).m_pWrite.packSize
        (s.HandlePtrDetails mem pA sz cnt fl).m_iPack
      = Align (s.m_pWrite.packSize (s.choosePack fl).m_iPack) 8 + sz * cnt := by
  rw [← getW_data_length, HandlePtrDetails_getW s mem pA sz cnt fl hcnt, reserved_size,
    choosePack_getW_size]

theorem packData_of_le (w : writing) (i : Nat) (h : w.m_Packs.length ≤ i) : w.packData i = [] := by
  unfold writing.packData
  rw [List.getD_eq_default _ _ h]; rfl

theorem choosePack_getW_data (s : stream) (fl : mem_type) :
    (s.choosePack fl).getW.data = s.m_pWrite.packData (s.choosePack fl).m_iPack := by
  rcases choosePack_packs s fl with h | h
  · simp [stream.getW, writing.packData, h]
  · unfold stream.getW
    rw [h.1, h.2, List.getD_append_right _ _ _ _ (Nat.le_refl _),
      packData_of_le _ _ (Nat.le_refl _)]
    simp

theorem packSize_eq_length (w : writing) (i : Nat) : w.packSize i = (w.packData i).length := rfl

theorem get?_append_length {α : Type} (l u : List α) (a : α) :
    (l ++ a :: u).get? l.length = some a := by
  induction l with
  | nil => rfl
  | cons x xs ih => simpa using ih

theorem manyPacks_packs :
    manyPacks.m_pWrite.m_Packs
      = { m_Data := { data := List.replicate 16 32, pos := 16 } }
          :: List.replicate 65535
              { m_PackFlags := { m_bUnique := true }
                m_Data := { data := List.replicate 8 32, pos := 0 } } := by
  unfold manyPacks; rfl

/-! ## Lemmas on LoadObject -/

theorem leBytes_length (n v : Nat) : (leBytes n v).length = n := by
  induction n generalizing v with
  | zero => rfl
  | succ n ih => simp [leBytes, ih]

theorem readBytes_writeBytes_same (mem : Mem) (a : Nat) (bs : List Nat) :
    readBytes (writeBytes mem a bs) a bs.length = bs := by
  apply List.ext_getElem
  · exact readBytes_length _ _ _
  · intro i h1 h2
    simp only [readBytes, List.getElem_map, List.getElem_range, writeBytes]
    rw [if_pos ⟨Nat.le_add_right _ _, by omega⟩]
    simp [Nat.add_sub_cancel_left, List.getD_eq_getElem?_getD, List.getElem?_eq_getElem h2]

theorem readBytes_writeBytes_disjoint (mem : Mem) (a n b : Nat) (bs : List Nat)
    (h : a + n ≤ b ∨ b + bs.length ≤ a) :
    readBytes (writeBytes mem b bs) a n = readBytes mem a n := by
  unfold readBytes
  apply List.map_congr_left
  intro i hi
  have hi := List.mem_range.1 hi
  simp only [writeBytes]
  rw [if_neg]
  omega

theorem resolveRef_foldl_disjoint (P : List Nat) (a : Nat) (l : List ref) (mem : Mem)
    (h : ∀ R ∈ l, P.getD R.m_OffsetPack 0 + R.m_OffSet + 8 ≤ a
      ∨ a + 8 ≤ P.getD R.m_OffsetPack 0 + R.m_OffSet) :
    readBytes (l.foldl (resolveRef P) mem) a 8 = readBytes mem a 8 := by
  induction l generalizing mem with
  | nil => rfl
  | cons R l ih =>
    rw [List.foldl_cons, ih _ (fun R' h' => h R' (List.mem_cons_of_mem _ h'))]
    unfold resolveRef
    apply readBytes_writeBytes_disjoint
    rw [leBytes_length]
    have := h R (List.mem_cons_self _ _)
    omega

theorem resolveRef_foldl_slot (P : List Nat) (l : List ref) (mem : Mem) (i : Nat) (R : ref)
    (hi : l.get? i = some R)
    (h : ∀ j R', i < j → l.get? j = some R' →
      P.getD R'.m_OffsetPack 0 + R'.m_OffSet + 8 ≤ P.getD R.m_OffsetPack 0 + R.m_OffSet
      ∨ P.getD R.m_OffsetPack 0 + R.m_OffSet + 8 ≤ P.getD R'.m_OffsetPack 0 + R'.m_OffSet) :
    readBytes (l.foldl (resolveRef P) mem) (P.getD R.m_OffsetPack 0 + R.m_OffSet) 8
      = leBytes 8 (P.getD R.m_PointingATPack 0 + R.m_PointingAT) := by
  induction l generalizing mem i with
  | nil => simp at hi
  | cons R0 l ih =>
    cases i with
    | zero =>
      simp only [List.get?_cons_zero, Option.some.injEq] at hi
      subst hi
      rw [List.foldl_cons, resolveRef_foldl_disjoint]
      · unfold resolveRef
        have := readBytes_writeBytes_same mem (P.getD R0.m_OffsetPack 0 + R0.m_OffSet)
          (leBytes 8 (P.getD R0.m_PointingATPack 0 + R0.m_PointingAT))
        rw [leBytes_length] at this
        exact this
      · intro R' hR'
        obtain ⟨j, hj⟩ := List.get?_of_mem hR'
        exact h (j + 1) R' (Nat.succ_pos _) (by simpa using hj)
    | succ i =>
      rw [List.foldl_cons]
      apply ih _ i
      · simpa using hi
      · intro j R' hij hj
        exact h (j + 1) R' (by omega) (by simpa using hj)

theorem read_pointers (L : loading) (b n : Nat) (L1 : loading) (h : L.read b n = some L1) :
    L1.pPackPointers = L.pPackPointers := by
  unfold loading.read at h
  cases hr : L.File.ReadSpan n with
  | none => rw [hr] at h; simp at h
  | some r =>
    rw [hr] at h
    simp only [Option.map_some', Option.some.injEq] at h
    subst h; rfl

theorem readBlocks_pointers {κ δ : Type} (codec : xcompression.codec κ δ) (I : info)
    (Pack : pack) (BlockSize p n : Nat) (L : loading) (D : δ) (R : Nat)
    (out : loading × δ × Nat)
    (h : readBlocks codec I Pack BlockSize p n L D R = some out) :
    out.1.pPackPointers = L.pPackPointers := by
  induction n generalizing L D R with
  | zero =>
    simp only [readBlocks, Option.some.injEq] at h
    subst h; rfl
  | succ n ih =>
    simp only [readBlocks] at h
    split at h
    · simp at h
    · rename_i L2 hL2
      have e := read_pointers _ _ _ _ hL2
      split at h
      · rw [ih _ _ _ h]; exact e
      · rw [ih _ _ _ h]; exact e

theorem loadPack_pointers {κ δ : Type} (codec : xcompression.codec κ δ)
    (Allocate : Nat → mem_type → Nat → Nat → Nat) (I : info) (iPack : Nat) (L L1 : loading)
    (h : loadPack codec Allocate I iPack L = some L1) :
    L1.pPackPointers = L.pPackPointers ++ [I.packPointer Allocate iPack] := by
  unfold loadPack at h
  simp only at h
  split at h
  · simp at h
  · split at h
    · simp at h
    · rename_i La hLa
      have ea : La.pPackPointers = L.pPackPointers := by
        split at hLa
        · exact read_pointers _ _ _ _ hLa
        · simp only [Option.some.injEq] at hLa
          subst hLa; rfl
      split at h
      · simp at h
      · rename_i L3 D3 R3 hL3
        have e3 := readBlocks_pointers _ _ _ _ _ _ _ _ _ _ hL3
        split at h
        · simp at h
        · rename_i L4 hL4
          have e4 : L4.pPackPointers = L3.pPackPointers := by
            split at hL4
            · exact read_pointers _ _ _ _ hL4
            · simp only [Option.some.injEq] at hL4
              subst hL4; rfl
          simp only [Option.some.injEq] at h
          subst h
          show L4.pPackPointers = _
          rw [e4, e3]
          show La.pPackPointers ++ _ = _
          rw [ea]; rfl

theorem loadPacks_pointers {κ δ : Type} (codec : xcompression.codec κ δ)
    (Allocate : Nat → mem_type → Nat → Nat → Nat) (I : info) (n iPack : Nat) (L L1 : loading)
    (h : loadPacks codec Allocate I n iPack L = some L1) :
    L1.pPackPointers
      = L.pPackPointers ++ (List.range' iPack n).map (I.packPointer Allocate) := by
  induction n generalizing iPack L with
  | zero =>
    simp only [loadPacks, Option.some.injEq] at h
    subst h; simp
  | succ n ih =>
    simp only [loadPacks] at h
    split at h
    · simp at h
    · rename_i La hLa
      rw [ih _ _ h, loadPack_pointers _ _ _ _ _ _ hLa, List.append_assoc]
      rfl

theorem LoadObject_some {κ δ : Type} (codec : xcompression.codec κ δ)
    (Allocate : Nat → mem_type → Nat → Nat → Nat) (s : stream) (File : xfile) (mem : Mem)
    (r : loaded) (h : stream.LoadObject codec Allocate s File mem = some r) :
    r.I.m_nPacks = s.m_Header.m_nPacks ∧ r.I.m_nPointers = s.m_Header.m_nPointers
    ∧ r.pPackPointers = (List.range r.I.m_nPacks).map (r.I.packPointer Allocate)
    ∧ r.pObject = r.pPackPointers.getD 0 0
    ∧ ∃ m0 : Mem, r.mem = r.I.refs.foldl (resolveRef r.pPackPointers) m0 := by
  unfold stream.LoadObject at h
  split at h
  · simp at h
  · rename_i File1 InfoData hinfo
    simp only at h
    split at h
    · simp at h
    · rename_i L hL
      have e := loadPacks_pointers _ _ _ _ _ _ _ hL
      simp only [Option.some.injEq] at h
      subst h
      refine ⟨rfl, rfl, ?_, rfl, _, rfl⟩
      show L.pPackPointers = _
      rw [e, List.range_eq_range']
      rfl

theorem getD_map_range (f : Nat → Nat) (n k : Nat) (h : k < n) :
    ((List.range n).map f).getD k 0 = f k := by
  rw [List.getD_eq_getElem?_getD, List.getElem?_eq_getElem (by simpa using h)]
  simp

/-! ## A round trip -/

/-- Save and then Load of the root of eight temp arrays: both succeed, and the loaded root
holds the same counts and the same element bytes behind its eight pointers. -/
theorem eight_arrays_round_trip :
    savedEight.isOk = true
    ∧ loadedEight.toOption.map (fun r => eightContent r.mem r.pObject)
        = some (eightContent eightMem 4096) := by
  decide!

/-! ## Lemmas on SaveFile and on the header -/

theorem leValue_leBytes (n v : Nat) : leValue (leBytes n v) = v % 256 ^ n := by
  induction n generalizing v with
  | zero => simp [leBytes, leValue, Nat.mod_one]
  | succ n ih =>
    simp only [leBytes, leValue, ih, Nat.pow_succ]
    rw [Nat.mul_comm (256 ^ n) 256, Nat.mod_mul]

theorem leAt_append_right (a b : List Nat) (off n : Nat) (h : a.length ≤ off) :
    leAt (a ++ b) off n = leAt b (off - a.length) n := by
  unfold leAt
  congr 1
  apply List.map_congr_left
  intro i _
  rw [List.getD_eq_getElem?_getD, List.getD_eq_getElem?_getD,
    List.getElem?_append_right (by omega)]
  congr 2
  omega

theorem leAt_leBytes_append (n v : Nat) (post : List Nat) :
    leAt (leBytes n v ++ post) 0 n = v % 256 ^ n := by
  rw [← leValue_leBytes]
  unfold leAt
  congr 1
  apply List.ext_getElem
  · simp [leBytes_length]
  · intro i h1 h2
    simp only [List.getElem_map, List.getElem_range, Nat.zero_add]
    rw [List.getD_eq_getElem?_getD, List.getElem?_append_left (by simpa [leBytes_length] using h1),
      List.getElem?_eq_getElem h2]
    rfl

theorem overwrite_append (d : List Nat) (p : Nat) (a b : List Nat) :
    overwrite (overwrite d p a) (p + a.length) b = overwrite d p (a ++ b) := by
  cases a with
  | nil => simp [overwrite]
  | cons x a =>
    cases b with
    | nil => simp [overwrite]
    | cons y b =>
      have hl : (List.take p d ++ List.replicate (p - d.length) 0).length = p := by
        simp only [List.length_append, List.length_take, List.length_replicate]; omega
      generalize hP : List.take p d ++ List.replicate (p - d.length) 0 = P at hl
      simp only [overwrite, List.cons_append, hP]
      have e1 : (P ++ x :: a ++ List.drop (p + (x :: a).length) d).length
          ≥ p + (x :: a).length := by
        simp only [List.length_append, List.length_cons, hl]; omega
      have e2 : List.take (p + (x :: a).length)
          (P ++ x :: a ++ List.drop (p + (x :: a).length) d) = P ++ x :: a := by
        rw [List.take_append_of_le_length (by simp [hl])]
        exact List.take_of_length_le (by simp [hl])
      have e3 : List.drop (p + (x :: a).length + (y :: b).length)
          (P ++ x :: a ++ List.drop (p + (x :: a).length) d)
            = List.drop (p + (x :: (a ++ y :: b)).length) d := by
        rw [List.drop_append_eq_append_drop]
        rw [List.drop_of_length_le (by simp [hl])]
        simp only [List.length_append, List.length_cons, hl, List.nil_append, List.drop_drop]
        congr 1
        omega
      rw [e2, e3]
      have e4 : p + (x :: a).length - (P ++ x :: a ++ List.drop (p + (x :: a).length) d).length
          = 0 := by omega
      rw [e4]
      simp

theorem WriteSpan_append (f : xfile) (a b : List Nat) :
    (f.WriteSpan a).WriteSpan b = f.WriteSpan (a ++ b) := by
  unfold xfile.WriteSpan
  simp only [overwrite_append, List.length_append, Nat.add_assoc]

theorem WriteSpan_nil (F : xfile) : F.WriteSpan [] = F := by
  unfold xfile.WriteSpan overwrite
  simp

theorem writePayload_eq (e : Bool) (packs : List pack_writing) (F : xfile)
    (h : ∀ P ∈ packs, (if e then endian.Convert32 P.m_CompressSize else P.m_CompressSize)
      ≤ P.m_CompressData.length) :
    writePayload e packs F = some (F.WriteSpan (payloadBytes e packs)) := by
  induction packs generalizing F with
  | nil =>
    simp only [writePayload, payloadBytes, List.flatMap_nil]
    rw [WriteSpan_nil]
  | cons P rest ih =>
    simp only [writePayload]
    rw [if_pos (h P (List.mem_cons_self _ _)),
      ih _ (fun Q hQ => h Q (List.mem_cons_of_mem _ hQ)), WriteSpan_append]
    rfl

theorem writePayload_some (e : Bool) (packs : List pack_writing) (F F3 : xfile)
    (h : writePayload e packs F = some F3) :
    F3 = F.WriteSpan (payloadBytes e packs)
    ∧ ∀ P ∈ packs, (if e then endian.Convert32 P.m_CompressSize else P.m_CompressSize)
        ≤ P.m_CompressData.length := by
  induction packs generalizing F with
  | nil =>
    simp only [writePayload, Option.some.injEq] at h
    subst h
    exact ⟨by simp only [payloadBytes, List.flatMap_nil]; rw [WriteSpan_nil],
      fun P hP => by simp at hP⟩
  | cons P rest ih =>
    simp only [writePayload] at h
    by_cases hb : (if e then endian.Convert32 P.m_CompressSize else P.m_CompressSize)
        ≤ P.m_CompressData.length
    · rw [if_pos hb] at h
      obtain ⟨h1, h2⟩ := ih _ h
      refine ⟨?_, ?_⟩
      · rw [h1, WriteSpan_append]
        rfl
      · intro Q hQ
        rcases List.mem_cons.mp hQ with rfl | hQ
        · exact hb
        · exact h2 Q hQ
    · rw [if_neg hb] at h
      cases h

theorem overwrite_zero (d bs : List Nat) : overwrite d 0 bs = bs ++ d.drop bs.length := by
  cases bs with
  | nil => simp [overwrite]
  | cons b bs => simp [overwrite]

theorem updateEndian_bEndian (w : writing) : w.updateEndian.m_bEndian = w.m_bEndian := by
  unfold writing.updateEndian; split <;> rfl

theorem updateEndian_pFile (w : writing) : w.updateEndian.m_pFile = w.m_pFile := by
  unfold writing.updateEndian; split <;> rfl

theorem header_bytes_length (h : header) : h.bytes.length = 20 := by
  simp [header.bytes, leBytes_length]

theorem header_bytes_drop (h : header) :
    h.bytes.drop 4 = leBytes 2 h.m_SerialFileVersion ++ leBytes 2 h.m_PackSize
    ++ leBytes 2 h.m_nPointers ++ leBytes 2 h.m_nPacks ++ leBytes 2 h.m_nBlockSizes
    ++ leBytes 2 h.m_ResourceVersion ++ leBytes 2 h.m_MaxQualities
    ++ leBytes 2 h.m_AutomaticVersion := by
  unfold header.bytes
  simp only [List.append_assoc]
  rw [List.drop_append_of_le_length (by simp [leBytes_length])]
  rw [List.drop_of_length_le (by simp [leBytes_length])]
  rfl

theorem header_bytes_size (h : header) (x : Nat) :
    leBytes 4 x ++ h.bytes.drop 4 = ({ h with m_SizeOfData := x } : header).bytes := by
  rw [header_bytes_drop]
  simp only [header.bytes, List.append_assoc]

theorem SaveFile_tail (F0 : xfile) (H : header) (info : List Nat) (b : Bool)
    (packs : List pack_writing) (hpos : F0.pos = 0) :
    (((F0.WriteSpan H.bytes).WriteSpan info).WriteSpan (payloadBytes b packs)).Tell
        = sizeof_header + info.length + (payloadBytes b packs).length
    ∧ ∀ x : Nat,
        ((((((F0.WriteSpan H.bytes).WriteSpan info).WriteSpan (payloadBytes b packs)).SeekOrigin
            0).WriteSpan (leBytes 4 x)).SeekEnd 0).data
          = ({ H with m_SizeOfData := x } : header).bytes ++ info ++ payloadBytes b packs
            ++ F0.data.drop (sizeof_header + info.length + (payloadBytes b packs).length) := by
  rw [WriteSpan_append, WriteSpan_append]
  constructor
  · simp only [xfile.Tell, xfile.WriteSpan, hpos, List.length_append, header_bytes_length,
      sizeof_header]
    omega
  · intro x
    simp only [xfile.SeekEnd, xfile.SeekOrigin, xfile.WriteSpan, hpos, overwrite_zero,
      leBytes_length]
    rw [← header_bytes_size H x, List.drop_append_eq_append_drop, List.drop_append_eq_append_drop]
    have e1 : 4 - (H.bytes ++ (info ++ payloadBytes b packs)).length = 0 := by
      simp only [List.length_append, header_bytes_length]; omega
    have e2 : 4 - H.bytes.length = 0 := by rw [header_bytes_length]
    rw [e1, e2]
    simp only [List.drop_zero, List.append_assoc, List.length_append, header_bytes_length,
      sizeof_header, Nat.add_assoc]

theorem SaveFile_ok {κ δ : Type} (codec : xcompression.codec κ δ) (fuel : Nat) (s t : stream)
    (h : stream.SaveFile codec fuel s = .ok t) :
    ∃ packs cs info,
      compressPacks codec fuel s.m_CompressionLevel s.m_pWrite.m_Packs s.m_pWrite.m_CSizeStream
        = .ok (packs, cs)
      ∧ compressInfo codec s.m_CompressionLevel (s.compressed packs cs).InfoData = .ok info
      ∧ t.m_Header = ({ s with m_pWrite := s.compressed packs cs } : stream).fillHeader info.length
      ∧ t.m_pWrite.m_Packs = (s.compressed packs cs).m_Packs
      ∧ t.m_pWrite.m_PointerTable = (s.compressed packs cs).m_PointerTable
      ∧ t.m_pWrite.m_CSizeStream = (s.compressed packs cs).m_CSizeStream
      ∧ t.m_pWrite.m_bEndian = s.m_pWrite.m_bEndian
      ∧ t.m_ClassSize = s.m_ClassSize
      ∧ (s.m_pWrite.m_pFile.pos = 0 →
          t.m_pWrite.m_pFile.data
            = ({ t.m_Header.forFile t.m_pWrite.m_bEndian with
                  m_SizeOfData := storedSizeOfData t.m_pWrite.m_bEndian info.length
                    (payloadBytes t.m_pWrite.m_bEndian t.m_pWrite.m_Packs).length } : header).bytes
              ++ info ++ payloadBytes t.m_pWrite.m_bEndian t.m_pWrite.m_Packs
              ++ s.m_pWrite.m_pFile.data.drop
                  (sizeof_header + info.length
                    + (payloadBytes t.m_pWrite.m_bEndian t.m_pWrite.m_Packs).length)) := by
  unfold stream.SaveFile at h
  split at h
  · cases h
  · cases h
  · cases h
  · rename_i r hr
    simp only at h
    split at h
    · cases h
    · rename_i info hinfo
      split at h
      · cases h
      rename_i File3 hF3
      obtain ⟨hF3, _⟩ := writePayload_some _ _ _ _ hF3
      subst hF3
      refine ⟨r.1, r.2, info, hr, hinfo, ?_⟩
      unfold stream.compressed
      have hb := updateEndian_bEndian
        ({ s.m_pWrite with m_Packs := r.1, m_CSizeStream := r.2 } : writing)
      have hf := updateEndian_pFile
        ({ s.m_pWrite with m_Packs := r.1, m_CSizeStream := r.2 } : writing)
      generalize ({ s.m_pWrite with m_Packs := r.1, m_CSizeStream := r.2 } :
        writing).updateEndian = w1 at h hb hf hinfo ⊢
      have hb' : w1.m_bEndian = s.m_pWrite.m_bEndian := hb
      have hf' : w1.m_pFile = s.m_pWrite.m_pFile := hf
      simp only [Outcome.ok.injEq] at h
      subst h
      refine ⟨rfl, rfl, rfl, rfl, hb', rfl, ?_⟩
      intro hpos
      have hpos' : w1.m_pFile.pos = 0 := by rw [hf']; exact hpos
      obtain ⟨e1, e2⟩ := SaveFile_tail w1.m_pFile
        ((({ s with m_pWrite := w1 } : stream).fillHeader info.length).forFile w1.m_bEndian)
        info w1.m_bEndian w1.m_Packs hpos'
      show ((((((w1.m_pFile.WriteSpan _).WriteSpan info).WriteSpan
        (payloadBytes w1.m_bEndian w1.m_Packs)).SeekOrigin 0).WriteSpan _).SeekEnd 0).data = _
      rw [e2, e1]
      unfold storedSizeOfData
      rw [show w1.m_pFile.Tell = 0 from hpos', hf']

theorem leAt_leBytes (n v : Nat) : leAt (leBytes n v) 0 n = v % 256 ^ n := by
  have := leAt_leBytes_append n v []
  rwa [List.append_nil] at this

theorem leAt_skip (n v : Nat) (b : List Nat) (off m : Nat) (h : n ≤ off) :
    leAt (leBytes n v ++ b) off m = leAt b (off - n) m := by
  rw [leAt_append_right _ _ _ _ (by rw [leBytes_length]; exact h), leBytes_length]

theorem ofBytes_bytes (h : header) :
    header.ofBytes h.bytes
      = { m_SizeOfData := u32 h.m_SizeOfData
          m_SerialFileVersion := u16 h.m_SerialFileVersion
          m_PackSize := u16 h.m_PackSize
          m_nPointers := u16 h.m_nPointers
          m_nPacks := u16 h.m_nPacks
          m_nBlockSizes := u16 h.m_nBlockSizes
          m_ResourceVersion := u16 h.m_ResourceVersion
          m_MaxQualities := u16 h.m_MaxQualities
          m_AutomaticVersion := u16 h.m_AutomaticVersion } := by
  unfold header.ofBytes header.bytes
  simp only [List.append_assoc]
  have p4 : (256 : Nat) ^ 4 = 4294967296 := by norm_num
  have p2 : (256 : Nat) ^ 2 = 65536 := by norm_num
  simp only [leAt_leBytes_append, leAt_leBytes, leAt_skip, Nat.le_refl, Nat.sub_self,
    Nat.reduceLeDiff, Nat.reduceSub, p4, p2, u16, u32]

theorem ofBytes_append (bs rest : List Nat) (h : bs.length = 20) :
    header.ofBytes (bs ++ rest) = header.ofBytes bs := by
  have key : ∀ off n, off + n ≤ 20 → leAt (bs ++ rest) off n = leAt bs off n := by
    intro off n hon
    unfold leAt
    congr 1
    apply List.map_congr_left
    intro i hi
    have := List.mem_range.1 hi
    rw [List.getD_eq_getElem?_getD, List.getD_eq_getElem?_getD,
      List.getElem?_append_left (by omega)]
  unfold header.ofBytes
  simp only [key 0 4 (by omega), key 4 2 (by omega), key 6 2 (by omega),
    key 8 2 (by omega), key 10 2 (by omega), key 12 2 (by omega), key 14 2 (by omega),
    key 16 2 (by omega), key 18 2 (by omega)]

theorem ReadSpan_header (h : header) (rest : List Nat) :
    ({ data := h.bytes ++ rest, pos := 0 } : xfile).ReadSpan sizeof_header
      = some (h.bytes, { data := h.bytes ++ rest, pos := 20 }) := by
  unfold xfile.ReadSpan
  rw [if_pos (by simp [sizeof_header, header_bytes_length])]
  simp only [List.drop_zero, sizeof_header, Nat.zero_add]
  rw [List.take_append_of_le_length (by rw [header_bytes_length]),
    List.take_of_length_le (by rw [header_bytes_length])]

theorem Convert16_eq (v : Nat) (h : v < 65536) :
    endian.Convert16 v = (v % 256) * 256 + v / 256 := by
  unfold endian.Convert16 u16
  have e : v >>> 8 ||| v <<< 8 = v * 256 + v / 256 := by
    rw [Nat.lor_comm, Nat.shiftRight_eq_div_pow, Nat.shiftLeft_eq, Nat.mul_comm v (2 ^ 8),
      ← Nat.mul_add_lt_is_or (by omega) v]
  rw [e]
  omega

theorem Convert16_lt (v : Nat) : endian.Convert16 v < 65536 := by
  unfold endian.Convert16 u16
  exact Nat.mod_lt _ (by norm_num)

theorem Convert16_Convert16 (v : Nat) (h : v < 65536) :
    endian.Convert16 (endian.Convert16 v) = v := by
  rw [Convert16_eq _ (Convert16_lt v), Convert16_eq v h]
  omega

theorem SameOutput_setW (s : stream) (f : xfile) : SameOutput s.m_pWrite (s.setW f).m_pWrite :=
  ⟨rfl, rfl, rfl⟩

theorem SameOutput_choosePack (s : stream) (fl : mem_type) :
    SameOutput s.m_pWrite (s.choosePack fl).m_pWrite := by
  unfold stream.choosePack; dsimp only; split_ifs <;> exact ⟨rfl, rfl, rfl⟩

theorem SameOutput_walk : WalkInv SameOutput where
  refl := fun w => ⟨rfl, rfl, rfl⟩
  trans := fun a b c h1 h2 =>
    ⟨h2.1.trans h1.1, h2.2.1.trans h1.2.1, h2.2.2.trans h1.2.2⟩
  handle := fun s mem a n => ⟨rfl, rfl, rfl⟩
  hpd := fun s mem pA sz cnt fl => by
    by_cases h : cnt = 0
    · subst h; rw [HandlePtrDetails_zero]; exact ⟨rfl, rfl, rfl⟩
    · rw [HandlePtrDetails_pos s mem pA sz cnt fl h]
      exact SameOutput_choosePack s fl
  seek := fun s o => ⟨rfl, rfl, rfl⟩

theorem SaveWalk_output (s : stream) (File : xfile) (mem : Mem) (Object sizeofObject : Nat)
    (io : Stmts) (VERSION : Nat) (level : compression_level) (fl : mem_type) (swap : Bool) :
    (s.SaveWalk File mem Object sizeofObject io VERSION level fl swap).m_pWrite.m_pFile = File
    ∧ (s.SaveWalk File mem Object sizeofObject io VERSION level fl swap).m_pWrite.m_bEndian = swap
    ∧ (s.SaveWalk File mem Object sizeofObject io VERSION level fl swap).m_pWrite.m_CSizeStream
        = []
    ∧ (s.SaveWalk File mem Object sizeofObject io VERSION level fl swap).m_ClassSize
        = u32 sizeofObject := by
  unfold stream.SaveWalk
  have h := SerializeIO_inv SameOutput_walk io mem Object
    (s.SaveBegin File Object sizeofObject VERSION level fl swap)
  have hf := SerializeIO_frame io mem Object
    (s.SaveBegin File Object sizeofObject VERSION level fl swap)
  rw [frame_eq_iff] at hf
  refine ⟨h.1.trans rfl, h.2.1.trans rfl, h.2.2.trans rfl, hf.2.2.2.trans rfl⟩

theorem Save_ok {κ δ : Type} (codec : xcompression.codec κ δ) (fuel : Nat) (s : stream)
    (File : xfile) (mem : Mem) (Object sizeofObject : Nat) (io : Stmts) (VERSION : Nat)
    (level : compression_level) (fl : mem_type) (swap : Bool) (t : stream)
    (h : stream.Save codec fuel s File mem Object sizeofObject io VERSION level fl swap = .ok t)
    (hpos : File.pos = 0) :
    ∃ (info : List Nat) (x : Nat),
      t.m_pWrite.m_bEndian = swap
      ∧ t.m_Header.m_SerialFileVersion = u16 version_id_v
      ∧ t.m_Header.m_AutomaticVersion = u16 (u32 sizeofObject)
      ∧ t.m_Header.m_PackSize = u16 (u32 info.length)
      ∧ t.m_pWrite.m_pFile.data
          = ({ t.m_Header.forFile swap with m_SizeOfData := x } : header).bytes
            ++ info ++ payloadBytes swap t.m_pWrite.m_Packs
            ++ File.data.drop
                (sizeof_header + info.length + (payloadBytes swap t.m_pWrite.m_Packs).length) := by
  unfold stream.Save at h
  obtain ⟨hF, hE, _, hC⟩ := SaveWalk_output s File mem Object sizeofObject io VERSION level fl swap
  obtain ⟨packs, cs, info, _, _, hH, _, _, _, hb, _, hfile⟩ := SaveFile_ok codec fuel _ t h
  rw [hE] at hb
  rw [hF] at hfile
  have hd := hfile hpos
  rw [hb] at hd
  refine ⟨info, _, hb, ?_, ?_, ?_, hd⟩
  · rw [hH]; rfl
  · rw [hH]; show u16 _ = _; rw [hC]
  · rw [hH]; rfl

theorem LoadHeader_data (s0 : stream) (F : xfile) (H : header) (rest : List Nat) (n : Nat)
    (hd : F.data = H.bytes ++ rest) :
    (s0.LoadHeader (F.SeekOrigin 0) n).1
      = if u16 H.m_SerialFileVersion ≠ version_id_v then
          if endian.Convert16 (u16 H.m_SerialFileVersion) = version_id_v then
            .error (.serializer .WRONG_VERSION)
          else .error (.serializer .UNKOWN_FILE_TYPE)
        else if u16 H.m_AutomaticVersion ≠ n then .error (.serializer .WRONG_VERSION)
        else .ok () := by
  have e : F.SeekOrigin 0 = { data := H.bytes ++ rest, pos := 0 } := by
    unfold xfile.SeekOrigin; rw [hd]
  unfold stream.LoadHeader
  rw [e, ReadSpan_header]
  simp only [ofBytes_bytes]
  split_ifs <;> rfl

theorem rle_Pack_cases (e : rle_engine) (n : Nat) :
    ((rle.Pack e n).1 = .OK ∨ (rle.Pack e n).1 = .NOT_DONE ∨ (rle.Pack e n).1 = .INCOMPRESSIBLE)
    ∧ (rle.Pack e n).2.2.Source = e.Source
    ∧ (rle.Pack e n).2.2.BlockSize = e.BlockSize
    ∧ ((rle.Pack e n).1 ≠ .OK →
        e.Source.length - (rle.Pack e n).2.2.m_Position < e.Source.length - e.m_Position) := by
  simp only [rle]
  cases hb : (e.Source.drop e.m_Position).take e.BlockSize with
  | nil => simp
  | cons b bs =>
    have hlen : ((e.Source.drop e.m_Position).take e.BlockSize).length = bs.length + 1 := by
      rw [hb]; rfl
    have hpos : e.m_Position < e.Source.length := by
      simp only [List.length_take, List.length_drop] at hlen
      omega
    have hle : bs.length + 1 ≤ e.Source.length - e.m_Position := by
      simp only [List.length_take, List.length_drop] at hlen
      omega
    simp only [List.length_cons]
    split_ifs <;> simp <;> omega

theorem compressLoop_rle_ok (fuel : Nat) (RawData : List Nat) (c : compressor rle_engine)
    (Pack : pack_writing) (cs : List Nat)
    (h : c.engine.Source.length - c.engine.m_Position < fuel) :
    ∃ r, compressLoop rle fuel RawData c Pack cs = .ok r := by
  induction fuel generalizing c Pack cs with
  | zero => omega
  | succ k ih =>
    obtain ⟨hst, hS, _, hdec⟩ := rle_Pack_cases c.engine
      (min (u64sub RawData.length (c.getPos rle)) Pack.m_BlockSize)
    unfold compressLoop
    simp only [compressor.Pack]
    generalize hr : rle.Pack c.engine (min (u64sub RawData.length (c.getPos rle)) Pack.m_BlockSize)
      = r at hst hS hdec
    have hk : r.1 ≠ .OK → r.2.2.Source.length - r.2.2.m_Position < k := by
      intro hne
      have := hdec hne
      rw [hS]; omega
    by_cases h1 : r.1 = .INCOMPRESSIBLE
    · rw [if_pos h1]
      exact ih _ _ _ (hk (by rw [h1]; decide))
    · rw [if_neg h1]
      by_cases h2 : r.1 = .OK
      · rw [if_neg (by rw [h2]; decide), if_pos h2]
        exact ⟨_, rfl⟩
      · have h3 : r.1 = .NOT_DONE := by
          rcases hst with h | h | h
          · exact absurd h h2
          · exact h
          · exact absurd h h1
        rw [if_neg (by rw [h3]; decide), if_neg h2]
        exact ih _ _ _ (hk h2)

theorem compressPack_rle_ok (fuel : Nat) (level : compression_level) (Pack : pack_writing)
    (cs : List Nat) (h : Pack.m_Data.data.length < fuel) :
    ∃ r, compressPack rle fuel level Pack cs = .ok r := by
  unfold compressPack
  simp only [compressor.Init, rle, Option.map_some']
  apply compressLoop_rle_ok
  simp only [xfile.ToMemory, List.length_take, xfile.getFileLength]
  omega

theorem compressPacks_rle_ok (fuel : Nat) (level : compression_level)
    (packs : List pack_writing) (cs : List Nat)
    (h : ∀ p ∈ packs, p.m_Data.data.length < fuel) :
    ∃ r, compressPacks rle fuel level packs cs = .ok r := by
  induction packs generalizing cs with
  | nil => exact ⟨_, rfl⟩
  | cons p ps ih =>
    obtain ⟨r, hr⟩ := compressPack_rle_ok fuel level p cs (h p (List.mem_cons_self _ _))
    obtain ⟨r', hr'⟩ := ih r.2 (fun q hq => h q (List.mem_cons_of_mem _ hq))
    unfold compressPacks
    rw [hr]
    simp only
    rw [hr']
    exact ⟨_, rfl⟩

theorem compressInfo_rle_ok (level : compression_level) (InfoData : List Nat) :
    ∃ info, compressInfo rle level InfoData = .ok info := by
  unfold compressInfo
  simp only [compressor.Init, compressor.Pack, rle, Option.map_some', List.drop_zero,
    List.take_length]
  cases InfoData with
  | nil => simp
  | cons b bs =>
    simp only
    split_ifs <;> first | exact ⟨_, rfl⟩ | skip
    all_goals simp_all

theorem updateEndian_compress (w : writing) :
    w.updateEndian.m_Packs.map (fun p => (p.m_CompressSize, p.m_CompressData))
      = w.m_Packs.map (fun p => (p.m_CompressSize, p.m_CompressData)) := by
  unfold writing.updateEndian
  split
  · simp only [List.map_map]
    rfl
  · rfl

theorem u64sub_le (a b : Nat) (h : b ≤ a) : u64sub a b ≤ a - b := by
  unfold u64sub
  omega

theorem overwrite_bound (d : List Nat) (p : Nat) (bs : List Nat) (h : p ≤ d.length) :
    p + bs.length ≤ (overwrite d p bs).length := by
  cases bs with
  | nil => exact h
  | cons b bs =>
    rw [overwrite_length _ _ _ (List.cons_ne_nil _ _)]
    omega

theorem addBlock_bound (P : pack_writing) (n : Nat) :
    (P.addBlock n).m_CompressSize ≤ P.m_CompressSize + n
    ∧ (P.addBlock n).m_CompressData = P.m_CompressData := by
  refine ⟨?_, rfl⟩
  show u32 (P.m_CompressSize + u32 n) ≤ _
  unfold u32
  have := Nat.mod_le n 4294967296
  have := Nat.mod_le (P.m_CompressSize + n % 4294967296) 4294967296
  omega

theorem rle_Pack_position (e : rle_engine) (n : Nat) :
    (rle.Pack e n).2.2.m_Position
        = e.m_Position + ((e.Source.drop e.m_Position).take e.BlockSize).length
    ∧ ((rle.Pack e n).1 = .INCOMPRESSIBLE → (rle.Pack e n).2.1 = []) := by
  simp only [rle]
  cases hb : (e.Source.drop e.m_Position).take e.BlockSize with
  | nil => simp
  | cons b bs =>
    by_cases hc : 5 ≤ (b :: bs).length ∧ (b :: bs).all (fun x => x == b) = true
    · dsimp only
      rw [if_pos hc]
      refine ⟨rfl, ?_⟩
      dsimp only
      split <;> intro h <;> cases h
    · dsimp only
      rw [if_neg hc]
      exact ⟨rfl, fun _ => rfl⟩

theorem compressLoop_rle_bounds (fuel : Nat) (RawData : List Nat) (c : compressor rle_engine)
    (Pack : pack_writing) (cs : List Nat) (r : pack_writing × List Nat)
    (hS : c.engine.Source = RawData) (hp : c.engine.m_Position ≤ RawData.length)
    (hb : Pack.m_CompressSize ≤ Pack.m_CompressData.length)
    (h : compressLoop rle fuel RawData c Pack cs = .ok r) :
    r.1.m_CompressSize ≤ r.1.m_CompressData.length := by
  induction fuel generalizing c Pack cs with
  | zero => cases h
  | succ k ih =>
    obtain ⟨_, hS1, _, _⟩ := rle_Pack_cases c.engine
      (min (u64sub RawData.length (c.getPos rle)) Pack.m_BlockSize)
    obtain ⟨hpos, hinc⟩ := rle_Pack_position c.engine
      (min (u64sub RawData.length (c.getPos rle)) Pack.m_BlockSize)
    have hT : min (u64sub RawData.length (c.getPos rle)) Pack.m_BlockSize
        ≤ RawData.length - c.engine.m_Position :=
      Nat.le_trans (Nat.min_le_left _ _) (u64sub_le _ _ hp)
    have hp1 : (rle.Pack c.engine
        (min (u64sub RawData.length (c.getPos rle)) Pack.m_BlockSize)).2.2.m_Position
          ≤ RawData.length := by
      rw [hpos, hS]
      simp only [List.length_take, List.length_drop]
      omega
    unfold compressLoop at h
    simp only [compressor.Pack] at h
    generalize hr : rle.Pack c.engine (min (u64sub RawData.length (c.getPos rle)) Pack.m_BlockSize)
      = q at h hS1 hinc hp1
    have key : ∀ (P1 : pack_writing) (n : Nat),
        P1.m_CompressSize + n ≤ P1.m_CompressData.length →
        (P1.addBlock n).m_CompressSize ≤ (P1.addBlock n).m_CompressData.length := by
      intro P1 n hle
      obtain ⟨a1, a2⟩ := addBlock_bound P1 n
      rw [a2]
      exact Nat.le_trans a1 hle
    by_cases h1 : q.1 = .INCOMPRESSIBLE
    · rw [if_pos h1] at h
      refine ih _ _ _ (hS1.trans hS) hp1 (key _ _ ?_) h
      have hq := hinc h1
      show Pack.m_CompressSize + _ ≤ (overwrite (overwrite Pack.m_CompressData
        Pack.m_CompressSize q.2.1) Pack.m_CompressSize
          (List.take _ (List.drop c.engine.m_Position RawData))).length
      rw [hq]
      show Pack.m_CompressSize + _ ≤ (overwrite Pack.m_CompressData Pack.m_CompressSize
          (List.take _ (List.drop c.engine.m_Position RawData))).length
      refine Nat.le_trans ?_ (overwrite_bound _ _ _ hb)
      refine Nat.add_le_add_left ?_ _
      rw [List.length_take, List.length_drop]
      exact Nat.le_min.2 ⟨Nat.le_refl _, hT⟩
    · rw [if_neg h1] at h
      split at h
      · cases h
      · have hb1 : Pack.m_CompressSize + q.2.1.length
            ≤ (overwrite Pack.m_CompressData Pack.m_CompressSize q.2.1).length :=
          overwrite_bound _ _ _ hb
        have hb0 : Pack.m_CompressSize
            ≤ (overwrite Pack.m_CompressData Pack.m_CompressSize q.2.1).length :=
          Nat.le_trans hb (overwrite_length_ge _ _ _)
        split at h
        · simp only [Outcome.ok.injEq] at h
          subst h
          dsimp only
          split
          · exact key _ _ hb1
          · exact hb0
        · refine ih _ _ _ (hS1.trans hS) hp1 ?_ h
          split
          · exact key _ _ hb1
          · exact hb0

theorem compressPack_rle_bounds (fuel : Nat) (level : compression_level) (Pack : pack_writing)
    (cs : List Nat) (r : pack_writing × List Nat)
    (h : compressPack rle fuel level Pack cs = .ok r) :
    r.1.m_CompressSize ≤ r.1.m_CompressData.length := by
  unfold compressPack at h
  simp only [compressor.Init, rle, Option.map_some'] at h
  refine compressLoop_rle_bounds fuel _ _ _ _ _ ?_ ?_ ?_ h
  · rfl
  · exact Nat.zero_le _
  · exact Nat.zero_le _

theorem compressPacks_rle_bounds (fuel : Nat) (level : compression_level)
    (packs : List pack_writing) (cs : List Nat) (r : List pack_writing × List Nat)
    (h : compressPacks rle fuel level packs cs = .ok r) :
    ∀ P ∈ r.1, P.m_CompressSize ≤ P.m_CompressData.length := by
  induction packs generalizing cs r with
  | nil =>
    simp only [compressPacks, Outcome.ok.injEq] at h
    subst h
    intro P hP
    simp at hP
  | cons p ps ih =>
    unfold compressPacks at h
    cases h1 : compressPack rle fuel level p cs with
    | error e => rw [h1] at h; cases h
    | unfinished => rw [h1] at h; cases h
    | undefined => rw [h1] at h; cases h
    | ok r1 =>
      rw [h1] at h
      simp only at h
      cases h2 : compressPacks rle fuel level ps r1.2 with
      | error e => rw [h2] at h; cases h
      | unfinished => rw [h2] at h; cases h
      | undefined => rw [h2] at h; cases h
      | ok r2 =>
        rw [h2] at h
        simp only [Outcome.ok.injEq] at h
        subst h
        intro P hP
        rcases List.mem_cons.mp hP with rfl | hP
        · exact compressPack_rle_bounds fuel level p cs r1 h1
        · exact ih _ _ h2 P hP

theorem bounds_congr (φ : Nat → List Nat → Prop) (ps qs : List pack_writing)
    (h : ps.map (fun p => (p.m_CompressSize, p.m_CompressData))
      = qs.map (fun p => (p.m_CompressSize, p.m_CompressData)))
    (hq : ∀ Q ∈ qs, φ Q.m_CompressSize Q.m_CompressData) :
    ∀ P ∈ ps, φ P.m_CompressSize P.m_CompressData := by
  intro P hP
  have hm : (P.m_CompressSize, P.m_CompressData)
      ∈ qs.map (fun p => (p.m_CompressSize, p.m_CompressData)) := by
    rw [← h]
    exact List.mem_map.2 ⟨P, hP, rfl⟩
  obtain ⟨Q, hQ, e⟩ := List.mem_map.1 hm
  simp only [Prod.mk.injEq] at e
  rw [← e.1, ← e.2]
  exact hq Q hQ

theorem SaveFile_rle_ok_of (fuel : Nat) (s : stream)
    (h : ∀ p ∈ s.m_pWrite.m_Packs, p.m_Data.data.length < fuel)
    (hb : ∀ r, compressPacks rle fuel s.m_CompressionLevel s.m_pWrite.m_Packs
        s.m_pWrite.m_CSizeStream = .ok r →
      ∀ P ∈ r.1, (if s.m_pWrite.m_bEndian then endian.Convert32 P.m_CompressSize
        else P.m_CompressSize) ≤ P.m_CompressData.length) :
    ∃ t, stream.SaveFile rle fuel s = .ok t := by
  obtain ⟨r, hr⟩ := compressPacks_rle_ok fuel s.m_CompressionLevel s.m_pWrite.m_Packs
    s.m_pWrite.m_CSizeStream h
  unfold stream.SaveFile
  rw [hr]
  simp only
  obtain ⟨info, hinfo⟩ := compressInfo_rle_ok s.m_CompressionLevel
    (({ s.m_pWrite with m_Packs := r.1, m_CSizeStream := r.2 } : writing).updateEndian).InfoData
  rw [hinfo]
  simp only
  rw [writePayload_eq]
  · exact ⟨_, rfl⟩
  · rw [updateEndian_bEndian]
    exact bounds_congr
      (fun n d => (if s.m_pWrite.m_bEndian then endian.Convert32 n else n) ≤ d.length) _ _
      (updateEndian_compress _) (hb r hr)

theorem SaveFile_rle_ok (fuel : Nat) (s : stream)
    (h : ∀ p ∈ s.m_pWrite.m_Packs, p.m_Data.data.length < fuel)
    (hsw : s.m_pWrite.m_bEndian = false) :
    ∃ t, stream.SaveFile rle fuel s = .ok t := by
  apply SaveFile_rle_ok_of fuel s h
  intro r hr P hP
  rw [hsw]
  exact compressPacks_rle_bounds _ _ _ _ _ hr P hP

theorem Outcome_eq_ok (o : Outcome stream) (h : o.isOk = true) : o = .ok o.result := by
  cases o with
  | ok t => rfl
  | error e => cases h
  | unfinished => cases h
  | undefined => cases h

theorem Load_not_unknown {κ δ : Type} (codec : xcompression.codec κ δ)
    (Allocate : Nat → mem_type → Nat → Nat → Nat) (s0 : stream) (F : xfile) (mem : Mem)
    (n VERSION : Nat)
    (h : (s0.LoadHeader F n).1 ≠ .error (.serializer .UNKOWN_FILE_TYPE)) :
    stream.Load codec Allocate s0 F mem n VERSION ≠ .error (.serializer .UNKOWN_FILE_TYPE) := by
  unfold stream.Load
  split
  · rename_i e s1 F1 he
    rw [he] at h
    intro hc
    cases hc
    exact h rfl
  · split
    · intro hc; cases hc
    · split <;> intro hc <;> cases hc

theorem Load_header_error {κ δ : Type} (codec : xcompression.codec κ δ)
    (Allocate : Nat → mem_type → Nat → Nat → Nat) (s0 : stream) (F : xfile) (mem : Mem)
    (n VERSION : Nat) (e : xerr) (h : (s0.LoadHeader F n).1 = .error e) :
    stream.Load codec Allocate s0 F mem n VERSION = .error e := by
  unfold stream.Load
  split
  · rename_i e1 s1 F1 he
    rw [he] at h
    cases h
    rfl
  · rename_i u s1 F1 he
    rw [he] at h
    cases h

theorem LoadHeader_swapped_back {κ δ : Type} (codec : xcompression.codec κ δ)
    (fuel : Nat) (s : stream) (File : xfile) (mem : Mem) (Object sizeofObject : Nat)
    (io : Stmts) (VERSION : Nat) (level : compression_level) (fl : mem_type) (t : stream)
    (h : stream.Save codec fuel s File mem Object sizeofObject io VERSION level fl true = .ok t)
    (hpos : File.pos = 0) (s0 : stream) (n : Nat) :
    (s0.LoadHeader (swapHeaderInFile (t.m_pWrite.m_pFile.SeekOrigin 0)) n).1
      = if u16 (u32 sizeofObject) ≠ n then .error (.serializer .WRONG_VERSION) else .ok () := by
  obtain ⟨info, x, _, hv, ha, _, hd⟩ :=
    Save_ok codec fuel s File mem Object sizeofObject io VERSION level fl true t h hpos
  rw [List.append_assoc, List.append_assoc] at hd
  have hd' : (swapHeaderInFile (t.m_pWrite.m_pFile.SeekOrigin 0)).data
      = ((header.ofBytes ({ t.m_Header.forFile true with m_SizeOfData := x } : header).bytes).forFile
          true).bytes
        ++ (info ++ (payloadBytes true t.m_pWrite.m_Packs ++ File.data.drop
          (sizeof_header + info.length + (payloadBytes true t.m_pWrite.m_Packs).length))) := by
    simp only [swapHeaderInFile, xfile.SeekOrigin, sizeof_header]
    rw [hd, List.take_append_of_le_length (by rw [header_bytes_length]),
      List.take_of_length_le (by rw [header_bytes_length]),
      List.drop_append_of_le_length (by rw [header_bytes_length]),
      List.drop_of_length_le (by rw [header_bytes_length]), List.nil_append]
    rfl
  have e0 : swapHeaderInFile (t.m_pWrite.m_pFile.SeekOrigin 0)
      = (swapHeaderInFile (t.m_pWrite.m_pFile.SeekOrigin 0)).SeekOrigin 0 := rfl
  rw [e0, LoadHeader_data s0 _ _ _ n hd', ofBytes_bytes]
  have e1 : u16 (endian.Convert16 (u16 (endian.Convert16 t.m_Header.m_SerialFileVersion)))
      = version_id_v := by rw [hv]; decide
  have e2 : u16 (endian.Convert16 (u16 (endian.Convert16 t.m_Header.m_AutomaticVersion)))
      = u16 (u32 sizeofObject) := by
    rw [ha]
    have hlt : u16 (u32 sizeofObject) < 65536 := Nat.mod_lt _ (by norm_num)
    rw [show u16 (endian.Convert16 (u16 (u32 sizeofObject)))
        = endian.Convert16 (u16 (u32 sizeofObject)) from Nat.mod_eq_of_lt (Convert16_lt _),
      Convert16_Convert16 _ hlt]
    exact Nat.mod_eq_of_lt hlt
  show (if u16 (endian.Convert16 (u16 (endian.Convert16 t.m_Header.m_SerialFileVersion)))
      ≠ version_id_v then _ else _) = _
  rw [if_neg (not_not.2 e1)]
  show (if u16 (endian.Convert16 (u16 (endian.Convert16 t.m_Header.m_AutomaticVersion)))
      ≠ n then _ else _) = _
  rw [e2]

theorem SaveBegin_packs (s : stream) (File : xfile) (Object sizeofObject VERSION : Nat)
    (level : compression_level) (fl : mem_type) (swap : Bool) :
    (s.SaveBegin File Object sizeofObject VERSION level fl swap).m_pWrite.m_Packs
      = [{ m_PackFlags := fl
           m_Data := { data := List.replicate (u32 sizeofObject) 32, pos := u32 sizeofObject } }] := by
  simp [stream.SaveBegin, writing.AllocatePack, stream.setW, stream.getW, updateAt, xfile.putC,
    xfile.WriteSpan, overwrite_zero]

theorem testBit_255 (j : Nat) : Nat.testBit 255 j = decide (j < 8) := by
  have := Nat.testBit_two_pow_sub_one 8 j
  simpa using this

theorem Convert32_testBit (v i : Nat) :
    (endian.Convert32 v).testBit i
      = (decide (i < 32) &&
          (if i < 8 then v.testBit (i + 24)
           else if i < 16 then v.testBit (i + 8)
           else if i < 24 then v.testBit (i - 8)
           else v.testBit (i - 24))) := by
  unfold endian.Convert32 u32
  have m2 : (0xFF00 : Nat) = 255 <<< 8 := by decide
  have m3 : (0xFF0000 : Nat) = 255 <<< 16 := by decide
  have m4 : (4294967296 : Nat) = 2 ^ 32 := by decide
  rw [m2, m3, m4]
  simp only [Nat.testBit_mod_two_pow, Nat.testBit_or, Nat.testBit_and, Nat.testBit_shiftRight,
    Nat.testBit_shiftLeft, testBit_255]
  by_cases h1 : i < 8
  · simp [h1, show i < 32 by omega, show ¬ (8 ≤ i) by omega, show ¬ (16 ≤ i) by omega,
      show ¬ (24 ≤ i) by omega, Nat.add_comm]
  · by_cases h2 : i < 16
    · simp [h1, h2, show i < 32 by omega, show (8 ≤ i) by omega, show ¬ (16 ≤ i) by omega,
        show ¬ (24 ≤ i) by omega, show i - 8 < 8 by omega, Nat.add_comm]
    · by_cases h3 : i < 24
      · simp [h1, h2, h3, show i < 32 by omega, show (8 ≤ i) by omega, show (16 ≤ i) by omega,
          show ¬ (24 ≤ i) by omega, show i - 16 < 8 by omega, show ¬ (i - 8 < 8) by omega]
      · by_cases h4 : i < 32
        · simp [h1, h2, h3, h4, show (8 ≤ i) by omega, show (16 ≤ i) by omega,
            show (24 ≤ i) by omega, show ¬ (i - 16 < 8) by omega, show ¬ (i - 8 < 8) by omega]
        · simp [h4]

theorem Convert32_lt (v : Nat) : endian.Convert32 v < 4294967296 := by
  unfold endian.Convert32 u32
  exact Nat.mod_lt _ (by norm_num)

theorem Convert32_Convert32 (v : Nat) (h : v < 4294967296) :
    endian.Convert32 (endian.Convert32 v) = v := by
  apply Nat.eq_of_testBit_eq
  intro i
  rw [Convert32_testBit]
  by_cases h4 : i < 32
  · simp only [h4, decide_True, Bool.true_and]
    by_cases h1 : i < 8
    · rw [if_pos h1, Convert32_testBit]
      simp [show i + 24 < 32 by omega, show ¬ (i + 24 < 8) by omega,
        show ¬ (i + 24 < 16) by omega, show ¬ (i + 24 < 24) by omega]
    · by_cases h2 : i < 16
      · rw [if_neg h1, if_pos h2, Convert32_testBit]
        simp [show i + 8 < 32 by omega, show ¬ (i + 8 < 8) by omega,
          show ¬ (i + 8 < 16) by omega, show (i + 8 < 24) by omega]
      · by_cases h3 : i < 24
        · rw [if_neg h1, if_neg h2, if_pos h3, Convert32_testBit]
          simp [show i - 8 < 32 by omega, show ¬ (i - 8 < 8) by omega,
            show (i - 8 < 16) by omega]
          congr 1; omega
        · rw [if_neg h1, if_neg h2, if_neg h3, Convert32_testBit]
          simp [show i - 24 < 32 by omega, show (i - 24 < 8) by omega]
          congr 1; omega
  · simp only [h4, decide_False, Bool.false_and]
    symm
    apply Nat.testBit_lt_two_pow
    calc v < 4294967296 := h
      _ = 2 ^ 32 := by norm_num
      _ ≤ 2 ^ i := Nat.pow_le_pow_right (by norm_num) (by omega)

theorem compressLoop_count {κ δ : Type} (codec : xcompression.codec κ δ) (fuel : Nat)
    (RawData : List Nat) (c : compressor κ) (Pack : pack_writing) (cs : List Nat)
    (r : pack_writing × List Nat) (h : compressLoop codec fuel RawData c Pack cs = .ok r)
    (hn : Pack.m_nBlocks < 4294967296) :
    ∃ k, r.2.length = cs.length + k ∧ r.1.m_nBlocks = u32 (Pack.m_nBlocks + k)
      ∧ r.1.m_PackFlags = Pack.m_PackFlags ∧ r.1.m_UncompressSize = Pack.m_UncompressSize := by
  induction fuel generalizing c Pack cs with
  | zero => simp [compressLoop] at h
  | succ n ih =>
    unfold compressLoop at h
    simp only at h
    generalize compressor.Pack codec c
      (min (u64sub RawData.length (compressor.getPos codec c)) Pack.m_BlockSize) = r0 at h
    have hu : ∀ a, u32 a < 4294967296 := fun a => Nat.mod_lt _ (by norm_num)
    split at h
    · obtain ⟨k, h1, h2, h3, h4⟩ := ih _ _ _ h (hu _)
      refine ⟨k + 1, ?_, ?_, h3, h4⟩
      · rw [h1]; simp only [List.length_append, List.length_singleton]; omega
      · rw [h2]; simp only [pack_writing.addBlock, u32]; omega
    · split at h
      · cases h
      · by_cases hz : r0.2.1.length > 0
        · rw [if_pos hz, if_pos hz] at h
          split at h
          · simp only [Outcome.ok.injEq] at h
            subst h
            exact ⟨1, by simp, rfl, rfl, rfl⟩
          · obtain ⟨k, h1, h2, h3, h4⟩ := ih _ _ _ h (hu _)
            refine ⟨k + 1, ?_, ?_, h3, h4⟩
            · rw [h1]; simp only [List.length_append, List.length_singleton]; omega
            · rw [h2]; simp only [pack_writing.addBlock, u32]; omega
        · rw [if_neg hz, if_neg hz] at h
          split at h
          · simp only [Outcome.ok.injEq] at h
            subst h
            refine ⟨0, rfl, ?_, rfl, rfl⟩
            show Pack.m_nBlocks = u32 (Pack.m_nBlocks + 0)
            unfold u32; omega
          · obtain ⟨k, h1, h2, h3, h4⟩ := ih _ _ _ h hn
            exact ⟨k, h1, h2, h3, h4⟩

theorem compressPack_count {κ δ : Type} (codec : xcompression.codec κ δ) (fuel : Nat)
    (level : compression_level) (Pack : pack_writing) (cs : List Nat)
    (r : pack_writing × List Nat) (h : compressPack codec fuel level Pack cs = .ok r) :
    ∃ k, r.2.length = cs.length + k ∧ r.1.m_nBlocks = u32 k
      ∧ r.1.m_PackFlags = Pack.m_PackFlags
      ∧ r.1.m_UncompressSize = u32 Pack.m_Data.data.length := by
  unfold compressPack at h
  simp only at h
  split at h
  · cases h
  · obtain ⟨k, h1, h2, h3, h4⟩ := compressLoop_count codec fuel _ _ _ _ r h
      (show (0 : Nat) < 4294967296 by norm_num)
    refine ⟨k, h1, ?_, h3, h4⟩
    rw [h2]
    show u32 (0 + k) = u32 k
    rw [Nat.zero_add]

theorem compressPacks_count {κ δ : Type} (codec : xcompression.codec κ δ) (fuel : Nat)
    (level : compression_level) (packs : List pack_writing) (cs : List Nat)
    (r : List pack_writing × List Nat) (h : compressPacks codec fuel level packs cs = .ok r) :
    ∃ ks : List Nat, r.2.length = cs.length + ks.sum
      ∧ r.1.map (fun p => p.m_nBlocks) = ks.map u32
      ∧ r.1.length = packs.length
      ∧ r.1.map (fun p => p.m_PackFlags) = packs.map (fun p => p.m_PackFlags)
      ∧ r.1.map (fun p => p.m_UncompressSize)
          = packs.map (fun p => u32 p.m_Data.data.length) := by
  induction packs generalizing cs r with
  | nil =>
    simp only [compressPacks, Outcome.ok.injEq] at h
    subst h
    exact ⟨[], rfl, rfl, rfl, rfl, rfl⟩
  | cons p ps ih =>
    unfold compressPacks at h
    split at h
    · rename_i r1 hr1
      split at h
      · rename_i r2 hr2
        simp only [Outcome.ok.injEq] at h
        subst h
        obtain ⟨k, a1, a2, a3, a4⟩ := compressPack_count codec fuel level p cs r1 hr1
        obtain ⟨ks, b1, b2, b3, b4, b5⟩ := ih r1.2 r2 hr2
        refine ⟨k :: ks, ?_, ?_, ?_, ?_, ?_⟩
        · show r2.2.length = _
          rw [b1, a1, List.sum_cons]; omega
        · simp only [List.map_cons, b2, a2]
        · simp only [List.length_cons, b3]
        · simp only [List.map_cons, b4, a3]
        · simp only [List.map_cons, b5, a4]
      · cases h
      · cases h
      · cases h
    · cases h
    · cases h
    · cases h

theorem sum_map_u32 (ks : List Nat) (h : ks.sum < 4294967296) : ks.map u32 = ks := by
  induction ks with
  | nil => rfl
  | cons k ks ih =>
    rw [List.sum_cons] at h
    rw [List.map_cons, ih (by omega)]
    congr 1
    exact Nat.mod_eq_of_lt (by omega)

theorem compressPack_root (cs : List Nat) :
    compressPack rle 32 .MEDIUM { m_Data := { data := List.replicate 16 32, pos := 16 } } cs
      = .ok (compressedRootPack, cs ++ [4]) := rfl

theorem compressPack_unique (cs : List Nat) :
    compressPack rle 32 .MEDIUM
        { m_PackFlags := { m_bUnique := true }, m_Data := { data := List.replicate 8 32, pos := 0 } }
        cs
      = .ok (compressedUniquePack, cs ++ [4]) := rfl

theorem compressPacks_cons_ok {κ δ : Type} (codec : xcompression.codec κ δ) (fuel : Nat)
    (level : compression_level) (p : pack_writing) (ps : List pack_writing) (cs : List Nat)
    (q : pack_writing) (cs1 : List Nat) (qs : List pack_writing) (cs2 : List Nat)
    (h1 : compressPack codec fuel level p cs = .ok (q, cs1))
    (h2 : compressPacks codec fuel level ps cs1 = .ok (qs, cs2)) :
    compressPacks codec fuel level (p :: ps) cs = .ok (q :: qs, cs2) := by
  unfold compressPacks
  rw [h1]
  simp only
  rw [h2]

theorem compressPacks_replicate (n : Nat) (cs : List Nat) :
    compressPacks rle 32 .MEDIUM
        (List.replicate n
          { m_PackFlags := { m_bUnique := true }
            m_Data := { data := List.replicate 8 32, pos := 0 } }) cs
      = .ok (List.replicate n compressedUniquePack, cs ++ List.replicate n 4) := by
  induction n generalizing cs with
  | zero => simp [compressPacks]
  | succ n ih =>
    rw [List.replicate_succ, List.replicate_succ, List.replicate_succ]
    have h2 := ih (cs ++ [4])
    rw [List.append_assoc, List.singleton_append] at h2
    exact compressPacks_cons_ok rle 32 .MEDIUM _ _ cs _ _ _ _ (compressPack_unique cs) h2

theorem manyPacks_compressPacks :
    compressPacks rle 32 manyPacks.m_CompressionLevel manyPacks.m_pWrite.m_Packs
        manyPacks.m_pWrite.m_CSizeStream
      = .ok (compressedRootPack :: List.replicate 65535 compressedUniquePack,
          4 :: List.replicate 65535 4) := by
  rw [manyPacks_packs]
  have e1 : manyPacks.m_CompressionLevel = .MEDIUM := rfl
  have e2 : manyPacks.m_pWrite.m_CSizeStream = [] := rfl
  rw [e1, e2]
  have h1 := compressPack_root []
  rw [List.nil_append] at h1
  have h2 := compressPacks_replicate 65535 [4]
  rw [List.singleton_append] at h2
  exact compressPacks_cons_ok rle 32 .MEDIUM _ _ [] _ _ _ _ h1 h2

theorem length_flatMap_const {α : Type} (l : List α) (f : α → List Nat) (c : Nat)
    (h : ∀ x ∈ l, (f x).length = c) : (l.flatMap f).length = c * l.length := by
  induction l with
  | nil => simp
  | cons x xs ih =>
    rw [List.flatMap_cons, List.length_append, h x (List.mem_cons_self _ _),
      ih (fun y hy => h y (List.mem_cons_of_mem _ hy)), List.length_cons]
    ring

theorem pack_bytes_length (p : pack) : p.bytes.length = 12 := by
  simp [pack.bytes, leBytes_length]

theorem ref_bytes_length (r : ref) : r.bytes.length = 16 := by
  simp [ref.bytes, leBytes_length]

theorem InfoData_length (w : writing) :
    w.InfoData.length = sizeof_pack * w.m_Packs.length + sizeof_ref * w.m_PointerTable.length
      + 4 * w.m_CSizeStream.length := by
  unfold writing.InfoData
  rw [List.length_append, List.length_append,
    length_flatMap_const _ _ 12 (fun p _ => pack_bytes_length _),
    length_flatMap_const _ _ 16 (fun r _ => ref_bytes_length r),
    length_flatMap_const _ _ 4 (fun c _ => leBytes_length 4 c)]
  rfl

theorem compressInfo_rle_raw (level : compression_level) (b x : Nat) (rest : List Nat)
    (hx : x ∈ rest) (hne : x ≠ b) :
    compressInfo rle level (b :: rest) = .ok (b :: rest) := by
  unfold compressInfo
  simp only [compressor.Init, compressor.Pack, rle, Option.map_some', List.drop_zero,
    List.take_length]
  have hall : ¬ (5 ≤ (b :: rest).length ∧ (b :: rest).all (fun y => y == b) = true) := by
    intro hc
    have := List.all_eq_true.1 hc.2 x (List.mem_cons_of_mem _ hx)
    simp only [beq_iff_eq] at this
    exact hne this
  rw [if_neg hall]
  rfl
theorem updateEndian_false (w : writing) (h : w.m_bEndian = false) : w.updateEndian = w := by
  unfold writing.updateEndian
  rw [if_neg (by rw [h]; decide)]

theorem updateEndian_lengths (w : writing) :
    w.updateEndian.m_Packs.length = w.m_Packs.length
    ∧ w.updateEndian.m_PointerTable.length = w.m_PointerTable.length
    ∧ w.updateEndian.m_CSizeStream.length = w.m_CSizeStream.length := by
  unfold writing.updateEndian
  split
  · simp
  · exact ⟨rfl, rfl, rfl⟩

theorem updateEndian_nBlocks (w : writing) (h : ∀ p ∈ w.m_Packs, p.m_nBlocks < 4294967296) :
    w.updateEndian.m_Packs.map
        (fun p => if w.m_bEndian then endian.Convert32 p.m_nBlocks else p.m_nBlocks)
      = w.m_Packs.map (fun p => p.m_nBlocks) := by
  unfold writing.updateEndian
  by_cases hb : w.m_bEndian = true
  · rw [if_pos hb]
    simp only [hb, if_true, List.map_map]
    apply List.map_congr_left
    intro p hp
    exact Convert32_Convert32 _ (h p hp)
  · rw [if_neg hb]
    simp only [hb, if_false]
    rfl

theorem InfoData_congr (w w' : writing) (h1 : w'.m_Packs = w.m_Packs)
    (h2 : w'.m_PointerTable = w.m_PointerTable) (h3 : w'.m_CSizeStream = w.m_CSizeStream) :
    w'.InfoData = w.InfoData := by
  unfold writing.InfoData
  rw [h1, h2, h3]

theorem SaveFile_result {κ δ : Type} (codec : xcompression.codec κ δ) (fuel : Nat)
    (s t : stream) (h : stream.SaveFile codec fuel s = .ok t) :
    ∃ packs cs info,
      compressPacks codec fuel s.m_CompressionLevel s.m_pWrite.m_Packs s.m_pWrite.m_CSizeStream
        = .ok (packs, cs)
      ∧ t.m_pWrite.m_Packs = (s.compressed packs cs).m_Packs
      ∧ t.m_pWrite.m_PointerTable = (s.compressed packs cs).m_PointerTable
      ∧ t.m_pWrite.m_CSizeStream = (s.compressed packs cs).m_CSizeStream
      ∧ t.m_pWrite.m_bEndian = s.m_pWrite.m_bEndian
      ∧ compressInfo codec s.m_CompressionLevel t.m_pWrite.InfoData = .ok info
      ∧ t.m_Header.m_SerialFileVersion = u16 version_id_v
      ∧ t.m_Header.m_nPacks = u16 t.m_pWrite.m_Packs.length
      ∧ t.m_Header.m_nPointers = u16 t.m_pWrite.m_PointerTable.length
      ∧ t.m_Header.m_nBlockSizes = u16 t.m_pWrite.m_CSizeStream.length
      ∧ t.m_Header.m_PackSize = u16 (u32 info.length)
      ∧ t.m_Header.m_AutomaticVersion = u16 s.m_ClassSize
      ∧ (s.m_pWrite.m_pFile.pos = 0 →
          t.m_pWrite.m_pFile.data
            = ({ t.m_Header.forFile t.m_pWrite.m_bEndian with
                  m_SizeOfData := (storedSizeOfData t.m_pWrite.m_bEndian info.length
                    (payloadBytes t.m_pWrite.m_bEndian t.m_pWrite.m_Packs).length) } : header).bytes
              ++ info ++ payloadBytes t.m_pWrite.m_bEndian t.m_pWrite.m_Packs
              ++ s.m_pWrite.m_pFile.data.drop
                  (sizeof_header + info.length
                    + (payloadBytes t.m_pWrite.m_bEndian t.m_pWrite.m_Packs).length)) := by
  obtain ⟨packs, cs, info, h1, h2, hH, hP, hR, hC, hE, _, hF⟩ := SaveFile_ok codec fuel s t h
  refine ⟨packs, cs, info, h1, hP, hR, hC, hE, ?_, ?_, ?_, ?_, ?_, ?_, ?_, hF⟩
  · rw [InfoData_congr _ _ hP hR hC]; exact h2
  · rw [hH]; rfl
  · rw [hH, hP]; rfl
  · rw [hH, hR]; rfl
  · rw [hH, hC]; rfl
  · rw [hH]; rfl
  · rw [hH]; rfl

theorem SaveFile_manyPacks :
    ∃ t : stream,
      stream.SaveFile rle 32 manyPacks = .ok t
      ∧ t.m_pWrite.m_Packs = compressedRootPack :: List.replicate 65535 compressedUniquePack
      ∧ t.m_pWrite.m_PointerTable = []
      ∧ t.m_pWrite.m_CSizeStream = 4 :: List.replicate 65535 4
      ∧ t.m_pWrite.m_bEndian = false
      ∧ t.m_Header.m_nPacks = 0 ∧ t.m_Header.m_nBlockSizes = 0 ∧ t.m_Header.m_PackSize = 0
      ∧ t.m_pWrite.InfoData.length = 1048576
      ∧ ∃ H : header, t.m_pWrite.m_pFile.data
          = H.bytes ++ t.m_pWrite.InfoData ++ payloadBytes false t.m_pWrite.m_Packs := by
  have hfuel : ∀ p ∈ manyPacks.m_pWrite.m_Packs, p.m_Data.data.length < 32 := by
    intro p hp
    rw [manyPacks_packs, List.mem_cons] at hp
    rcases hp with hp | hp
    · rw [hp]; simp only [List.length_replicate]; omega
    · rw [List.eq_of_mem_replicate hp]; simp only [List.length_replicate]; omega
  obtain ⟨t, ht⟩ := SaveFile_rle_ok 32 manyPacks hfuel rfl
  obtain ⟨packs, cs, info, h1, hP, hR, hC, hE, h2, _, hnp, _, hnb, hps, _, hF⟩ :=
    SaveFile_result rle 32 manyPacks t ht
  rw [manyPacks_compressPacks] at h1
  simp only [Outcome.ok.injEq, Prod.mk.injEq] at h1
  obtain ⟨e1, e2⟩ := h1
  subst e1 e2
  have hb : manyPacks.m_pWrite.m_bEndian = false := rfl
  have hc : manyPacks.compressed (compressedRootPack :: List.replicate 65535 compressedUniquePack)
      (4 :: List.replicate 65535 4)
      = { manyPacks.m_pWrite with
          m_Packs := compressedRootPack :: List.replicate 65535 compressedUniquePack
          m_CSizeStream := 4 :: List.replicate 65535 4 } := by
    unfold stream.compressed
    exact updateEndian_false _ hb
  rw [hc] at hP hR hC
  have hP' : t.m_pWrite.m_Packs
      = compressedRootPack :: List.replicate 65535 compressedUniquePack := hP
  have hR' : t.m_pWrite.m_PointerTable = [] := hR
  have hC' : t.m_pWrite.m_CSizeStream = 4 :: List.replicate 65535 4 := hC
  have hE' : t.m_pWrite.m_bEndian = false := hE.trans hb
  have hpl : t.m_pWrite.m_Packs.length = 65536 := by
    rw [hP', List.length_cons, List.length_replicate]
  have hcl : t.m_pWrite.m_CSizeStream.length = 65536 := by
    rw [hC', List.length_cons, List.length_replicate]
  have hrl : t.m_pWrite.m_PointerTable.length = 0 := by rw [hR']; rfl
  have hlen : t.m_pWrite.InfoData.length = 1048576 := by
    rw [InfoData_length, hpl, hcl, hrl]
    decide
  have hraw : compressInfo rle manyPacks.m_CompressionLevel t.m_pWrite.InfoData
      = .ok t.m_pWrite.InfoData := by
    have hb0 : compressedRootPack.topack.bytes = [0, 0, 0, 0, 16, 0, 0, 0, 1, 0, 0, 0] := by
      decide
    have hx : t.m_pWrite.InfoData = 0 :: 0 :: 0 :: 0 :: 16 :: ([0, 0, 0, 1, 0, 0, 0]
        ++ ((List.replicate 65535 compressedUniquePack).flatMap (fun p => p.topack.bytes)
          ++ (t.m_pWrite.m_PointerTable.flatMap (fun r => r.bytes)
            ++ t.m_pWrite.m_CSizeStream.flatMap (fun c => leBytes 4 c)))) := by
      unfold writing.InfoData
      rw [hP', List.flatMap_cons, hb0]
      simp only [List.append_assoc, List.cons_append, List.nil_append]
    generalize hrest : [0, 0, 0, 1, 0, 0, 0]
        ++ ((List.replicate 65535 compressedUniquePack).flatMap (fun p => p.topack.bytes)
          ++ (t.m_pWrite.m_PointerTable.flatMap (fun r => r.bytes)
            ++ t.m_pWrite.m_CSizeStream.flatMap (fun c => leBytes 4 c))) = rest at hx
    rw [hx]
    exact compressInfo_rle_raw _ 0 16 _ (by simp) (by decide)
  rw [hraw] at h2
  simp only [Except.ok.injEq] at h2
  subst h2
  refine ⟨t, ht, hP', hR', hC', hE', ?_, ?_, ?_, hlen, ?_⟩
  · rw [hnp, hpl]; decide
  · rw [hnb, hcl]; decide
  · rw [hps, hlen]; decide
  · have := hF rfl
    rw [hE'] at this
    have hd : manyPacks.m_pWrite.m_pFile.data = [] := rfl
    rw [hd, List.drop_nil, List.append_nil] at this
    exact ⟨_, this⟩

theorem sum_replicate_nat (n a : Nat) : (List.replicate n a).sum = n * a := by
  induction n with
  | zero => simp
  | succ n ih => rw [List.replicate_succ, List.sum_cons, ih]; ring

theorem u64sub_self (a : Nat) : u64sub a a = 0 := by
  unfold u64sub
  have := Nat.mod_lt a (show 18446744073709551616 > 0 by norm_num)
  omega

theorem u64sub_zero (a : Nat) (h : a < 18446744073709551616) : u64sub a 0 = a := by
  unfold u64sub
  omega

theorem rle_Pack_incompressible (e : rle_engine) (n b : Nat) (rest : List Nat)
    (hblock : (e.Source.drop e.m_Position).take e.BlockSize = b :: rest)
    (hall : ¬ (5 ≤ (b :: rest).length ∧ (b :: rest).all (fun y => y == b) = true)) :
    rle.Pack e n
      = (.INCOMPRESSIBLE, [], { e with m_Position := e.m_Position + (b :: rest).length }) := by
  simp only [rle]
  rw [hblock]
  simp only
  rw [if_neg hall]

theorem rle_Pack_end (e : rle_engine) (n : Nat)
    (hblock : (e.Source.drop e.m_Position).take e.BlockSize = []) :
    rle.Pack e n = (.OK, [], { e with m_Position := e.m_Position + 0 }) := by
  simp only [rle]
  rw [hblock]
  rfl

theorem overwrite_nil (d : List Nat) (p : Nat) : overwrite d p [] = d := rfl

theorem compressLoop_incompressible {κ δ : Type} (codec : xcompression.codec κ δ) (fuel : Nat)
    (RawData : List Nat) (c : compressor κ) (P : pack_writing) (cs : List Nat) (e : κ)
    (h : codec.Pack c.engine (min (u64sub RawData.length (codec.Position c.engine)) P.m_BlockSize)
      = (.INCOMPRESSIBLE, [], e)) :
    compressLoop codec (fuel + 1) RawData c P cs
      = compressLoop codec fuel RawData
          { c with m_LastPosition := codec.Position c.engine, engine := e }
          ({ P with
              m_CompressData := overwrite P.m_CompressData P.m_CompressSize
                ((RawData.drop (codec.Position c.engine)).take
                  (min (u64sub RawData.length (codec.Position c.engine)) P.m_BlockSize)) }.addBlock
            (min (u64sub RawData.length (codec.Position c.engine)) P.m_BlockSize))
          (cs ++ [u32 (min (u64sub RawData.length (codec.Position c.engine)) P.m_BlockSize)]) := by
  conv => lhs; unfold compressLoop
  simp only [compressor.Pack, compressor.getPos, compressor.getLastPosition, h, if_true,
    overwrite_nil]

theorem compressLoop_end {κ δ : Type} (codec : xcompression.codec κ δ) (fuel : Nat)
    (RawData : List Nat) (c : compressor κ) (P : pack_writing) (cs : List Nat) (e : κ)
    (h : codec.Pack c.engine (min (u64sub RawData.length (codec.Position c.engine)) P.m_BlockSize)
      = (.OK, [], e)) :
    compressLoop codec (fuel + 1) RawData c P cs = .ok (P, cs) := by
  conv => lhs; unfold compressLoop
  simp only [compressor.Pack, compressor.getPos, h, overwrite_nil, List.length_nil]
  rw [if_neg (by decide), if_neg (by simp)]
  simp

theorem rle_Init (d : Bool) (bs : Nat) (src : List Nat) (lvl : xcompression.level) :
    rle.Init d bs src lvl = some { Source := src, BlockSize := bs, m_Position := 0 } := rfl

theorem rle_Position (e : rle_engine) : rle.Position e = e.m_Position := rfl

theorem compressPack_rle_raw (f : Nat) (level : compression_level) (P : pack_writing)
    (cs : List Nat) (b x : Nat) (rest : List Nat) (hD : P.m_Data.data = b :: rest)
    (hx : x ∈ rest) (hne : x ≠ b) (hlen : P.m_Data.data.length ≤ 65536) :
    compressPack rle (f + 2) level P cs
      = .ok ({ P with
                m_UncompressSize := P.m_Data.data.length
                m_nBlocks := 1
                m_BlockSize := P.m_Data.data.length
                m_CompressSize := P.m_Data.data.length
                m_CompressData := P.m_Data.data ++ List.replicate P.m_Data.data.length 0 },
              cs ++ [P.m_Data.data.length]) := by
  have hpos : 0 < P.m_Data.data.length := by rw [hD]; simp
  have hall : ¬ (5 ≤ (b :: rest).length ∧ (b :: rest).all (fun y => y == b) = true) := by
    intro hc
    have := List.all_eq_true.1 hc.2 x (List.mem_cons_of_mem _ hx)
    simp only [beq_iff_eq] at this
    exact hne this
  generalize hDD : P.m_Data.data = D at *
  generalize hL : D.length = L at *
  have hu : u32 L = L := Nat.mod_eq_of_lt (by omega)
  have hmin : min max_block_size_v L = L := by unfold max_block_size_v; omega
  have htake : List.take L D = D := by rw [← hL]; exact List.take_length _
  have hdrop : List.drop L D = [] := by rw [← hL]; exact List.drop_length _
  unfold compressPack
  simp only [xfile.getFileLength, xfile.ToMemory, hDD, hL, hu, hmin, htake, compressor.Init,
    rle_Init, Option.map_some']
  have h1 := rle_Pack_incompressible { Source := D, BlockSize := L, m_Position := 0 }
    (min (u64sub D.length 0) L) b rest
    (by show List.take L (List.drop 0 D) = b :: rest; rw [List.drop_zero, htake, hD]) hall
  rw [← hD, hL] at h1
  rw [compressLoop_incompressible rle (f + 1) D _ _ cs _ h1]
  simp only [rle_Position, hL, u64sub_zero L (by omega), Nat.min_self, List.drop_zero, htake,
    Nat.zero_add, hu]
  have h2 := rle_Pack_end { Source := D, BlockSize := L, m_Position := L }
    (min (u64sub D.length L) L)
    (by show List.take L (List.drop L D) = []; rw [hdrop, List.take_nil])
  rw [compressLoop_end rle f D _ _ _ _ h2]
  have hdiv : (L / L + 1) * L = L + L := by
    rw [Nat.div_self hpos]; omega
  have hov : overwrite (List.replicate ((L / L + 1) * L) 0) 0 D = D ++ List.replicate L 0 := by
    rw [overwrite_zero, hdiv, hL, List.drop_replicate, Nat.add_sub_cancel]
  simp only [pack_writing.addBlock, hov, hu, Nat.zero_add]
  rfl

theorem SaveBegin_frame (s : stream) (File : xfile) (Object sizeofObject VERSION : Nat)
    (level : compression_level) (fl : mem_type) (swap : Bool) :
    (s.SaveBegin File Object sizeofObject VERSION level fl swap).m_iPack = 0
    ∧ (s.SaveBegin File Object sizeofObject VERSION level fl swap).m_ClassPos = 0
    ∧ (s.SaveBegin File Object sizeofObject VERSION level fl swap).m_pClass = Object
    ∧ (s.SaveBegin File Object sizeofObject VERSION level fl swap).m_CompressionLevel = level := by
  simp [stream.SaveBegin, writing.AllocatePack, stream.setW]

theorem localPos_base (s : stream) (h : s.m_ClassPos = 0) : s.localPos s.m_pClass = 0 := by
  unfold stream.localPos stream.ComputeLocalOffset i32 u32i
  rw [h]
  simp

theorem Handle_single (s : stream) (mem : Mem) (a n : Nat) (p : pack_writing)
    (hp : s.m_pWrite.m_Packs = [p]) (hi : s.m_iPack = 0) :
    (s.Handle mem a n).m_pWrite.m_Packs
      = [{ p with m_Data := (p.m_Data.SeekOrigin (s.localPos a)).WriteSpan (readBytes mem a n) }] := by
  unfold stream.Handle stream.setW stream.getW
  simp only [hp, hi, updateAt, List.getD_cons_zero]

theorem bigRootWalk_packs (swap : Bool) :
    (bigRootWalk swap).m_pWrite.m_Packs
      = [{ m_PackFlags := {}, m_Data := { data := 7 :: List.replicate 65535 32, pos := 1 } }] := by
  unfold bigRootWalk stream.SaveWalk oneByteField
  simp only [io_functions.SerializeIO, stream.Serialize, Nat.add_zero]
  obtain ⟨h1, h2, h3, _⟩ := SaveBegin_frame ({} : stream) {} 4096 65536 1
    compression_level.MEDIUM {} swap
  rw [Handle_single _ _ _ _ _ (SaveBegin_packs _ _ _ _ _ _ _ _) h1]
  have hl : (({} : stream).SaveBegin {} 4096 65536 1 compression_level.MEDIUM {} swap).localPos 4096
      = 0 := by
    have := localPos_base _ h2
    rwa [h3] at this
  rw [hl]
  have hr : readBytes bigRootMem 4096 1 = [7] := by decide
  rw [hr]
  have hu : u32 65536 = 65536 := by decide
  simp only [xfile.SeekOrigin, xfile.WriteSpan, overwrite_zero, hu, List.length_singleton,
    List.drop_replicate, List.singleton_append, Nat.zero_add]
theorem payloadBytes_congr (b : Bool) (ps qs : List pack_writing)
    (h : ps.map (fun p => (p.m_CompressSize, p.m_CompressData))
      = qs.map (fun p => (p.m_CompressSize, p.m_CompressData))) :
    payloadBytes b ps = payloadBytes b qs := by
  induction ps generalizing qs with
  | nil =>
    cases qs with
    | nil => rfl
    | cons q qs => simp at h
  | cons p ps ih =>
    cases qs with
    | nil => simp at h
    | cons q qs =>
      simp only [List.map_cons, List.cons.injEq, Prod.mk.injEq] at h
      simp only [payloadBytes, List.flatMap_cons] at ih ⊢
      rw [ih qs h.2, h.1.1, h.1.2]

theorem SaveFile_bigRoot (b : Bool) :
    ∃ t : stream,
      stream.SaveFile rle 70000 (bigRootWalk b) = .ok t
      ∧ t.m_pWrite.m_bEndian = b
      ∧ t.m_pWrite.m_Packs.map (fun p => (p.m_CompressSize, p.m_CompressData))
          = [(65536, (7 :: List.replicate 65535 32) ++ List.replicate 65536 0)]
      ∧ ∃ (H : header) (info : List Nat),
          t.m_pWrite.m_pFile.data = H.bytes ++ info ++ payloadBytes b t.m_pWrite.m_Packs := by
  have hlen : (7 :: List.replicate 65535 32).length = 65536 := by
    rw [List.length_cons, List.length_replicate]
  have hfuel : ∀ p ∈ (bigRootWalk b).m_pWrite.m_Packs, p.m_Data.data.length < 70000 := by
    intro p hp
    rw [bigRootWalk_packs, List.mem_singleton] at hp
    rw [hp]
    show (7 :: List.replicate 65535 32).length < 70000
    rw [hlen]; decide
  obtain ⟨hf, he, hc, _⟩ := SaveWalk_output ({} : stream) {} bigRootMem 4096 65536 oneByteField 1
    compression_level.MEDIUM {} b
  have hf' : (bigRootWalk b).m_pWrite.m_pFile = {} := hf
  have he' : (bigRootWalk b).m_pWrite.m_bEndian = b := he
  have hc' : (bigRootWalk b).m_pWrite.m_CSizeStream = [] := hc
  have hraw := compressPack_rle_raw 69998 (bigRootWalk b).m_CompressionLevel
    { m_PackFlags := {}, m_Data := { data := 7 :: List.replicate 65535 32, pos := 1 } } [] 7 32
    (List.replicate 65535 32) rfl (by rw [List.mem_replicate]; exact ⟨by decide, rfl⟩)
    (by decide) (by show (7 :: List.replicate 65535 32).length ≤ 65536; rw [hlen])
  have hall := compressPacks_cons_ok rle 70000 (bigRootWalk b).m_CompressionLevel _ [] [] _ _ [] _
    hraw rfl
  have hbound : ∀ r, compressPacks rle 70000 (bigRootWalk b).m_CompressionLevel
      (bigRootWalk b).m_pWrite.m_Packs (bigRootWalk b).m_pWrite.m_CSizeStream = .ok r →
      ∀ P ∈ r.1, (if (bigRootWalk b).m_pWrite.m_bEndian then endian.Convert32 P.m_CompressSize
        else P.m_CompressSize) ≤ P.m_CompressData.length := by
    intro r hr P hP
    rw [bigRootWalk_packs, hc', hall] at hr
    simp only [Outcome.ok.injEq] at hr
    subst hr
    simp only [List.mem_singleton] at hP
    subst hP
    show (if (bigRootWalk b).m_pWrite.m_bEndian then
        endian.Convert32 (7 :: List.replicate 65535 32).length
        else (7 :: List.replicate 65535 32).length)
      ≤ ((7 :: List.replicate 65535 32)
          ++ List.replicate (7 :: List.replicate 65535 32).length 0).length
    rw [List.length_append, List.length_replicate, hlen]
    have hcv : endian.Convert32 65536 = 256 := by decide
    split
    · rw [hcv]; decide
    · decide
  obtain ⟨t, ht⟩ := SaveFile_rle_ok_of 70000 (bigRootWalk b) hfuel hbound
  obtain ⟨packs, cs, info, h1, hP, _, _, hE, _, _, _, _, _, _, _, hF⟩ :=
    SaveFile_result rle 70000 (bigRootWalk b) t ht
  rw [bigRootWalk_packs, hc', hall] at h1
  simp only [Outcome.ok.injEq, Prod.mk.injEq] at h1
  obtain ⟨e1, e2⟩ := h1
  have hE' : t.m_pWrite.m_bEndian = b := hE.trans he'
  have hm : t.m_pWrite.m_Packs.map (fun p => (p.m_CompressSize, p.m_CompressData))
      = [(65536, (7 :: List.replicate 65535 32) ++ List.replicate 65536 0)] := by
    rw [hP]
    unfold stream.compressed
    rw [updateEndian_compress, ← e1]
    show [((7 :: List.replicate 65535 32).length,
      (7 :: List.replicate 65535 32) ++ List.replicate (7 :: List.replicate 65535 32).length 0)] = _
    rw [hlen]
  refine ⟨t, ht, hE', hm, ?_⟩
  have := hF (by rw [hf'])
  rw [hE', hf', List.drop_nil, List.append_nil] at this
  exact ⟨_, _, this⟩

theorem payloadBytes_single (b : Bool) (ps : List pack_writing) (n : Nat) (d : List Nat)
    (h : ps.map (fun p => (p.m_CompressSize, p.m_CompressData)) = [(n, d)]) :
    payloadBytes b ps = d.take (if b then endian.Convert32 n else n) := by
  rw [payloadBytes_congr b ps [{ m_CompressSize := n, m_CompressData := d }] h]
  simp [payloadBytes]

/-! ## Independence of the addresses -/

theorem rebase_Handle (s : stream) (mem mem' : Mem) (a a' n c' : Nat)
    (ho : (a : Int) - (s.m_pClass : Int) = (a' : Int) - (c' : Int))
    (hb : readBytes mem a n = readBytes mem' a' n) :
    (s.rebase c').Handle mem' a' n = (s.Handle mem a n).rebase c' := by
  simp only [stream.Handle, stream.rebase, stream.getW, stream.setW, stream.localPos,
    stream.ComputeLocalOffset, ho, hb]

@[simp] theorem rebase_pClass (s : stream) (c : Nat) : (s.rebase c).m_pClass = c := rfl
@[simp] theorem rebase_ClassSize (s : stream) (c : Nat) : (s.rebase c).m_ClassSize = s.m_ClassSize := rfl
@[simp] theorem rebase_iPack (s : stream) (c : Nat) : (s.rebase c).m_iPack = s.m_iPack := rfl

theorem rebase_self (s : stream) : s.rebase s.m_pClass = s := rfl

theorem rebase_choosePack (s : stream) (fl : mem_type) (c' : Nat) :
    (s.rebase c').choosePack fl = (s.choosePack fl).rebase c' := by
  unfold stream.choosePack stream.rebase
  dsimp only
  split_ifs <;> rfl

theorem rebase_HandlePtrDetails (s : stream) (mem mem' : Mem) (pA pA' sz cnt c' : Nat)
    (fl : mem_type)
    (ho : (pA : Int) - (s.m_pClass : Int) = (pA' : Int) - (c' : Int))
    (hb : cnt = 0 → readBytes mem pA 8 = readBytes mem' pA' 8) :
    (s.rebase c').HandlePtrDetails mem' pA' sz cnt fl
      = (s.HandlePtrDetails mem pA sz cnt fl).rebase c' := by
  unfold stream.HandlePtrDetails
  by_cases h : cnt = 0
  · rw [if_pos h, if_pos h]
    exact rebase_Handle s mem mem' pA pA' 8 c' ho (hb h)
  · rw [if_neg h, if_neg h]
    simp only [rebase_choosePack]
    simp only [stream.rebase, stream.getW, stream.setW, stream.localPos,
      stream.ComputeLocalOffset, ho, choosePack_pClass]

theorem rebase_pushFrame (s : stream) (a a' n c' : Nat) :
    (s.rebase c').pushFrame a' n = (s.pushFrame a n).rebase a' := rfl

theorem rebase_popFrame (s F : stream) (c' x : Nat) :
    (s.rebase c').popFrame (F.rebase x) = (s.popFrame F).rebase c' := rfl

theorem rebase_isLocalVariable (s : stream) (c' a' : Nat) :
    (s.rebase c').isLocalVariable a' = isLocal a' c' s.m_ClassSize := rfl

theorem isLocalVariable_eq (s : stream) (a : Nat) :
    s.isLocalVariable a = isLocal a s.m_pClass s.m_ClassSize := rfl

theorem forLoop_rebase (n : Nat) (body body' : Nat → stream → stream) (s : stream) (c' : Nat)
    (hframe : ∀ i t, (body i t).m_pClass = t.m_pClass ∧ (body i t).m_ClassSize = t.m_ClassSize)
    (h : ∀ i, i < n → ∀ t : stream, t.m_pClass = s.m_pClass → t.m_ClassSize = s.m_ClassSize →
      body' i (t.rebase c') = (body i t).rebase c') :
    forLoop n body' (s.rebase c') = (forLoop n body s).rebase c'
    ∧ (forLoop n body s).m_pClass = s.m_pClass
    ∧ (forLoop n body s).m_ClassSize = s.m_ClassSize := by
  induction n with
  | zero => exact ⟨rfl, rfl, rfl⟩
  | succ n ih =>
    obtain ⟨h1, h2, h3⟩ := ih (fun i hi => h i (by omega))
    rw [forLoop_succ, forLoop_succ, h1, h n (by omega) _ h2 h3]
    exact ⟨rfl, (hframe n _).1.trans h2, (hframe n _).2.trans h3⟩

theorem SerializePtrWith_rebase (E E' : Nat → stream → stream) (isPrim : Bool) (sz : Nat)
    (s : stream) (mem mem' : Mem) (pA pA' Size c' : Nat) (fl : mem_type)
    (hframe : ∀ a t, (E a t).m_pClass = t.m_pClass ∧ (E a t).m_ClassSize = t.m_ClassSize)
    (hnull : readPtr mem pA = 0 ↔ readPtr mem' pA' = 0)
    (hsize : readPtr mem pA ≠ 0 → Size ≠ 0)
    (ho : readPtr mem pA ≠ 0 → (pA : Int) - (s.m_pClass : Int) = (pA' : Int) - (c' : Int))
    (hprim : readPtr mem pA ≠ 0 → isPrim = true →
      isLocal (readPtr mem pA) s.m_pClass s.m_ClassSize
          = isLocal (readPtr mem' pA') c' s.m_ClassSize
      ∧ (isLocal (readPtr mem pA) s.m_pClass s.m_ClassSize = true →
          ((readPtr mem pA : Nat) : Int) - (s.m_pClass : Int)
            = ((readPtr mem' pA' : Nat) : Int) - (c' : Int))
      ∧ readBytes mem (readPtr mem pA) (sz * Size) = readBytes mem' (readPtr mem' pA') (sz * Size))
    (helem : readPtr mem pA ≠ 0 → isPrim = false → ∀ i, i < Size → ∀ t : stream,
      t.m_pClass = s.m_pClass → t.m_ClassSize = s.m_ClassSize →
      E' (readPtr mem' pA' + i * sz) (t.rebase c') = (E (readPtr mem pA + i * sz) t).rebase c') :
    stream.SerializePtrWith E' isPrim sz (s.rebase c') mem' pA' Size fl
      = (stream.SerializePtrWith E isPrim sz s mem pA Size fl).rebase c' := by
  unfold stream.SerializePtrWith
  by_cases hp : readPtr mem pA = 0
  · have hp' := hnull.1 hp
    simp only [hp, hp', if_true]
  · have hp' : readPtr mem' pA' ≠ 0 := fun h => hp (hnull.2 h)
    simp only [hp, hp', if_false]
    have hS := hsize hp
    have hH := rebase_HandlePtrDetails s mem mem' pA pA' sz Size c' fl (ho hp)
      (fun h => absurd h hS)
    rw [hH]
    have hc : (s.HandlePtrDetails mem pA sz Size fl).m_pClass = s.m_pClass := by simp
    have hz : (s.HandlePtrDetails mem pA sz Size fl).m_ClassSize = s.m_ClassSize := by simp
    cases isPrim with
    | true =>
      obtain ⟨hl, hoff, hbytes⟩ := hprim hp rfl
      have hcond : ((s.HandlePtrDetails mem pA sz Size fl).rebase c').isLocalVariable
          (readPtr mem' pA') = isLocal (readPtr mem pA) s.m_pClass s.m_ClassSize := by
        rw [rebase_isLocalVariable, hz, hl]
      have hcond0 : (s.HandlePtrDetails mem pA sz Size fl).isLocalVariable (readPtr mem pA)
          = isLocal (readPtr mem pA) s.m_pClass s.m_ClassSize := by
        rw [isLocalVariable_eq, hc, hz]
      simp only [if_true, hcond, hcond0]
      by_cases hloc : isLocal (readPtr mem pA) s.m_pClass s.m_ClassSize = true
      · simp only [hloc, if_true]
        rw [rebase_Handle _ mem mem' _ _ _ c' (by rw [hc]; exact hoff hloc) hbytes]
        rfl
      · simp only [hloc, if_false]
        rw [rebase_pushFrame _ (readPtr mem pA) (readPtr mem' pA') _ c']
        have := rebase_Handle ((s.HandlePtrDetails mem pA sz Size fl).pushFrame (readPtr mem pA)
          (sz * Size)) mem mem' (readPtr mem pA) (readPtr mem' pA') (sz * Size) (readPtr mem' pA')
          (by show ((readPtr mem pA : Nat) : Int) - ((readPtr mem pA : Nat) : Int) = _; omega) hbytes
        rw [this, rebase_popFrame]
        rfl
    | false =>
      simp only [Bool.false_eq_true, if_false]
      obtain ⟨h1, _, _⟩ := forLoop_rebase Size
        (fun i t => E (readPtr mem pA + i * sz) t)
        (fun i t => E' (readPtr mem' pA' + i * sz) t)
        (s.HandlePtrDetails mem pA sz Size fl) c'
        (fun i t => hframe _ t)
        (fun i hi t ht1 ht2 => helem hp rfl i hi t (ht1.trans hc) (ht2.trans hz))
      rw [h1]
      rfl

theorem frame_fields (s t : stream) (h : t.frame = s.frame) :
    t.m_pClass = s.m_pClass ∧ t.m_ClassSize = s.m_ClassSize := by
  rw [frame_eq_iff] at h
  exact ⟨h.2.2.1, h.2.2.2⟩

mutual
theorem Serialize_rebase : ∀ (ty : Ty) (mem mem' : Mem) (a a' : Nat) (s : stream) (c' : Nat),
    sameValue ty mem a s.m_pClass mem' a' c' s.m_ClassSize = true →
    stream.Serialize ty mem' a' (s.rebase c') = (stream.Serialize ty mem a s).rebase c'
  | .prim n, mem, mem', a, a', s, c', h => by
    simp only [sameValue, Bool.and_eq_true, decide_eq_true_eq] at h
    simp only [stream.Serialize]
    exact rebase_Handle s mem mem' a a' n c' h.1 h.2
  | .pod n, mem, mem', a, a', s, c', h => by
    simp only [sameValue, Bool.and_eq_true, decide_eq_true_eq] at h
    simp only [stream.Serialize]
    exact rebase_Handle s mem mem' a a' n c' h.1 h.2
  | .array elem n, mem, mem', a, a', s, c', h => by
    simp only [sameValue, List.all_eq_true, List.mem_range] at h
    simp only [stream.Serialize]
    exact (forLoop_rebase n
      (fun i t => stream.Serialize elem mem (a + i * sizeOfTy elem) t)
      (fun i t => stream.Serialize elem mem' (a' + i * sizeOfTy elem) t) s c'
      (fun i t => frame_fields _ _ (Serialize_frame elem mem _ t))
      (fun i hi t ht1 ht2 => Serialize_rebase elem mem mem' _ _ t c'
        (by rw [ht1, ht2]; exact h i hi))).1
  | .desc size io, mem, mem', a, a', s, c', h => by
    simp only [sameValue, Bool.and_eq_true, beq_iff_eq] at h
    obtain ⟨hl, hio⟩ := h
    have hcond : (s.rebase c').isLocalVariable a' = isLocal a s.m_pClass s.m_ClassSize := by
      rw [rebase_isLocalVariable, hl]
    simp only [stream.Serialize, hcond, isLocalVariable_eq]
    by_cases hloc : isLocal a s.m_pClass s.m_ClassSize = true
    · rw [if_pos hloc] at hio
      rw [if_pos hloc, if_pos hloc]
      exact SerializeIO_rebase io mem mem' a a' s c' hio
    · rw [if_neg hloc] at hio
      rw [if_neg hloc, if_neg hloc, rebase_pushFrame s a a' size c',
        SerializeIO_rebase io mem mem' a a' (s.pushFrame a size) a' hio, rebase_popFrame]
theorem SerializeIO_rebase : ∀ (io : Stmts) (mem mem' : Mem) (obj obj' : Nat) (s : stream)
    (c' : Nat),
    sameObject io mem obj s.m_pClass mem' obj' c' s.m_ClassSize = true →
    io_functions.SerializeIO io mem' obj' (s.rebase c')
      = ( io_functions.SerializeIO io mem obj s).rebase c'
  | .done, mem, mem', obj, obj', s, c', h => by
    simp only [io_functions.SerializeIO]
  | .serialize off ty rest, mem, mem', obj, obj', s, c', h => by
    simp only [sameObject, Bool.and_eq_true] at h
    simp only [io_functions.SerializeIO]
    rw [Serialize_rebase ty mem mem' _ _ s c' h.1]
    obtain ⟨f1, f2⟩ := frame_fields _ _ (Serialize_frame ty mem (obj + off) s)
    exact SerializeIO_rebase rest mem mem' obj obj' _ c' (by rw [f1, f2]; exact h.2)
  | .setResourceVersion v rest, mem, mem', obj, obj', s, c', h => by
    simp only [sameObject] at h
    simp only [io_functions.SerializeIO]
    exact SerializeIO_rebase rest mem mem' obj obj'
      { s with m_Header := { s.m_Header with m_ResourceVersion := u16 v } } c' h
  | .serializePtr off count elem flags rest, mem, mem', obj, obj', s, c', h => by
    simp only [sameObject, Bool.and_eq_true, decide_eq_true_eq] at h
    obtain ⟨⟨hcount, hptr⟩, hrest⟩ := h
    simp only [io_functions.SerializeIO]
    have key : stream.SerializePtrWith (fun a s => stream.Serialize elem mem' a s) elem.isPrim
        (sizeOfTy elem) (s.rebase c') mem' (obj' + off) (count mem' obj') flags
        = (stream.SerializePtrWith (fun a s => stream.Serialize elem mem a s) elem.isPrim
            (sizeOfTy elem) s mem (obj + off) (count mem obj) flags).rebase c' := by
      rw [← hcount]
      by_cases hp : readPtr mem (obj + off) = 0
      · rw [if_pos hp] at hptr
        simp only [decide_eq_true_eq] at hptr
        unfold stream.SerializePtrWith
        simp only [hp, hptr, if_true]
      · rw [if_neg hp] at hptr
        simp only [Bool.and_eq_true, decide_eq_true_eq] at hptr
        obtain ⟨⟨⟨hp', hn⟩, ho⟩, hbody⟩ := hptr
        apply SerializePtrWith_rebase
        · exact fun a t => frame_fields _ _ (Serialize_frame elem mem a t)
        · exact ⟨fun h0 => absurd h0 hp, fun h0 => absurd h0 hp'⟩
        · exact fun _ => hn
        · exact fun _ => ho
        · intro _ hprim
          rw [if_pos hprim] at hbody
          simp only [Bool.and_eq_true, beq_iff_eq, Bool.or_eq_true, Bool.not_eq_true',
            decide_eq_true_eq] at hbody
          obtain ⟨⟨hl, hoff⟩, hbytes⟩ := hbody
          refine ⟨hl, ?_, hbytes⟩
          intro hloc
          rcases hoff with h0 | h0
          · rw [hloc] at h0; cases h0
          · exact h0
        · intro _ hprim i hi t ht1 ht2
          rw [if_neg (by rw [hprim]; decide)] at hbody
          simp only [List.all_eq_true, List.mem_range] at hbody
          exact Serialize_rebase elem mem mem' _ _ t c' (by rw [ht1, ht2]; exact hbody i hi)
    rw [key]
    obtain ⟨f1, f2⟩ := frame_fields _ _ (SerializePtrWith_frame
      (fun a s => stream.Serialize elem mem a s) elem.isPrim (sizeOfTy elem) s mem (obj + off)
      (count mem obj) flags (fun a t => Serialize_frame elem mem a t))
    exact SerializeIO_rebase rest mem mem' obj obj' _ c' (by rw [f1, f2]; exact hrest)
end

theorem byte_testBit (x i j : Nat) :
    (x / 256 ^ i % 256).testBit j = (decide (j < 8) && x.testBit (8 * i + j)) := by
  have e : (256 : Nat) ^ i = 2 ^ (8 * i) := by rw [pow_mul]; norm_num
  have e2 : (256 : Nat) = 2 ^ 8 := by norm_num
  rw [e, ← Nat.shiftRight_eq_div_pow, e2, Nat.testBit_mod_two_pow, Nat.testBit_shiftRight]

theorem Convert64_testBit (v i : Nat) :
    (endian.Convert64 v).testBit i
      = (decide (i < 64) &&
          (if i < 8 then v.testBit (i + 56)
           else if i < 16 then v.testBit (i + 40)
           else if i < 24 then v.testBit (i + 24)
           else if i < 32 then v.testBit (i + 8)
           else if i < 40 then v.testBit (i - 8)
           else if i < 48 then v.testBit (i - 24)
           else if i < 56 then v.testBit (i - 40)
           else v.testBit (i - 56))) := by
  unfold endian.Convert64
  have m2 : (0xFF00 : Nat) = 255 <<< 8 := by decide
  have m3 : (0xFF0000 : Nat) = 255 <<< 16 := by decide
  have m4 : (0xFF000000 : Nat) = 255 <<< 24 := by decide
  have m5 : (0xFF00000000 : Nat) = 255 <<< 32 := by decide
  have m6 : (0xFF0000000000 : Nat) = 255 <<< 40 := by decide
  have m7 : (0xFF000000000000 : Nat) = 255 <<< 48 := by decide
  have m8 : (18446744073709551616 : Nat) = 2 ^ 64 := by decide
  rw [m2, m3, m4, m5, m6, m7, m8]
  simp only [Nat.testBit_mod_two_pow, Nat.testBit_or, Nat.testBit_and, Nat.testBit_shiftRight,
    Nat.testBit_shiftLeft, testBit_255]
  by_cases h1 : i < 8
  · simp [h1, show i < 64 by omega, show ¬ (8 ≤ i) by omega, show ¬ (16 ≤ i) by omega,
      show ¬ (24 ≤ i) by omega, show ¬ (32 ≤ i) by omega, show ¬ (40 ≤ i) by omega,
      show ¬ (48 ≤ i) by omega, show ¬ (56 ≤ i) by omega, Nat.add_comm]
  by_cases h2 : i < 16
  · simp [h1, h2, show i < 64 by omega, show (8 ≤ i) by omega, show ¬ (16 ≤ i) by omega,
      show ¬ (24 ≤ i) by omega, show ¬ (32 ≤ i) by omega, show ¬ (40 ≤ i) by omega,
      show ¬ (48 ≤ i) by omega, show ¬ (56 ≤ i) by omega, show i - 8 < 8 by omega, Nat.add_comm]
  by_cases h3 : i < 24
  · simp [h1, h2, h3, show i < 64 by omega, show (8 ≤ i) by omega, show (16 ≤ i) by omega,
      show ¬ (24 ≤ i) by omega, show ¬ (32 ≤ i) by omega, show ¬ (40 ≤ i) by omega,
      show ¬ (48 ≤ i) by omega, show ¬ (56 ≤ i) by omega, show ¬ (i - 8 < 8) by omega,
      show i - 16 < 8 by omega, Nat.add_comm]
  by_cases h4 : i < 32
  · simp [h1, h2, h3, h4, show i < 64 by omega, show (8 ≤ i) by omega, show (16 ≤ i) by omega,
      show (24 ≤ i) by omega, show ¬ (32 ≤ i) by omega, show ¬ (40 ≤ i) by omega,
      show ¬ (48 ≤ i) by omega, show ¬ (56 ≤ i) by omega, show ¬ (i - 8 < 8) by omega,
      show ¬ (i - 16 < 8) by omega, show i - 24 < 8 by omega, Nat.add_comm]
  by_cases h5 : i < 40
  · simp [h1, h2, h3, h4, h5, show i < 64 by omega, show (8 ≤ i) by omega, show (16 ≤ i) by omega,
      show (24 ≤ i) by omega, show (32 ≤ i) by omega, show ¬ (40 ≤ i) by omega,
      show ¬ (48 ≤ i) by omega, show ¬ (56 ≤ i) by omega, show ¬ (i - 8 < 8) by omega,
      show ¬ (i - 16 < 8) by omega, show ¬ (i - 24 < 8) by omega, show i - 32 < 8 by omega]
  by_cases h6 : i < 48
  · simp [h1, h2, h3, h4, h5, h6, show i < 64 by omega, show (8 ≤ i) by omega,
      show (16 ≤ i) by omega,
      show (24 ≤ i) by omega, show (32 ≤ i) by omega, show (40 ≤ i) by omega,
      show ¬ (48 ≤ i) by omega, show ¬ (56 ≤ i) by omega, show ¬ (i - 8 < 8) by omega,
      show ¬ (i - 16 < 8) by omega, show ¬ (i - 24 < 8) by omega, show ¬ (i - 32 < 8) by omega,
      show i - 40 < 8 by omega]
  by_cases h7 : i < 56
  · simp [h1, h2, h3, h4, h5, h6, h7, show i < 64 by omega, show (8 ≤ i) by omega,
      show (16 ≤ i) by omega,
      show (24 ≤ i) by omega, show (32 ≤ i) by omega, show (40 ≤ i) by omega,
      show (48 ≤ i) by omega, show ¬ (56 ≤ i) by omega, show ¬ (i - 8 < 8) by omega,
      show ¬ (i - 16 < 8) by omega, show ¬ (i - 24 < 8) by omega, show ¬ (i - 32 < 8) by omega,
      show ¬ (i - 40 < 8) by omega, show i - 48 < 8 by omega]
  by_cases h8 : i < 64
  · simp [h1, h2, h3, h4, h5, h6, h7, h8, show (8 ≤ i) by omega,
      show (16 ≤ i) by omega,
      show (24 ≤ i) by omega, show (32 ≤ i) by omega, show (40 ≤ i) by omega,
      show (48 ≤ i) by omega, show (56 ≤ i) by omega, show ¬ (i - 8 < 8) by omega,
      show ¬ (i - 16 < 8) by omega, show ¬ (i - 24 < 8) by omega, show ¬ (i - 32 < 8) by omega,
      show ¬ (i - 40 < 8) by omega, show ¬ (i - 48 < 8) by omega]
  · simp [h8]

theorem Convert64_lt (v : Nat) : endian.Convert64 v < 18446744073709551616 := by
  unfold endian.Convert64
  exact Nat.mod_lt _ (by norm_num)

theorem Convert16_testBit (v i : Nat) (h : v < 65536) :
    (endian.Convert16 v).testBit i
      = (decide (i < 16) && (if i < 8 then v.testBit (i + 8) else v.testBit (i - 8))) := by
  unfold endian.Convert16 u16
  have m4 : (65536 : Nat) = 2 ^ 16 := by decide
  rw [m4]
  simp only [Nat.testBit_mod_two_pow, Nat.testBit_or, Nat.testBit_shiftRight,
    Nat.testBit_shiftLeft]
  by_cases h1 : i < 8
  · simp [h1, show i < 16 by omega, show ¬ (8 ≤ i) by omega, Nat.add_comm]
  · by_cases h2 : i < 16
    · have : v.testBit (8 + i) = false := by
        apply Nat.testBit_lt_two_pow
        calc v < 65536 := h
          _ = 2 ^ 16 := by norm_num
          _ ≤ 2 ^ (8 + i) := Nat.pow_le_pow_right (by norm_num) (by omega)
      simp [h1, h2, show 8 ≤ i by omega, this]
    · simp [h2]

theorem Convert16_byte (v i : Nat) (h : v < 65536) (hi : i < 2) :
    endian.Convert16 v / 256 ^ i % 256 = v / 256 ^ (1 - i) % 256 := by
  apply Nat.eq_of_testBit_eq
  intro j
  rw [byte_testBit, byte_testBit, Convert16_testBit _ _ h]
  by_cases hj : j < 8
  · interval_cases i
    · simp [hj, show j < 16 by omega, Nat.add_comm]
    · simp [hj, show 8 + j < 16 by omega]
  · simp [hj]

theorem Convert32_byte (v i : Nat) (hi : i < 4) :
    endian.Convert32 v / 256 ^ i % 256 = v / 256 ^ (3 - i) % 256 := by
  apply Nat.eq_of_testBit_eq
  intro j
  rw [byte_testBit, byte_testBit, Convert32_testBit]
  by_cases hj : j < 8
  · interval_cases i
    · simp [hj, show j < 32 by omega, Nat.add_comm]
    · simp [hj, show 8 + j < 32 by omega, show ¬ (8 + j < 8) by omega, show 8 + j < 16 by omega]
      congr 1; omega
    · simp [hj, show 16 + j < 32 by omega, show ¬ (16 + j < 8) by omega,
        show ¬ (16 + j < 16) by omega, show 16 + j < 24 by omega]
      congr 1; omega
    · simp [hj, show 24 + j < 32 by omega, show ¬ (24 + j < 8) by omega,
        show ¬ (24 + j < 16) by omega, show ¬ (24 + j < 24) by omega]
  · simp [hj]

theorem Convert64_byte (v i : Nat) (hi : i < 8) :
    endian.Convert64 v / 256 ^ i % 256 = v / 256 ^ (7 - i) % 256 := by
  apply Nat.eq_of_testBit_eq
  intro j
  rw [byte_testBit, byte_testBit, Convert64_testBit]
  by_cases hj : j < 8
  · have hlt : 8 * i + j < 64 := by omega
    simp only [hj, hlt, decide_True, Bool.true_and]
    interval_cases i <;> simp <;> split_ifs <;> first | omega | rfl | (congr 1; omega)
  · simp [hj]

theorem eq_of_bytes_eq (w a b : Nat) (ha : a < 256 ^ w) (hb : b < 256 ^ w)
    (h : ∀ i, i < w → a / 256 ^ i % 256 = b / 256 ^ i % 256) : a = b := by
  induction w generalizing a b with
  | zero => simp at ha hb; omega
  | succ w ih =>
    have h0 := h 0 (by omega)
    simp at h0
    have := ih (a / 256) (b / 256)
      (by rw [Nat.div_lt_iff_lt_mul (by norm_num)]; rw [pow_succ] at ha; exact ha)
      (by rw [Nat.div_lt_iff_lt_mul (by norm_num)]; rw [pow_succ] at hb; exact hb)
      (by
        intro i hi
        have := h (i + 1) (by omega)
        rw [pow_succ, Nat.mul_comm, ← Nat.div_div_eq_div_mul, ← Nat.div_div_eq_div_mul] at this
        exact this)
    omega

theorem Convert64_Convert64 (v : Nat) (h : v < 18446744073709551616) :
    endian.Convert64 (endian.Convert64 v) = v := by
  apply eq_of_bytes_eq 8 _ _ (by have := Convert64_lt (endian.Convert64 v); norm_num; exact this)
    (by norm_num; exact h)
  intro i hi
  rw [Convert64_byte _ _ hi, Convert64_byte _ _ (by omega)]
  congr 3; omega

theorem SerializePtrWith_Header (SerializeElem : Nat → stream → stream) (isPrim : Bool)
    (sizeofT : Nat) (s : stream) (mem : Mem) (pA Size : Nat) (fl : mem_type)
    (hE : ∀ a s, (SerializeElem a s).m_Header = s.m_Header) :
    (stream.SerializePtrWith SerializeElem isPrim sizeofT s mem pA Size fl).m_Header
      = s.m_Header := by
  unfold stream.SerializePtrWith
  by_cases hp : readPtr mem pA = 0
  · simp [hp]
  · simp only [hp, if_false]
    cases isPrim
    · simp only [Bool.false_eq_true, if_false]
      have := forLoop_induction
        (fun t : stream => t.m_Header = s.m_Header) Size
        (fun i s => SerializeElem (readPtr mem pA + i * sizeofT) s)
        (s.HandlePtrDetails mem pA sizeofT Size fl) (by simp)
        (fun i t ht => (hE _ t).trans ht)
      exact this
    · simp only [if_true]
      split <;> simp

mutual
theorem Serialize_Header : ∀ (ty : Ty) (mem : Mem) (a : Nat) (s : stream),
    ty.callsSetResourceVersion = false → (stream.Serialize ty mem a s).m_Header = s.m_Header
  | .prim n, mem, a, s, _ => by simp [stream.Serialize]
  | .pod n, mem, a, s, _ => by simp [stream.Serialize]
  | .array elem n, mem, a, s, h => by
    simp only [stream.Serialize]
    simp only [Ty.callsSetResourceVersion] at h
    exact forLoop_induction (fun t : stream => t.m_Header = s.m_Header) n _ s rfl
      (fun i t ht => (Serialize_Header elem mem _ t h).trans ht)
  | .desc size io, mem, a, s, h => by
    simp only [stream.Serialize]
    simp only [Ty.callsSetResourceVersion] at h
    split
    · exact SerializeIO_Header io mem a s h
    · simp
theorem SerializeIO_Header : ∀ (io : Stmts) (mem : Mem) (obj : Nat) (s : stream),
    io.callsSetResourceVersion = false →
    ( io_functions.SerializeIO io mem obj s).m_Header = s.m_Header
  | .done, mem, obj, s, _ => by simp [io_functions.SerializeIO]
  | .serialize off ty rest, mem, obj, s, h => by
    simp only [io_functions.SerializeIO]
    simp only [Stmts.callsSetResourceVersion, Bool.or_eq_false_iff] at h
    exact (SerializeIO_Header rest mem obj _ h.2).trans (Serialize_Header ty mem _ s h.1)
  | .setResourceVersion v rest, mem, obj, s, h => by
    simp [Stmts.callsSetResourceVersion] at h
  | .serializePtr off count elem flags rest, mem, obj, s, h => by
    simp only [io_functions.SerializeIO]
    simp only [Stmts.callsSetResourceVersion, Bool.or_eq_false_iff] at h
    exact (SerializeIO_Header rest mem obj _ h.2).trans
      (SerializePtrWith_Header _ _ _ _ _ _ _ _ (fun a t => Serialize_Header elem mem a t h.1))
end

theorem compressLoop_error {κ δ : Type} (codec : xcompression.codec κ δ) :
    ∀ (fuel : Nat) (RawData : List Nat) (c : compressor κ) (P : pack_writing) (cs : List Nat)
      (e : xerr), compressLoop codec fuel RawData c P cs = .error e →
      ∃ st, e = .compression st ∧ st ≠ .OK ∧ st ≠ .NOT_DONE ∧ st ≠ .INCOMPRESSIBLE := by
  intro fuel
  induction fuel with
  | zero => intro RawData c P cs e h; simp [compressLoop] at h
  | succ fuel ih =>
    intro RawData c P cs e h
    unfold compressLoop at h
    simp only at h
    split at h
    · exact ih _ _ _ _ _ h
    · rename_i hinc
      split at h
      · rename_i hbad
        cases h
        exact ⟨_, rfl, hbad.1, hbad.2, hinc⟩
      · split at h
        · cases h
        · exact ih _ _ _ _ _ h

theorem compressPack_error {κ δ : Type} (codec : xcompression.codec κ δ) (fuel : Nat)
    (level : compression_level) (P : pack_writing) (cs : List Nat) (e : xerr)
    (h : compressPack codec fuel level P cs = .error e) :
    ∃ st, e = .compression st ∧ st ≠ .OK ∧ st ≠ .NOT_DONE ∧ st ≠ .INCOMPRESSIBLE := by
  unfold compressPack at h
  simp only at h
  split at h
  · cases h
    exact ⟨_, rfl, by decide, by decide, by decide⟩
  · exact compressLoop_error codec _ _ _ _ _ _ h

theorem compressPacks_error {κ δ : Type} (codec : xcompression.codec κ δ) (fuel : Nat)
    (level : compression_level) :
    ∀ (packs : List pack_writing) (cs : List Nat) (e : xerr),
      compressPacks codec fuel level packs cs = .error e →
      ∃ st, e = .compression st ∧ st ≠ .OK ∧ st ≠ .NOT_DONE ∧ st ≠ .INCOMPRESSIBLE := by
  intro packs
  induction packs with
  | nil => intro cs e h; simp [compressPacks] at h
  | cons p ps ih =>
    intro cs e h
    unfold compressPacks at h
    split at h
    · rename_i r hr
      split at h
      · cases h
      · rename_i e' he'
        cases h
        exact ih _ _ he'
      · cases h
      · cases h
    · rename_i e' he'
      cases h
      exact compressPack_error codec fuel level p cs _ he'
    · cases h
    · cases h

theorem Outcome_failure_eq {α : Type} (o : Outcome α) (e : xerr) (h : o.failure = some e) :
    o = .error e := by
  cases o with
  | ok t => cases h
  | error e' => simp only [Outcome.failure, Option.some.injEq] at h; rw [h]
  | unfinished => cases h
  | undefined => cases h

theorem ofValue_m_Value (f : mem_type) : mem_type.ofValue f.m_Value = f := by
  rcases f with ⟨b0, b1, b2, b3, b4, b5, b6, b7⟩
  cases b0 <;> cases b1 <;> cases b2 <;> cases b3 <;> cases b4 <;> cases b5 <;> cases b6
    <;> cases b7 <;> rfl

theorem leAt_append_left (a b : List Nat) (off n : Nat) (h : off + n ≤ a.length) :
    leAt (a ++ b) off n = leAt a off n := by
  unfold leAt
  congr 1
  apply List.map_congr_left
  intro i hi
  rw [List.mem_range] at hi
  rw [List.getD_eq_getElem?_getD, List.getD_eq_getElem?_getD,
    List.getElem?_append_left (by omega)]

theorem leAt_add (a b : List Nat) (off n : Nat) :
    leAt (a ++ b) (a.length + off) n = leAt b off n := by
  rw [leAt_append_right _ _ _ _ (by omega)]
  congr 1
  omega

theorem pack_at_bytes (p : pack) (post : List Nat)
    (h : p.m_UncompressSize < 4294967296 ∧ p.m_nBlocks < 4294967296) :
    pack.at (p.bytes ++ post) 0 = p := by
  unfold pack.at pack.bytes
  have e1 : leAt ([p.m_PackFlags.m_Value, 0, 0, 0] ++ leBytes 4 p.m_UncompressSize
      ++ leBytes 4 p.m_nBlocks ++ post) 0 1 = p.m_PackFlags.m_Value := by
    simp [leAt, leValue]
  have e2 : leAt ([p.m_PackFlags.m_Value, 0, 0, 0] ++ leBytes 4 p.m_UncompressSize
      ++ leBytes 4 p.m_nBlocks ++ post) (0 + 4) 4 = p.m_UncompressSize := by
    rw [List.append_assoc, List.append_assoc,
      show (0 : Nat) + 4 = [p.m_PackFlags.m_Value, 0, 0, 0].length + 0 from rfl, leAt_add,
      leAt_leBytes_append]
    omega
  have e3 : leAt ([p.m_PackFlags.m_Value, 0, 0, 0] ++ leBytes 4 p.m_UncompressSize
      ++ leBytes 4 p.m_nBlocks ++ post) (0 + 8) 4 = p.m_nBlocks := by
    rw [List.append_assoc,
      show (0 : Nat) + 8 = ([p.m_PackFlags.m_Value, 0, 0, 0]
        ++ leBytes 4 p.m_UncompressSize).length + 0 by
          rw [List.length_append, leBytes_length]; rfl,
      leAt_add, leAt_leBytes_append]
    omega
  rw [e1, e2, e3, ofValue_m_Value]

theorem ref_at_bytes (r : ref) (post : List Nat)
    (h : r.m_PointingAT < 4294967296 ∧ r.m_OffSet < 4294967296 ∧ r.m_Count < 4294967296
      ∧ r.m_OffsetPack < 65536 ∧ r.m_PointingATPack < 65536) :
    ref.at (r.bytes ++ post) 0 = r := by
  unfold ref.at ref.bytes
  have e1 : leAt (leBytes 4 r.m_PointingAT ++ leBytes 4 r.m_OffSet ++ leBytes 4 r.m_Count
      ++ leBytes 2 r.m_OffsetPack ++ leBytes 2 r.m_PointingATPack ++ post) 0 4
        = r.m_PointingAT := by
    simp only [List.append_assoc]
    rw [leAt_leBytes_append]; omega
  have e2 : leAt (leBytes 4 r.m_PointingAT ++ leBytes 4 r.m_OffSet ++ leBytes 4 r.m_Count
      ++ leBytes 2 r.m_OffsetPack ++ leBytes 2 r.m_PointingATPack ++ post) (0 + 4) 4
        = r.m_OffSet := by
    simp only [List.append_assoc]
    rw [leAt_skip _ _ _ _ _ (by omega), leAt_leBytes_append]; omega
  have e3 : leAt (leBytes 4 r.m_PointingAT ++ leBytes 4 r.m_OffSet ++ leBytes 4 r.m_Count
      ++ leBytes 2 r.m_OffsetPack ++ leBytes 2 r.m_PointingATPack ++ post) (0 + 8) 4
        = r.m_Count := by
    simp only [List.append_assoc]
    rw [leAt_skip _ _ _ _ _ (by omega), leAt_skip _ _ _ _ _ (by omega), leAt_leBytes_append]
    omega
  have e4 : leAt (leBytes 4 r.m_PointingAT ++ leBytes 4 r.m_OffSet ++ leBytes 4 r.m_Count
      ++ leBytes 2 r.m_OffsetPack ++ leBytes 2 r.m_PointingATPack ++ post) (0 + 12) 2
        = r.m_OffsetPack := by
    simp only [List.append_assoc]
    rw [leAt_skip _ _ _ _ _ (by omega), leAt_skip _ _ _ _ _ (by omega),
      leAt_skip _ _ _ _ _ (by omega), leAt_leBytes_append]
    omega
  have e5 : leAt (leBytes 4 r.m_PointingAT ++ leBytes 4 r.m_OffSet ++ leBytes 4 r.m_Count
      ++ leBytes 2 r.m_OffsetPack ++ leBytes 2 r.m_PointingATPack ++ post) (0 + 14) 2
        = r.m_PointingATPack := by
    simp only [List.append_assoc]
    rw [leAt_skip _ _ _ _ _ (by omega), leAt_skip _ _ _ _ _ (by omega),
      leAt_skip _ _ _ _ _ (by omega), leAt_skip _ _ _ _ _ (by omega), leAt_leBytes_append]
    omega
  rw [e1, e2, e3, e4, e5]

theorem pack_at_add (a b : List Nat) (off : Nat) :
    pack.at (a ++ b) (a.length + off) = pack.at b off := by
  unfold pack.at
  rw [leAt_add, Nat.add_assoc, leAt_add, Nat.add_assoc, leAt_add]

theorem ref_at_add (a b : List Nat) (off : Nat) :
    ref.at (a ++ b) (a.length + off) = ref.at b off := by
  unfold ref.at
  rw [leAt_add, Nat.add_assoc, leAt_add, Nat.add_assoc, leAt_add, Nat.add_assoc, leAt_add,
    Nat.add_assoc, leAt_add]

theorem packs_at_flatMap (ps : List pack) (post : List Nat)
    (h : ∀ p ∈ ps, p.m_UncompressSize < 4294967296 ∧ p.m_nBlocks < 4294967296) :
    (List.range ps.length).map (fun i => pack.at (ps.flatMap pack.bytes ++ post) (12 * i))
      = ps := by
  induction ps with
  | nil => rfl
  | cons p tl ih =>
    rw [List.length_cons, List.range_succ_eq_map, List.map_cons, List.map_map,
      List.flatMap_cons, List.append_assoc]
    congr 1
    · exact pack_at_bytes p _ (h p (List.mem_cons_self _ _))
    · conv => rhs; rw [← ih (fun q hq => h q (List.mem_cons_of_mem _ hq))]
      apply List.map_congr_left
      intro i _
      show pack.at _ (12 * (i + 1)) = _
      rw [show 12 * (i + 1) = p.bytes.length + 12 * i by rw [pack_bytes_length]; ring,
        pack_at_add]

theorem refs_at_flatMap (rs : List ref) (post : List Nat)
    (h : ∀ r ∈ rs, r.m_PointingAT < 4294967296 ∧ r.m_OffSet < 4294967296
      ∧ r.m_Count < 4294967296 ∧ r.m_OffsetPack < 65536 ∧ r.m_PointingATPack < 65536) :
    (List.range rs.length).map (fun i => ref.at (rs.flatMap ref.bytes ++ post) (16 * i))
      = rs := by
  induction rs with
  | nil => rfl
  | cons p tl ih =>
    rw [List.length_cons, List.range_succ_eq_map, List.map_cons, List.map_map,
      List.flatMap_cons, List.append_assoc]
    congr 1
    · exact ref_at_bytes p _ (h p (List.mem_cons_self _ _))
    · conv => rhs; rw [← ih (fun q hq => h q (List.mem_cons_of_mem _ hq))]
      apply List.map_congr_left
      intro i _
      show ref.at _ (16 * (i + 1)) = _
      rw [show 16 * (i + 1) = p.bytes.length + 16 * i by rw [ref_bytes_length]; ring,
        ref_at_add]

theorem sizes_at_flatMap (cs : List Nat) (post : List Nat) (h : ∀ c ∈ cs, c < 4294967296) :
    (List.range cs.length).map
        (fun i => leAt (cs.flatMap (fun c => leBytes 4 c) ++ post) (4 * i) 4)
      = cs := by
  induction cs with
  | nil => rfl
  | cons p tl ih =>
    rw [List.length_cons, List.range_succ_eq_map, List.map_cons, List.map_map,
      List.flatMap_cons, List.append_assoc]
    congr 1
    · rw [Nat.mul_zero, leAt_leBytes_append]
      have := h p (List.mem_cons_self _ _)
      omega
    · conv => rhs; rw [← ih (fun q hq => h q (List.mem_cons_of_mem _ hq))]
      apply List.map_congr_left
      intro i _
      show leAt _ (4 * (i + 1)) 4 = _
      rw [show 4 * (i + 1) = (leBytes 4 p).length + 4 * i by rw [leBytes_length]; ring,
        leAt_add]

theorem InfoData_interpretation (w : writing) (rest : List Nat) (I : info)
    (hI : I.InfoData = w.InfoData ++ rest)
    (hnP : I.m_nPacks = w.m_Packs.length) (hnR : I.m_nPointers = w.m_PointerTable.length)
    (hnC : I.m_nBlockSizes = w.m_CSizeStream.length)
    (hP : ∀ p ∈ w.m_Packs, p.m_UncompressSize < 4294967296 ∧ p.m_nBlocks < 4294967296)
    (hR : ∀ r ∈ w.m_PointerTable, r.m_PointingAT < 4294967296 ∧ r.m_OffSet < 4294967296
      ∧ r.m_Count < 4294967296 ∧ r.m_OffsetPack < 65536 ∧ r.m_PointingATPack < 65536)
    (hC : ∀ c ∈ w.m_CSizeStream, c < 4294967296) :
    I.packs = w.m_Packs.map (fun p => p.topack)
    ∧ I.refs = w.m_PointerTable
    ∧ I.blockSizes = w.m_CSizeStream := by
  have hPl : (w.m_Packs.flatMap (fun p => p.topack.bytes)).length = 12 * w.m_Packs.length :=
    length_flatMap_const _ _ 12 (fun p _ => pack_bytes_length _)
  have hRl : (w.m_PointerTable.flatMap (fun r => r.bytes)).length
      = 16 * w.m_PointerTable.length :=
    length_flatMap_const _ _ 16 (fun r _ => ref_bytes_length r)
  have hmap : w.m_Packs.flatMap (fun p => p.topack.bytes)
      = (w.m_Packs.map (fun p => p.topack)).flatMap pack.bytes := by
    rw [List.flatMap_map]
  refine ⟨?_, ?_, ?_⟩
  · unfold info.packs info.pPack
    rw [hnP, hI]
    unfold writing.InfoData
    rw [hmap, List.append_assoc, List.append_assoc]
    have := packs_at_flatMap (w.m_Packs.map (fun p => p.topack))
      (w.m_PointerTable.flatMap (fun r => r.bytes)
        ++ (w.m_CSizeStream.flatMap (fun c => leBytes 4 c) ++ rest))
      (by
        intro p hp
        rw [List.mem_map] at hp
        obtain ⟨q, hq, rfl⟩ := hp
        exact hP q hq)
    rw [List.length_map] at this
    exact this
  · unfold info.refs info.pRef
    rw [hnR, hnP, hI]
    unfold writing.InfoData
    rw [List.append_assoc, List.append_assoc]
    have := refs_at_flatMap w.m_PointerTable
      (w.m_CSizeStream.flatMap (fun c => leBytes 4 c) ++ rest) hR
    conv => rhs; rw [← this]
    apply List.map_congr_left
    intro i _
    show ref.at _ (sizeof_pack * w.m_Packs.length + sizeof_ref * i) = _
    rw [show sizeof_pack * w.m_Packs.length + sizeof_ref * i
        = (w.m_Packs.flatMap (fun p => p.topack.bytes)).length + 16 * i by rw [hPl]; rfl,
      ref_at_add]
  · unfold info.blockSizes info.pBlockSizes
    rw [hnC, hnR, hnP, hI]
    unfold writing.InfoData
    have := sizes_at_flatMap w.m_CSizeStream rest hC
    conv => rhs; rw [← this]
    apply List.map_congr_left
    intro i _
    show leAt _ (sizeof_pack * w.m_Packs.length + sizeof_ref * w.m_PointerTable.length + 4 * i) 4 = _
    rw [show sizeof_pack * w.m_Packs.length + sizeof_ref * w.m_PointerTable.length + 4 * i
        = (w.m_Packs.flatMap (fun p => p.topack.bytes)
            ++ w.m_PointerTable.flatMap (fun r => r.bytes)).length + 4 * i by
          rw [List.length_append, hPl, hRl]; rfl,
      List.append_assoc
        (w.m_Packs.flatMap (fun p => p.topack.bytes)
          ++ w.m_PointerTable.flatMap (fun r => r.bytes)),
      leAt_add]

theorem overwrite_getD (d : List Nat) (p : Nat) (bs : List Nat) (j : Nat) :
    (overwrite d p bs).getD j 0
      = if p ≤ j ∧ j < p + bs.length then bs.getD (j - p) 0 else d.getD j 0 := by
  cases bs with
  | nil =>
    rw [if_neg (by simp only [List.length_nil]; omega)]
    rfl
  | cons b bs =>
    unfold overwrite
    simp only [List.getD_eq_getElem?_getD]
    have hl : (List.take p d ++ List.replicate (p - d.length) 0).length = p := by
      simp only [List.length_append, List.length_take, List.length_replicate]; omega
    by_cases h1 : j < p
    · rw [if_neg (by omega)]
      rw [List.append_assoc, List.getElem?_append_left (by rw [hl]; exact h1)]
      by_cases h2 : j < d.length
      · rw [List.getElem?_append_left (by rw [List.length_take]; omega),
          List.getElem?_take_of_lt h1]
      · rw [List.getElem?_append_right (by rw [List.length_take]; omega),
          List.getElem?_replicate, List.getElem?_eq_none (by omega)]
        split <;> rfl
    · by_cases h2 : j < p + (b :: bs).length
      · rw [if_pos ⟨by omega, h2⟩]
        rw [List.append_assoc, List.getElem?_append_right (by rw [hl]; omega), hl,
          List.getElem?_append_left (by omega)]
      · rw [if_neg (by omega)]
        rw [List.getElem?_append_right (by
            rw [List.length_append, hl]; omega),
          List.length_append, hl, List.getElem?_drop]
        congr 2
        omega

theorem list_ext_getD (l1 l2 : List Nat) (hl : l1.length = l2.length)
    (h : ∀ j, l1.getD j 0 = l2.getD j 0) : l1 = l2 := by
  apply List.ext_getElem hl
  intro j h1 h2
  have := h j
  rw [List.getD_eq_getElem _ _ h1, List.getD_eq_getElem _ _ h2] at this
  exact this

theorem readBytes_getD (mem : Mem) (a n k : Nat) (h : k < n) :
    (readBytes mem a n).getD k 0 = mem (a + k) := by
  unfold readBytes
  rw [List.getD_eq_getElem _ _ (by simp; exact h)]
  simp

theorem localPos_mod (s : stream) (p : Nat) (h1 : s.m_pClass ≤ p)
    (h3 : s.m_ClassPos + (p - s.m_pClass) < 4294967296) :
    s.localPos p = s.m_ClassPos + (p - s.m_pClass) := by
  unfold stream.localPos stream.ComputeLocalOffset i32 u32i
  omega

theorem Handle_packData_other (s : stream) (mem : Mem) (a n i : Nat) (h : i ≠ s.m_iPack) :
    (s.Handle mem a n).m_pWrite.packData i = s.m_pWrite.packData i := by
  unfold stream.Handle
  rw [packData_setW, if_neg (fun e => h e.1)]

theorem Handle_localPos (s : stream) (mem : Mem) (a n p : Nat) :
    (s.Handle mem a n).localPos p = s.localPos p := rfl

theorem overwrite_overwrite_comm (d : List Nat) (p q : Nat) (a b : List Nat)
    (ha : a ≠ []) (hb : b ≠ []) (h : p + a.length ≤ q ∨ q + b.length ≤ p) :
    overwrite (overwrite d p a) q b = overwrite (overwrite d q b) p a := by
  apply list_ext_getD
  · rw [overwrite_length _ _ _ hb, overwrite_length _ _ _ ha, overwrite_length _ _ _ ha,
      overwrite_length _ _ _ hb]
    omega
  · intro j
    rw [overwrite_getD, overwrite_getD, overwrite_getD, overwrite_getD]
    split_ifs <;> first | rfl | omega

theorem forLoop_induction_idx {σ : Type} (P : Nat → σ → Prop) (n : Nat) (body : Nat → σ → σ)
    (s : σ) (h0 : P 0 s) (hstep : ∀ i s, i < n → P i s → P (i + 1) (body i s)) :
    P n (forLoop n body s) := by
  induction n with
  | zero => simpa using h0
  | succ n ih =>
    rw [forLoop_succ]
    exact hstep _ _ (Nat.lt_succ_self n) (ih (fun i s hi h => hstep i s (Nat.lt_succ_of_lt hi) h))

theorem Serialize_data1_outside (t : stream) (mem : Mem) (a : Nat)
    (hloc : t.isLocalVariable a = false) :
    stream.Serialize data1 mem a t = t.popFrame ((t.pushFrame a 2).Handle mem (a + 0) 2) := by
  simp [data1, stream.Serialize, io_functions.SerializeIO, hloc]

theorem pushFrame_localPos (t : stream) (a n : Nat) (h : t.getW.pos < 4294967296) :
    (t.pushFrame a n).localPos (a + 0) = t.getW.pos := by
  unfold stream.localPos stream.ComputeLocalOffset stream.pushFrame i32 u32i u32 xfile.Tell
  simp only
  omega

theorem Serialize_data1_step (t : stream) (mem : Mem) (a : Nat)
    (hloc : t.isLocalVariable a = false) (hi : t.m_iPack < t.m_pWrite.m_Packs.length)
    (hpos : t.getW.pos + 2 ≤ t.getW.data.length) (h32 : t.getW.pos + 2 < 4294967296) :
    (stream.Serialize data1 mem a t).m_pWrite.packFlags = t.m_pWrite.packFlags
    ∧ (stream.Serialize data1 mem a t).m_pWrite.m_PointerTable = t.m_pWrite.m_PointerTable
    ∧ (∀ j, (stream.Serialize data1 mem a t).m_pWrite.packSize j = t.m_pWrite.packSize j)
    ∧ (stream.Serialize data1 mem a t).getW.pos = t.getW.pos + 2
    ∧ (stream.Serialize data1 mem a t).m_pWrite.m_Packs.length = t.m_pWrite.m_Packs.length := by
  rw [Serialize_data1_outside t mem a hloc]
  have hF : ((t.pushFrame a 2).Handle mem (a + 0) 2)
      = (t.pushFrame a 2).setW
          { data := overwrite t.getW.data t.getW.pos (readBytes mem (a + 0) 2)
            pos := t.getW.pos + 2 } := by
    unfold stream.Handle
    rw [pushFrame_localPos t a 2 (by omega)]
    rfl
  have hlen : (overwrite t.getW.data t.getW.pos (readBytes mem (a + 0) 2)).length
      = t.getW.data.length := by
    rw [overwrite_length _ _ _ (by
      intro h
      have := readBytes_length mem (a + 0) 2
      rw [h] at this
      simp at this), readBytes_length]
    omega
  have hiF : ((t.pushFrame a 2).Handle mem (a + 0) 2).m_iPack = t.m_iPack := rfl
  have hlF : ((t.pushFrame a 2).Handle mem (a + 0) 2).m_pWrite.m_Packs.length
      = t.m_pWrite.m_Packs.length := by simp
  refine ⟨by simp, by simp, ?_, ?_, by simp⟩
  · intro j
    unfold stream.popFrame
    simp only
    rw [packSize_setW]
    have hsz : ∀ j, ((t.pushFrame a 2).Handle mem (a + 0) 2).m_pWrite.packSize j
        = t.m_pWrite.packSize j := by
      intro j
      rw [hF, packSize_setW]
      split
      · rename_i h
        simp only
        rw [hlen, h.1]
        rfl
      · rfl
    split
    · rename_i h
      show (xfile.SeekOrigin _ _).data.length = _
      show (stream.getW _).data.length = _
      rw [getW_data_length]
      show ((t.pushFrame a 2).Handle mem (a + 0) 2).m_pWrite.packSize t.m_iPack = _
      rw [hsz, h.1]
    · exact hsz j
  · unfold stream.popFrame
    simp only
    rw [getW_setW _ _ (by show t.m_iPack < _; rw [hlF]; exact hi)]
    show u32 (u32 t.getW.Tell + u32 2) = _
    unfold u32 xfile.Tell
    omega

theorem choosePack_packSize (s : stream) (fl : mem_type) (j : Nat) :
    (s.choosePack fl).m_pWrite.packSize j = s.m_pWrite.packSize j := by
  rcases choosePack_packs s fl with h | h
  · unfold writing.packSize; rw [h]
  · unfold writing.packSize
    rw [h.1]
    by_cases hj : j < s.m_pWrite.m_Packs.length
    · rw [List.getD_append _ _ _ _ hj]
    · by_cases hj2 : j = s.m_pWrite.m_Packs.length
      · rw [hj2, List.getD_append_right _ _ _ _ (Nat.le_refl _),
          List.getD_eq_default _ _ (Nat.le_refl _), Nat.sub_self]
        rfl
      · rw [List.getD_eq_default _ _ (by simp; omega), List.getD_eq_default _ _ (by omega)]

theorem HandlePtrDetails_packSize (s : stream) (mem : Mem) (pA sz cnt : Nat)
    (fl : mem_type) (hcnt : cnt ≠ 0) (j : Nat) :
    (s.HandlePtrDetails mem pA sz cnt fl).m_pWrite.packSize j
      = if j = (s.choosePack fl).m_iPack then Align (s.m_pWrite.packSize j) 8 + sz * cnt
        else s.m_pWrite.packSize j := by
  by_cases h : j = (s.choosePack fl).m_iPack
  · rw [if_pos h]
    have := HandlePtrDetails_packSize_target s mem pA sz cnt fl hcnt
    rw [HandlePtrDetails_iPack s mem pA sz cnt fl hcnt] at this
    rw [h, this]
  · rw [if_neg h, HandlePtrDetails_pos s mem pA sz cnt fl hcnt]
    show ((s.choosePack fl).setW _).m_pWrite.packSize j = _
    rw [packSize_setW, if_neg (fun e => h e.1), choosePack_packSize]

theorem SerializePtr_data1 (s : stream) (mem : Mem) (pA cnt : Nat) (fl : mem_type)
    (hp : readPtr mem pA ≠ 0) (hc : cnt ≠ 0)
    (hnl : ∀ i, i < cnt → s.isLocalVariable (readPtr mem pA + i * 2) = false)
    (h32 : Align (s.m_pWrite.packSize (s.choosePack fl).m_iPack) 8 + 2 * cnt < 4294967296) :
    (s.SerializePtr data1 mem pA cnt fl).m_pWrite.packFlags = (s.choosePack fl).m_pWrite.packFlags
    ∧ (s.SerializePtr data1 mem pA cnt fl).m_pWrite.m_PointerTable
        = s.m_pWrite.m_PointerTable ++ [emittedRef s pA cnt fl]
    ∧ (s.SerializePtr data1 mem pA cnt fl).frame = s.frame
    ∧ (∀ j, (s.SerializePtr data1 mem pA cnt fl).m_pWrite.packSize j
        = if j = (s.choosePack fl).m_iPack then Align (s.m_pWrite.packSize j) 8 + 2 * cnt
          else s.m_pWrite.packSize j) := by
  have hs1i := HandlePtrDetails_iPack s mem pA 2 cnt fl hc
  have hs1w := HandlePtrDetails_getW s mem pA 2 cnt fl hc
  have hs1l : (s.HandlePtrDetails mem pA 2 cnt fl).m_iPack
      < (s.HandlePtrDetails mem pA 2 cnt fl).m_pWrite.m_Packs.length := by
    rw [hs1i, HandlePtrDetails_pos s mem pA 2 cnt fl hc]
    show _ < ((s.choosePack fl).setW _).m_pWrite.m_Packs.length
    rw [setW_packs_length]
    exact choosePack_iPack_lt s fl
  have hP : (s.choosePack fl).getW.data.length
      = s.m_pWrite.packSize (s.choosePack fl).m_iPack := choosePack_getW_size s fl
  have key := forLoop_induction_idx
    (fun i (t : stream) =>
      t.m_iPack = (s.HandlePtrDetails mem pA 2 cnt fl).m_iPack
      ∧ t.m_pClass = s.m_pClass ∧ t.m_ClassSize = s.m_ClassSize
      ∧ t.m_pWrite.packFlags = (s.HandlePtrDetails mem pA 2 cnt fl).m_pWrite.packFlags
      ∧ t.m_pWrite.m_PointerTable = (s.HandlePtrDetails mem pA 2 cnt fl).m_pWrite.m_PointerTable
      ∧ (∀ j, t.m_pWrite.packSize j = (s.HandlePtrDetails mem pA 2 cnt fl).m_pWrite.packSize j)
      ∧ t.getW.pos = Align (s.choosePack fl).getW.data.length 8 + 2 * i
      ∧ t.m_pWrite.m_Packs.length = (s.HandlePtrDetails mem pA 2 cnt fl).m_pWrite.m_Packs.length)
    cnt (fun i t => stream.Serialize data1 mem (readPtr mem pA + i * 2) t)
    (s.HandlePtrDetails mem pA 2 cnt fl)
    ⟨rfl, by simp, by simp, rfl, rfl, fun _ => rfl, by rw [hs1w]; rfl, rfl⟩
    (by
      intro i t hi ⟨h1, h2, h3, h4, h5, h6, h7, h8⟩
      have hloc : t.isLocalVariable (readPtr mem pA + i * 2) = false := by
        rw [← hnl i hi]
        unfold stream.isLocalVariable
        rw [h2, h3]
      have hlen : t.getW.data.length
          = Align (s.m_pWrite.packSize (s.choosePack fl).m_iPack) 8 + 2 * cnt := by
        rw [getW_data_length, h6, h1, HandlePtrDetails_packSize_target s mem pA 2 cnt fl hc]
      have hge := Align_ge (s.m_pWrite.packSize (s.choosePack fl).m_iPack)
      obtain ⟨g1, g2, g3, g4, g5⟩ := Serialize_data1_step t mem (readPtr mem pA + i * 2) hloc
        (by rw [h1, h8]; exact hs1l) (by rw [hlen, h7, hP]; omega) (by rw [h7, hP]; omega)
      have hf := (frame_eq_iff _ _).1 (Serialize_frame data1 mem (readPtr mem pA + i * 2) t)
      refine ⟨hf.1.trans h1, hf.2.2.1.trans h2, hf.2.2.2.trans h3, g1.trans h4, g2.trans h5,
        fun j => (g3 j).trans (h6 j), ?_, g5.trans h8⟩
      rw [g4, h7]; ring)
  obtain ⟨k1, k2, k3, k4, k5, k6, k7, k8⟩ := key
  have hun : s.SerializePtr data1 mem pA cnt fl
      = { forLoop cnt (fun i t => stream.Serialize data1 mem (readPtr mem pA + i * 2) t)
            (s.HandlePtrDetails mem pA 2 cnt fl) with m_iPack := s.m_iPack } := by
    unfold stream.SerializePtr stream.SerializePtrWith
    simp only [hp, if_false]
    rfl
  refine ⟨?_, ?_, SerializePtr_frame s data1 mem pA cnt fl, ?_⟩
  · rw [hun]
    show (stream.m_pWrite (forLoop _ _ _)).packFlags = _
    rw [k4, HandlePtrDetails_packFlags, if_neg hc]
  · rw [hun]
    show (stream.m_pWrite (forLoop _ _ _)).m_PointerTable = _
    rw [k5, HandlePtrDetails_PointerTable s mem pA 2 cnt fl hc]
  · intro j
    rw [hun]
    show (stream.m_pWrite (forLoop _ _ _)).packSize j = _
    rw [k6, HandlePtrDetails_packSize s mem pA 2 cnt fl hc]

theorem findPool_congr (fl : mem_type) :
    ∀ (ps qs : List pack_writing),
      ps.map (fun p => p.m_PackFlags) = qs.map (fun p => p.m_PackFlags) →
      findPool fl ps = findPool fl qs := by
  intro ps
  induction ps with
  | nil =>
    intro qs h
    cases qs with
    | nil => rfl
    | cons q qs => simp at h
  | cons p ps ih =>
    intro qs h
    cases qs with
    | nil => simp at h
    | cons q qs =>
      simp only [List.map_cons, List.cons.injEq] at h
      simp only [findPool, h.1, ih qs h.2]

theorem choosePack_congr (s q : stream) (fl : mem_type)
    (h : q.m_pWrite.packFlags = s.m_pWrite.packFlags) :
    (q.choosePack fl).m_iPack = (s.choosePack fl).m_iPack
    ∧ (q.choosePack fl).m_pWrite.packFlags = (s.choosePack fl).m_pWrite.packFlags := by
  have hl : q.m_pWrite.m_Packs.length = s.m_pWrite.m_Packs.length := by
    have := congrArg List.length h
    simpa [writing.packFlags] using this
  have hf : findPool fl q.m_pWrite.m_Packs = findPool fl s.m_pWrite.m_Packs :=
    findPool_congr fl _ _ h
  cases hu : fl.m_bUnique
  · rw [choosePack_iPack_nonunique q fl hu, choosePack_iPack_nonunique s fl hu]
    refine ⟨hf, ?_⟩
    unfold writing.packFlags
    rw [choosePack_packs_nonunique q fl hu, choosePack_packs_nonunique s fl hu, hf, hl]
    split
    · rw [List.map_append, List.map_append]
      unfold writing.packFlags at h
      rw [h]
    · exact h
  · have h1 := choosePack_unique q fl hu
    have h2 := choosePack_unique s fl hu
    refine ⟨by rw [h1.2, h2.2, hl], ?_⟩
    unfold writing.packFlags
    rw [h1.1, h2.1, List.map_append, List.map_append]
    unfold writing.packFlags at h
    rw [h]

theorem flagsOnly_packFlags (F : List mem_type) : (flagsOnly F).m_pWrite.packFlags = F := by
  unfold flagsOnly writing.packFlags
  simp only [List.map_map]
  conv => rhs; rw [← List.map_id F]
  apply List.map_congr_left
  intro f _
  rfl

theorem Handle_packSize_within (s : stream) (mem : Mem) (a n : Nat)
    (hi : s.m_iPack < s.m_pWrite.m_Packs.length) (hn : 0 < n)
    (h : s.localPos a + n ≤ s.m_pWrite.packSize s.m_iPack) (j : Nat) :
    (s.Handle mem a n).m_pWrite.packSize j = s.m_pWrite.packSize j := by
  by_cases hj : j = s.m_iPack
  · subst hj
    rw [packSize_eq_length, Handle_packData_same s mem a n hi, overwrite_length _ _ _ (by
      intro e
      have := readBytes_length mem a n
      rw [e] at this
      simp at this
      omega), readBytes_length, ← packSize_eq_length]
    omega
  · rw [packSize_eq_length, Handle_packData_other s mem a n j hj, ← packSize_eq_length]

theorem layout_eq (s : stream) (L : List (mem_type × Nat))
    (hF : s.m_pWrite.packFlags = L.map Prod.fst)
    (hS : ∀ j, s.m_pWrite.packSize j = (L.map Prod.snd).getD j 0) : s.layout = L := by
  unfold stream.layout
  have hl : s.m_pWrite.m_Packs.length = L.length := by
    have := congrArg List.length hF
    simpa [writing.packFlags] using this
  apply List.ext_getElem (by rw [List.length_map]; exact hl)
  intro i h1 h2
  rw [List.getElem_map]
  have hi : i < s.m_pWrite.m_Packs.length := by rw [List.length_map] at h1; exact h1
  have e1 : (s.m_pWrite.m_Packs[i]).m_PackFlags = (L[i]).1 := by
    have := congrArg (fun l => l[i]?) hF
    simp only [writing.packFlags, List.getElem?_map, List.getElem?_eq_getElem hi,
      List.getElem?_eq_getElem h2, Option.map_some', Option.some.injEq] at this
    exact this
  have e2 : (s.m_pWrite.m_Packs[i]).m_Data.data.length = (L[i]).2 := by
    have := hS i
    unfold writing.packSize at this
    rw [List.getD_eq_getElem _ _ hi, List.getD_eq_getElem _ _ (by rw [List.length_map]; exact h2),
      List.getElem_map] at this
    exact this
  rw [Prod.ext_iff]
  exact ⟨e1, e2⟩

theorem data3_pointer_step (s : stream) (mem : Mem) (off cnt p tgt : Nat) (fl : mem_type)
    (F F' : List mem_type) (S S' : List Nat) (T : List ref)
    (hfr : s.frame = (0, 0, 4096, 168))
    (hF : s.m_pWrite.packFlags = F) (hS : ∀ j, s.m_pWrite.packSize j = S.getD j 0)
    (hT : s.m_pWrite.m_PointerTable = T)
    (h0 : 168 ≤ S.getD 0 0) (hFne : F ≠ [])
    (hoff : off + 16 ≤ 168)
    (hp : readPtr mem (4096 + off + 8) = p) (hpo : 4264 ≤ p)
    (hc0 : 0 < cnt) (hc : cnt < 4294967296)
    (htgt : ((flagsOnly F).choosePack fl).m_iPack = tgt)
    (hF' : ((flagsOnly F).choosePack fl).m_pWrite.packFlags = F')
    (ht16 : tgt < 65536) (hst : S.getD tgt 0 < 4294967296)
    (hal : Align (S.getD tgt 0) 8 = S.getD tgt 0)
    (hS' : ∀ j, (if j = tgt then Align (S.getD j 0) 8 + 2 * cnt else S.getD j 0) = S'.getD j 0)
    (h32 : S'.getD tgt 0 < 4294967296) :
    ((s.Handle mem (4096 + off) 8).SerializePtr data1 mem (4096 + off + 8) cnt fl).frame
        = (0, 0, 4096, 168)
    ∧ ((s.Handle mem (4096 + off) 8).SerializePtr data1 mem (4096 + off + 8) cnt
          fl).m_pWrite.packFlags = F'
    ∧ (∀ j, ((s.Handle mem (4096 + off) 8).SerializePtr data1 mem (4096 + off + 8) cnt
          fl).m_pWrite.packSize j = S'.getD j 0)
    ∧ ((s.Handle mem (4096 + off) 8).SerializePtr data1 mem (4096 + off + 8) cnt
          fl).m_pWrite.m_PointerTable
        = T ++ [{ m_PointingAT := S.getD tgt 0, m_OffsetPack := 0, m_OffSet := off + 8,
                  m_Count := cnt, m_PointingATPack := tgt }] := by
  have hfr' := hfr
  simp only [stream.frame, Prod.mk.injEq] at hfr'
  obtain ⟨hi, hcp, hpc, hcs⟩ := hfr'
  have hlen : 0 < s.m_pWrite.m_Packs.length := by
    have := congrArg List.length hF
    simp only [writing.packFlags, List.length_map] at this
    rw [this]
    exact List.length_pos.2 hFne
  have hlp : ∀ x, x < 168 → s.localPos (4096 + x) = x := by
    intro x hx
    rw [localPos_mod s _ (by omega) (by omega), hcp, hpc]
    omega
  have hH : ∀ j, (s.Handle mem (4096 + off) 8).m_pWrite.packSize j = s.m_pWrite.packSize j :=
    Handle_packSize_within s mem _ 8 (by rw [hi]; exact hlen) (by omega)
      (by rw [hlp off (by omega), hi, hS]; omega)
  have hsel := choosePack_congr (flagsOnly F) (s.Handle mem (4096 + off) 8) fl
    (by rw [Handle_packFlags, hF, flagsOnly_packFlags])
  rw [htgt, hF'] at hsel
  obtain ⟨g1, g2, g3, g4⟩ := SerializePtr_data1 (s.Handle mem (4096 + off) 8) mem
    (4096 + off + 8) cnt fl (by rw [hp]; omega) (by omega)
    (by
      intro i _
      rw [hp]
      unfold stream.isLocalVariable
      show (decide (p + i * 2 ≥ s.m_pClass) && decide (p + i * 2 < s.m_pClass + s.m_ClassSize))
        = false
      rw [hpc, hcs]
      simp only [Bool.and_eq_false_imp, decide_eq_true_eq, decide_eq_false_iff_not]
      intro _
      omega)
    (by
      rw [hsel.1, hH, hS]
      have := hS' tgt
      rw [if_pos rfl] at this
      rw [this]
      exact h32)
  refine ⟨?_, ?_, ?_, ?_⟩
  · rw [g3]
    exact hfr
  · rw [g1, hsel.2]
  · intro j
    rw [g4, hsel.1, hH, hS]
    exact hS' j
  · have e1 : (s.Handle mem (4096 + off) 8).localPos (4096 + off + 8) = off + 8 := by
      rw [Handle_localPos, Nat.add_assoc, hlp (off + 8) (by omega)]
    have a1 : u32 (S.getD tgt 0) = S.getD tgt 0 := by unfold u32; omega
    have a2 : u32 cnt = cnt := by unfold u32; omega
    have a3 : u16 tgt = tgt := by unfold u16; omega
    have a4 : u16 0 = 0 := rfl
    have heq : emittedRef (s.Handle mem (4096 + off) 8) (4096 + off + 8) cnt fl
        = ref.mk (S.getD tgt 0) (off + 8) cnt 0 tgt := by
      unfold emittedRef
      rw [hsel.1, choosePack_getW_size, hsel.1, hH, hS, hal, e1, Handle_iPack, hi, a1, a2, a3,
        a4]
    rw [g2, Handle_PointerTable, hT, heq]

theorem SerializeIO_arrayField (off : Nat) (fl : mem_type) (rest : Stmts) (mem : Mem)
    (obj : Nat) (s : stream) :
    io_functions.SerializeIO (arrayField off fl rest) mem obj s
      = io_functions.SerializeIO rest mem obj
          ((s.Handle mem (obj + off) 8).SerializePtr data1 mem (obj + (off + 8))
            (countField off mem obj) fl) := by
  simp only [arrayField, io_functions.SerializeIO, stream.Serialize, stream.SerializePtr]

theorem data3_step (s : stream) (mem : Mem) (aC aP off cnt p tgt : Nat) (fl : mem_type)
    (F F' : List mem_type) (S S' : List Nat) (T : List ref)
    (hst : s.frame = (0, 0, 4096, 168) ∧ s.m_pWrite.packFlags = F
      ∧ (∀ j, s.m_pWrite.packSize j = S.getD j 0) ∧ s.m_pWrite.m_PointerTable = T)
    (haC : aC = 4096 + off) (haP : aP = 4096 + off + 8)
    (h0 : 168 ≤ S.getD 0 0) (hFne : F ≠ [])
    (hoff : off + 16 ≤ 168)
    (hp : readPtr mem aP = p) (hpo : 4264 ≤ p)
    (hc0 : 0 < cnt) (hc : cnt < 4294967296)
    (htgt : ((flagsOnly F).choosePack fl).m_iPack = tgt)
    (hF' : ((flagsOnly F).choosePack fl).m_pWrite.packFlags = F')
    (ht16 : tgt < 65536) (hs32 : S.getD tgt 0 < 4294967296)
    (hal : Align (S.getD tgt 0) 8 = S.getD tgt 0)
    (hS' : ∀ j, (if j = tgt then Align (S.getD j 0) 8 + 2 * cnt else S.getD j 0) = S'.getD j 0)
    (h32 : S'.getD tgt 0 < 4294967296) :
    ((s.Handle mem aC 8).SerializePtr data1 mem aP cnt fl).frame = (0, 0, 4096, 168)
    ∧ ((s.Handle mem aC 8).SerializePtr data1 mem aP cnt fl).m_pWrite.packFlags = F'
    ∧ (∀ j, ((s.Handle mem aC 8).SerializePtr data1 mem aP cnt fl).m_pWrite.packSize j
        = S'.getD j 0)
    ∧ ((s.Handle mem aC 8).SerializePtr data1 mem aP cnt fl).m_pWrite.m_PointerTable
        = T ++ [{ m_PointingAT := S.getD tgt 0, m_OffsetPack := 0, m_OffSet := off + 8,
                  m_Count := cnt, m_PointingATPack := tgt }] := by
  subst haC haP
  exact data3_pointer_step s mem off cnt p tgt fl F F' S S' T hst.1 hst.2.1 hst.2.2.1 hst.2.2.2
    h0 hFne hoff hp hpo hc0 hc htgt hF' ht16 hs32 hal hS' h32

theorem data3IO_eq :
    data3IO = .setResourceVersion 1
      (.serialize 8 data2
        (arrayField 24 { m_bUnique := true }
            (arrayField 40 { m_bTempMemory := true }
            (arrayField 56 { m_bTempMemory := true }
            (arrayField 72 { m_bTempMemory := true }
            (arrayField 88 { m_bTempMemory := true }
            (arrayField 104 { m_bTempMemory := true }
            (arrayField 120 { m_bTempMemory := true }
            (arrayField 136 { m_bTempMemory := true }
            (arrayField 152 { m_bTempMemory := true }
              (.serialize 0 (.prim 2) .done))))))))))) := rfl

theorem data3_counts :
    countField 0 data3Mem (4096 + 8) = 65540
    ∧ readPtr data3Mem (4096 + 8 + (0 + 8)) = 1048576
    ∧ countField 24 data3Mem 4096 = 524292
    ∧ readPtr data3Mem (4096 + 32) = 2097152
    ∧ ∀ k, k < 8 → countField (40 + 16 * k) data3Mem 4096 = 65540
        ∧ readPtr data3Mem (4096 + (40 + 16 * k + 8)) = 4194304 + 262144 * k := by
  refine ⟨by decide, by decide, by decide, by decide, ?_⟩
  intro k hk
  interval_cases k <;> exact ⟨by decide, by decide⟩

theorem data3_arrayField (s : stream) (mem : Mem) (obj off off1 cnt p tgt : Nat) (fl : mem_type)
    (F F' : List mem_type) (S S' : List Nat) (T : List ref) (rest : Stmts)
    (hst : data3State s F S T)
    (haC : obj + off = 4096 + off1) (haP : obj + (off + 8) = 4096 + off1 + 8)
    (hcnt : countField off mem obj = cnt)
    (h0 : 168 ≤ S.getD 0 0) (hFne : F ≠ [])
    (hoff : off1 + 16 ≤ 168)
    (hp : readPtr mem (obj + (off + 8)) = p) (hpo : 4264 ≤ p)
    (hc0 : 0 < cnt) (hc : cnt < 4294967296)
    (htgt : ((flagsOnly F).choosePack fl).m_iPack = tgt)
    (hF' : ((flagsOnly F).choosePack fl).m_pWrite.packFlags = F')
    (ht16 : tgt < 65536) (hs32 : S.getD tgt 0 < 4294967296)
    (hal : Align (S.getD tgt 0) 8 = S.getD tgt 0)
    (hS' : ∀ j, (if j = tgt then Align (S.getD j 0) 8 + 2 * cnt else S.getD j 0) = S'.getD j 0)
    (h32 : S'.getD tgt 0 < 4294967296) :
    ∃ s' : stream,
      io_functions.SerializeIO (arrayField off fl rest) mem obj s
        = io_functions.SerializeIO rest mem obj s'
      ∧ data3State s' F' S'
          (T ++ [{ m_PointingAT := S.getD tgt 0, m_OffsetPack := 0, m_OffSet := off1 + 8,
                   m_Count := cnt, m_PointingATPack := tgt }]) := by
  rw [SerializeIO_arrayField, hcnt]
  exact ⟨_, rfl, data3_step s mem _ _ off1 cnt p tgt fl F F' S S' T hst haC haP h0 hFne hoff hp hpo
    hc0 hc htgt hF' ht16 hs32 hal hS' h32⟩

theorem data3State_begin :
    data3State (({} : stream).SaveBegin {} 4096 168 1 compression_level.MEDIUM {} false)
      [{}] [168] [] := by
  refine ⟨by decide, ?_, ?_, by decide⟩
  · unfold writing.packFlags
    rw [SaveBegin_packs]
    rfl
  · intro j
    unfold writing.packSize
    rw [SaveBegin_packs]
    rcases j with _ | j
    · decide
    · rfl

theorem data3State_header (s : stream) (h : header) (F : List mem_type) (S : List Nat)
    (T : List ref) (hst : data3State s F S T) : data3State { s with m_Header := h } F S T := hst

theorem data3State_Handle (s : stream) (mem : Mem) (a n off : Nat) (F : List mem_type)
    (S : List Nat) (T : List ref) (hst : data3State s F S T) (ha : a = 4096 + off)
    (hn : 0 < n) (hoff : off + n ≤ 168) (h0 : 168 ≤ S.getD 0 0) (hFne : F ≠ []) :
    data3State (s.Handle mem a n) F S T := by
  obtain ⟨hfr, hF, hS, hT⟩ := hst
  have hfr' := hfr
  simp only [stream.frame, Prod.mk.injEq] at hfr'
  obtain ⟨hi, hcp, hpc, hcs⟩ := hfr'
  have hlen : 0 < s.m_pWrite.m_Packs.length := by
    have := congrArg List.length hF
    simp only [writing.packFlags, List.length_map] at this
    rw [this]
    exact List.length_pos.2 hFne
  subst ha
  refine ⟨by rw [Handle_frame]; exact hfr, by rw [Handle_packFlags]; exact hF, ?_,
    by rw [Handle_PointerTable]; exact hT⟩
  intro j
  rw [Handle_packSize_within s mem _ n (by rw [hi]; exact hlen) hn
    (by rw [localPos_mod s _ (by omega) (by omega), hcp, hpc, hi, hS]; omega)]
  exact hS j

theorem Serialize_data2_local (s : stream) (mem : Mem) (a : Nat)
    (h : s.isLocalVariable a = true) :
    stream.Serialize data2 mem a s = io_functions.SerializeIO (arrayField 0 {} .done) mem a s := by
  simp only [data2, stream.Serialize, h, if_true]

theorem SerializeIO_setResourceVersion (v : Nat) (rest : Stmts) (mem : Mem) (obj : Nat)
    (s : stream) :
    io_functions.SerializeIO (.setResourceVersion v rest) mem obj s
      = io_functions.SerializeIO rest mem obj
          { s with m_Header := { s.m_Header with m_ResourceVersion := u16 v } } := by
  simp only [io_functions.SerializeIO]

theorem SerializeIO_serialize (off : Nat) (ty : Ty) (rest : Stmts) (mem : Mem) (obj : Nat)
    (s : stream) :
    io_functions.SerializeIO (.serialize off ty rest) mem obj s
      = io_functions.SerializeIO rest mem obj (stream.Serialize ty mem (obj + off) s) := by
  simp only [io_functions.SerializeIO]

theorem SerializeIO_done (mem : Mem) (obj : Nat) (s : stream) :
    io_functions.SerializeIO .done mem obj s = s := by
  simp only [io_functions.SerializeIO]

theorem data3IO_run (s : stream) (hst : data3State s [{}] [168] []) :
    data3State ( io_functions.SerializeIO data3IO data3Mem 4096 s)
      [{}, { m_bUnique := true }, { m_bTempMemory := true }]
      [131248, 1048584, 1048640]
      [ { m_PointingAT := 168, m_OffsetPack := 0, m_OffSet := 16, m_Count := 65540,
          m_PointingATPack := 0 },
        { m_PointingAT := 0, m_OffsetPack := 0, m_OffSet := 32, m_Count := 524292,
          m_PointingATPack := 1 },
        { m_PointingAT := 0, m_OffsetPack := 0, m_OffSet := 48, m_Count := 65540,
          m_PointingATPack := 2 },
        { m_PointingAT := 131080, m_OffsetPack := 0, m_OffSet := 64, m_Count := 65540,
          m_PointingATPack := 2 },
        { m_PointingAT := 262160, m_OffsetPack := 0, m_OffSet := 80, m_Count := 65540,
          m_PointingATPack := 2 },
        { m_PointingAT := 393240, m_OffsetPack := 0, m_OffSet := 96, m_Count := 65540,
          m_PointingATPack := 2 },
        { m_PointingAT := 524320, m_OffsetPack := 0, m_OffSet := 112, m_Count := 65540,
          m_PointingATPack := 2 },
        { m_PointingAT := 655400, m_OffsetPack := 0, m_OffSet := 128, m_Count := 65540,
          m_PointingATPack := 2 },
        { m_PointingAT := 786480, m_OffsetPack := 0, m_OffSet := 144, m_Count := 65540,
          m_PointingATPack := 2 },
        { m_PointingAT := 917560, m_OffsetPack := 0, m_OffSet := 160, m_Count := 65540,
          m_PointingATPack := 2 } ] := by
  obtain ⟨c1, p1, c2, p2, hk⟩ := data3_counts
  rw [data3IO_eq, SerializeIO_setResourceVersion, SerializeIO_serialize]
  have hA := data3State_header s { s.m_Header with m_ResourceVersion := u16 1 } _ _ _ hst
  generalize ({ s with m_Header := { s.m_Header with m_ResourceVersion := u16 1 } } : stream)
    = sA at hA ⊢
  have hloc : sA.isLocalVariable (4096 + 8) = true := by
    have hfr := hA.1
    simp only [stream.frame, Prod.mk.injEq] at hfr
    unfold stream.isLocalVariable
    rw [hfr.2.2.1, hfr.2.2.2]
    decide
  rw [Serialize_data2_local sA _ _ hloc]
  obtain ⟨s1, e1, h1⟩ := data3_arrayField sA data3Mem (4096 + 8) 0 8 65540 1048576 0 {}
    [{}] [{}] [168] [131248] [] .done hA (by decide) (by decide) c1 (by decide) (by decide)
    (by decide) p1 (by decide) (by decide) (by decide) (by decide) (by decide) (by decide)
    (by decide)
    (by decide)
    (by intro j; rcases j with _ | j
        · decide
        · simp)
    (by decide)
  rw [e1, SerializeIO_done]
  obtain ⟨s2, e2, h2⟩ := data3_arrayField s1 data3Mem 4096 24 24 524292 2097152 1
    { m_bUnique := true }
    [{}] [{}, { m_bUnique := true }] [131248] [131248, 1048584] _
    (arrayField 40 { m_bTempMemory := true }
    (arrayField 56 { m_bTempMemory := true }
    (arrayField 72 { m_bTempMemory := true }
    (arrayField 88 { m_bTempMemory := true }
    (arrayField 104 { m_bTempMemory := true }
    (arrayField 120 { m_bTempMemory := true }
    (arrayField 136 { m_bTempMemory := true }
    (arrayField 152 { m_bTempMemory := true }
      (.serialize 0 (.prim 2) .done)))))))))
    h1 (by decide) (by decide) c2 (by decide) (by decide)
    (by decide) p2 (by decide) (by decide) (by decide) (by decide) (by decide) (by decide)
    (by decide)
    (by decide)
    (by intro j; rcases j with _ | _ | j
        · decide
        · decide
        · simp)
    (by decide)
  rw [e2]
  obtain ⟨t0, et0, ht0⟩ := data3_arrayField s2 data3Mem 4096 40 40 65540 4194304 2
    { m_bTempMemory := true }
    [{}, { m_bUnique := true }] [{}, { m_bUnique := true }, { m_bTempMemory := true }] [131248, 1048584] [131248, 1048584, 131080] _
    (arrayField 56 { m_bTempMemory := true }
    (arrayField 72 { m_bTempMemory := true }
    (arrayField 88 { m_bTempMemory := true }
    (arrayField 104 { m_bTempMemory := true }
    (arrayField 120 { m_bTempMemory := true }
    (arrayField 136 { m_bTempMemory := true }
    (arrayField 152 { m_bTempMemory := true }
      (.serialize 0 (.prim 2) .done))))))))
    h2 (by decide) (by decide) (hk 0 (by decide)).1 (by decide) (by decide)
    (by decide) (hk 0 (by decide)).2 (by decide) (by decide) (by decide) (by decide) (by decide)
    (by decide) (by decide)
    (by decide)
    (by intro j; rcases j with _ | _ | _ | j
        · decide
        · decide
        · decide
        · simp)
    (by decide)
  rw [et0]
  obtain ⟨t1, et1, ht1⟩ := data3_arrayField t0 data3Mem 4096 56 56 65540 4456448 2
    { m_bTempMemory := true }
    [{}, { m_bUnique := true }, { m_bTempMemory := true }] [{}, { m_bUnique := true }, { m_bTempMemory := true }] [131248, 1048584, 131080] [131248, 1048584, 262160] _
    (arrayField 72 { m_bTempMemory := true }
    (arrayField 88 { m_bTempMemory := true }
    (arrayField 104 { m_bTempMemory := true }
    (arrayField 120 { m_bTempMemory := true }
    (arrayField 136 { m_bTempMemory := true }
    (arrayField 152 { m_bTempMemory := true }
      (.serialize 0 (.prim 2) .done)))))))
    ht0 (by decide) (by decide) (hk 1 (by decide)).1 (by decide) (by decide)
    (by decide) (hk 1 (by decide)).2 (by decide) (by decide) (by decide) (by decide) (by decide)
    (by decide) (by decide)
    (by decide)
    (by intro j; rcases j with _ | _ | _ | j
        · decide
        · decide
        · decide
        · simp)
    (by decide)
  rw [et1]
  obtain ⟨t2, et2, ht2⟩ := data3_arrayField t1 data3Mem 4096 72 72 65540 4718592 2
    { m_bTempMemory := true }
    [{}, { m_bUnique := true }, { m_bTempMemory := true }] [{}, { m_bUnique := true }, { m_bTempMemory := true }] [131248, 1048584, 262160] [131248, 1048584, 393240] _
    (arrayField 88 { m_bTempMemory := true }
    (arrayField 104 { m_bTempMemory := true }
    (arrayField 120 { m_bTempMemory := true }
    (arrayField 136 { m_bTempMemory := true }
    (arrayField 152 { m_bTempMemory := true }
      (.serialize 0 (.prim 2) .done))))))
    ht1 (by decide) (by decide) (hk 2 (by decide)).1 (by decide) (by decide)
    (by decide) (hk 2 (by decide)).2 (by decide) (by decide) (by decide) (by decide) (by decide)
    (by decide) (by decide)
    (by decide)
    (by intro j; rcases j with _ | _ | _ | j
        · decide
        · decide
        · decide
        · simp)
    (by decide)
  rw [et2]
  obtain ⟨t3, et3, ht3⟩ := data3_arrayField t2 data3Mem 4096 88 88 65540 4980736 2
    { m_bTempMemory := true }
    [{}, { m_bUnique := true }, { m_bTempMemory := true }] [{}, { m_bUnique := true }, { m_bTempMemory := true }] [131248, 1048584, 393240] [131248, 1048584, 524320] _
    (arrayField 104 { m_bTempMemory := true }
    (arrayField 120 { m_bTempMemory := true }
    (arrayField 136 { m_bTempMemory := true }
    (arrayField 152 { m_bTempMemory := true }
      (.serialize 0 (.prim 2) .done)))))
    ht2 (by decide) (by decide) (hk 3 (by decide)).1 (by decide) (by decide)
    (by decide) (hk 3 (by decide)).2 (by decide) (by decide) (by decide) (by decide) (by decide)
    (by decide) (by decide)
    (by decide)
    (by intro j; rcases j with _ | _ | _ | j
        · decide
        · decide
        · decide
        · simp)
    (by decide)
  rw [et3]
  obtain ⟨t4, et4, ht4⟩ := data3_arrayField t3 data3Mem 4096 104 104 65540 5242880 2
    { m_bTempMemory := true }
    [{}, { m_bUnique := true }, { m_bTempMemory := true }] [{}, { m_bUnique := true }, { m_bTempMemory := true }] [131248, 1048584, 524320] [131248, 1048584, 655400] _
    (arrayField 120 { m_bTempMemory := true }
    (arrayField 136 { m_bTempMemory := true }
    (arrayField 152 { m_bTempMemory := true }
      (.serialize 0 (.prim 2) .done))))
    ht3 (by decide) (by decide) (hk 4 (by decide)).1 (by decide) (by decide)
    (by decide) (hk 4 (by decide)).2 (by decide) (by decide) (by decide) (by decide) (by decide)
    (by decide) (by decide)
    (by decide)
    (by intro j; rcases j with _ | _ | _ | j
        · decide
        · decide
        · decide
        · simp)
    (by decide)
  rw [et4]
  obtain ⟨t5, et5, ht5⟩ := data3_arrayField t4 data3Mem 4096 120 120 65540 5505024 2
    { m_bTempMemory := true }
    [{}, { m_bUnique := true }, { m_bTempMemory := true }] [{}, { m_bUnique := true }, { m_bTempMemory := true }] [131248, 1048584, 655400] [131248, 1048584, 786480] _
    (arrayField 136 { m_bTempMemory := true }
    (arrayField 152 { m_bTempMemory := true }
      (.serialize 0 (.prim 2) .done)))
    ht4 (by decide) (by decide) (hk 5 (by decide)).1 (by decide) (by decide)
    (by decide) (hk 5 (by decide)).2 (by decide) (by decide) (by decide) (by decide) (by decide)
    (by decide) (by decide)
    (by decide)
    (by intro j; rcases j with _ | _ | _ | j
        · decide
        · decide
        · decide
        · simp)
    (by decide)
  rw [et5]
  obtain ⟨t6, et6, ht6⟩ := data3_arrayField t5 data3Mem 4096 136 136 65540 5767168 2
    { m_bTempMemory := true }
    [{}, { m_bUnique := true }, { m_bTempMemory := true }] [{}, { m_bUnique := true }, { m_bTempMemory := true }] [131248, 1048584, 786480] [131248, 1048584, 917560] _
    (arrayField 152 { m_bTempMemory := true }
      (.serialize 0 (.prim 2) .done))
    ht5 (by decide) (by decide) (hk 6 (by decide)).1 (by decide) (by decide)
    (by decide) (hk 6 (by decide)).2 (by decide) (by decide) (by decide) (by decide) (by decide)
    (by decide) (by decide)
    (by decide)
    (by intro j; rcases j with _ | _ | _ | j
        · decide
        · decide
        · decide
        · simp)
    (by decide)
  rw [et6]
  obtain ⟨t7, et7, ht7⟩ := data3_arrayField t6 data3Mem 4096 152 152 65540 6029312 2
    { m_bTempMemory := true }
    [{}, { m_bUnique := true }, { m_bTempMemory := true }] [{}, { m_bUnique := true }, { m_bTempMemory := true }] [131248, 1048584, 917560] [131248, 1048584, 1048640] _
      (.serialize 0 (.prim 2) .done)
    ht6 (by decide) (by decide) (hk 7 (by decide)).1 (by decide) (by decide)
    (by decide) (hk 7 (by decide)).2 (by decide) (by decide) (by decide) (by decide) (by decide)
    (by decide) (by decide)
    (by decide)
    (by intro j; rcases j with _ | _ | _ | j
        · decide
        · decide
        · decide
        · simp)
    (by decide)
  rw [et7]
  rw [SerializeIO_serialize, SerializeIO_done]
  simp only [stream.Serialize]
  exact data3State_Handle t7 data3Mem _ 2 0 _ _ _ ht7 rfl (by decide) (by decide) (by decide)
    (by decide)

theorem data3Walk_state :
    data3State data3Walk
      [{}, { m_bUnique := true }, { m_bTempMemory := true }]
      [131248, 1048584, 1048640]
      [ { m_PointingAT := 168, m_OffsetPack := 0, m_OffSet := 16, m_Count := 65540,
          m_PointingATPack := 0 },
        { m_PointingAT := 0, m_OffsetPack := 0, m_OffSet := 32, m_Count := 524292,
          m_PointingATPack := 1 },
        { m_PointingAT := 0, m_OffsetPack := 0, m_OffSet := 48, m_Count := 65540,
          m_PointingATPack := 2 },
        { m_PointingAT := 131080, m_OffsetPack := 0, m_OffSet := 64, m_Count := 65540,
          m_PointingATPack := 2 },
        { m_PointingAT := 262160, m_OffsetPack := 0, m_OffSet := 80, m_Count := 65540,
          m_PointingATPack := 2 },
        { m_PointingAT := 393240, m_OffsetPack := 0, m_OffSet := 96, m_Count := 65540,
          m_PointingATPack := 2 },
        { m_PointingAT := 524320, m_OffsetPack := 0, m_OffSet := 112, m_Count := 65540,
          m_PointingATPack := 2 },
        { m_PointingAT := 655400, m_OffsetPack := 0, m_OffSet := 128, m_Count := 65540,
          m_PointingATPack := 2 },
        { m_PointingAT := 786480, m_OffsetPack := 0, m_OffSet := 144, m_Count := 65540,
          m_PointingATPack := 2 },
        { m_PointingAT := 917560, m_OffsetPack := 0, m_OffSet := 160, m_Count := 65540,
          m_PointingATPack := 2 } ] :=
  data3IO_run _ data3State_begin

theorem layout_of_state (s : stream) (F : List mem_type) (S : List Nat) (T : List ref)
    (L : List (mem_type × Nat)) (h : data3State s F S T) (hF : F = L.map Prod.fst)
    (hS : S = L.map Prod.snd) : s.layout = L := by
  subst hF hS
  exact layout_eq _ _ h.2.1 h.2.2.1

theorem data3Walk_layout :
    data3Walk.layout
      = [({}, 131248), ({ m_bUnique := true }, 1048584), ({ m_bTempMemory := true }, 1048640)] :=
  layout_of_state data3Walk _ _ _ _ data3Walk_state rfl rfl

theorem compressed_false (s : stream) (packs : List pack_writing) (cs : List Nat)
    (h : s.m_pWrite.m_bEndian = false) :
    s.compressed packs cs = { s.m_pWrite with m_Packs := packs, m_CSizeStream := cs } := by
  unfold stream.compressed
  exact updateEndian_false _ h

theorem saved_layout (w : stream) (L : List (mem_type × Nat)) (fuel : Nat)
    (hL : w.layout = L) (hsw : w.m_pWrite.m_bEndian = false) (hfuel : ∀ x ∈ L, x.2 < fuel) :
    ∃ t : stream,
      stream.SaveFile rle fuel w = .ok t
      ∧ t.m_Header.m_nPacks = u16 L.length
      ∧ t.m_Header.m_nPointers = u16 w.m_pWrite.m_PointerTable.length
      ∧ t.m_pWrite.m_Packs.map (fun p => (p.m_PackFlags, p.m_UncompressSize))
          = L.map (fun x => (x.1, u32 x.2))
      ∧ t.m_pWrite.m_PointerTable = w.m_pWrite.m_PointerTable := by
  have hf : ∀ p ∈ w.m_pWrite.m_Packs, p.m_Data.data.length < fuel := by
    intro p hp
    have : (p.m_PackFlags, p.m_Data.data.length) ∈ w.layout := List.mem_map.2 ⟨p, hp, rfl⟩
    rw [hL] at this
    exact hfuel _ this
  obtain ⟨t, ht⟩ := SaveFile_rle_ok fuel w hf hsw
  obtain ⟨packs, cs, info, h1, hP, hR, _, _, _, _, hnp, hnr, _⟩ :=
    SaveFile_result rle fuel w t ht
  rw [compressed_false w packs cs hsw] at hP hR
  simp only at hP hR
  obtain ⟨ks, _, _, hlen, hfl, hus⟩ := compressPacks_count rle _ _ _ _ _ h1
  simp only at hlen hfl hus
  have hl : w.m_pWrite.m_Packs.length = L.length := by
    rw [← hL]; unfold stream.layout; rw [List.length_map]
  refine ⟨t, ht, ?_, ?_, ?_, hR⟩
  · rw [hnp, hP, hlen, hl]
  · rw [hnr, hR]
  · rw [hP, ← hL]
    unfold stream.layout
    rw [List.map_map]
    have e : packs.map (fun p => (p.m_PackFlags, p.m_UncompressSize))
        = List.zip (packs.map (fun p => p.m_PackFlags))
            (packs.map (fun p => p.m_UncompressSize)) := by
      rw [List.zip_map']
    rw [e, hfl, hus, List.zip_map']
    rfl

theorem data3_Save_eq :
    stream.Save rle 2097152 {} {} data3Mem 4096 168 data3IO 1 compression_level.MEDIUM {} false
      = stream.SaveFile rle 2097152 data3Walk := rfl

theorem data3Walk_swap : data3Walk.m_pWrite.m_bEndian = false :=
  (SaveWalk_output {} {} data3Mem 4096 168 data3IO 1 compression_level.MEDIUM {} false).2.1

theorem flip_flip (b : Nat) (h : b ≤ 1) : flip (flip b) = b := by
  unfold flip
  rcases Nat.le_one_iff_eq_zero_or_eq_one.1 h with h | h <;> subst h <;> rfl

theorem flip_le (b : Nat) : flip b ≤ 1 := by
  unfold flip; split <;> omega

theorem flip_ne (b : Nat) : flip b ≠ b := by
  unfold flip; split <;> omega

theorem blockOffset_succ (I : info) (j : Nat) :
    I.blockOffset (j + 1) = I.blockOffset j + I.pBlockSizes j := by
  unfold info.blockOffset
  rw [List.range_succ, List.map_append, List.sum_append]
  simp

theorem blockOffset_mono (I : info) (j k : Nat) (h : j ≤ k) :
    I.blockOffset j ≤ I.blockOffset k := by
  induction k with
  | zero => have : j = 0 := by omega
            subst this; exact Nat.le_refl _
  | succ k ih =>
    by_cases hj : j = k + 1
    · subst hj; exact Nat.le_refl _
    · rw [blockOffset_succ]
      have := ih (by omega)
      omega

theorem blockStart_succ (I : info) (i : Nat) :
    I.blockStart (i + 1) = I.blockStart i + (I.pPack i).m_nBlocks := by
  unfold info.blockStart
  rw [List.range_succ, List.map_append, List.sum_append]
  simp

theorem blockStart_mono (I : info) (j k : Nat) (h : j ≤ k) :
    I.blockStart j ≤ I.blockStart k := by
  induction k with
  | zero => have : j = 0 := by omega
            subst this; exact Nat.le_refl _
  | succ k ih =>
    by_cases hj : j = k + 1
    · subst hj; exact Nat.le_refl _
    · rw [blockStart_succ]
      have := ih (by omega)
      omega

theorem block_length (I : info) (D : List Nat) (q0 j : Nat)
    (h : q0 + I.blockOffset (j + 1) ≤ D.length) :
    (I.block (D.drop q0) j).length = I.pBlockSizes j := by
  unfold info.block
  rw [blockOffset_succ] at h
  rw [List.length_take, List.length_drop, List.length_drop]
  omega

theorem read_block (I : info) (D : List Nat) (q0 : Nat) (L : loading) (b j : Nat)
    (hD : L.File.data = D) (hpos : L.File.pos = q0 + I.blockOffset j)
    (hlen : q0 + I.blockOffset (j + 1) ≤ D.length) :
    ∃ L1, L.read b (I.pBlockSizes j) = some L1
      ∧ L1.File.data = D ∧ L1.File.pos = q0 + I.blockOffset (j + 1)
      ∧ L1.span b (I.pBlockSizes j) = I.block (D.drop q0) j
      ∧ (I.pBlockSizes j ≤ max_block_size_v → ∀ b1 n, b1 ≠ b → n ≤ max_block_size_v →
          L1.span b1 n = L.span b1 n)
      ∧ L1.mem = L.mem ∧ L1.pPackPointers = L.pPackPointers
      ∧ L1.m_pTempBlockData = L.m_pTempBlockData
      ∧ L1.iBlock = L.iBlock ∧ L1.iCurrentBuffer = L.iCurrentBuffer
      ∧ L1.ReadBuffer
          = writeBytes L.ReadBuffer (b * max_block_size_v) (I.block (D.drop q0) j) := by
  have hoff := blockOffset_succ I j
  have hspan : L.File.ReadSpan (I.pBlockSizes j)
      = some ((L.File.data.drop L.File.pos).take (I.pBlockSizes j),
          { L.File with pos := L.File.pos + I.pBlockSizes j }) := by
    unfold xfile.ReadSpan
    rw [if_pos (by rw [hD, hpos]; omega)]
  have hbytes : (L.File.data.drop L.File.pos).take (I.pBlockSizes j) = I.block (D.drop q0) j := by
    unfold info.block
    rw [hD, hpos, List.drop_drop]
  refine ⟨{ L with
      File := { L.File with pos := L.File.pos + I.pBlockSizes j }
      ReadBuffer := writeBytes L.ReadBuffer (b * max_block_size_v)
        ((L.File.data.drop L.File.pos).take (I.pBlockSizes j)) },
    by unfold loading.read; rw [hspan]; rfl, hD, ?_, ?_, ?_, rfl, rfl, rfl, rfl, rfl, ?_⟩
  · show L.File.pos + I.pBlockSizes j = _
    rw [hpos, hoff]; omega
  · show readBytes (writeBytes L.ReadBuffer (b * max_block_size_v)
        ((L.File.data.drop L.File.pos).take (I.pBlockSizes j))) (b * max_block_size_v)
          (I.pBlockSizes j) = _
    rw [hbytes]
    have := readBytes_writeBytes_same L.ReadBuffer (b * max_block_size_v)
      (I.block (D.drop q0) j)
    rw [block_length I D q0 j hlen] at this
    exact this
  · intro hsz b1 n hb1 hn
    show readBytes (writeBytes L.ReadBuffer (b * max_block_size_v)
        ((L.File.data.drop L.File.pos).take (I.pBlockSizes j))) (b1 * max_block_size_v) n
          = readBytes L.ReadBuffer (b1 * max_block_size_v) n
    apply readBytes_writeBytes_disjoint
    rw [hbytes, block_length I D q0 j hlen]
    unfold max_block_size_v at hsz hn ⊢
    omega
  · show writeBytes L.ReadBuffer (b * max_block_size_v) _ = _
    rw [hbytes]

theorem readBlocks_sim {κ δ : Type} (codec : xcompression.codec κ δ) (I : info) (Pack : pack)
    (BlockSize p : Nat) (D : List Nat) (q0 : Nat) :
    ∀ (n : Nat) (L : loading) (Dec : δ) (R j : Nat),
      Holds I D q0 L j → q0 + I.blockOffset (j + n + 1) ≤ D.length →
      (∀ k, k < j + n + 1 → I.pBlockSizes k ≤ max_block_size_v) →
      ∃ L1 Dec1 R1,
        readBlocks codec I Pack BlockSize p n L Dec R = some (L1, Dec1, R1)
        ∧ (L1.mem, Dec1, R1)
            = decodeInner codec Pack BlockSize p
                ((List.range' j n).map (I.block (D.drop q0))) (L.mem, Dec, R)
        ∧ Holds I D q0 L1 (j + n)
        ∧ L1.pPackPointers = L.pPackPointers
        ∧ L1.m_pTempBlockData = L.m_pTempBlockData := by
  intro n
  induction n with
  | zero =>
    intro L Dec R j hH _ _
    exact ⟨L, Dec, R, rfl, rfl, hH, rfl, rfl⟩
  | succ n ih =>
    intro L Dec R j hH hlen hbs
    obtain ⟨hD, hpos, hspan, hib, hcur⟩ := hH
    have hlen1 : q0 + I.blockOffset (j + 1 + 1) ≤ D.length :=
      le_trans (Nat.add_le_add_left (blockOffset_mono I _ _ (by omega)) q0) hlen
    have hlenj : q0 + I.blockOffset (j + 1) ≤ D.length :=
      le_trans (Nat.add_le_add_left (blockOffset_mono I _ _ (by omega)) q0) hlen
    obtain ⟨L2, hread, h2D, h2pos, h2span, h2buf, h2mem, h2ptr, h2tmp, h2ib, h2cur, _⟩ :=
      read_block I D q0
        { L with iCurrentBuffer := flip L.iCurrentBuffer, iBlock := L.iBlock + 1 }
        (flip L.iCurrentBuffer) (j + 1) hD hpos hlen1
    simp only at h2mem h2ptr h2tmp h2ib h2cur h2buf
    have hsrc : L2.span (flip L2.iCurrentBuffer) (I.pBlockSizes (L2.iBlock - 1))
        = I.block (D.drop q0) j := by
      rw [h2cur, h2ib, hib, Nat.add_sub_cancel, flip_flip _ hcur,
        h2buf (hbs _ (by omega)) _ _ (fun e => flip_ne _ e.symm) (hbs _ (by omega))]
      exact hspan
    have hsz : I.pBlockSizes (L2.iBlock - 1) = (I.block (D.drop q0) j).length := by
      rw [h2ib, hib, Nat.add_sub_cancel, block_length I D q0 j hlenj]
    have hstep : readBlocks codec I Pack BlockSize p (n + 1) L Dec R
        = readBlocks codec I Pack BlockSize p n
            { L2 with mem := (decodeBlock codec Pack BlockSize p (I.block (D.drop q0) j)
                (L.mem, Dec, R)).1 }
            (decodeBlock codec Pack BlockSize p (I.block (D.drop q0) j) (L.mem, Dec, R)).2.1
            (decodeBlock codec Pack BlockSize p (I.block (D.drop q0) j) (L.mem, Dec, R)).2.2 := by
      conv => lhs; unfold readBlocks
      simp only
      rw [hib] at hread
      rw [hib, hread]
      simp only
      rw [hsrc, hsz, h2mem]
      unfold decodeBlock
      simp only
      split <;> rfl
    have hH2 : Holds I D q0
        { L2 with mem := (decodeBlock codec Pack BlockSize p (I.block (D.drop q0) j)
            (L.mem, Dec, R)).1 } (j + 1) := by
      refine ⟨h2D, h2pos, ?_, by show L2.iBlock = _; rw [h2ib, hib], by
        show L2.iCurrentBuffer ≤ 1; rw [h2cur]; exact flip_le _⟩
      show L2.span L2.iCurrentBuffer _ = _
      rw [h2cur]
      exact h2span
    obtain ⟨L3, Dec3, R3, hrun, hdec, hH3, hptr, htmp⟩ := ih _ _ _ (j + 1) hH2
      (by rw [show j + 1 + n + 1 = j + (n + 1) + 1 by omega]; exact hlen)
      (fun k hk => hbs k (by omega))
    refine ⟨L3, Dec3, R3, hstep.trans hrun, ?_, ?_, hptr.trans h2ptr, htmp.trans h2tmp⟩
    · rw [hdec, List.range'_succ, List.map_cons]
      conv => rhs; unfold decodeInner
    · rw [show j + (n + 1) = j + 1 + n by omega]
      exact hH3

theorem range'_map_dropLast {α : Type} (f : Nat → α) (s c : Nat) :
    ((List.range' s (c + 1)).map f).dropLast = (List.range' s c).map f := by
  rw [List.range'_concat, List.map_append, List.map_singleton, List.dropLast_concat]

theorem range'_map_getLastD {α : Type} (f : Nat → α) (s c : Nat) (d : α) :
    ((List.range' s (c + 1)).map f).getLastD d = f (s + c) := by
  rw [List.range'_concat, List.map_append, List.map_singleton]
  simp

theorem loadPack_sim {κ δ : Type} (codec : xcompression.codec κ δ)
    (Allocate : Nat → mem_type → Nat → Nat → Nat) (I : info) (D : List Nat) (q0 iPack : Nat)
    (L : loading) (hi : iPack < I.m_nPacks) (hB : Before I D q0 L iPack)
    (hcount : 1 ≤ (I.pPack iPack).m_nBlocks)
    (hlen : q0 + I.blockOffset
        (I.blockStart (iPack + 1) + (if iPack + 1 < I.m_nPacks then 1 else 0)) ≤ D.length)
    (hbs : ∀ k, k < I.blockStart (iPack + 1) + (if iPack + 1 < I.m_nPacks then 1 else 0) →
      I.pBlockSizes k ≤ max_block_size_v) :
    match decodePack codec (I.pPack iPack) (I.packPointer Allocate iPack)
        ((List.range' (I.blockStart iPack) (I.pPack iPack).m_nBlocks).map (I.block (D.drop q0)))
        L.mem with
    | none => loadPack codec Allocate I iPack L = none
    | some r =>
      ∃ L1, loadPack codec Allocate I iPack L = some L1
        ∧ L1.mem = r.1
        ∧ L1.pPackPointers = L.pPackPointers ++ [I.packPointer Allocate iPack]
        ∧ L1.m_pTempBlockData
            = (if (I.pPack iPack).m_PackFlags.m_bTempMemory then I.packPointer Allocate iPack
               else L.m_pTempBlockData)
        ∧ Before I D q0 L1 (iPack + 1) := by
  obtain ⟨c, hc⟩ : ∃ c, (I.pPack iPack).m_nBlocks = c + 1 := ⟨(I.pPack iPack).m_nBlocks - 1, by omega⟩
  have hst := blockStart_succ I iPack
  rw [hc] at hst
  obtain ⟨hD, hib, hcur, hif⟩ := hB
  have hmono : ∀ k, k ≤ I.blockStart (iPack + 1) + (if iPack + 1 < I.m_nPacks then 1 else 0) →
      q0 + I.blockOffset k ≤ D.length := fun k hk =>
    le_trans (Nat.add_le_add_left (blockOffset_mono I _ _ hk) q0) hlen
  unfold decodePack loadPack
  simp only
  cases hinit : codec.DecompressInit (min max_block_size_v (I.pPack iPack).m_UncompressSize) with
  | none => simp only
  | some Dec0 =>
    simp only
    -- the first block of the pack is in the current buffer
    have hfirst : ∃ L1,
        (if iPack = 0 then L.read L.iCurrentBuffer (I.pBlockSizes L.iBlock) else some L) = some L1
        ∧ Holds I D q0 L1 (I.blockStart iPack) ∧ L1.mem = L.mem
        ∧ L1.pPackPointers = L.pPackPointers ∧ L1.m_pTempBlockData = L.m_pTempBlockData := by
      by_cases h0 : iPack = 0
      · rw [if_pos (Or.inl h0)] at hif
        obtain ⟨L1, hread, h1D, h1pos, h1span, _, h1mem, h1ptr, h1tmp, h1ib, h1cur, _⟩ :=
          read_block I D q0 L L.iCurrentBuffer (I.blockStart iPack) hD hif
            (hmono _ (by split <;> omega))
        refine ⟨L1, by rw [if_pos h0, hib]; exact hread,
          ⟨h1D, h1pos, by rw [h1cur]; exact h1span, h1ib.trans hib, by rw [h1cur]; exact hcur⟩,
          h1mem, h1ptr, h1tmp⟩
      · rw [if_neg (by omega)] at hif
        exact ⟨L, by rw [if_neg h0], hif, rfl, rfl, rfl⟩
    obtain ⟨L1, hL1, hH1, h1mem, h1ptr, h1tmp⟩ := hfirst
    rw [hL1]
    simp only
    have hH2 : Holds I D q0
        { L1 with
          pPackPointers := L1.pPackPointers
            ++ [Allocate iPack (I.pPack iPack).m_PackFlags (I.pPack iPack).m_UncompressSize 16]
          m_pTempBlockData := if (I.pPack iPack).m_PackFlags.m_bTempMemory then
              Allocate iPack (I.pPack iPack).m_PackFlags (I.pPack iPack).m_UncompressSize 16
            else L1.m_pTempBlockData } (I.blockStart iPack) := hH1
    obtain ⟨L3, Dec3, R3, hrun, hdec, hH3, h3ptr, h3tmp⟩ :=
      readBlocks_sim codec I (I.pPack iPack)
        (min max_block_size_v (I.pPack iPack).m_UncompressSize)
        (Allocate iPack (I.pPack iPack).m_PackFlags (I.pPack iPack).m_UncompressSize 16) D q0
        c _ Dec0 0 (I.blockStart iPack) hH2 (hmono _ (by split <;> omega))
        (fun k hk => hbs k (by split <;> omega))
    rw [hc, Nat.add_sub_cancel, hrun]
    simp only
    obtain ⟨h3D, h3pos, h3span, h3ib, h3cur⟩ := hH3
    -- the read-ahead of the first block of the next pack
    have hahead : ∃ L4,
        (if iPack + 1 < I.m_nPacks then
            L3.read (flip L3.iCurrentBuffer) (I.pBlockSizes (L3.iBlock + 1))
          else some L3) = some L4
        ∧ L4.File.data = D ∧ L4.mem = L3.mem ∧ L4.pPackPointers = L3.pPackPointers
        ∧ L4.m_pTempBlockData = L3.m_pTempBlockData ∧ L4.iBlock = L3.iBlock
        ∧ L4.iCurrentBuffer = L3.iCurrentBuffer
        ∧ L4.span L4.iCurrentBuffer (I.pBlockSizes (I.blockStart iPack + c))
            = I.block (D.drop q0) (I.blockStart iPack + c)
        ∧ (if iPack + 1 < I.m_nPacks then
            L4.File.pos = q0 + I.blockOffset (I.blockStart (iPack + 1) + 1)
            ∧ L4.span (flip L4.iCurrentBuffer) (I.pBlockSizes (I.blockStart (iPack + 1)))
                = I.block (D.drop q0) (I.blockStart (iPack + 1))
           else L4.File.pos = q0 + I.blockOffset (I.blockStart (iPack + 1))) := by
      by_cases hn : iPack + 1 < I.m_nPacks
      · rw [if_pos hn] at hmono hbs
        obtain ⟨L4, hread, h4D, h4pos, h4span, h4buf, h4mem, h4ptr, h4tmp, h4ib, h4cur, _⟩ :=
          read_block I D q0 L3 (flip L3.iCurrentBuffer) (I.blockStart iPack + c + 1) h3D h3pos
            (hmono _ (by omega))
        refine ⟨L4, by rw [if_pos hn, h3ib]; exact hread, h4D, h4mem, h4ptr, h4tmp, h4ib, h4cur,
          ?_, ?_⟩
        · rw [h4cur, h4buf (hbs _ (by omega)) _ _ (fun e => flip_ne _ e.symm)
            (hbs _ (by omega))]
          exact h3span
        · rw [if_pos hn, hst, h4cur, ← Nat.add_assoc]
          exact ⟨h4pos, h4span⟩
      · refine ⟨L3, by rw [if_neg hn], h3D, rfl, rfl, rfl, rfl, rfl, h3span, ?_⟩
        rw [if_neg hn, hst, ← Nat.add_assoc]
        exact h3pos
    obtain ⟨L4, hL4, h4D, h4mem, h4ptr, h4tmp, h4ib, h4cur, h4span, h4if⟩ := hahead
    rw [hL4]
    simp only
    have hblen : (I.block (D.drop q0) (I.blockStart iPack + c)).length
        = I.pBlockSizes (I.blockStart iPack + c) :=
      block_length I D q0 _ (hmono _ (by split <;> omega))
    have hdec1 := congrArg Prod.fst hdec
    have hdec2 := congrArg (fun x => x.2.1) hdec
    have hdec3 := congrArg (fun x => x.2.2) hdec
    simp only at hdec1 hdec2 hdec3
    refine ⟨_, rfl, ?_, ?_, ?_, ?_⟩
    · show writeBytes L4.mem _ _ = writeBytes _ _ _
      rw [range'_map_dropLast, range'_map_getLastD, h4mem, h4ib, h3ib, h4span, hdec1, hdec2,
        hdec3]
      unfold decodeLast info.packPointer
      rw [hblen]
      show writeBytes (decodeInner _ _ _ _ _ (L1.mem, Dec0, 0)).1 _ _ = _
      rw [h1mem]
    · show L4.pPackPointers = _
      rw [h4ptr, h3ptr, h1ptr]
      rfl
    · show L4.m_pTempBlockData = _
      rw [h4tmp, h3tmp, h1tmp]
      rfl
    · refine ⟨h4D, ?_, ?_, ?_⟩
      · show L4.iBlock + 1 = _
        rw [h4ib, h3ib, hst]; omega
      · show flip L4.iCurrentBuffer ≤ 1
        exact flip_le _
      · by_cases hn : iPack + 1 < I.m_nPacks
        · rw [if_neg (by omega)]
          rw [if_pos hn] at h4if
          refine ⟨h4D, h4if.1, h4if.2, ?_, flip_le _⟩
          show L4.iBlock + 1 = _
          rw [h4ib, h3ib, hst]; omega
        · rw [if_pos (Or.inr (by omega))]
          rw [if_neg hn] at h4if
          exact h4if

theorem range_map_drop_take {α : Type} (f : Nat → α) (N s c : Nat) (h : s + c ≤ N) :
    (((List.range N).map f).drop s).take c = (List.range' s c).map f := by
  rw [← List.map_drop, ← List.map_take]
  congr 1
  apply List.ext_getElem
  · simp; omega
  · intro i h1 h2
    simp [List.getElem_take, List.getElem_drop, List.getElem_range']

theorem loadPacks_sim {κ δ : Type} (codec : xcompression.codec κ δ)
    (Allocate : Nat → mem_type → Nat → Nat → Nat) (I : info) (D : List Nat) (q0 : Nat)
    (h1 : ∀ i, i < I.m_nPacks → 1 ≤ (I.pPack i).m_nBlocks)
    (h2 : I.blockStart I.m_nPacks = I.m_nBlockSizes)
    (hlen : q0 + I.blockOffset I.m_nBlockSizes ≤ D.length)
    (hbs : ∀ k, k < I.m_nBlockSizes → I.pBlockSizes k ≤ max_block_size_v) :
    ∀ (n iPack : Nat) (L : loading), iPack + n ≤ I.m_nPacks → Before I D q0 L iPack →
      match sequentialLoad codec Allocate I (I.blocks (D.drop q0)) n iPack
          (L.mem, L.pPackPointers, L.m_pTempBlockData) with
      | none => loadPacks codec Allocate I n iPack L = none
      | some st =>
        ∃ L1, loadPacks codec Allocate I n iPack L = some L1
          ∧ (L1.mem, L1.pPackPointers, L1.m_pTempBlockData) = st
          ∧ Before I D q0 L1 (iPack + n) := by
  intro n
  induction n with
  | zero =>
    intro iPack L hn hB
    simp only [sequentialLoad, loadPacks]
    exact ⟨L, rfl, rfl, hB⟩
  | succ n ih =>
    intro iPack L hn hB
    have hi : iPack < I.m_nPacks := by omega
    have hs := blockStart_succ I iPack
    have hle : I.blockStart (iPack + 1) ≤ I.blockStart I.m_nPacks :=
      blockStart_mono I _ _ (by omega)
    have hlen' : q0 + I.blockOffset
        (I.blockStart (iPack + 1) + (if iPack + 1 < I.m_nPacks then 1 else 0)) ≤ D.length := by
      refine le_trans (Nat.add_le_add_left (blockOffset_mono I _ _ ?_) q0) hlen
      rw [← h2]
      split
      · rename_i hlt
        have := blockStart_succ I (iPack + 1)
        have := h1 (iPack + 1) hlt
        have := blockStart_mono I (iPack + 1 + 1) I.m_nPacks (by omega)
        omega
      · omega
    have hbs' : ∀ k, k < I.blockStart (iPack + 1)
        + (if iPack + 1 < I.m_nPacks then 1 else 0) → I.pBlockSizes k ≤ max_block_size_v := by
      intro k hk
      apply hbs
      rw [← h2]
      refine Nat.lt_of_lt_of_le hk ?_
      split
      · rename_i hlt
        have := blockStart_succ I (iPack + 1)
        have := h1 (iPack + 1) hlt
        have := blockStart_mono I (iPack + 1 + 1) I.m_nPacks (by omega)
        omega
      · omega
    have hsim := loadPack_sim codec Allocate I D q0 iPack L hi hB (h1 iPack hi) hlen' hbs'
    have hblocks : ((I.blocks (D.drop q0)).drop (I.blockStart iPack)).take (I.pPack iPack).m_nBlocks
        = (List.range' (I.blockStart iPack) (I.pPack iPack).m_nBlocks).map
            (I.block (D.drop q0)) := by
      unfold info.blocks
      exact range_map_drop_take _ _ _ _ (by rw [← h2]; omega)
    unfold sequentialLoad loadPacks
    simp only
    rw [hblocks]
    unfold info.packPointer at hsim
    cases hdec : decodePack codec (I.pPack iPack)
        (Allocate iPack (I.pPack iPack).m_PackFlags (I.pPack iPack).m_UncompressSize 16)
        ((List.range' (I.blockStart iPack) (I.pPack iPack).m_nBlocks).map (I.block (D.drop q0)))
        L.mem with
    | none =>
      rw [hdec] at hsim
      simp only at hsim ⊢
      rw [hsim]
    | some r =>
      rw [hdec] at hsim
      simp only at hsim ⊢
      obtain ⟨L1, hL1, hm, hp, ht, hB1⟩ := hsim
      rw [hL1]
      simp only
      have := ih (iPack + 1) L1 (by omega) hB1
      rw [hm, hp, ht, show iPack + 1 + n = iPack + (n + 1) by omega] at this
      exact this

theorem readBytes_succ (mem : Mem) (a n : Nat) :
    readBytes mem a (n + 1) = mem a :: readBytes mem (a + 1) n := by
  unfold readBytes
  rw [List.range_succ_eq_map, List.map_cons, List.map_map]
  congr 1
  apply List.map_congr_left
  intro i _
  show mem (a + (i + 1)) = mem (a + 1 + i)
  rw [Nat.add_assoc, Nat.add_comm 1 i]

theorem readBytes_tail (mem : Mem) (a n : Nat) (x : Nat) (l : List Nat)
    (h : readBytes mem a (n + 1) = x :: l) : readBytes mem (a + 1) n = l := by
  rw [readBytes_succ] at h
  exact (List.cons.inj h).2

theorem writeBytes_at_last (mem : Mem) (a : Nat) (Z : List Nat) (x : Nat) :
    writeBytes mem a (Z ++ [x]) (a + Z.length) = x := by
  unfold writeBytes
  rw [if_pos ⟨Nat.le_add_right _ _, by simp⟩, Nat.add_sub_cancel_left,
    List.getD_eq_getElem?_getD, List.getElem?_append_right (Nat.le_refl _), Nat.sub_self]
  rfl

theorem readBytes_after_long_write (mem : Mem) (a n : Nat) (Z : List Nat) (x : Nat) :
    readBytes (writeBytes mem a (Z ++ [x])) (a + Z.length) (n + 1)
      = x :: readBytes mem (a + Z.length + 1) n := by
  rw [readBytes_succ, writeBytes_at_last]
  congr 1
  apply readBytes_writeBytes_disjoint
  right
  simp only [List.length_append, List.length_singleton]
  omega

theorem overflow_facts :
    overflowInfo.pBlockSizes 0 = 4 ∧ overflowInfo.pBlockSizes 1 = 4
    ∧ overflowInfo.pBlockSizes 2 = 65537
    ∧ overflowInfo.pPack 0
        = { m_PackFlags := {}, m_UncompressSize := 65539, m_nBlocks := 3 }
    ∧ overflowInfo.blockOffset 0 = 0 ∧ overflowInfo.blockOffset 1 = 4
    ∧ overflowInfo.blockOffset 2 = 8 ∧ overflowInfo.blockOffset 3 = 65545
    ∧ overflowInfo.blockStart 1 = 3 := by
  decide

theorem overflow_blocks :
    overflowPayload.length = 65545
    ∧ overflowInfo.block overflowPayload 0 = [5, 1, 0, 0]
    ∧ overflowInfo.block overflowPayload 1 = [7, 1, 0, 0]
    ∧ overflowInfo.block overflowPayload 2 = List.replicate 65536 0 ++ [9] := by
  obtain ⟨s0, s1, s2, _, o0, o1, o2, _, _⟩ := overflow_facts
  have hl : (List.replicate 65536 0 ++ [9] : List Nat).length = 65537 := by
    rw [List.length_append, List.length_replicate]
    rfl
  refine ⟨?_, ?_, ?_, ?_⟩
  · unfold overflowPayload
    rw [List.length_append, List.length_append, hl]
    rfl
  · unfold info.block
    rw [o0, s0, List.drop_zero]
    unfold overflowPayload
    exact List.take_left' rfl
  · unfold info.block
    rw [o1, s1]
    unfold overflowPayload
    show List.take 4 (List.drop ([5, 1, 0, 0] : List Nat).length (_ ++ _)) = _
    rw [List.drop_left]
    exact List.take_left' rfl
  · unfold info.block
    rw [o2, s2]
    unfold overflowPayload
    rw [← List.append_assoc]
    show List.take 65537 (List.drop ([5, 1, 0, 0] ++ [7, 1, 0, 0] : List Nat).length (_ ++ _)) = _
    rw [List.drop_left]
    exact List.take_of_length_le (by rw [hl])
theorem loadPacks_one {κ δ : Type} (codec : xcompression.codec κ δ)
    (Allocate : Nat → mem_type → Nat → Nat → Nat) (I : info) (i : Nat) (L : loading) :
    loadPacks codec Allocate I 1 i L = loadPack codec Allocate I i L := by
  unfold loadPacks
  cases loadPack codec Allocate I i L with
  | none => rfl
  | some L1 => rfl

theorem readBlocks_step_unpack {κ δ : Type} (codec : xcompression.codec κ δ) (I : info)
    (Pack : pack) (B p n : Nat) (L L2 : loading) (Dec : δ) (R : Nat)
    (hread : ({ L with iCurrentBuffer := flip L.iCurrentBuffer, iBlock := L.iBlock + 1 }
        : loading).read (flip L.iCurrentBuffer) (I.pBlockSizes (L.iBlock + 1)) = some L2)
    (hne : I.pBlockSizes (L2.iBlock - 1) ≠ B) :
    readBlocks codec I Pack B p (n + 1) L Dec R
      = readBlocks codec I Pack B p n
          { L2 with
            mem := writeBytes L2.mem (p + R)
              (codec.Unpack Dec (u32 (Pack.m_UncompressSize + 4294967296 - R))
                (L2.span (flip L2.iCurrentBuffer) (I.pBlockSizes (L2.iBlock - 1)))).2.1 }
          (codec.Unpack Dec (u32 (Pack.m_UncompressSize + 4294967296 - R))
            (L2.span (flip L2.iCurrentBuffer) (I.pBlockSizes (L2.iBlock - 1)))).2.2
          (u32 (R + (codec.Unpack Dec (u32 (Pack.m_UncompressSize + 4294967296 - R))
            (L2.span (flip L2.iCurrentBuffer) (I.pBlockSizes (L2.iBlock - 1)))).2.1.length)) := by
  conv => lhs; unfold readBlocks
  simp only
  rw [hread]
  simp only
  rw [if_neg hne]

theorem writeBytes_below (mem : Mem) (a : Nat) (bs : List Nat) (k : Nat) (h : k < a) :
    writeBytes mem a bs k = mem k := by
  unfold writeBytes
  rw [if_neg (by omega)]

theorem writeBytes_head (mem : Mem) (a x : Nat) : writeBytes mem a [x] a = x := by
  unfold writeBytes
  rw [if_pos ⟨Nat.le_refl _, by simp⟩, Nat.sub_self]
  rfl

theorem long_block_load (Allocate : Nat → mem_type → Nat → Nat → Nat) (I : info) (L0 : loading)
    (D Z : List Nat) (p : Nat)
    (hn : I.m_nPacks = 1)
    (s0 : I.pBlockSizes 0 = 4) (s1 : I.pBlockSizes 1 = 4) (s2 : I.pBlockSizes 2 = 65537)
    (hP : I.pPack 0 = { m_PackFlags := {}, m_UncompressSize := 65539, m_nBlocks := 3 })
    (hZ : Z.length = 65536)
    (hlen : D.length = 65545)
    (b0 : I.block D 0 = [5, 1, 0, 0]) (b1 : I.block D 1 = [7, 1, 0, 0])
    (b2 : I.block D 2 = Z ++ [9])
    (hD : L0.File.data = D) (hpos : L0.File.pos = 0) (hib : L0.iBlock = 0)
    (hcur : L0.iCurrentBuffer = 0)
    (hp : Allocate 0 {} 65539 16 = p) :
    ∃ L, loadPacks rle Allocate I 1 0 L0 = some L ∧ L.mem (p + 1) = 9 := by
  have o0 : I.blockOffset 0 = 0 := rfl
  have o1 : I.blockOffset 1 = 4 := by rw [blockOffset_succ, o0, s0]
  have o2 : I.blockOffset 2 = 8 := by rw [blockOffset_succ, o1, s1]
  have o3 : I.blockOffset 3 = 65545 := by rw [blockOffset_succ, o2, s2]
  have hmax : max_block_size_v = 65536 := rfl
  have hB : min max_block_size_v 65539 = 65536 := by decide
  have hf0 : flip 0 = 1 := rfl
  have hf1 : flip 1 = 0 := rfl
  -- the first block of the pack is read into buffer 0
  obtain ⟨L1, r1, d1, p1, sp1, _, m1, pt1, t1, ib1, c1, rb1⟩ :=
    read_block I D 0 L0 0 0 hD (by rw [o0, hpos]) (by rw [o1, hlen]; decide)
  rw [List.drop_zero, b0] at sp1 rb1
  rw [s0] at r1 sp1
  rw [hib] at ib1
  rw [hcur] at c1
  rw [o1] at p1
  -- first turn of the block loop: block 1 is read into buffer 1, block 0 is unpacked
  obtain ⟨L2, r2, d2, p2, sp2, f2, m2, pt2, t2, ib2, c2, rb2⟩ :=
    read_block I D 0
      ({ ({ L1 with
            pPackPointers := L1.pPackPointers ++ [p]
            m_pTempBlockData := L1.m_pTempBlockData } : loading) with
          iCurrentBuffer := 1, iBlock := 1 } : loading) 1 1 d1 (by rw [o1]; exact p1)
      (by rw [o2, hlen]; decide)
  rw [List.drop_zero, b1] at sp2 rb2
  rw [s1] at r2 sp2 f2
  rw [o2] at p2
  simp only at m2 pt2 t2 ib2 c2 rb2
  have sp2' : L2.span 0 4 = [5, 1, 0, 0] := by
    rw [f2 (by decide) 0 4 (by decide) (by decide)]
    exact sp1
  -- second turn: block 2, of 65537 bytes, is read into buffer 0; block 1 is unpacked
  obtain ⟨L3, r3, d3, p3, sp3, _, m3, pt3, t3, ib3, c3, rb3⟩ :=
    read_block I D 0
      ({ ({ L2 with mem := writeBytes L2.mem (p + 0) [5] } : loading) with
          iCurrentBuffer := 0, iBlock := 2 } : loading) 0 2 d2 (by rw [o2]; exact p2)
      (by rw [o3, hlen])
  rw [List.drop_zero, b2] at sp3 rb3
  rw [s2] at r3 sp3
  simp only at m3 pt3 t3 ib3 c3 rb3
  have sp3' : L3.span 1 4 = [9, 1, 0, 0] := by
    unfold loading.span at sp2 ⊢
    rw [rb3, hmax, Nat.zero_mul, Nat.one_mul]
    rw [hmax, Nat.one_mul] at sp2
    have := readBytes_after_long_write L2.ReadBuffer 0 3 Z 9
    rw [hZ, Nat.zero_add] at this
    rw [this]
    have ht := readBytes_tail L2.ReadBuffer 65536 3 7 [1, 0, 0] sp2
    rw [ht]
  have hu5 : ∀ n : Nat, rle.Unpack () n [5, 1, 0, 0] = (.OK, [5], ()) := fun _ => rfl
  have hu9 : ∀ n : Nat, rle.Unpack () n [9, 1, 0, 0] = (.OK, [9], ()) := fun _ => rfl
  -- the block loop
  have e1 := readBlocks_step_unpack rle I
    { m_PackFlags := {}, m_UncompressSize := 65539, m_nBlocks := 3 } 65536 p 1
    ({ L1 with
        pPackPointers := L1.pPackPointers ++ [p]
        m_pTempBlockData := L1.m_pTempBlockData } : loading) L2 () 0
    (by
      show ({ ({ L1 with
            pPackPointers := L1.pPackPointers ++ [p]
            m_pTempBlockData := L1.m_pTempBlockData } : loading) with
          iCurrentBuffer := flip L1.iCurrentBuffer, iBlock := L1.iBlock + 1 } : loading).read
            (flip L1.iCurrentBuffer) (I.pBlockSizes (L1.iBlock + 1)) = some L2
      rw [c1, ib1, s1]
      exact r2)
    (by rw [ib2]; show I.pBlockSizes 0 ≠ 65536; rw [s0]; decide)
  rw [c2, ib2, hf1] at e1
  rw [show I.pBlockSizes (1 - 1) = 4 from s0, sp2', hu5] at e1
  rw [show u32 (0 + ([5] : List Nat).length) = 1 from by decide] at e1
  have e2 := readBlocks_step_unpack rle I
    { m_PackFlags := {}, m_UncompressSize := 65539, m_nBlocks := 3 } 65536 p 0
    ({ L2 with mem := writeBytes L2.mem (p + 0) [5] } : loading) L3 () 1
    (by
      show ({ ({ L2 with mem := writeBytes L2.mem (p + 0) [5] } : loading) with
          iCurrentBuffer := flip L2.iCurrentBuffer, iBlock := L2.iBlock + 1 } : loading).read
            (flip L2.iCurrentBuffer) (I.pBlockSizes (L2.iBlock + 1)) = some L3
      rw [c2, ib2, s2]
      exact r3)
    (by rw [ib3]; show I.pBlockSizes 1 ≠ 65536; rw [s1]; decide)
  rw [c3, ib3, hf0, c2, ib2] at e2
  rw [show I.pBlockSizes (2 - 1) = 4 from s1, sp3', hu9] at e2
  rw [show u32 (1 + ([9] : List Nat).length) = 2 from by decide] at e2
  have hRB : readBlocks rle I { m_PackFlags := {}, m_UncompressSize := 65539, m_nBlocks := 3 }
      65536 p (3 - 1)
      ({ L1 with
          pPackPointers := L1.pPackPointers ++ [p]
          m_pTempBlockData := if false = true then p else L1.m_pTempBlockData } : loading) () 0
      = some (({ L3 with
                  mem := writeBytes L3.mem (p + 1) [9]
                  iCurrentBuffer := 0
                  iBlock := 2 } : loading), (), 2) :=
    e1.trans e2
  rw [loadPacks_one]
  unfold loadPack
  simp only
  rw [hP]
  simp only
  have hinit : ∀ B, rle.DecompressInit B = some () := fun _ => rfl
  rw [hinit]
  simp only [↓reduceIte]
  rw [hcur, hib, s0, r1]
  simp only
  rw [hp, hB, hRB]
  simp only
  rw [hn, if_neg (by decide)]
  simp only
  refine ⟨_, rfl, ?_⟩
  show writeBytes (writeBytes L3.mem (p + 1) [9]) (p + 2) _ (p + 1) = 9
  rw [writeBytes_below _ _ _ _ (by omega), writeBytes_head]
theorem long_block_sequential (Allocate : Nat → mem_type → Nat → Nat → Nat) (I : info)
    (D Z : List Nat) (p : Nat) (st0 : Mem × List Nat × Nat)
    (hnB : I.m_nBlockSizes = 3)
    (hP : I.pPack 0 = { m_PackFlags := {}, m_UncompressSize := 65539, m_nBlocks := 3 })
    (b0 : I.block D 0 = [5, 1, 0, 0]) (b1 : I.block D 1 = [7, 1, 0, 0])
    (b2 : I.block D 2 = Z ++ [9])
    (hp : Allocate 0 {} 65539 16 = p) :
    ∃ st, sequentialLoad rle Allocate I (I.blocks D) 1 0 st0 = some st ∧ st.1 (p + 1) = 7 := by
  have hB : min max_block_size_v 65539 = 65536 := by decide
  have hblocks : I.blocks D = [[5, 1, 0, 0], [7, 1, 0, 0], Z ++ [9]] := by
    unfold info.blocks
    rw [hnB, show List.range 3 = [0, 1, 2] from rfl]
    simp only [List.map_cons, List.map_nil]
    rw [b0, b1, b2]
  have hs : I.blockStart 0 = 0 := rfl
  have hu5 : ∀ n : Nat, rle.Unpack () n [5, 1, 0, 0] = (.OK, [5], ()) := fun _ => rfl
  have hu7 : ∀ n : Nat, rle.Unpack () n [7, 1, 0, 0] = (.OK, [7], ()) := fun _ => rfl
  have hinit : ∀ B, rle.DecompressInit B = some () := fun _ => rfl
  have hdl : ([[5, 1, 0, 0], [7, 1, 0, 0], Z ++ [9]] : List (List Nat)).dropLast
      = [[5, 1, 0, 0], [7, 1, 0, 0]] := rfl
  have hinner : decodeInner rle { m_PackFlags := {}, m_UncompressSize := 65539, m_nBlocks := 3 }
      65536 p [[5, 1, 0, 0], [7, 1, 0, 0]] (st0.1, (), 0)
      = (writeBytes (writeBytes st0.1 (p + 0) [5]) (p + 1) [7], (), 2) := by
    simp only [decodeInner, decodeBlock, List.length_cons, List.length_nil]
    rw [if_neg (by decide), hu5]
    simp only
    rw [if_neg (by decide), show u32 (0 + ([5] : List Nat).length) = 1 from by decide, hu7]
    simp only
    rw [show u32 (1 + ([7] : List Nat).length) = 2 from by decide]
  unfold sequentialLoad
  simp only
  rw [hP]
  simp only
  rw [hs, hblocks, List.drop_zero, hp]
  rw [show ([[5, 1, 0, 0], [7, 1, 0, 0], Z ++ [9]] : List (List Nat)).take 3
    = [[5, 1, 0, 0], [7, 1, 0, 0], Z ++ [9]] from rfl]
  unfold decodePack
  simp only
  rw [hB, hinit]
  simp only
  rw [hdl, hinner]
  simp only
  refine ⟨_, rfl, ?_⟩
  show writeBytes (writeBytes (writeBytes st0.1 (p + 0) [5]) (p + 1) [7]) (p + 2) _ (p + 1) = 7
  rw [writeBytes_below _ _ _ _ (by omega), writeBytes_head]
/-! ## The claims -/

/-- C1 (the code at the failing input): Save of the root `{ count = 0, pointer = nullptr }`
succeeds, and Load of the file it wrote returns OK with the root at address 65536.  The
count is loaded as 0, but the pointer slot holds the filler byte 32 eight times, that is the
pointer 0x2020202020202020, where the saved value holds the null pointer. -/
theorem null_pointer_round_trip :
    savedNull.isOk = true
    ∧ readBytes nullMem 4096 16 = List.replicate 16 0
    ∧ loadedNull.toOption.map (fun r => (r.pObject, readBytes r.mem r.pObject 16))
        = some (65536, List.replicate 8 0 ++ List.replicate 8 32)
    ∧ loadedNull.toOption.map (fun r => readPtr r.mem (r.pObject + 8))
        = some 2314885530818453536 := by
  decide!

/-- C2 (amended): when LoadObject returns an object and the file has at least one pack, the
pointer returned is the pointer the memory handler gave for pack 0; and for every ref `R`
of the info region with pack indices below the number of packs, whose 8-byte slot is not
overlapped by the slot of a later ref, the 8 bytes at
`base(packs[R.offset_pack]) + R.offset` hold the address
`base(packs[R.pointing_at_pack]) + R.pointing_at` (as 8 little-endian bytes). -/
theorem LoadObject_resolves_refs {κ δ : Type} (codec : xcompression.codec κ δ)
    (Allocate : Nat → mem_type → Nat → Nat → Nat) (s : stream) (File : xfile) (mem : Mem)
    (r : loaded) (h : stream.LoadObject codec Allocate s File mem = some r) :
    (0 < s.m_Header.m_nPacks → r.pObject = r.I.packPointer Allocate 0)
    ∧ ∀ (i : Nat) (R : ref), r.I.refs.get? i = some R →
        R.m_OffsetPack < s.m_Header.m_nPacks → R.m_PointingATPack < s.m_Header.m_nPacks →
        (∀ (j : Nat) (R' : ref), i < j → r.I.refs.get? j = some R' →
          R'.m_OffsetPack < s.m_Header.m_nPacks
          ∧ (r.I.packPointer Allocate R'.m_OffsetPack + R'.m_OffSet + 8
                ≤ r.I.packPointer Allocate R.m_OffsetPack + R.m_OffSet
              ∨ r.I.packPointer Allocate R.m_OffsetPack + R.m_OffSet + 8
                ≤ r.I.packPointer Allocate R'.m_OffsetPack + R'.m_OffSet)) →
        readBytes r.mem (r.I.packPointer Allocate R.m_OffsetPack + R.m_OffSet) 8
          = leBytes 8 (r.I.packPointer Allocate R.m_PointingATPack + R.m_PointingAT) := by
  obtain ⟨hn, _, hP, hO, m0, hm⟩ := LoadObject_some codec Allocate s File mem r h
  have hb : ∀ k, k < s.m_Header.m_nPacks →
      r.pPackPointers.getD k 0 = r.I.packPointer Allocate k := by
    intro k hk
    rw [hP]
    exact getD_map_range _ _ _ (by omega)
  refine ⟨fun h0 => by rw [hO, hb 0 h0], ?_⟩
  intro i R hi h1 h2 hlater
  rw [hm, ← hb _ h1, ← hb _ h2]
  apply resolveRef_foldl_slot _ _ _ i R hi
  intro j R' hij hj
  obtain ⟨h3, h4⟩ := hlater j R' hij hj
  rw [hb _ h1, hb _ h3]
  exact h4

/-- Witness of C2 (amended): the file saved for a root whose descriptor serializes the same
pointer field twice; the second of its two refs has no later ref, and its slot at
`65536 + 8` holds the address `65536 + 24`. -/
theorem LoadObject_resolves_refs_witness :
    stream.LoadObject rle bumpAllocate headerTwice.2.1 headerTwice.2.2 (fun _ => 0)
        = some loadedTwiceResult
    ∧ loadedTwiceResult.I.refs.get? 1
        = some { m_PointingAT := 24, m_OffSet := 8, m_Count := 2, m_OffsetPack := 0,
                 m_PointingATPack := 0 }
    ∧ loadedTwiceResult.pObject = 65536
    ∧ readBytes loadedTwiceResult.mem (65536 + 8) 8 = leBytes 8 (65536 + 24) := by
  have hs : loadedTwice.isSome = true := by decide!
  have h : stream.LoadObject rle bumpAllocate headerTwice.2.1 headerTwice.2.2 (fun _ => 0)
      = some loadedTwiceResult := by
    show loadedTwice = some loadedTwiceResult
    unfold loadedTwiceResult
    cases hq : loadedTwice with
    | none => rw [hq] at hs; exact absurd hs (by decide)
    | some r => rfl
  have hlen : loadedTwiceResult.I.refs.length = 2 := by decide!
  have hget : loadedTwiceResult.I.refs.get? 1
      = some { m_PointingAT := 24, m_OffSet := 8, m_Count := 2, m_OffsetPack := 0,
               m_PointingATPack := 0 } := by decide!
  have hp : 0 < headerTwice.2.1.m_Header.m_nPacks := by decide!
  have key := LoadObject_resolves_refs rle bumpAllocate headerTwice.2.1 headerTwice.2.2
    (fun _ => 0) loadedTwiceResult h
  refine ⟨h, hget, key.1 hp, ?_⟩
  refine key.2 1 _ hget hp hp ?_
  intro j R' hij hj
  rw [List.get?_eq_none.2 (by omega)] at hj
  exact absurd hj (by simp)

/-- C2 (counterexample): the file saved for a root whose descriptor serializes the same
pointer field twice holds two refs with the same slot (offset 8 of pack 0) that point at
offsets 16 and 24 of pack 0.  After LoadObject, with pack 0 at address 65536, the slot holds
`65536 + 24`, the target of the second ref, and not `65536 + 16`, the target of the first
ref. -/
theorem first_ref_overwritten :
    loadedTwice.map (fun r => (r.I.refs, r.pPackPointers, r.pObject))
        = some ([{ m_PointingAT := 16, m_OffSet := 8, m_Count := 2, m_OffsetPack := 0,
                   m_PointingATPack := 0 },
                 { m_PointingAT := 24, m_OffSet := 8, m_Count := 2, m_OffsetPack := 0,
                   m_PointingATPack := 0 }], [65536], 65536)
    ∧ loadedTwice.map (fun r => readBytes r.mem (65536 + 8) 8) = some (leBytes 8 (65536 + 24))
    ∧ leBytes 8 (65536 + 24) ≠ leBytes 8 (65536 + 16) := by
  decide!

/-- C3 (amended): for every pointer operation with a non-null pointer and count == 0, whose
slot belongs to the current frame, the pointer's 8-byte slot in the parent pack holds,
after the operation, the 8 bytes that the slot holds in memory, that is the raw pointer
value (which is not zero). -/
theorem SerializePtr_count_zero_writes_raw_pointer (s : stream) (elem : Ty) (mem : Mem)
    (pA : Nat) (fl : mem_type) (hp : readPtr mem pA ≠ 0)
    (hcur : s.m_iPack < s.m_pWrite.m_Packs.length) (hslot : s.m_pClass ≤ pA)
    (hoff : pA - s.m_pClass < 2147483648)
    (hpos : s.m_ClassPos + (pA - s.m_pClass) < 4294967296) :
    (((s.SerializePtr elem mem pA 0 fl).m_pWrite.packData s.m_iPack).drop
        (s.m_ClassPos + (pA - s.m_pClass))).take 8 = readBytes mem pA 8
    ∧ leValue (readBytes mem pA 8) ≠ 0 := by
  refine ⟨?_, hp⟩
  have h1 : (s.SerializePtr elem mem pA 0 fl).m_pWrite.packData s.m_iPack
      = (s.Handle mem pA 8).m_pWrite.packData s.m_iPack := by
    unfold stream.SerializePtr stream.SerializePtrWith
    simp only [hp, if_false, HandlePtrDetails_zero, forLoop_zero, Nat.mul_zero]
    cases elem.isPrim
    · simp
    · simp only [if_true]
      split
      · exact Handle_zero_packData _ _ _ _
      · show (stream.popFrame _ _).m_pWrite.packData _ = _
        rw [popFrame_packData, Handle_zero_packData]
        rfl
  rw [h1, Handle_packData_same s mem pA 8 hcur, localPos_eq s pA hslot hoff hpos]
  have := overwrite_drop_take (s.m_pWrite.packData s.m_iPack) (s.m_ClassPos + (pA - s.m_pClass))
    (readBytes mem pA 8)
  rwa [readBytes_length] at this

/-- Witness of C3 (amended): a root `{ count = 0, pointer = 12288 }` saved with its
descriptor. -/
theorem SerializePtr_count_zero_writes_raw_pointer_witness :
    ((((rootBegin 16 {}).SerializePtr data1 emptyMem 4104 0 {}).m_pWrite.packData
        (rootBegin 16 {}).m_iPack).drop
        ((rootBegin 16 {}).m_ClassPos + (4104 - (rootBegin 16 {}).m_pClass))).take 8
      = readBytes emptyMem 4104 8
    ∧ leValue (readBytes emptyMem 4104 8) ≠ 0 :=
  SerializePtr_count_zero_writes_raw_pointer (rootBegin 16 {}) data1 emptyMem 4104 {}
    (by decide) (by decide) (by decide) (by decide) (by decide)

/-- C3 (counterexample): after the pointer operation with count == 0, the slot (bytes 8..15
of the root pack) holds the raw pointer 12288 when the pointer is non-null, and the filler
byte 32 eight times when the pointer is null; in neither case eight zero bytes. -/
theorem count_zero_slot_is_not_zeroed :
    countField 0 emptyMem 4096 = 0 ∧ readPtr emptyMem 4104 = 12288
    ∧ ((( io_functions.SerializeIO (arrayField 0 {} .done) emptyMem 4096
          (rootBegin 16 {})).m_pWrite.packData 0).drop 8).take 8 = [0, 48, 0, 0, 0, 0, 0, 0]
    ∧ countField 0 nullMem 4096 = 0 ∧ readPtr nullMem 4104 = 0
    ∧ ((( io_functions.SerializeIO (arrayField 0 {} .done) nullMem 4096
          (rootBegin 16 {})).m_pWrite.packData 0).drop 8).take 8 = List.replicate 8 32 := by
  decide

/-- C4: for every pointer operation with count == 0, whether the pointer is null or not, no
ref is appended to the pointer table, no pack is allocated (the packs and their flags are
the same), and the current pack index and the frame (class position, class address, class
size) are the same after the operation as before it. -/
theorem SerializePtr_count_zero_frame (s : stream) (elem : Ty) (mem : Mem) (pA : Nat)
    (MemoryFlags : mem_type) :
    (s.SerializePtr elem mem pA 0 MemoryFlags).m_pWrite.m_PointerTable = s.m_pWrite.m_PointerTable
    ∧ (s.SerializePtr elem mem pA 0 MemoryFlags).m_pWrite.m_Packs.length = s.m_pWrite.m_Packs.length
    ∧ (s.SerializePtr elem mem pA 0 MemoryFlags).m_pWrite.packFlags = s.m_pWrite.packFlags
    ∧ (s.SerializePtr elem mem pA 0 MemoryFlags).m_iPack = s.m_iPack
    ∧ (s.SerializePtr elem mem pA 0 MemoryFlags).m_ClassPos = s.m_ClassPos
    ∧ (s.SerializePtr elem mem pA 0 MemoryFlags).m_pClass = s.m_pClass
    ∧ (s.SerializePtr elem mem pA 0 MemoryFlags).m_ClassSize = s.m_ClassSize := by
  unfold stream.SerializePtr stream.SerializePtrWith
  by_cases hp : readPtr mem pA = 0
  · simp [hp]
  · simp only [hp, if_false, HandlePtrDetails_zero, forLoop_zero]
    cases elem.isPrim
    · simp
    · by_cases hl : (s.Handle mem pA 8).isLocalVariable (readPtr mem pA) = true
      · simp [hl]
      · simp [hl]

/-- C5 (amended): for every pointer operation with count > 0 and `child_flags.unique` set,
issued while fewer than 65536 packs exist, `HandlePtrDetails` appends exactly one new pack,
which carries exactly `child_flags`; every existing pack is left as it was (contents and
cursor); the new pack becomes the current pack; and exactly one ref is appended, whose
`pointing_at_pack` is the index of the new pack, that is the previous number of packs. -/
theorem HandlePtrDetails_unique_new_pack (s : stream) (mem : Mem) (pA sz cnt : Nat)
    (fl : mem_type) (hcnt : cnt ≠ 0) (hu : fl.m_bUnique = true)
    (hn : s.m_pWrite.m_Packs.length < 65536) :
    (s.HandlePtrDetails mem pA sz cnt fl).m_pWrite.m_Packs.length = s.m_pWrite.m_Packs.length + 1
    ∧ ((s.HandlePtrDetails mem pA sz cnt fl).m_pWrite.m_Packs.getD
        s.m_pWrite.m_Packs.length default).m_PackFlags = fl
    ∧ (s.HandlePtrDetails mem pA sz cnt fl).m_pWrite.m_Packs.take s.m_pWrite.m_Packs.length
        = s.m_pWrite.m_Packs
    ∧ (s.HandlePtrDetails mem pA sz cnt fl).m_iPack = s.m_pWrite.m_Packs.length
    ∧ ∃ r : ref, (s.HandlePtrDetails mem pA sz cnt fl).m_pWrite.m_PointerTable
          = s.m_pWrite.m_PointerTable ++ [r]
        ∧ r.m_PointingATPack = s.m_pWrite.m_Packs.length := by
  have hp := HandlePtrDetails_unique_packs s mem pA sz cnt fl hcnt hu
  refine ⟨by rw [hp]; simp, ?_, by rw [hp]; simp, ?_, emittedRef s pA cnt fl,
    HandlePtrDetails_PointerTable s mem pA sz cnt fl hcnt, ?_⟩
  · rw [hp, List.getD_append_right _ _ _ _ (Nat.le_refl _)]; simp
  · rw [HandlePtrDetails_iPack s mem pA sz cnt fl hcnt]; exact (choosePack_unique s fl hu).2
  · simp only [emittedRef, (choosePack_unique s fl hu).2, u16]
    exact Nat.mod_eq_of_lt hn

/-- Witness of C5 (amended): the first unique pointer operation of a save, issued from a
16-byte root. -/
theorem HandlePtrDetails_unique_new_pack_witness :
    ((({} : stream).SaveBegin {} 4096 16 1 compression_level.MEDIUM {} false).HandlePtrDetails
        (fun _ => 0) 4104 2 3 { m_bUnique := true }).m_pWrite.m_Packs.length = 1 + 1 :=
  (HandlePtrDetails_unique_new_pack
    (({} : stream).SaveBegin {} 4096 16 1 compression_level.MEDIUM {} false)
    (fun _ => 0) 4104 2 3 { m_bUnique := true } (by decide) rfl (by decide)).1

/-- C5 (counterexample): with 65536 packs already allocated, a unique pointer operation
with count 25 allocates the pack of index 65536, but the ref it emits stores
`pointing_at_pack = 0`, because the field has 16 bits. -/
theorem HandlePtrDetails_unique_pack_index_truncated :
    manyPacks.m_pWrite.m_Packs.length = 65536
    ∧ (manyPacks.HandlePtrDetails (fun _ => 0) 4104 4 25 { m_bUnique := true }).m_iPack = 65536
    ∧ ((manyPacks.HandlePtrDetails (fun _ => 0) 4104 4 25
          { m_bUnique := true }).m_pWrite.m_PointerTable.map (fun r => r.m_PointingATPack)) = [0] := by
  refine ⟨manyPacks_length, ?_, ?_⟩
  · rw [HandlePtrDetails_iPack _ _ _ _ _ _ (by decide),
      (choosePack_unique manyPacks { m_bUnique := true } rfl).2]
    exact manyPacks_length
  · rw [HandlePtrDetails_PointerTable _ _ _ _ _ _ (by decide)]
    have e : manyPacks.m_pWrite.m_PointerTable = [] := by simp only [manyPacks]
    simp only [emittedRef, (choosePack_unique manyPacks { m_bUnique := true } rfl).2,
      manyPacks_length, List.map_append, List.map_cons, List.map_nil, e, List.nil_append]
    decide

/-- C6 (the code at the failing input): saving a root with flags `{}` whose descriptor
serializes a first array with `{unique, vram}` and a second one with the non-unique flags
`{vram}` leaves two packs with flags `{}` and `{unique, vram}`, and both refs point into
pack 1: the non-unique pointee is placed in the pack whose unique flag is set. -/
theorem pooled_pointee_lands_in_unique_pack :
    ( io_functions.SerializeIO uniqueThenPooled twoPtrMem 4096 (rootBegin 16 {})).m_pWrite.packFlags
        = [{}, { m_bUnique := true, m_bVRam := true }]
    ∧ (( io_functions.SerializeIO uniqueThenPooled twoPtrMem 4096
          (rootBegin 16 {})).m_pWrite.m_PointerTable.map (fun r => r.m_PointingATPack)) = [1, 1]
    ∧ (( io_functions.SerializeIO uniqueThenPooled twoPtrMem 4096
          (rootBegin 16 {})).m_pWrite.m_Packs.map (fun p => p.m_Data.data))
        = [List.replicate 16 32, [1, 2, 3, 4, 32, 32, 32, 32, 5, 6, 7, 8]] := by
  decide

/-- C7 (counterexample): under a root whose pack has the flags `{}`, two pointer operations
with the same temp flags both target pack 1, although the flags of the parent pack are not
compatible for pooling with temp: "same pack if and only if the parent is compatible" fails.
And under the same root, two pointer operations with the same non-unique `mem_type` whose
byte is 66 (the temp bit and bit 6) target the packs 1 and 2: the pool search compares
`m_PackFlags.m_Value & 6` with the whole byte, which no pack satisfies. -/
theorem pooled_siblings_under_incompatible_parent :
    (( io_functions.SerializeIO twoTemp eightMem 4096 (rootBegin 32 {})).m_pWrite.m_PointerTable.map
        (fun r => (r.m_OffsetPack, r.m_PointingATPack))) = [(0, 1), (0, 1)]
    ∧ ( io_functions.SerializeIO twoTemp eightMem 4096 (rootBegin 32 {})).m_pWrite.packFlags
        = [{}, { m_bTempMemory := true }]
    ∧ ¬ (((1 : Nat) = 1) ↔ (({} : mem_type) = { m_bTempMemory := true }))
    ∧ (( io_functions.SerializeIO twoOdd eightMem 4096 (rootBegin 32 {})).m_pWrite.m_PointerTable.map
        (fun r => (r.m_OffsetPack, r.m_PointingATPack))) = [(0, 1), (0, 2)] := by
  decide

/-- C7 (amended): two pointer operations (count > 0) with identical non-unique `mem_type`
whose byte sets no other bit than temp and vram (`m_Value < 8`), issued one after the other
under the same parent, target the same pack, whatever the flags of the parent pack are: the
second operation, issued in the parent frame once the first one has walked its pointee,
selects the pack that the first one selected. -/
theorem pooled_siblings_same_pack (s : stream) (elem : Ty) (mem : Mem)
    (pA n pA' sz' n' : Nat) (fl : mem_type) (hfl : fl.m_bUnique = false)
    (h8 : fl.m_Value < 8)
    (hn : n ≠ 0) (hn' : n' ≠ 0) (hp : readPtr mem pA ≠ 0) :
    (s.SerializePtr elem mem pA n fl).frame = s.frame
    ∧ ((s.SerializePtr elem mem pA n fl).HandlePtrDetails mem pA' sz' n' fl).m_iPack
        = (s.HandlePtrDetails mem pA (sizeOfTy elem) n fl).m_iPack :=
  ⟨SerializePtr_frame s elem mem pA n fl,
    HandlePtrDetails_same_target s _ mem mem pA _ n pA' sz' n' fl hn hn' hfl h8
      (Reach_inv PacksExtend_walk (SerializePtr_reach s elem mem pA n fl hp))⟩

/-- Witness of C7 (amended): two temp arrays under a root with flags `{}`. -/
theorem pooled_siblings_same_pack_witness :
    ((rootBegin 32 {}).SerializePtr data1 eightMem 4104 1 { m_bTempMemory := true }).frame
        = (rootBegin 32 {}).frame
    ∧ (((rootBegin 32 {}).SerializePtr data1 eightMem 4104 1
          { m_bTempMemory := true }).HandlePtrDetails eightMem 4120 2 2
            { m_bTempMemory := true }).m_iPack
        = ((rootBegin 32 {}).HandlePtrDetails eightMem 4104 (sizeOfTy data1) 1
            { m_bTempMemory := true }).m_iPack :=
  pooled_siblings_same_pack (rootBegin 32 {}) data1 eightMem 4104 1 4120 2 2
    { m_bTempMemory := true } rfl (by decide) (by decide) (by decide) (by decide)

/-- C8 (counterexample): a root with flags `{}` and two array fields serialized with the same
non-unique `mem_type` whose byte is 66 (the temp bit and bit 6).  The pool search compares
`m_PackFlags.m_Value & 6` with the whole byte 66, which no pack satisfies, so each of the
two operations makes a pack of its own: 3 packs, and the refs point at packs 1 and 2. -/
theorem same_odd_flags_do_not_share :
    ({ m_bTempMemory := true, m_bBit6 := true } : mem_type).m_bUnique = false
    ∧ ({ m_bTempMemory := true, m_bBit6 := true } : mem_type).m_Value = 66
    ∧ ( io_functions.SerializeIO twoOdd eightMem 4096 (rootBegin 32 {})).m_pWrite.m_Packs.length
        = 3
    ∧ (( io_functions.SerializeIO twoOdd eightMem 4096 (rootBegin 32 {})).m_pWrite.m_PointerTable.map
        (fun r => (r.m_Count, r.m_PointingATPack))) = [(1, 1), (2, 2)]
    ∧ ( io_functions.SerializeIO twoOdd eightMem 4096 (rootBegin 32 {})).m_pWrite.packFlags
        = [{}, { m_bTempMemory := true, m_bBit6 := true },
            { m_bTempMemory := true, m_bBit6 := true }] := by
  decide

/-- C8 (amended): in one save walk, all pointer operations (count > 0) issued with the same
non-unique `mem_type` whose byte sets no other bit than temp and vram (`m_Value < 8`) target
one and the same pack: whenever a second operation is issued in a state reached later in the
walk, it selects the pack the first one selected.  In particular a root with flags `{}` and
eight array fields serialized with identical temp flags gives 2 packs, 8 refs, and every ref
has `pointing_at_pack = 1`. -/
theorem same_flags_share_one_pack :
    (∀ (s t : stream) (mem mem' : Mem) (pA sz cnt pA' sz' cnt' : Nat) (fl : mem_type),
      fl.m_bUnique = false → fl.m_Value < 8 → cnt ≠ 0 → cnt' ≠ 0 →
      Reach (s.HandlePtrDetails mem pA sz cnt fl) t →
      (t.HandlePtrDetails mem' pA' sz' cnt' fl).m_iPack
        = (s.HandlePtrDetails mem pA sz cnt fl).m_iPack)
    ∧ eightWalk.m_pWrite.m_Packs.length = 2
    ∧ eightWalk.m_pWrite.m_PointerTable.length = 8
    ∧ eightWalk.m_pWrite.m_PointerTable.map (fun r => r.m_PointingATPack) = List.replicate 8 1
    ∧ eightWalk.m_pWrite.packFlags = [{}, { m_bTempMemory := true }] :=
  ⟨fun s t mem mem' pA sz cnt pA' sz' cnt' fl hfl h8 hcnt hcnt' hr =>
      HandlePtrDetails_same_target s t mem mem' pA sz cnt pA' sz' cnt' fl hcnt hcnt' hfl h8
        (Reach_inv PacksExtend_walk hr),
    by decide⟩

/-- Witness of C8 (amended): the second temp array of a root is pooled with the first one. -/
theorem same_flags_share_one_pack_witness :
    (((rootBegin 32 {}).SerializePtr data1 eightMem 4104 1
          { m_bTempMemory := true }).HandlePtrDetails eightMem 4120 2 2
            { m_bTempMemory := true }).m_iPack
        = ((rootBegin 32 {}).HandlePtrDetails eightMem 4104 2 1 { m_bTempMemory := true }).m_iPack :=
  same_flags_share_one_pack.1 (rootBegin 32 {}) _ eightMem eightMem 4104 2 1 4120 2 2
    { m_bTempMemory := true } rfl (by decide) (by decide) (by decide)
    (SerializePtr_reach (rootBegin 32 {}) data1 eightMem 4104 1 { m_bTempMemory := true }
      (by decide))
/-- C9 (counterexample): with 65536 packs already allocated, none of which can pool a temp
allocation, a pointer operation with the temp flag and count 3 makes the new pack of index
65536, which is its target; the ref it emits has `count = 3` but stores
`pointing_at_pack = 0`, because the field has 16 bits. -/
theorem pooled_pack_index_truncated :
    manyPacks.m_pWrite.m_Packs.length = 65536
    ∧ (manyPacks.HandlePtrDetails (fun _ => 0) 4104 2 3 { m_bTempMemory := true }).m_iPack
        = 65536
    ∧ ((manyPacks.HandlePtrDetails (fun _ => 0) 4104 2 3
          { m_bTempMemory := true }).m_pWrite.m_PointerTable.map
            (fun r => (r.m_PointingATPack, r.m_Count))) = [(0, 3)] := by
  have hfind : findPool { m_bTempMemory := true } manyPacks.m_pWrite.m_Packs = 65536 := by
    rw [← manyPacks_length]
    apply findPool_none
    intro p hp
    rw [manyPacks_packs, List.mem_cons] at hp
    rcases hp with hp | hp
    · rw [hp]; decide
    · rw [List.eq_of_mem_replicate hp]; decide
  have hi : (manyPacks.choosePack { m_bTempMemory := true }).m_iPack = 65536 := by
    rw [choosePack_iPack_nonunique manyPacks { m_bTempMemory := true } rfl, hfind]
  refine ⟨manyPacks_length, ?_, ?_⟩
  · rw [HandlePtrDetails_iPack _ _ _ _ _ _ (by decide), hi]
  · rw [HandlePtrDetails_PointerTable _ _ _ _ _ _ (by decide)]
    have e : manyPacks.m_pWrite.m_PointerTable = [] := by simp only [manyPacks]
    simp only [emittedRef, hi, List.map_append, List.map_cons, List.map_nil, e,
      List.nil_append]
    decide

/-- C9 (amended): for every pointer operation with count `N > 0` whose slot belongs to the
current frame, with fewer than 65536 packs and with sizes that fit the 32-bit fields,
exactly one ref is appended, with `pointing_at_pack` = the target pack, `pointing_at = P`
where `P` is the size the target pack had before the operation rounded up to a multiple of 8
(0 for a new pack), `offset_pack` = the parent pack index,
`offset = class_pos + (slot address - class_ptr)` and `count = N`.  The target pack is its
previous content, then the filler bytes up to `P`, then the region reserved for the pointee:
`sizeof(T) * N` filler bytes from `P` to the end of the pack; the cursor of the pack is left
at `P`. -/
theorem HandlePtrDetails_emits_one_ref (s : stream) (mem : Mem) (pA sz cnt : Nat)
    (fl : mem_type) (hcnt : cnt ≠ 0)
    (hcur : s.m_iPack < s.m_pWrite.m_Packs.length)
    (hpacks : s.m_pWrite.m_Packs.length < 65536)
    (hlocal : s.isLocalVariable pA = true)
    (hoff : pA - s.m_pClass < 2147483648)
    (hpos : s.m_ClassPos + (pA - s.m_pClass) < 4294967296)
    (hcount : cnt < 4294967296)
    (hP : Align (s.m_pWrite.packSize (s.choosePack fl).m_iPack) 8 < 4294967296)
    (_hint : sz * cnt < 2147483648) :
    ∃ r : ref,
      (s.HandlePtrDetails mem pA sz cnt fl).m_pWrite.m_PointerTable
        = s.m_pWrite.m_PointerTable ++ [r]
      ∧ r.m_PointingATPack = (s.HandlePtrDetails mem pA sz cnt fl).m_iPack
      ∧ r.m_PointingAT
          = Align (s.m_pWrite.packSize (s.HandlePtrDetails mem pA sz cnt fl).m_iPack) 8
      ∧ r.m_PointingAT % 8 = 0
      ∧ r.m_OffsetPack = s.m_iPack
      ∧ r.m_OffSet = s.m_ClassPos + (pA - s.m_pClass)
      ∧ r.m_Count = cnt
      ∧ (s.HandlePtrDetails mem pA sz cnt fl).getW.pos = r.m_PointingAT
      ∧ (s.HandlePtrDetails mem pA sz cnt fl).getW.data
          = s.m_pWrite.packData (s.HandlePtrDetails mem pA sz cnt fl).m_iPack
            ++ List.replicate
                (r.m_PointingAT
                  - s.m_pWrite.packSize (s.HandlePtrDetails mem pA sz cnt fl).m_iPack) 32
            ++ List.replicate (sz * cnt) 32
      ∧ (s.HandlePtrDetails mem pA sz cnt fl).getW.data.length = r.m_PointingAT + sz * cnt := by
  have hi := HandlePtrDetails_iPack s mem pA sz cnt fl hcnt
  have hle := choosePack_iPack_le s fl
  have hloc := (isLocalVariable_iff s pA).1 hlocal
  have hsz := choosePack_getW_size s fl
  have hg := HandlePtrDetails_getW s mem pA sz cnt fl hcnt
  refine ⟨emittedRef s pA cnt fl, HandlePtrDetails_PointerTable s mem pA sz cnt fl hcnt, ?_⟩
  simp only [emittedRef, hi, hsz, hg]
  have e1 : u16 (s.choosePack fl).m_iPack = (s.choosePack fl).m_iPack :=
    Nat.mod_eq_of_lt (by omega)
  have e2 : u32 (Align (s.m_pWrite.packSize (s.choosePack fl).m_iPack) 8)
      = Align (s.m_pWrite.packSize (s.choosePack fl).m_iPack) 8 := Nat.mod_eq_of_lt hP
  have e3 : u16 s.m_iPack = s.m_iPack := Nat.mod_eq_of_lt (by omega)
  have e4 : u32 cnt = cnt := Nat.mod_eq_of_lt hcount
  rw [e1, e2, e3, e4, localPos_eq s pA hloc.1 hoff hpos]
  refine ⟨rfl, rfl, Align_mod _, rfl, rfl, rfl, ?_, ?_, ?_⟩
  · simp [reserved, hsz]
  · rw [reserved_data, hsz, choosePack_getW_data]
  · rw [reserved_size, hsz]

/-- Witness of C9 (amended): the first pooled pointer operation of a 16-byte root. -/
theorem HandlePtrDetails_emits_one_ref_witness :
    ∃ r : ref,
      ((rootBegin 16 {}).HandlePtrDetails eightMem 4104 2 1 {}).m_pWrite.m_PointerTable
        = (rootBegin 16 {}).m_pWrite.m_PointerTable ++ [r]
      ∧ r.m_PointingATPack = ((rootBegin 16 {}).HandlePtrDetails eightMem 4104 2 1 {}).m_iPack
      ∧ r.m_PointingAT = Align ((rootBegin 16 {}).m_pWrite.packSize
          ((rootBegin 16 {}).HandlePtrDetails eightMem 4104 2 1 {}).m_iPack) 8
      ∧ r.m_PointingAT % 8 = 0
      ∧ r.m_OffsetPack = (rootBegin 16 {}).m_iPack
      ∧ r.m_OffSet = (rootBegin 16 {}).m_ClassPos + (4104 - (rootBegin 16 {}).m_pClass)
      ∧ r.m_Count = 1
      ∧ ((rootBegin 16 {}).HandlePtrDetails eightMem 4104 2 1 {}).getW.pos = r.m_PointingAT
      ∧ ((rootBegin 16 {}).HandlePtrDetails eightMem 4104 2 1 {}).getW.data
          = (rootBegin 16 {}).m_pWrite.packData
              ((rootBegin 16 {}).HandlePtrDetails eightMem 4104 2 1 {}).m_iPack
            ++ List.replicate
                (r.m_PointingAT - (rootBegin 16 {}).m_pWrite.packSize
                  ((rootBegin 16 {}).HandlePtrDetails eightMem 4104 2 1 {}).m_iPack) 32
            ++ List.replicate (2 * 1) 32
      ∧ ((rootBegin 16 {}).HandlePtrDetails eightMem 4104 2 1 {}).getW.data.length
          = r.m_PointingAT + 2 * 1 :=
  HandlePtrDetails_emits_one_ref (rootBegin 16 {}) eightMem 4104 2 1 {} (by decide) (by decide)
    (by decide) (by decide) (by decide) (by decide) (by decide) (by decide) (by decide)
/-- C10 (amended): for every pointer operation with count > 0 whose 8-byte slot lies inside
the current object, with fewer than 65536 packs and sizes that fit the 32-bit fields, the
emitted ref satisfies: the 8 bytes `[offset, offset + 8)` of pack `offset_pack` (the pack of
the frame) lie inside the class range `[class_pos, class_pos + class_size)` active when the
pointer is visited; and in every state reached later in the same save walk the ref is still
in the pointer table, unchanged, and `[pointing_at, pointing_at + count * sizeof(T))` lies
within the size of pack `pointing_at_pack` (the size that SaveFile records as the
uncompressed size of the pack). -/
theorem emitted_ref_ranges (s : stream) (mem : Mem) (pA sz cnt : Nat)
    (fl : mem_type) (hcnt : cnt ≠ 0)
    (hcur : s.m_iPack < s.m_pWrite.m_Packs.length)
    (hpacks : s.m_pWrite.m_Packs.length < 65536)
    (hslot : s.m_pClass ≤ pA ∧ pA + 8 ≤ s.m_pClass + s.m_ClassSize)
    (hoff : s.m_ClassSize ≤ 2147483648)
    (hpos : s.m_ClassPos + s.m_ClassSize ≤ 4294967296)
    (hcount : cnt < 4294967296)
    (hP : s.m_pWrite.packSize (s.choosePack fl).m_iPack < 4294967296)
    (_hint : sz * cnt < 2147483648) :
    ∃ r : ref,
      (s.HandlePtrDetails mem pA sz cnt fl).m_pWrite.m_PointerTable
        = s.m_pWrite.m_PointerTable ++ [r]
      ∧ r.m_OffsetPack = s.m_iPack
      ∧ s.m_ClassPos ≤ r.m_OffSet ∧ r.m_OffSet + 8 ≤ s.m_ClassPos + s.m_ClassSize
      ∧ ∀ t : stream, Reach (s.HandlePtrDetails mem pA sz cnt fl) t →
          t.m_pWrite.m_PointerTable.get? s.m_pWrite.m_PointerTable.length = some r
          ∧ r.m_PointingAT + r.m_Count * sz ≤ t.m_pWrite.packSize r.m_PointingATPack := by
  have hi := HandlePtrDetails_iPack s mem pA sz cnt fl hcnt
  have hle := choosePack_iPack_le s fl
  have htab := HandlePtrDetails_PointerTable s mem pA sz cnt fl hcnt
  have hsize := HandlePtrDetails_packSize_target s mem pA sz cnt fl hcnt
  have _hfit := hP
  have e1 : u16 (s.choosePack fl).m_iPack = (s.choosePack fl).m_iPack :=
    Nat.mod_eq_of_lt (by omega)
  have e2 : (s.choosePack fl).getW.data.length
      = s.m_pWrite.packSize (s.choosePack fl).m_iPack := choosePack_getW_size s fl
  have e3 : u16 s.m_iPack = s.m_iPack := Nat.mod_eq_of_lt (by omega)
  have e4 : u32 cnt = cnt := Nat.mod_eq_of_lt hcount
  have e5 := localPos_eq s pA hslot.1 (by omega) (by omega)
  have hr : emittedRef s pA cnt fl =
      { m_PointingAT := u32 (Align (s.m_pWrite.packSize (s.choosePack fl).m_iPack) 8)
        m_OffSet := s.m_ClassPos + (pA - s.m_pClass)
        m_Count := cnt
        m_OffsetPack := s.m_iPack
        m_PointingATPack := (s.choosePack fl).m_iPack } := by
    simp only [emittedRef, e1, e2, e3, e4, e5]
  rw [hr] at htab
  refine ⟨_, htab, rfl, by show _ ≤ _ + _; omega, by show _ + _ + 8 ≤ _; omega, ?_⟩
  intro t ht
  obtain ⟨u, hu⟩ := Reach_inv RefsExtend_walk ht
  have hg := Reach_inv PacksGrow_walk ht (s.choosePack fl).m_iPack
  constructor
  · rw [hu, htab, List.append_assoc]
    exact get?_append_length _ _ _
  · show u32 (Align (s.m_pWrite.packSize (s.choosePack fl).m_iPack) 8) + cnt * sz
        ≤ t.m_pWrite.packSize (s.choosePack fl).m_iPack
    rw [hi] at hsize
    have : u32 (Align (s.m_pWrite.packSize (s.choosePack fl).m_iPack) 8)
        ≤ Align (s.m_pWrite.packSize (s.choosePack fl).m_iPack) 8 := Nat.mod_le _ _
    rw [Nat.mul_comm cnt sz]
    omega

/-- Witness of C10 (amended): the first pooled pointer operation of a 16-byte root. -/
theorem emitted_ref_ranges_witness :
    ∃ r : ref,
      ((rootBegin 16 {}).HandlePtrDetails eightMem 4104 2 1 {}).m_pWrite.m_PointerTable
        = (rootBegin 16 {}).m_pWrite.m_PointerTable ++ [r]
      ∧ r.m_OffsetPack = (rootBegin 16 {}).m_iPack
      ∧ (rootBegin 16 {}).m_ClassPos ≤ r.m_OffSet
      ∧ r.m_OffSet + 8 ≤ (rootBegin 16 {}).m_ClassPos + (rootBegin 16 {}).m_ClassSize
      ∧ ∀ t : stream, Reach ((rootBegin 16 {}).HandlePtrDetails eightMem 4104 2 1 {}) t →
          t.m_pWrite.m_PointerTable.get? (rootBegin 16 {}).m_pWrite.m_PointerTable.length
            = some r
          ∧ r.m_PointingAT + r.m_Count * 2 ≤ t.m_pWrite.packSize r.m_PointingATPack :=
  emitted_ref_ranges (rootBegin 16 {}) eightMem 4104 2 1 {} (by decide) (by decide)
    (by decide) (by decide) (by decide) (by decide) (by decide) (by decide) (by decide)

/-- C10 (counterexample): with 65536 packs already allocated, a unique pointer operation
with 25 elements of 4 bytes reserves its 100 bytes in the new pack 65536, but the emitted
ref stores `pointing_at_pack = 0`; the range `[0, 100)` of the ref does not lie within the
16 bytes of pack 0. -/
theorem emitted_ref_range_outside_pack :
    ((manyPacks.HandlePtrDetails (fun _ => 0) 4104 4 25
        { m_bUnique := true }).m_pWrite.m_PointerTable.map
          (fun r => (r.m_PointingATPack, r.m_PointingAT, r.m_Count))) = [(0, 0, 25)]
    ∧ (manyPacks.HandlePtrDetails (fun _ => 0) 4104 4 25 { m_bUnique := true }).m_pWrite.packSize 0
        = 16
    ∧ ¬ (0 + 25 * 4 ≤ 16) := by
  refine ⟨?_, ?_, by decide⟩
  · rw [HandlePtrDetails_PointerTable _ _ _ _ _ _ (by decide)]
    have e : manyPacks.m_pWrite.m_PointerTable = [] := by simp only [manyPacks]
    have hg : (manyPacks.choosePack { m_bUnique := true }).getW.data.length = 0 := by
      rw [choosePack_getW_size, (choosePack_unique manyPacks { m_bUnique := true } rfl).2]
      exact packSize_of_le _ _ (Nat.le_refl _)
    simp only [emittedRef, (choosePack_unique manyPacks { m_bUnique := true } rfl).2,
      manyPacks_length, List.map_append, List.map_cons, List.map_nil, e, List.nil_append, hg]
    decide
  · unfold writing.packSize
    rw [HandlePtrDetails_unique_packs _ _ _ _ _ _ (by decide) rfl, manyPacks_packs]
    simp only [List.cons_append, List.getD_cons_zero, List.length_replicate]

/-- C11: every file written by Save with `swap_endian = true` (into a stream positioned at
its start) stores as `format_version` the byte-swap of the constant 1, and LoadHeader on the
same host rejects it with WRONG_VERSION whatever size it is called with; more generally
LoadHeader returns WRONG_VERSION for every header it reads whose byte-swapped
`format_version` equals the constant, whatever the other header fields are. -/
theorem swapped_file_is_wrong_version {κ δ : Type} (codec : xcompression.codec κ δ)
    (fuel : Nat) (s : stream) (File : xfile) (mem : Mem) (Object sizeofObject : Nat)
    (io : Stmts) (VERSION : Nat) (level : compression_level) (fl : mem_type) (t : stream)
    (h : stream.Save codec fuel s File mem Object sizeofObject io VERSION level fl true = .ok t)
    (hpos : File.pos = 0) :
    (header.ofBytes (t.m_pWrite.m_pFile.data.take sizeof_header)).m_SerialFileVersion
        = endian.Convert16 version_id_v
    ∧ (∀ (s0 : stream) (SizeOfT : Nat),
        (s0.LoadHeader (t.m_pWrite.m_pFile.SeekOrigin 0) SizeOfT).1
          = .error (.serializer .WRONG_VERSION))
    ∧ (∀ (s0 : stream) (F F1 : xfile) (bs : List Nat) (SizeOfT : Nat),
        F.ReadSpan sizeof_header = some (bs, F1) →
        endian.Convert16 (header.ofBytes bs).m_SerialFileVersion = version_id_v →
        (s0.LoadHeader F SizeOfT).1 = .error (.serializer .WRONG_VERSION)) := by
  obtain ⟨info, x, _, hv, _, _, hd⟩ :=
    Save_ok codec fuel s File mem Object sizeofObject io VERSION level fl true t h hpos
  refine ⟨?_, ?_, ?_⟩
  · rw [hd]
    simp only [List.append_assoc, sizeof_header]
    rw [List.take_append_of_le_length (by rw [header_bytes_length]),
      List.take_of_length_le (by rw [header_bytes_length]), ofBytes_bytes]
    show u16 (endian.Convert16 t.m_Header.m_SerialFileVersion) = _
    rw [hv]
    decide
  · intro s0 n
    rw [List.append_assoc, List.append_assoc] at hd
    rw [LoadHeader_data s0 _ _ _ n hd]
    have e : ({ t.m_Header.forFile true with m_SizeOfData := x } : header).m_SerialFileVersion
        = 256 := by
      show endian.Convert16 t.m_Header.m_SerialFileVersion = 256
      rw [hv]; decide
    rw [e]
    rfl
  · intro s0 F F1 bs n hread hsw
    unfold stream.LoadHeader
    rw [hread]
    simp only
    have hne : (header.ofBytes bs).m_SerialFileVersion ≠ version_id_v := by
      intro hc
      rw [hc] at hsw
      revert hsw
      decide
    rw [if_pos hne, if_pos hsw]

/-- Witness of C11: Save with `swap_endian = true` of a root of 65536 bytes, whose pack is
stored verbatim (the payload loop then writes the 256 bytes that the byte-swapped size
65536 names, which lie within the buffer of the pack). -/
theorem swapped_file_is_wrong_version_witness :
    ∃ t : stream,
      stream.Save rle 70000 {} {} bigRootMem 4096 65536 oneByteField 1 compression_level.MEDIUM {}
          true = .ok t
      ∧ (header.ofBytes (t.m_pWrite.m_pFile.data.take sizeof_header)).m_SerialFileVersion
          = endian.Convert16 version_id_v
      ∧ (∀ (s0 : stream) (SizeOfT : Nat),
          (s0.LoadHeader (t.m_pWrite.m_pFile.SeekOrigin 0) SizeOfT).1
            = .error (.serializer .WRONG_VERSION)) :=
  (SaveFile_bigRoot true).elim (fun t ht =>
    ⟨t, ht.1,
      (swapped_file_is_wrong_version rle 70000 {} {} bigRootMem 4096 65536 oneByteField 1
        compression_level.MEDIUM {} t ht.1 rfl).1,
      (swapped_file_is_wrong_version rle 70000 {} {} bigRootMem 4096 65536 oneByteField 1
        compression_level.MEDIUM {} t ht.1 rfl).2.1⟩)
/-- C12: for every header that LoadHeader reads whose `format_version` is neither the
constant 1 nor the byte-swap of 1, LoadHeader fails with UNKNOWN_FILE_TYPE, whatever
`auto_version`, the size passed in and the other fields are. -/
theorem LoadHeader_unknown_file_type (s : stream) (File File1 : xfile) (bs : List Nat)
    (SizeOfT : Nat) (hread : File.ReadSpan sizeof_header = some (bs, File1))
    (h1 : (header.ofBytes bs).m_SerialFileVersion ≠ version_id_v)
    (h2 : endian.Convert16 (header.ofBytes bs).m_SerialFileVersion ≠ version_id_v) :
    (s.LoadHeader File SizeOfT).1 = .error (.serializer .UNKOWN_FILE_TYPE) := by
  unfold stream.LoadHeader
  rw [hread]
  simp only
  rw [if_pos h1, if_neg h2]

/-- Witness of C12: a header whose `format_version` is 0x0707. -/
theorem LoadHeader_unknown_file_type_witness :
    (({} : stream).LoadHeader unknownFile 16).1 = .error (.serializer .UNKOWN_FILE_TYPE) :=
  LoadHeader_unknown_file_type {} unknownFile { data := List.replicate 20 7, pos := 20 }
    (List.replicate 20 7) 16 (by decide) (by decide) (by decide)

/-- C13: for every header that LoadHeader reads whose `format_version` equals the constant
1, LoadHeader returns OK if and only if `auto_version` equals the `sizeof(root)` passed in,
and returns WRONG_VERSION otherwise. -/
theorem LoadHeader_automatic_version (s : stream) (File File1 : xfile) (bs : List Nat)
    (SizeOfT : Nat) (hread : File.ReadSpan sizeof_header = some (bs, File1))
    (hv : (header.ofBytes bs).m_SerialFileVersion = version_id_v) :
    ((s.LoadHeader File SizeOfT).1 = .ok () ↔ (header.ofBytes bs).m_AutomaticVersion = SizeOfT)
    ∧ ((header.ofBytes bs).m_AutomaticVersion ≠ SizeOfT →
        (s.LoadHeader File SizeOfT).1 = .error (.serializer .WRONG_VERSION)) := by
  unfold stream.LoadHeader
  rw [hread]
  simp only
  rw [if_neg (not_not.2 hv)]
  by_cases ha : (header.ofBytes bs).m_AutomaticVersion = SizeOfT
  · rw [if_neg (not_not.2 ha)]
    exact ⟨⟨fun _ => ha, fun _ => rfl⟩, fun h => absurd ha h⟩
  · rw [if_pos ha]
    refine ⟨⟨fun h => ?_, fun h => absurd h ha⟩, fun _ => rfl⟩
    cases h

/-- Witness of C13: a header with `format_version = 1` and `auto_version = 16` is accepted
for `sizeof(root) = 16` and rejected with WRONG_VERSION for `sizeof(root) + 1 = 17`. -/
theorem LoadHeader_automatic_version_witness :
    (({} : stream).LoadHeader versionedFile 16).1 = .ok ()
    ∧ (({} : stream).LoadHeader versionedFile 17).1 = .error (.serializer .WRONG_VERSION) :=
  ⟨(LoadHeader_automatic_version {} versionedFile { versionedFile with pos := 20 }
      versionedFile.data 16 (by decide) (by decide)).1.2 (by decide),
   (LoadHeader_automatic_version {} versionedFile { versionedFile with pos := 20 }
      versionedFile.data 17 (by decide) (by decide)).2 (by decide)⟩

/-- C14 (amended): for a file written by Save with `swap_endian = true` (into a stream
positioned at its start) whose header fields are then each byte-swapped back in the file,
LoadHeader on the same host returns WRONG_VERSION when the size passed in differs from the
16-bit `auto_version` of the file and OK otherwise, never UNKNOWN_FILE_TYPE, and Load never
returns UNKNOWN_FILE_TYPE either; when `sizeof(root)` is below 65536 and LoadHeader is
called with it, LoadHeader accepts the header and returns OK. -/
theorem swapped_back_header_is_accepted {κ δ : Type} (codec : xcompression.codec κ δ)
    (fuel : Nat) (s : stream) (File : xfile) (mem : Mem) (Object sizeofObject : Nat)
    (io : Stmts) (VERSION : Nat) (level : compression_level) (fl : mem_type) (t : stream)
    (h : stream.Save codec fuel s File mem Object sizeofObject io VERSION level fl true = .ok t)
    (hpos : File.pos = 0) :
    (∀ (s0 : stream) (SizeOfT : Nat),
        (s0.LoadHeader (swapHeaderInFile (t.m_pWrite.m_pFile.SeekOrigin 0)) SizeOfT).1
          = if u16 (u32 sizeofObject) ≠ SizeOfT then .error (.serializer .WRONG_VERSION)
            else .ok ())
    ∧ (∀ (κ' δ' : Type) (codec' : xcompression.codec κ' δ')
        (Allocate : Nat → mem_type → Nat → Nat → Nat) (s0 : stream) (mem' : Mem)
        (SizeOfT VERSION' : Nat),
        stream.Load codec' Allocate s0 (swapHeaderInFile (t.m_pWrite.m_pFile.SeekOrigin 0)) mem'
          SizeOfT VERSION' ≠ .error (.serializer .UNKOWN_FILE_TYPE))
    ∧ (sizeofObject < 65536 → ∀ s0 : stream,
        (s0.LoadHeader (swapHeaderInFile (t.m_pWrite.m_pFile.SeekOrigin 0)) sizeofObject).1
          = .ok ()) := by
  have hL : ∀ (s0 : stream) (n : Nat),
      (s0.LoadHeader (swapHeaderInFile (t.m_pWrite.m_pFile.SeekOrigin 0)) n).1
        = if u16 (u32 sizeofObject) ≠ n then .error (.serializer .WRONG_VERSION) else .ok () :=
    LoadHeader_swapped_back codec fuel s File mem Object sizeofObject io VERSION level fl t h hpos
  have hN : ∀ (s0 : stream) (n : Nat),
      (s0.LoadHeader (swapHeaderInFile (t.m_pWrite.m_pFile.SeekOrigin 0)) n).1
        ≠ .error (.serializer .UNKOWN_FILE_TYPE) := by
    intro s0 n
    rw [hL]
    split <;> intro hc <;> cases hc
  refine ⟨hL, ?_, ?_⟩
  · intro κ' δ' codec' Allocate s0 mem' n V
    exact Load_not_unknown codec' Allocate s0 _ mem' n V (hN s0 n)
  · intro hsz s0
    rw [hL]
    have : u16 (u32 sizeofObject) = sizeofObject := by
      unfold u16 u32; omega
    rw [if_neg (not_not.2 this)]

/-- Witness of C14 (amended): the file saved with `swap_endian = true` for a root of 65536
bytes, after its header is byte-swapped back: LoadHeader called with the size 65536 returns
WRONG_VERSION, because the 16-bit `auto_version` of the file is 0, and Load does not return
UNKNOWN_FILE_TYPE. -/
theorem swapped_back_header_is_accepted_witness :
    ∃ t : stream,
      stream.Save rle 70000 {} {} bigRootMem 4096 65536 oneByteField 1 compression_level.MEDIUM {}
          true = .ok t
      ∧ (∀ s0 : stream,
          (s0.LoadHeader (swapHeaderInFile (t.m_pWrite.m_pFile.SeekOrigin 0)) 65536).1
            = if u16 (u32 65536) ≠ 65536 then .error (.serializer .WRONG_VERSION) else .ok ())
      ∧ stream.Load rle bumpAllocate {} (swapHeaderInFile (t.m_pWrite.m_pFile.SeekOrigin 0))
            (fun _ => 0) 65536 1 ≠ .error (.serializer .UNKOWN_FILE_TYPE) :=
  (SaveFile_bigRoot true).elim (fun t ht =>
    ⟨t, ht.1,
      fun s0 => (swapped_back_header_is_accepted rle 70000 {} {} bigRootMem 4096 65536
        oneByteField 1 compression_level.MEDIUM {} t ht.1 rfl).1 s0 65536,
      (swapped_back_header_is_accepted rle 70000 {} {} bigRootMem 4096 65536
        oneByteField 1 compression_level.MEDIUM {} t ht.1 rfl).2.1 _ _ rle bumpAllocate {}
          (fun _ => 0) 65536 1⟩)

/-- C14 (counterexample): a root of 65536 bytes is saved with `swap_endian = true` and the
header of the file is byte-swapped back.  LoadHeader then accepts the `format_version`: called
with `sizeof(root) = 65536` it returns WRONG_VERSION (the 16-bit `auto_version` of the file is
0), called with the size 0 it returns OK, and Load with `sizeof(root)` returns WRONG_VERSION,
not UNKNOWN_FILE_TYPE. -/
theorem swapped_back_header_not_unknown :
    ∃ t : stream,
      stream.Save rle 70000 {} {} bigRootMem 4096 65536 oneByteField 1 compression_level.MEDIUM {}
          true = .ok t
      ∧ (({} : stream).LoadHeader (swapHeaderInFile (t.m_pWrite.m_pFile.SeekOrigin 0)) 65536).1
          = .error (.serializer .WRONG_VERSION)
      ∧ (({} : stream).LoadHeader (swapHeaderInFile (t.m_pWrite.m_pFile.SeekOrigin 0)) 0).1
          = .ok ()
      ∧ stream.Load rle bumpAllocate {} (swapHeaderInFile (t.m_pWrite.m_pFile.SeekOrigin 0))
            (fun _ => 0) 65536 1 = .error (.serializer .WRONG_VERSION) := by
  obtain ⟨t, ht, _⟩ := SaveFile_bigRoot true
  have hL := LoadHeader_swapped_back rle 70000 {} {} bigRootMem 4096 65536 oneByteField 1
    compression_level.MEDIUM {} t ht rfl
  have h1 : (({} : stream).LoadHeader (swapHeaderInFile (t.m_pWrite.m_pFile.SeekOrigin 0))
      65536).1 = .error (.serializer .WRONG_VERSION) := by
    rw [hL]; decide
  refine ⟨t, ht, h1, ?_, ?_⟩
  · rw [hL]; decide
  · exact Load_header_error rle bumpAllocate {} _ (fun _ => 0) 65536 1 _ h1
/-- C15 (the code at the failing input): the file is the first 30 bytes of a file that Save
wrote for a 128-byte root.  LoadHeader accepts the header; inside LoadObject the read of the
160-byte info region fails and LoadObject returns `nullptr`; Load nevertheless returns OK,
with a null object. -/
theorem Load_reports_ok_after_failed_read :
    (({} : stream).LoadHeader truncatedEight 128).1 = .ok ()
    ∧ (({} : stream).LoadHeader truncatedEight 128).2.1.m_Header.m_PackSize = 160
    ∧ (stream.LoadObject rle bumpAllocate (({} : stream).LoadHeader truncatedEight 128).2.1
        (({} : stream).LoadHeader truncatedEight 128).2.2 (fun _ => 0)).isNone = true
    ∧ (stream.Load rle bumpAllocate {} truncatedEight (fun _ => 0) 128 1).toOption.map
        (fun r => r.pObject) = some 0 := by
  decide!

/-- C17 (amended): after SaveFile, started with no block size recorded, when the numbers of
packs, of refs and of block sizes are each below 65536, the header's `n_packs` and
`n_pointers` equal the number of packs and of refs, and the header's `n_block_sizes`
equals the number of block-size entries, which is the sum over all packs of `block_count`
(read back through the byte swap when `swap_endian` is set). -/
theorem SaveFile_header_counts {κ δ : Type} (codec : xcompression.codec κ δ) (fuel : Nat)
    (s t : stream) (h : stream.SaveFile codec fuel s = .ok t)
    (hcs : s.m_pWrite.m_CSizeStream = [])
    (hp : s.m_pWrite.m_Packs.length < 65536)
    (hr : s.m_pWrite.m_PointerTable.length < 65536)
    (hb : t.m_pWrite.m_CSizeStream.length < 65536) :
    t.m_pWrite.m_Packs.length = s.m_pWrite.m_Packs.length
    ∧ t.m_pWrite.m_PointerTable.length = s.m_pWrite.m_PointerTable.length
    ∧ t.m_Header.m_nPacks = t.m_pWrite.m_Packs.length
    ∧ t.m_Header.m_nPointers = t.m_pWrite.m_PointerTable.length
    ∧ t.m_Header.m_nBlockSizes = t.m_pWrite.m_CSizeStream.length
    ∧ t.m_Header.m_nBlockSizes
        = (t.m_pWrite.m_Packs.map (fun p =>
            if t.m_pWrite.m_bEndian then endian.Convert32 p.m_nBlocks else p.m_nBlocks)).sum := by
  obtain ⟨packs, cs, info, h1, hP, hR, hC, hE, _, _, hnp, hnr, hnb, _, _, _⟩ :=
    SaveFile_result codec fuel s t h
  obtain ⟨ks, k1, k2, k3, _, _⟩ := compressPacks_count codec fuel _ _ _ _ h1
  obtain ⟨l1, l2, l3⟩ := updateEndian_lengths
    ({ s.m_pWrite with m_Packs := packs, m_CSizeStream := cs } : writing)
  have hPl : t.m_pWrite.m_Packs.length = s.m_pWrite.m_Packs.length := by
    rw [hP]; exact l1.trans k3
  have hRl : t.m_pWrite.m_PointerTable.length = s.m_pWrite.m_PointerTable.length := by
    rw [hR]; exact l2
  have hCl : t.m_pWrite.m_CSizeStream.length = ks.sum := by
    rw [hC]
    refine l3.trans ?_
    show cs.length = _
    rw [k1, hcs]
    simp
  have hu : ∀ n, n < 65536 → u16 n = n := fun n hn => Nat.mod_eq_of_lt hn
  have hks : ks.map u32 = ks := sum_map_u32 ks (by omega)
  have hblocks : ∀ p ∈ packs, p.m_nBlocks < 4294967296 := by
    intro p hp
    have : p.m_nBlocks ∈ packs.map (fun p => p.m_nBlocks) := List.mem_map_of_mem _ hp
    rw [k2] at this
    obtain ⟨k, _, hk⟩ := List.mem_map.1 this
    rw [← hk]
    exact Nat.mod_lt _ (by norm_num)
  refine ⟨hPl, hRl, ?_, ?_, ?_, ?_⟩
  · rw [hnp, hu _ (by omega)]
  · rw [hnr, hu _ (by omega)]
  · rw [hnb, hu _ hb]
  · rw [hnb, hu _ hb, hCl, hP, hE]
    have := updateEndian_nBlocks
      ({ s.m_pWrite with m_Packs := packs, m_CSizeStream := cs } : writing) hblocks
    unfold stream.compressed
    rw [this]
    show ks.sum = (packs.map (fun p => p.m_nBlocks)).sum
    rw [k2, hks]

/-- Witness of C17 (amended): SaveFile on the save walk of the root of eight temp arrays:
2 packs, 8 refs and 2 block sizes. -/
theorem SaveFile_header_counts_witness :
    stream.SaveFile rle 8 eightWalk = .ok savedEight.result
    ∧ savedEight.result.m_Header.m_nPacks = 2
    ∧ savedEight.result.m_Header.m_nPointers = 8
    ∧ savedEight.result.m_Header.m_nBlockSizes = 2
    ∧ savedEight.result.m_Header.m_nBlockSizes
        = (savedEight.result.m_pWrite.m_Packs.map (fun p =>
            if savedEight.result.m_pWrite.m_bEndian then endian.Convert32 p.m_nBlocks
            else p.m_nBlocks)).sum :=
  have h : stream.SaveFile rle 8 eightWalk = .ok savedEight.result :=
    Outcome_eq_ok savedEight (by decide!)
  have k := SaveFile_header_counts rle 8 eightWalk savedEight.result h (by decide!) (by decide!)
    (by decide!) (by decide!)
  ⟨h, k.2.2.1.trans (by decide!), k.2.2.2.1.trans (by decide!), k.2.2.2.2.1.trans (by decide!),
    k.2.2.2.2.2⟩

/-- C17 (counterexample): SaveFile on a save context with 65536 packs (a 16-byte root pack
and 65535 unique packs of 8 bytes), each compressed into one block: the packs number 65536
and their block counts sum to 65536, but the header carries `n_packs = 0` and
`n_block_sizes = 0`. -/
theorem header_counts_truncated :
    ∃ t : stream,
      stream.SaveFile rle 32 manyPacks = .ok t
      ∧ t.m_pWrite.m_Packs.length = 65536
      ∧ (t.m_pWrite.m_Packs.map (fun p => p.m_nBlocks)).sum = 65536
      ∧ t.m_Header.m_nPacks = 0
      ∧ t.m_Header.m_nBlockSizes = 0 := by
  obtain ⟨t, ht, hP, _, _, _, h1, h2, _, _, _⟩ := SaveFile_manyPacks
  refine ⟨t, ht, ?_, ?_, h1, h2⟩
  · rw [hP, List.length_cons, List.length_replicate]
  · rw [hP, List.map_cons, List.map_replicate, List.sum_cons, sum_replicate_nat]
    rfl

/-- C18 (amended): after SaveFile into a stream positioned at its start, the file is the
header, then the bytes `info` that the compression of the info region produced, then the
pack payload; when `info` has fewer than 65536 bytes the header's `pack_size` equals the
number of those bytes. -/
theorem SaveFile_pack_size {κ δ : Type} (codec : xcompression.codec κ δ) (fuel : Nat)
    (s t : stream) (h : stream.SaveFile codec fuel s = .ok t)
    (hpos : s.m_pWrite.m_pFile.pos = 0) :
    ∃ (info : List Nat) (H : header),
      compressInfo codec s.m_CompressionLevel t.m_pWrite.InfoData = .ok info
      ∧ t.m_pWrite.m_pFile.data
          = H.bytes ++ info ++ payloadBytes t.m_pWrite.m_bEndian t.m_pWrite.m_Packs
            ++ s.m_pWrite.m_pFile.data.drop (sizeof_header + info.length
                + (payloadBytes t.m_pWrite.m_bEndian t.m_pWrite.m_Packs).length)
      ∧ H.m_PackSize = (t.m_Header.forFile t.m_pWrite.m_bEndian).m_PackSize
      ∧ (info.length < 65536 → t.m_Header.m_PackSize = info.length) := by
  obtain ⟨packs, cs, info, _, _, _, _, _, hI, _, _, _, _, hps, _, hF⟩ :=
    SaveFile_result codec fuel s t h
  refine ⟨info, _, hI, hF hpos, rfl, ?_⟩
  intro hlt
  rw [hps]
  unfold u16 u32
  omega

/-- Witness of C18 (amended): SaveFile on the save walk of the root of eight temp arrays
writes an info region of 160 bytes, and the header's `pack_size` is 160. -/
theorem SaveFile_pack_size_witness :
    stream.SaveFile rle 8 eightWalk = .ok savedEight.result
    ∧ ∃ (info : List Nat) (H : header),
      compressInfo rle eightWalk.m_CompressionLevel savedEight.result.m_pWrite.InfoData = .ok info
      ∧ savedEight.result.m_pWrite.m_pFile.data
          = H.bytes ++ info
            ++ payloadBytes savedEight.result.m_pWrite.m_bEndian savedEight.result.m_pWrite.m_Packs
            ++ eightWalk.m_pWrite.m_pFile.data.drop (sizeof_header + info.length
                + (payloadBytes savedEight.result.m_pWrite.m_bEndian
                    savedEight.result.m_pWrite.m_Packs).length)
      ∧ H.m_PackSize
          = (savedEight.result.m_Header.forFile savedEight.result.m_pWrite.m_bEndian).m_PackSize
      ∧ (info.length < 65536 → savedEight.result.m_Header.m_PackSize = info.length) :=
  have h : stream.SaveFile rle 8 eightWalk = .ok savedEight.result :=
    Outcome_eq_ok savedEight (by decide!)
  ⟨h, SaveFile_pack_size rle 8 eightWalk savedEight.result h (by decide!)⟩

/-- C18 (counterexample): SaveFile on a save context with 65536 packs (a 16-byte root pack
and 65535 unique packs of 8 bytes): the info region is written raw, 1048576 bytes between
the header and the pack payload, but the header carries `pack_size = 0`. -/
theorem pack_size_truncated :
    ∃ (t : stream) (H : header),
      stream.SaveFile rle 32 manyPacks = .ok t
      ∧ t.m_pWrite.m_pFile.data
          = H.bytes ++ t.m_pWrite.InfoData ++ payloadBytes false t.m_pWrite.m_Packs
      ∧ t.m_pWrite.InfoData.length = 1048576
      ∧ t.m_Header.m_PackSize = 0 := by
  obtain ⟨t, ht, _, _, _, _, _, _, h3, hlen, H, hF⟩ := SaveFile_manyPacks
  exact ⟨t, H, ht, hF, hlen, h3⟩

/-- C19 (amended): for every root type `T` with `sizeof(T)` below 65536, the header that
Save writes with `swap_endian = false` (into a stream positioned at its start) carries
`auto_version` equal to `sizeof(T)`, and LoadHeader called with `sizeof(T)` accepts the file
that Save produced. -/
theorem saved_header_is_accepted {κ δ : Type} (codec : xcompression.codec κ δ)
    (fuel : Nat) (s : stream) (File : xfile) (mem : Mem) (Object sizeofObject : Nat)
    (io : Stmts) (VERSION : Nat) (level : compression_level) (fl : mem_type) (t : stream)
    (h : stream.Save codec fuel s File mem Object sizeofObject io VERSION level fl false = .ok t)
    (hpos : File.pos = 0) (hsize : sizeofObject < 65536) :
    t.m_Header.m_AutomaticVersion = sizeofObject
    ∧ (header.ofBytes (t.m_pWrite.m_pFile.data.take sizeof_header)).m_AutomaticVersion
        = sizeofObject
    ∧ ∀ s0 : stream, (s0.LoadHeader (t.m_pWrite.m_pFile.SeekOrigin 0) sizeofObject).1 = .ok () := by
  obtain ⟨info, x, _, hv, ha, _, hd⟩ :=
    Save_ok codec fuel s File mem Object sizeofObject io VERSION level fl false t h hpos
  have hu : u16 (u32 sizeofObject) = sizeofObject := by unfold u16 u32; omega
  rw [hu] at ha
  refine ⟨ha, ?_, ?_⟩
  · rw [hd]
    simp only [List.append_assoc, sizeof_header]
    rw [List.take_append_of_le_length (by rw [header_bytes_length]),
      List.take_of_length_le (by rw [header_bytes_length]), ofBytes_bytes]
    show u16 t.m_Header.m_AutomaticVersion = _
    rw [ha]
    unfold u16; omega
  · intro s0
    rw [List.append_assoc, List.append_assoc] at hd
    rw [LoadHeader_data s0 _ _ _ sizeofObject hd]
    show (if u16 t.m_Header.m_SerialFileVersion ≠ version_id_v then _ else
      if u16 t.m_Header.m_AutomaticVersion ≠ sizeofObject then _ else _) = _
    rw [hv, ha]
    have : u16 sizeofObject = sizeofObject := by unfold u16; omega
    rw [if_neg (by decide), if_neg (not_not.2 this)]

/-- Witness of C19 (amended): Save of the root of eight temp arrays, 128 bytes. -/
theorem saved_header_is_accepted_witness :
    stream.Save rle 8 {} {} eightMem 4096 128 eightTemp 1 compression_level.MEDIUM {} false
        = .ok savedEight.result
    ∧ savedEight.result.m_Header.m_AutomaticVersion = 128
    ∧ ∀ s0 : stream,
        (s0.LoadHeader (savedEight.result.m_pWrite.m_pFile.SeekOrigin 0) 128).1 = .ok () :=
  have h : stream.Save rle 8 {} {} eightMem 4096 128 eightTemp 1 compression_level.MEDIUM {}
      false = .ok savedEight.result := Outcome_eq_ok savedEight (by decide!)
  ⟨h,
    (saved_header_is_accepted rle 8 {} {} eightMem 4096 128 eightTemp 1
      compression_level.MEDIUM {} savedEight.result h rfl (by decide)).1,
    (saved_header_is_accepted rle 8 {} {} eightMem 4096 128 eightTemp 1
      compression_level.MEDIUM {} savedEight.result h rfl (by decide)).2.2⟩

/-- C19 (counterexample): a root type of 65536 bytes (with an empty descriptor) is saved
with `swap_endian = false`.  Save succeeds, the header carries `auto_version = 0`, and
LoadHeader called with `sizeof(T) = 65536` rejects the file with WRONG_VERSION. -/
theorem large_root_is_rejected :
    ∃ t : stream,
      stream.Save rle 70000 {} {} (fun _ => 0) 4096 65536 .done 1 compression_level.MEDIUM {}
          false = .ok t
      ∧ t.m_Header.m_AutomaticVersion = 0
      ∧ (({} : stream).LoadHeader (t.m_pWrite.m_pFile.SeekOrigin 0) 65536).1
          = .error (.serializer .WRONG_VERSION) := by
  have hsave : ∃ t : stream,
      stream.Save rle 70000 {} {} (fun _ => 0) 4096 65536 .done 1 compression_level.MEDIUM {}
        false = .ok t := by
    unfold stream.Save
    refine SaveFile_rle_ok _ _ ?_ ?_
    · intro p hp
      simp only [stream.SaveWalk, io_functions.SerializeIO, SaveBegin_packs,
        List.mem_singleton] at hp
      subst hp
      simp only [List.length_replicate]
      unfold u32
      omega
    · exact (SaveWalk_output ({} : stream) {} (fun _ => 0) 4096 65536 .done 1
        compression_level.MEDIUM {} false).2.1
  obtain ⟨t, ht⟩ := hsave
  obtain ⟨info, x, _, hv, ha, _, hd⟩ :=
    Save_ok rle 70000 {} {} (fun _ => 0) 4096 65536 .done 1 compression_level.MEDIUM {} false t ht
      rfl
  have ha0 : t.m_Header.m_AutomaticVersion = 0 := by rw [ha]; decide
  refine ⟨t, ht, ha0, ?_⟩
  rw [List.append_assoc, List.append_assoc] at hd
  rw [LoadHeader_data {} _ _ _ 65536 hd]
  show (if u16 t.m_Header.m_SerialFileVersion ≠ version_id_v then _ else
    if u16 t.m_Header.m_AutomaticVersion ≠ 65536 then _ else _) = _
  rw [hv, ha0]
  rfl

/-- C20 (the code at the failing input): a root of 65536 bytes whose descriptor serializes
one byte is saved twice with the run-length codec, with `swap_endian = false` and with
`swap_endian = true`.  Both saves succeed and in both the only pack is stored raw, with
a compressed size of 65536 bytes; the file is the header, the info region and the payload.
The payload is 65536 bytes long without the swap and 256 bytes long with it: with
`swap_endian` the payload loop cuts the pack's bytes at the byte-swapped compressed size. -/
theorem payload_depends_on_swap_endian :
    ∃ t t' : stream,
      stream.Save rle 70000 {} {} bigRootMem 4096 65536 oneByteField 1 compression_level.MEDIUM
          {} false = .ok t
      ∧ stream.Save rle 70000 {} {} bigRootMem 4096 65536 oneByteField 1
          compression_level.MEDIUM {} true = .ok t'
      ∧ t.m_pWrite.m_Packs.map (fun p => p.m_CompressSize) = [65536]
      ∧ t'.m_pWrite.m_Packs.map (fun p => p.m_CompressSize) = [65536]
      ∧ (∃ (H : header) (info : List Nat),
          t.m_pWrite.m_pFile.data = H.bytes ++ info ++ payloadBytes false t.m_pWrite.m_Packs)
      ∧ (∃ (H : header) (info : List Nat),
          t'.m_pWrite.m_pFile.data = H.bytes ++ info ++ payloadBytes true t'.m_pWrite.m_Packs)
      ∧ (payloadBytes false t.m_pWrite.m_Packs).length = 65536
      ∧ (payloadBytes true t'.m_pWrite.m_Packs).length = 256 := by
  obtain ⟨t, ht, _, hm, hF⟩ := SaveFile_bigRoot false
  obtain ⟨t', ht', _, hm', hF'⟩ := SaveFile_bigRoot true
  have hs : ∀ u : stream,
      u.m_pWrite.m_Packs.map (fun p => (p.m_CompressSize, p.m_CompressData))
          = [(65536, (7 :: List.replicate 65535 32) ++ List.replicate 65536 0)] →
      u.m_pWrite.m_Packs.map (fun p => p.m_CompressSize) = [65536] := by
    intro u hu
    have := congrArg (List.map Prod.fst) hu
    simpa only [List.map_map, List.map_cons, List.map_nil] using this
  have hl : ∀ k : Nat, k ≤ 131072 →
      (((7 :: List.replicate 65535 32) ++ List.replicate 65536 0).take k).length = k := by
    intro k hk
    rw [List.length_take, List.length_append, List.length_cons, List.length_replicate,
      List.length_replicate]
    omega
  refine ⟨t, t', ht, ht', hs t hm, hs t' hm', hF, hF', ?_, ?_⟩
  · rw [payloadBytes_single false _ _ _ hm]
    exact hl 65536 (by decide)
  · rw [payloadBytes_single true _ _ _ hm']
    have hc : endian.Convert32 65536 = 256 := by decide
    simp only [if_true, hc]
    exact hl 256 (by decide)

/-- C21 (counterexample): SaveFile (with `swap_endian = false`) on a save context with 65536
packs lays out an info region of 65536 pack records and 65536 block sizes, but the header
carries `n_packs = 0` and `n_block_sizes = 0`, so LoadObject's interpretation of the info
region with the header's counts yields no pack and no block size. -/
theorem info_region_counts_truncated :
    ∃ t : stream,
      stream.SaveFile rle 32 manyPacks = .ok t
      ∧ t.m_pWrite.m_bEndian = false
      ∧ t.m_pWrite.m_Packs.length = 65536
      ∧ t.m_pWrite.m_CSizeStream.length = 65536
      ∧ (t.m_Header.info t.m_pWrite.InfoData).packs = []
      ∧ (t.m_Header.info t.m_pWrite.InfoData).blockSizes = [] := by
  obtain ⟨t, ht, hP, _, hC, hE, h1, h2, _, _, _⟩ := SaveFile_manyPacks
  refine ⟨t, ht, hE, ?_, ?_, ?_, ?_⟩
  · rw [hP, List.length_cons, List.length_replicate]
  · rw [hC, List.length_cons, List.length_replicate]
  · unfold info.packs header.info
    simp only [h1, List.range_zero, List.map_nil]
  · unfold info.blockSizes header.info
    simp only [h2, List.range_zero, List.map_nil]

/-- C21 (amended): for every list of fewer than 65536 packs, of fewer than 65536 refs and of
fewer than 65536 block sizes (whose values fit the types of their fields), the info region
that SaveFile lays out with `swap_endian = false` is the pack records, then the refs, then
the block sizes, in list order; its size is
`n_packs * sizeof(pack) + n_pointers * sizeof(ref) + n_block_sizes * 4` for the counts that
SaveFile stores in the header, and LoadObject's interpretation of these bytes (followed by
anything) with the header's counts yields the same three lists. -/
theorem info_region_round_trip (s : stream) (CompressInfoDataSize : Nat) (rest : List Nat)
    (hnP : s.m_pWrite.m_Packs.length < 65536)
    (hnR : s.m_pWrite.m_PointerTable.length < 65536)
    (hnC : s.m_pWrite.m_CSizeStream.length < 65536)
    (hP : ∀ p ∈ s.m_pWrite.m_Packs, p.m_UncompressSize < 4294967296 ∧ p.m_nBlocks < 4294967296)
    (hR : ∀ r ∈ s.m_pWrite.m_PointerTable,
      r.m_PointingAT < 4294967296 ∧ r.m_OffSet < 4294967296 ∧ r.m_Count < 4294967296
        ∧ r.m_OffsetPack < 65536 ∧ r.m_PointingATPack < 65536)
    (hC : ∀ c ∈ s.m_pWrite.m_CSizeStream, c < 4294967296) :
    s.m_pWrite.InfoData
        = s.m_pWrite.m_Packs.flatMap (fun p => p.topack.bytes)
          ++ s.m_pWrite.m_PointerTable.flatMap (fun r => r.bytes)
          ++ s.m_pWrite.m_CSizeStream.flatMap (fun c => leBytes 4 c)
    ∧ s.m_pWrite.InfoData.length
        = (s.fillHeader CompressInfoDataSize).m_nPacks * sizeof_pack
          + (s.fillHeader CompressInfoDataSize).m_nPointers * sizeof_ref
          + (s.fillHeader CompressInfoDataSize).m_nBlockSizes * 4
    ∧ ((s.fillHeader CompressInfoDataSize).info (s.m_pWrite.InfoData ++ rest)).packs
        = s.m_pWrite.m_Packs.map (fun p => p.topack)
    ∧ ((s.fillHeader CompressInfoDataSize).info (s.m_pWrite.InfoData ++ rest)).refs
        = s.m_pWrite.m_PointerTable
    ∧ ((s.fillHeader CompressInfoDataSize).info (s.m_pWrite.InfoData ++ rest)).blockSizes
        = s.m_pWrite.m_CSizeStream := by
  have e1 : (s.fillHeader CompressInfoDataSize).m_nPacks = s.m_pWrite.m_Packs.length := by
    show u16 _ = _
    unfold u16; omega
  have e2 : (s.fillHeader CompressInfoDataSize).m_nPointers
      = s.m_pWrite.m_PointerTable.length := by
    show u16 _ = _
    unfold u16; omega
  have e3 : (s.fillHeader CompressInfoDataSize).m_nBlockSizes
      = s.m_pWrite.m_CSizeStream.length := by
    show u16 _ = _
    unfold u16; omega
  refine ⟨rfl, ?_, InfoData_interpretation s.m_pWrite rest _ rfl e1 e2 e3 hP hR hC⟩
  rw [e1, e2, e3, InfoData_length]
  ring

/-- Witness of C21 (amended): the packs, refs and block sizes of the save of the root of
eight temp arrays. -/
theorem info_region_round_trip_witness :
    (savedEight.result.m_Header.info (savedEight.result.m_pWrite.InfoData ++ [1, 2, 3])).packs
        = savedEight.result.m_pWrite.m_Packs.map (fun p => p.topack)
    ∧ (savedEight.result.m_Header.info (savedEight.result.m_pWrite.InfoData ++ [1, 2, 3])).refs
        = savedEight.result.m_pWrite.m_PointerTable
    ∧ (savedEight.result.m_Header.info
          (savedEight.result.m_pWrite.InfoData ++ [1, 2, 3])).blockSizes
        = savedEight.result.m_pWrite.m_CSizeStream :=
  have e : savedEight.result.fillHeader savedEight.result.m_Header.m_PackSize
      = savedEight.result.m_Header := by decide!
  e ▸ (info_region_round_trip savedEight.result savedEight.result.m_Header.m_PackSize [1, 2, 3]
    (by decide!) (by decide!) (by decide!) (by decide!) (by decide!) (by decide!)).2.2

/-- C22: for two scalar fields `a` (of `na > 0` bytes) and `b` (of `nb > 0` bytes) that lie
inside the class range of the current frame and do not overlap, in a frame whose class range
ends below 4 GiB in the current pack, `Serialize(a); Serialize(b)` and
`Serialize(b); Serialize(a)` leave every pack with the same bytes, the same pointer table and
the same frame.  Afterwards the bytes of `a` stand at `class_pos + (a - class_ptr)` of the
current pack and those of `b` at `class_pos + (b - class_ptr)`; every other byte of the
current pack is what it was (a byte beyond the old end reads as 0), the pack is as long as
before unless a field ends beyond its old end, and the other packs are unchanged. -/
theorem scalar_field_order_does_not_matter (s : stream) (mem : Mem) (a na b nb : Nat)
    (hi : s.m_iPack < s.m_pWrite.m_Packs.length)
    (hna : 0 < na) (hnb : 0 < nb)
    (ha : s.m_pClass ≤ a ∧ a + na ≤ s.m_pClass + s.m_ClassSize)
    (hb : s.m_pClass ≤ b ∧ b + nb ≤ s.m_pClass + s.m_ClassSize)
    (hfit : s.m_ClassPos + s.m_ClassSize ≤ 4294967296)
    (hdisj : a + na ≤ b ∨ b + nb ≤ a) :
    (∀ i, (stream.Serialize (.prim nb) mem b
            (stream.Serialize (.prim na) mem a s)).m_pWrite.packData i
        = (stream.Serialize (.prim na) mem a
            (stream.Serialize (.prim nb) mem b s)).m_pWrite.packData i)
    ∧ (stream.Serialize (.prim nb) mem b
          (stream.Serialize (.prim na) mem a s)).m_pWrite.m_PointerTable
        = (stream.Serialize (.prim na) mem a
            (stream.Serialize (.prim nb) mem b s)).m_pWrite.m_PointerTable
    ∧ (stream.Serialize (.prim nb) mem b (stream.Serialize (.prim na) mem a s)).frame
        = (stream.Serialize (.prim na) mem a (stream.Serialize (.prim nb) mem b s)).frame
    ∧ (∀ k, k < na →
        ((stream.Serialize (.prim nb) mem b
            (stream.Serialize (.prim na) mem a s)).m_pWrite.packData s.m_iPack).getD
              (s.m_ClassPos + (a - s.m_pClass) + k) 0 = mem (a + k))
    ∧ (∀ k, k < nb →
        ((stream.Serialize (.prim nb) mem b
            (stream.Serialize (.prim na) mem a s)).m_pWrite.packData s.m_iPack).getD
              (s.m_ClassPos + (b - s.m_pClass) + k) 0 = mem (b + k))
    ∧ (∀ j, ¬ (s.m_ClassPos + (a - s.m_pClass) ≤ j ∧ j < s.m_ClassPos + (a - s.m_pClass) + na) →
        ¬ (s.m_ClassPos + (b - s.m_pClass) ≤ j ∧ j < s.m_ClassPos + (b - s.m_pClass) + nb) →
        ((stream.Serialize (.prim nb) mem b
            (stream.Serialize (.prim na) mem a s)).m_pWrite.packData s.m_iPack).getD j 0
          = (s.m_pWrite.packData s.m_iPack).getD j 0)
    ∧ ((stream.Serialize (.prim nb) mem b
          (stream.Serialize (.prim na) mem a s)).m_pWrite.packData s.m_iPack).length
        = max (max (s.m_pWrite.packData s.m_iPack).length
            (s.m_ClassPos + (a - s.m_pClass) + na)) (s.m_ClassPos + (b - s.m_pClass) + nb)
    ∧ (∀ i, i ≠ s.m_iPack →
        (stream.Serialize (.prim nb) mem b
            (stream.Serialize (.prim na) mem a s)).m_pWrite.packData i
          = s.m_pWrite.packData i) := by
  have hpa : s.localPos a = s.m_ClassPos + (a - s.m_pClass) :=
    localPos_mod s a ha.1 (by omega)
  have hpb : s.localPos b = s.m_ClassPos + (b - s.m_pClass) :=
    localPos_mod s b hb.1 (by omega)
  have hA : readBytes mem a na ≠ [] := by
    intro h
    have := readBytes_length mem a na
    rw [h] at this
    simp at this
    omega
  have hB : readBytes mem b nb ≠ [] := by
    intro h
    have := readBytes_length mem b nb
    rw [h] at this
    simp at this
    omega
  have hab : (stream.Serialize (.prim nb) mem b
      (stream.Serialize (.prim na) mem a s)).m_pWrite.packData s.m_iPack
      = overwrite (overwrite (s.m_pWrite.packData s.m_iPack)
          (s.m_ClassPos + (a - s.m_pClass)) (readBytes mem a na))
          (s.m_ClassPos + (b - s.m_pClass)) (readBytes mem b nb) := by
    simp only [stream.Serialize]
    have := Handle_packData_same (s.Handle mem a na) mem b nb
      (by rw [Handle_iPack, Handle_packs_length]; exact hi)
    rw [Handle_iPack] at this
    rw [this, Handle_packData_same s mem a na hi, Handle_localPos, hpa, hpb]
  have hba : (stream.Serialize (.prim na) mem a
      (stream.Serialize (.prim nb) mem b s)).m_pWrite.packData s.m_iPack
      = overwrite (overwrite (s.m_pWrite.packData s.m_iPack)
          (s.m_ClassPos + (b - s.m_pClass)) (readBytes mem b nb))
          (s.m_ClassPos + (a - s.m_pClass)) (readBytes mem a na) := by
    simp only [stream.Serialize]
    have := Handle_packData_same (s.Handle mem b nb) mem a na
      (by rw [Handle_iPack, Handle_packs_length]; exact hi)
    rw [Handle_iPack] at this
    rw [this, Handle_packData_same s mem b nb hi, Handle_localPos, hpa, hpb]
  have hother : ∀ (x nx y ny i : Nat), i ≠ s.m_iPack →
      (stream.Serialize (.prim ny) mem y
        (stream.Serialize (.prim nx) mem x s)).m_pWrite.packData i = s.m_pWrite.packData i := by
    intro x nx y ny i hne
    simp only [stream.Serialize]
    rw [Handle_packData_other _ _ _ _ _ (by rw [Handle_iPack]; exact hne),
      Handle_packData_other _ _ _ _ _ hne]
  have hdis : (s.m_ClassPos + (a - s.m_pClass)) + (readBytes mem a na).length
        ≤ s.m_ClassPos + (b - s.m_pClass)
      ∨ (s.m_ClassPos + (b - s.m_pClass)) + (readBytes mem b nb).length
        ≤ s.m_ClassPos + (a - s.m_pClass) := by
    rw [readBytes_length, readBytes_length]; omega
  refine ⟨?_, ?_, ?_, ?_, ?_, ?_, ?_, ?_⟩
  · intro i
    by_cases h : i = s.m_iPack
    · subst h
      rw [hab, hba]
      exact overwrite_overwrite_comm _ _ _ _ _ hA hB hdis
    · rw [hother a na b nb i h, hother b nb a na i h]
  · simp [stream.Serialize]
  · simp [stream.Serialize]
  · intro k hk
    rw [hab, overwrite_getD, overwrite_getD, readBytes_length, readBytes_length]
    rw [if_neg (by omega), if_pos (by omega)]
    rw [show s.m_ClassPos + (a - s.m_pClass) + k - (s.m_ClassPos + (a - s.m_pClass)) = k by omega,
      readBytes_getD _ _ _ _ hk]
  · intro k hk
    rw [hab, overwrite_getD, readBytes_length]
    rw [if_pos (by omega)]
    rw [show s.m_ClassPos + (b - s.m_pClass) + k - (s.m_ClassPos + (b - s.m_pClass)) = k by omega,
      readBytes_getD _ _ _ _ hk]
  · intro j hja hjb
    rw [hab, overwrite_getD, overwrite_getD, readBytes_length, readBytes_length]
    rw [if_neg hjb, if_neg hja]
  · rw [hab, overwrite_length _ _ _ hB, overwrite_length _ _ _ hA, readBytes_length,
      readBytes_length]
  · intro i h
    exact hother a na b nb i h

/-- Witness of C22: the fields at offsets 0 (8 bytes) and 8 (4 bytes) of a 16-byte root at
the start of its descriptor. -/
theorem scalar_field_order_does_not_matter_witness :
    (∀ i, (stream.Serialize (.prim 4) twoPtrMem 4104
            (stream.Serialize (.prim 8) twoPtrMem 4096 (rootBegin 16 {}))).m_pWrite.packData i
        = (stream.Serialize (.prim 8) twoPtrMem 4096
            (stream.Serialize (.prim 4) twoPtrMem 4104 (rootBegin 16 {}))).m_pWrite.packData i)
    ∧ ((stream.Serialize (.prim 4) twoPtrMem 4104
          (stream.Serialize (.prim 8) twoPtrMem 4096
            (rootBegin 16 {}))).m_pWrite.packData (rootBegin 16 {}).m_iPack).length
        = max (max ((rootBegin 16 {}).m_pWrite.packData (rootBegin 16 {}).m_iPack).length
            ((rootBegin 16 {}).m_ClassPos + (4096 - (rootBegin 16 {}).m_pClass) + 8))
            ((rootBegin 16 {}).m_ClassPos + (4104 - (rootBegin 16 {}).m_pClass) + 4) :=
  ⟨(scalar_field_order_does_not_matter (rootBegin 16 {}) twoPtrMem 4096 8 4104 4
      (by decide) (by decide) (by decide) (by decide) (by decide) (by decide) (by decide)).1,
    (scalar_field_order_does_not_matter (rootBegin 16 {}) twoPtrMem 4096 8 4104 4
      (by decide) (by decide) (by decide) (by decide) (by decide) (by decide)
      (by decide)).2.2.2.2.2.2.1⟩

/-- C23 (counterexample): the save walk of the test fixture `data3` with its descriptor and
the default root flags.  The pointer of `m_GoInStatic` (the slot at offset 16 of the root) is
serialized with the default flags `{}`, which the pool search matches with the root pack:
its `STATIC_COUNT` elements are reserved in pack 0, behind the 168 bytes of `data3`.  The
temp pack (pack 2) receives the eight arrays of `m_GoTemp` only: it holds
`STATIC_COUNT * 8` elements of `data1`, not `STATIC_COUNT * (8 + 1)`. -/
theorem GoInStatic_is_pooled_in_the_root_pack :
    data3Walk.layout
      = [ ({}, 168 + STATIC_COUNT * sizeOfTy data1),
          ({ m_bUnique := true }, DYNAMIC_COUNT * sizeOfTy data1),
          ({ m_bTempMemory := true }, STATIC_COUNT * 8 * sizeOfTy data1) ]
    ∧ data3Walk.m_pWrite.m_PointerTable.map
          (fun r => (r.m_OffSet, r.m_PointingATPack, r.m_PointingAT, r.m_Count))
        = [ (16, 0, 168, STATIC_COUNT), (32, 1, 0, DYNAMIC_COUNT),
            (48, 2, 0, STATIC_COUNT), (64, 2, 131080, STATIC_COUNT),
            (80, 2, 262160, STATIC_COUNT), (96, 2, 393240, STATIC_COUNT),
            (112, 2, 524320, STATIC_COUNT), (128, 2, 655400, STATIC_COUNT),
            (144, 2, 786480, STATIC_COUNT), (160, 2, 917560, STATIC_COUNT) ]
    ∧ STATIC_COUNT * 8 * sizeOfTy data1 ≠ STATIC_COUNT * (8 + 1) * sizeOfTy data1 := by
  refine ⟨data3Walk_layout.trans (by decide), ?_, by decide⟩
  rw [data3Walk_state.2.2.2]
  decide

/-- C23 (amended): saving the test fixture `data3` with its descriptor and the default root
flags succeeds (with the run-length codec) and yields `n_packs = 3` and ten refs.  Pack 0,
the root pack with flags `{}`, holds `data3` (168 bytes) followed by the `STATIC_COUNT`
elements of `m_GoInStatic`; pack 1, with the unique flag, holds the `DYNAMIC_COUNT` elements
of `m_DontDynamic`; pack 2, with the temp flag, holds the `STATIC_COUNT * 8` elements of the
eight arrays of `m_GoTemp`. -/
theorem data3_fixture_packs :
    ∃ t : stream,
      stream.Save rle 2097152 {} {} data3Mem 4096 168 data3IO 1 compression_level.MEDIUM {} false
        = .ok t
      ∧ t.m_Header.m_nPacks = 3
      ∧ t.m_Header.m_nPointers = 10
      ∧ t.m_pWrite.m_Packs.map (fun p => (p.m_PackFlags, p.m_UncompressSize))
          = [ ({}, 168 + STATIC_COUNT * sizeOfTy data1),
              ({ m_bUnique := true }, DYNAMIC_COUNT * sizeOfTy data1),
              ({ m_bTempMemory := true }, STATIC_COUNT * 8 * sizeOfTy data1) ]
      ∧ t.m_pWrite.m_PointerTable
          = [ { m_PointingAT := 168, m_OffsetPack := 0, m_OffSet := 16, m_Count := STATIC_COUNT,
                m_PointingATPack := 0 },
              { m_PointingAT := 0, m_OffsetPack := 0, m_OffSet := 32, m_Count := DYNAMIC_COUNT,
                m_PointingATPack := 1 },
              { m_PointingAT := 0, m_OffsetPack := 0, m_OffSet := 48, m_Count := STATIC_COUNT,
                m_PointingATPack := 2 },
              { m_PointingAT := 131080, m_OffsetPack := 0, m_OffSet := 64,
                m_Count := STATIC_COUNT, m_PointingATPack := 2 },
              { m_PointingAT := 262160, m_OffsetPack := 0, m_OffSet := 80,
                m_Count := STATIC_COUNT, m_PointingATPack := 2 },
              { m_PointingAT := 393240, m_OffsetPack := 0, m_OffSet := 96,
                m_Count := STATIC_COUNT, m_PointingATPack := 2 },
              { m_PointingAT := 524320, m_OffsetPack := 0, m_OffSet := 112,
                m_Count := STATIC_COUNT, m_PointingATPack := 2 },
              { m_PointingAT := 655400, m_OffsetPack := 0, m_OffSet := 128,
                m_Count := STATIC_COUNT, m_PointingATPack := 2 },
              { m_PointingAT := 786480, m_OffsetPack := 0, m_OffSet := 144,
                m_Count := STATIC_COUNT, m_PointingATPack := 2 },
              { m_PointingAT := 917560, m_OffsetPack := 0, m_OffSet := 160,
                m_Count := STATIC_COUNT, m_PointingATPack := 2 } ] := by
  obtain ⟨t, ht, h1, h2, h3, h4⟩ := saved_layout data3Walk _ 2097152 data3Walk_layout
    data3Walk_swap (by decide)
  refine ⟨t, data3_Save_eq.trans ht, h1.trans (by decide), ?_, h3.trans (by decide), ?_⟩
  · rw [h2, data3Walk_state.2.2.2]
    decide
  · rw [h4, data3Walk_state.2.2.2]
    decide

/-- C24: one turn of the block loop of SaveFile in which the compressor reports
INCOMPRESSIBLE, whatever it has written to its destination.  With
`n = min(block_size, remaining input)` and `p` the input offset at which that Pack call
began, the loop goes on with the next block in a state where the `n` bytes of the output
buffer at the pack's previous output offset are the input bytes `[p, p + n)`, the output
before that offset is untouched, `n` (as a 32-bit value) is appended to the block sizes,
`block_count` is one more and the output offset has advanced by `n`; nothing else of the
pack changes.  The next turn calls Pack on the engine this call has left, for the next
block: when that call reports OK the loop returns the pack with the block of that call
recorded after the raw block, and the block sizes with `n` and then the size of that block
appended; when it reports FAILURE the loop returns that error. -/
theorem incompressible_block_is_stored_raw {κ δ : Type} (codec : xcompression.codec κ δ)
    (fuel : Nat) (RawData : List Nat) (Compress : compressor κ) (Pack : pack_writing)
    (m_CSizeStream : List Nat)
    (hpos : Compress.getPos codec ≤ RawData.length)
    (hlen : RawData.length < 18446744073709551616)
    (hout : Pack.m_CompressSize ≤ Pack.m_CompressData.length)
    (h : (Compress.Pack codec
        (min (RawData.length - Compress.getPos codec) Pack.m_BlockSize)).1 = .INCOMPRESSIBLE) :
    ∃ Pack1 : pack_writing,
      compressLoop codec (fuel + 1) RawData Compress Pack m_CSizeStream
        = compressLoop codec fuel RawData
            (Compress.Pack codec
              (min (RawData.length - Compress.getPos codec) Pack.m_BlockSize)).2.2
            Pack1
            (m_CSizeStream
              ++ [u32 (min (RawData.length - Compress.getPos codec) Pack.m_BlockSize)])
      ∧ (Compress.Pack codec
            (min (RawData.length - Compress.getPos codec) Pack.m_BlockSize)).2.2.getLastPosition
          = Compress.getPos codec
      ∧ (Pack1.m_CompressData.drop Pack.m_CompressSize).take
            (min (RawData.length - Compress.getPos codec) Pack.m_BlockSize)
          = (RawData.drop (Compress.getPos codec)).take
              (min (RawData.length - Compress.getPos codec) Pack.m_BlockSize)
      ∧ ((RawData.drop (Compress.getPos codec)).take
            (min (RawData.length - Compress.getPos codec) Pack.m_BlockSize)).length
          = min (RawData.length - Compress.getPos codec) Pack.m_BlockSize
      ∧ Pack1.m_CompressData.take Pack.m_CompressSize
          = Pack.m_CompressData.take Pack.m_CompressSize
      ∧ Pack1.m_nBlocks = u32 (Pack.m_nBlocks + 1)
      ∧ Pack1.m_CompressSize
          = u32 (Pack.m_CompressSize
              + u32 (min (RawData.length - Compress.getPos codec) Pack.m_BlockSize))
      ∧ Pack1.m_BlockSize = Pack.m_BlockSize
      ∧ Pack1.m_UncompressSize = Pack.m_UncompressSize
      ∧ Pack1.m_PackFlags = Pack.m_PackFlags
      ∧ Pack1.m_Data = Pack.m_Data
      ∧ ∀ (Compress1 : compressor κ) (q : xcompression.state × List Nat × compressor κ),
          Compress1 = (Compress.Pack codec
            (min (RawData.length - Compress.getPos codec) Pack.m_BlockSize)).2.2 →
          q = Compress1.Pack codec
            (min (u64sub RawData.length (Compress1.getPos codec)) Pack1.m_BlockSize) →
          (q.1 = .OK →
            compressLoop codec (fuel + 2) RawData Compress Pack m_CSizeStream
              = .ok
                  (if q.2.1.length > 0 then
                      ({ Pack1 with
                          m_CompressData :=
                            overwrite Pack1.m_CompressData Pack1.m_CompressSize q.2.1 }
                        : pack_writing).addBlock q.2.1.length
                    else
                      { Pack1 with
                        m_CompressData :=
                          overwrite Pack1.m_CompressData Pack1.m_CompressSize q.2.1 },
                    if q.2.1.length > 0 then
                      m_CSizeStream
                        ++ [u32 (min (RawData.length - Compress.getPos codec) Pack.m_BlockSize)]
                        ++ [u32 q.2.1.length]
                    else
                      m_CSizeStream
                        ++ [u32 (min (RawData.length - Compress.getPos codec)
                              Pack.m_BlockSize)]))
          ∧ (q.1 = .FAILURE →
            compressLoop codec (fuel + 2) RawData Compress Pack m_CSizeStream
              = .error (.compression .FAILURE)) := by
  have hsub : u64sub RawData.length (Compress.getPos codec)
      = RawData.length - Compress.getPos codec := by
    unfold u64sub; omega
  have hrawlen : ((RawData.drop (Compress.getPos codec)).take
      (min (RawData.length - Compress.getPos codec) Pack.m_BlockSize)).length
        = min (RawData.length - Compress.getPos codec) Pack.m_BlockSize := by
    rw [List.length_take, List.length_drop]; omega
  have step : ∀ f : Nat,
      compressLoop codec (f + 1) RawData Compress Pack m_CSizeStream
        = compressLoop codec f RawData
            (Compress.Pack codec
              (min (RawData.length - Compress.getPos codec) Pack.m_BlockSize)).2.2
            ({ Pack with
              m_CompressData := overwrite
                (overwrite Pack.m_CompressData Pack.m_CompressSize
                  (Compress.Pack codec
                    (min (RawData.length - Compress.getPos codec) Pack.m_BlockSize)).2.1)
                Pack.m_CompressSize
                ((RawData.drop (Compress.getPos codec)).take
                  (min (RawData.length - Compress.getPos codec) Pack.m_BlockSize)) }.addBlock
              (min (RawData.length - Compress.getPos codec) Pack.m_BlockSize))
            (m_CSizeStream
              ++ [u32 (min (RawData.length - Compress.getPos codec) Pack.m_BlockSize)]) := by
    intro f
    conv => lhs; unfold compressLoop
    simp only [hsub]
    rw [if_pos h]
    rfl
  refine ⟨({ Pack with
      m_CompressData := overwrite
        (overwrite Pack.m_CompressData Pack.m_CompressSize
          (Compress.Pack codec
            (min (RawData.length - Compress.getPos codec) Pack.m_BlockSize)).2.1)
        Pack.m_CompressSize
        ((RawData.drop (Compress.getPos codec)).take
          (min (RawData.length - Compress.getPos codec) Pack.m_BlockSize)) }.addBlock
      (min (RawData.length - Compress.getPos codec) Pack.m_BlockSize)), ?_, rfl, ?_, hrawlen,
    ?_, rfl, rfl, rfl, rfl, rfl, rfl, ?_⟩
  · exact step fuel
  rotate_left 2
  · intro Compress1 q hC hq
    subst hC
    subst hq
    constructor
    · intro hok
      rw [step (fuel + 1)]
      conv => lhs; unfold compressLoop
      simp only
      rw [if_neg (by rw [hok]; decide), if_neg (by rw [hok]; decide), if_pos hok]
    · intro hf
      rw [step (fuel + 1)]
      conv => lhs; unfold compressLoop
      simp only
      rw [if_neg (by rw [hf]; decide), if_pos (by rw [hf]; decide), hf]
  · show ((overwrite _ Pack.m_CompressSize _).drop Pack.m_CompressSize).take _ = _
    have := overwrite_drop_take
      (overwrite Pack.m_CompressData Pack.m_CompressSize
        (Compress.Pack codec
          (min (RawData.length - Compress.getPos codec) Pack.m_BlockSize)).2.1)
      Pack.m_CompressSize
      ((RawData.drop (Compress.getPos codec)).take
        (min (RawData.length - Compress.getPos codec) Pack.m_BlockSize))
    rw [hrawlen] at this
    exact this
  · show (overwrite _ Pack.m_CompressSize _).take Pack.m_CompressSize = _
    rw [overwrite_take _ _ _ (le_trans hout (overwrite_length_ge _ _ _)),
      overwrite_take _ _ _ hout]

/-- Witness of C24: the run-length codec on a pack of six different bytes.  The first call
reports INCOMPRESSIBLE; the next one, at the end of the input, reports OK and writes nothing,
and the loop returns the pack with the six bytes stored and one block of size 6. -/
theorem incompressible_block_is_stored_raw_witness :
    ∃ Pack1 : pack_writing,
      (Pack1.m_CompressData.drop sixBytePack.m_CompressSize).take
          (min (([1, 2, 3, 4, 5, 6] : List Nat).length - sixByteCompressor.getPos rle)
            sixBytePack.m_BlockSize)
        = (([1, 2, 3, 4, 5, 6] : List Nat).drop (sixByteCompressor.getPos rle)).take
            (min (([1, 2, 3, 4, 5, 6] : List Nat).length - sixByteCompressor.getPos rle)
              sixBytePack.m_BlockSize)
      ∧ Pack1.m_nBlocks = u32 (sixBytePack.m_nBlocks + 1)
      ∧ compressLoop rle (0 + 2) [1, 2, 3, 4, 5, 6] sixByteCompressor sixBytePack []
          = .ok ({ Pack1 with
                    m_CompressData := overwrite Pack1.m_CompressData Pack1.m_CompressSize [] },
                  [] ++ [u32 6]) :=
  (incompressible_block_is_stored_raw rle 0 [1, 2, 3, 4, 5, 6] sixByteCompressor sixBytePack []
    (by decide) (by decide) (by decide) (by decide)).elim
    (fun Pack1 hP =>
      ⟨Pack1, hP.2.2.1, hP.2.2.2.2.2.1, (hP.2.2.2.2.2.2.2.2.2.2.2 _ _ rfl rfl).1 rfl⟩)
/-- C25 (counterexample): Save of the root of eight temp arrays with a codec all of whose
Pack calls report NOT_DONE or OK.  The packs are compressed without error, and Save returns
the error NOT_DONE, which the single Pack call of the info-region compression reported. -/
theorem info_region_NOT_DONE_fails_Save :
    (∀ (e : rle_engine) (n : Nat),
        (storeCodec.Pack e n).1 = .OK ∨ (storeCodec.Pack e n).1 = .NOT_DONE)
    ∧ (compressPacks storeCodec 8 compression_level.MEDIUM eightWalk.m_pWrite.m_Packs
        eightWalk.m_pWrite.m_CSizeStream).isOk = true
    ∧ stream.Save storeCodec 8 {} {} eightMem 4096 128 eightTemp 1 compression_level.MEDIUM {}
        false = .error (.compression .NOT_DONE) := by
  refine ⟨?_, by decide!, Outcome_failure_eq savedStored _ (by decide!)⟩
  intro e n
  simp only [storeCodec]
  split
  · exact Or.inl rfl
  · exact Or.inr rfl

/-- C25 (amended): in the block loop of a pack a NOT_DONE result is not an error: the loop
records the block, if any bytes were written, and calls Pack again; an error returned by the
compression of the packs is never NOT_DONE (it is a state other than OK, NOT_DONE and
INCOMPRESSIBLE).  The info-region compression makes a single Pack call and returns every
state other than OK and INCOMPRESSIBLE as the error of SaveFile: SaveFile returns the error
NOT_DONE exactly when the packs were compressed and that single call reported NOT_DONE. -/
theorem NOT_DONE_is_an_error_only_in_the_info_region {κ δ : Type}
    (codec : xcompression.codec κ δ) (fuel : Nat) (s : stream) :
    (∀ (n : Nat) (RawData : List Nat) (Compress : compressor κ) (Pack : pack_writing)
        (m_CSizeStream : List Nat),
        (Compress.Pack codec
          (min (u64sub RawData.length (Compress.getPos codec)) Pack.m_BlockSize)).1
            = .NOT_DONE →
        compressLoop codec (n + 1) RawData Compress Pack m_CSizeStream
          = compressLoop codec n RawData
              (Compress.Pack codec
                (min (u64sub RawData.length (Compress.getPos codec)) Pack.m_BlockSize)).2.2
              (if (Compress.Pack codec (min (u64sub RawData.length (Compress.getPos codec))
                    Pack.m_BlockSize)).2.1.length > 0 then
                ({ Pack with
                    m_CompressData := overwrite Pack.m_CompressData Pack.m_CompressSize
                      (Compress.Pack codec (min (u64sub RawData.length (Compress.getPos codec))
                        Pack.m_BlockSize)).2.1 } : pack_writing).addBlock
                  (Compress.Pack codec (min (u64sub RawData.length (Compress.getPos codec))
                    Pack.m_BlockSize)).2.1.length
               else
                { Pack with
                    m_CompressData := overwrite Pack.m_CompressData Pack.m_CompressSize
                      (Compress.Pack codec (min (u64sub RawData.length (Compress.getPos codec))
                        Pack.m_BlockSize)).2.1 })
              (if (Compress.Pack codec (min (u64sub RawData.length (Compress.getPos codec))
                    Pack.m_BlockSize)).2.1.length > 0 then
                m_CSizeStream ++ [u32 (Compress.Pack codec
                  (min (u64sub RawData.length (Compress.getPos codec))
                    Pack.m_BlockSize)).2.1.length]
               else m_CSizeStream))
    ∧ (∀ (packs : List pack_writing) (cs : List Nat) (e : xerr),
        compressPacks codec fuel s.m_CompressionLevel packs cs = .error e →
        ∃ st, e = .compression st ∧ st ≠ .OK ∧ st ≠ .NOT_DONE ∧ st ≠ .INCOMPRESSIBLE)
    ∧ (stream.SaveFile codec fuel s = .error (.compression .NOT_DONE)
        ↔ ∃ (packs : List pack_writing) (cs : List Nat) (Compress : compressor κ),
            compressPacks codec fuel s.m_CompressionLevel s.m_pWrite.m_Packs
              s.m_pWrite.m_CSizeStream = .ok (packs, cs)
            ∧ compressor.Init codec (s.compressed packs cs).InfoData.length
                (s.compressed packs cs).InfoData s.m_CompressionLevel = some Compress
            ∧ (Compress.Pack codec (s.compressed packs cs).InfoData.length).1 = .NOT_DONE) := by
  refine ⟨?_, compressPacks_error codec fuel s.m_CompressionLevel, ?_⟩
  · intro n RawData Compress Pack cs h
    conv => lhs; unfold compressLoop
    simp only
    rw [if_neg (by rw [h]; decide), if_neg (by rw [h]; decide), if_neg (by rw [h]; decide)]
  · constructor
    · intro h
      unfold stream.SaveFile at h
      split at h
      · rename_i e he
        cases h
        obtain ⟨st, hst, _, hnd, _⟩ := compressPacks_error codec fuel _ _ _ _ he
        cases hst
        exact absurd rfl hnd
      · cases h
      · cases h
      · rename_i r hr
        simp only at h
        split at h
        · rename_i e he
          cases h
          unfold compressInfo at he
          split at he
          · cases he
          · rename_i Compress hinit
            simp only at he
            split at he
            · split at he
              · cases he
              · refine ⟨r.1, r.2, Compress, hr, hinit, ?_⟩
                injection he with he
                injection he
            · cases he
        · split at h <;> cases h
    · rintro ⟨packs, cs, Compress, hp, hinit, hnd⟩
      unfold stream.SaveFile
      rw [hp]
      simp only
      have hi : compressInfo codec s.m_CompressionLevel (s.compressed packs cs).InfoData
          = .error (.compression .NOT_DONE) := by
        unfold compressInfo
        rw [hinit]
        simp only
        rw [if_pos (by rw [hnd]; decide), if_neg (by rw [hnd]; decide), hnd]
      unfold stream.compressed at hi
      rw [hi]

/-- Witness of C25 (amended): one turn of the block loop on a pack of six bytes with a codec
that reports NOT_DONE after the block. -/
theorem NOT_DONE_is_an_error_only_in_the_info_region_witness :
    (sixByteCompressor.Pack storeCodec (min (u64sub ([1, 2, 3, 4, 5, 6] : List Nat).length
        (sixByteCompressor.getPos storeCodec)) sixBytePack.m_BlockSize)).1 = .NOT_DONE
    ∧ compressLoop storeCodec (1 + 1) [1, 2, 3, 4, 5, 6] sixByteCompressor sixBytePack []
      = compressLoop storeCodec 1 [1, 2, 3, 4, 5, 6]
          (sixByteCompressor.Pack storeCodec
            (min (u64sub ([1, 2, 3, 4, 5, 6] : List Nat).length
              (sixByteCompressor.getPos storeCodec)) sixBytePack.m_BlockSize)).2.2
          (if (sixByteCompressor.Pack storeCodec
                (min (u64sub ([1, 2, 3, 4, 5, 6] : List Nat).length
                  (sixByteCompressor.getPos storeCodec)) sixBytePack.m_BlockSize)).2.1.length
                > 0 then
            ({ sixBytePack with
                m_CompressData := overwrite sixBytePack.m_CompressData
                  sixBytePack.m_CompressSize
                  (sixByteCompressor.Pack storeCodec
                    (min (u64sub ([1, 2, 3, 4, 5, 6] : List Nat).length
                      (sixByteCompressor.getPos storeCodec)) sixBytePack.m_BlockSize)).2.1 }
              : pack_writing).addBlock
              (sixByteCompressor.Pack storeCodec
                (min (u64sub ([1, 2, 3, 4, 5, 6] : List Nat).length
                  (sixByteCompressor.getPos storeCodec)) sixBytePack.m_BlockSize)).2.1.length
           else
            { sixBytePack with
                m_CompressData := overwrite sixBytePack.m_CompressData
                  sixBytePack.m_CompressSize
                  (sixByteCompressor.Pack storeCodec
                    (min (u64sub ([1, 2, 3, 4, 5, 6] : List Nat).length
                      (sixByteCompressor.getPos storeCodec)) sixBytePack.m_BlockSize)).2.1 })
          (if (sixByteCompressor.Pack storeCodec
                (min (u64sub ([1, 2, 3, 4, 5, 6] : List Nat).length
                  (sixByteCompressor.getPos storeCodec)) sixBytePack.m_BlockSize)).2.1.length
                > 0 then
            [] ++ [u32 (sixByteCompressor.Pack storeCodec
              (min (u64sub ([1, 2, 3, 4, 5, 6] : List Nat).length
                (sixByteCompressor.getPos storeCodec)) sixBytePack.m_BlockSize)).2.1.length]
           else []) :=
  ⟨by decide,
  (NOT_DONE_is_an_error_only_in_the_info_region storeCodec 8 {}).1 1 [1, 2, 3, 4, 5, 6]
    sixByteCompressor sixBytePack [] (by decide)⟩

/-- C27: `endian::Convert` reverses the byte order of every 16-, 32- and 64-bit value (byte
`i` of the result, counted from the least significant one, is byte `w/8 - 1 - i` of the
argument), returns an 8-bit value unchanged, returns a value of the same width, and applying
it twice gives the argument back, for each of the four widths. -/
theorem Convert_reverses_byte_order :
    (∀ v : Nat, endian.Convert8 v = v)
    ∧ (∀ v i : Nat, v < 2 ^ 16 → i < 2 →
        endian.Convert16 v / 256 ^ i % 256 = v / 256 ^ (1 - i) % 256)
    ∧ (∀ v i : Nat, v < 2 ^ 32 → i < 4 →
        endian.Convert32 v / 256 ^ i % 256 = v / 256 ^ (3 - i) % 256)
    ∧ (∀ v i : Nat, v < 2 ^ 64 → i < 8 →
        endian.Convert64 v / 256 ^ i % 256 = v / 256 ^ (7 - i) % 256)
    ∧ (∀ v : Nat, endian.Convert8 (endian.Convert8 v) = v)
    ∧ (∀ v : Nat, v < 2 ^ 16 →
        endian.Convert16 v < 2 ^ 16 ∧ endian.Convert16 (endian.Convert16 v) = v)
    ∧ (∀ v : Nat, v < 2 ^ 32 →
        endian.Convert32 v < 2 ^ 32 ∧ endian.Convert32 (endian.Convert32 v) = v)
    ∧ (∀ v : Nat, v < 2 ^ 64 →
        endian.Convert64 v < 2 ^ 64 ∧ endian.Convert64 (endian.Convert64 v) = v) := by
  refine ⟨fun _ => rfl, ?_, ?_, ?_, fun _ => rfl, ?_, ?_, ?_⟩
  · intro v i hv hi
    exact Convert16_byte v i (by norm_num at hv; exact hv) hi
  · intro v i _ hi
    exact Convert32_byte v i hi
  · intro v i _ hi
    exact Convert64_byte v i hi
  · intro v hv
    norm_num at hv ⊢
    exact ⟨Convert16_lt v, Convert16_Convert16 v hv⟩
  · intro v hv
    norm_num at hv ⊢
    exact ⟨Convert32_lt v, Convert32_Convert32 v hv⟩
  · intro v hv
    norm_num at hv ⊢
    exact ⟨Convert64_lt v, Convert64_Convert64 v hv⟩

/-- Witness of C27: the 32-bit value 0x11223344 and the 16-bit value 0x1234. -/
theorem Convert_reverses_byte_order_witness :
    endian.Convert32 0x11223344 / 256 ^ 0 % 256 = 0x11223344 / 256 ^ (3 - 0) % 256
    ∧ endian.Convert16 (endian.Convert16 0x1234) = 0x1234
    ∧ endian.Convert64 (endian.Convert64 0x1122334455667788) = 0x1122334455667788 :=
  ⟨Convert_reverses_byte_order.2.2.1 0x11223344 0 (by norm_num) (by norm_num),
    (Convert_reverses_byte_order.2.2.2.2.2.1 0x1234 (by norm_num)).2,
    (Convert_reverses_byte_order.2.2.2.2.2.2.2 0x1122334455667788 (by norm_num)).2⟩

/-- C28: the info region read of LoadObject, for every header, file and codec.  When
`pack_size` equals the computed info size the `pack_size` bytes are read from the file
straight into the info buffer and the codec is not used.  When `pack_size` is smaller, the
compressed scratch that is read has `pack_size` bytes, so the guard
`CompressData.size() == DecompressSize` of the copying branch is false and the branch is
never executed: the info buffer is what `Unpack` produces from the scratch. -/
theorem readInfo_branches {κ δ : Type} (codec : xcompression.codec κ δ) (m_Header : header)
    (File : xfile) :
    (m_Header.m_PackSize = m_Header.m_nPacks * sizeof_pack + m_Header.m_nPointers * sizeof_ref
        + m_Header.m_nBlockSizes * 4 →
      readInfo codec m_Header File
        = (File.ReadSpan m_Header.m_PackSize).map (fun r =>
            (r.2, overwrite (List.replicate (m_Header.m_PackSize + m_Header.m_nPacks * 8) 0) 0
              r.1)))
    ∧ (m_Header.m_PackSize < m_Header.m_nPacks * sizeof_pack + m_Header.m_nPointers * sizeof_ref
        + m_Header.m_nBlockSizes * 4 →
      (File.ReadSpan m_Header.m_PackSize = none → readInfo codec m_Header File = none)
      ∧ ∀ (CompressData : List Nat) (File1 : xfile),
        File.ReadSpan m_Header.m_PackSize = some (CompressData, File1) →
        CompressData.length ≠ m_Header.m_nPacks * sizeof_pack + m_Header.m_nPointers * sizeof_ref
          + m_Header.m_nBlockSizes * 4
        ∧ readInfo codec m_Header File
          = (codec.DecompressInit (u32 (m_Header.m_nPacks * sizeof_pack
              + m_Header.m_nPointers * sizeof_ref + m_Header.m_nBlockSizes * 4))).bind
            (fun Decompress =>
              if (codec.Unpack Decompress (m_Header.m_nPacks * sizeof_pack
                    + m_Header.m_nPointers * sizeof_ref + m_Header.m_nBlockSizes * 4
                    + m_Header.m_nPacks * 8) CompressData).1 ≠ .OK then none
              else some (File1, overwrite (List.replicate (m_Header.m_nPacks * sizeof_pack
                    + m_Header.m_nPointers * sizeof_ref + m_Header.m_nBlockSizes * 4
                    + m_Header.m_nPacks * 8) 0) 0
                  (codec.Unpack Decompress (m_Header.m_nPacks * sizeof_pack
                    + m_Header.m_nPointers * sizeof_ref + m_Header.m_nBlockSizes * 4
                    + m_Header.m_nPacks * 8) CompressData).2.1))) := by
  constructor
  · intro heq
    unfold readInfo
    simp only
    rw [if_neg (by omega), ← heq]
    cases File.ReadSpan m_Header.m_PackSize with
    | none => rfl
    | some r => rfl
  · intro hlt
    constructor
    · intro hnone
      unfold readInfo
      simp only
      rw [if_pos hlt, hnone]
    · intro CompressData File1 hread
      have hlen : CompressData.length = m_Header.m_PackSize := by
        unfold xfile.ReadSpan at hread
        split at hread
        · rename_i hle
          simp only [Option.some.injEq, Prod.mk.injEq] at hread
          rw [← hread.1, List.length_take, List.length_drop]
          omega
        · exact absurd hread (by simp)
      have hne : CompressData.length ≠ m_Header.m_nPacks * sizeof_pack
          + m_Header.m_nPointers * sizeof_ref + m_Header.m_nBlockSizes * 4 := by omega
      refine ⟨hne, ?_⟩
      unfold readInfo
      simp only
      rw [if_pos hlt, hread]
      simp only
      rw [if_neg hne]
      cases codec.DecompressInit (u32 (m_Header.m_nPacks * sizeof_pack
          + m_Header.m_nPointers * sizeof_ref + m_Header.m_nBlockSizes * 4)) with
      | none => rfl
      | some d => rfl

/-- Witness of C28: a header whose 16-byte info region is stored raw, and one whose info region
is stored in 4 bytes. -/
theorem readInfo_branches_witness :
    rawInfoHeader.m_PackSize = rawInfoHeader.m_nPacks * sizeof_pack
        + rawInfoHeader.m_nPointers * sizeof_ref + rawInfoHeader.m_nBlockSizes * 4
    ∧ readInfo rle rawInfoHeader rawInfoFile
        = (rawInfoFile.ReadSpan rawInfoHeader.m_PackSize).map (fun r =>
            (r.2, overwrite (List.replicate (rawInfoHeader.m_PackSize
              + rawInfoHeader.m_nPacks * 8) 0) 0 r.1))
    ∧ packedInfoHeader.m_PackSize < packedInfoHeader.m_nPacks * sizeof_pack
        + packedInfoHeader.m_nPointers * sizeof_ref + packedInfoHeader.m_nBlockSizes * 4
    ∧ ([7, 16, 0, 0] : List Nat).length ≠ packedInfoHeader.m_nPacks * sizeof_pack
        + packedInfoHeader.m_nPointers * sizeof_ref + packedInfoHeader.m_nBlockSizes * 4 :=
  ⟨by decide, (readInfo_branches rle rawInfoHeader rawInfoFile).1 (by decide), by decide,
    ((((readInfo_branches rle packedInfoHeader packedInfoFile).2 (by decide)).2
      [7, 16, 0, 0] { data := [7, 16, 0, 0], pos := 4 }) (by decide)).1⟩

/-- C30 (counterexample): an info region of one pack with `block_count = 3`, whose three
block-size entries are 4, 4 and 65537 (`n_block_sizes = 3`), and a file that holds the three
blocks: two packed blocks that unpack to the bytes 5 and 7, and 65537 bytes that end with the
byte 9.  Block 1 is read into buffer 1; the read of block 2 into buffer 0 is 65537 bytes long
and runs on into buffer 1, whose first byte becomes 9, before block 1 is decoded from buffer 1.
The pack loop stores 9 at offset 1 of the pack, where decoding block 1 from its own bytes
stores 7. -/
theorem long_block_overwrites_other_buffer :
    (∀ i, i < overflowInfo.m_nPacks → 1 ≤ (overflowInfo.pPack i).m_nBlocks)
    ∧ overflowInfo.blockStart overflowInfo.m_nPacks = overflowInfo.m_nBlockSizes
    ∧ overflowLoading.File.pos + overflowInfo.blockOffset overflowInfo.m_nBlockSizes
        ≤ overflowLoading.File.data.length
    ∧ overflowInfo.pBlockSizes 2 = 65537
    ∧ overflowInfo.block overflowPayload 1 = [7, 1, 0, 0]
    ∧ (∃ st, sequentialLoad rle bumpAllocate overflowInfo (overflowInfo.blocks overflowPayload)
          1 0 (fun _ => 0, [], 0) = some st
        ∧ st.1 (65536 + 1) = 7)
    ∧ ∃ L, loadPacks rle bumpAllocate overflowInfo 1 0 overflowLoading = some L
        ∧ L.mem (65536 + 1) = 9 := by
  obtain ⟨s0, s1, s2, hP, _, _, _, o3, hst⟩ := overflow_facts
  obtain ⟨hlen, b0, b1, b2⟩ := overflow_blocks
  refine ⟨?_, hst, ?_, s2, b1, ?_, ?_⟩
  · intro i hi
    have h0 : i = 0 := Nat.lt_one_iff.mp hi
    rw [h0, hP]
    decide
  · show 0 + overflowInfo.blockOffset 3 ≤ overflowPayload.length
    rw [o3, hlen]
  · exact long_block_sequential bumpAllocate overflowInfo overflowPayload
      (List.replicate 65536 0) 65536 (fun _ => 0, [], 0) rfl hP b0 b1 b2 rfl
  · exact long_block_load bumpAllocate overflowInfo overflowLoading overflowPayload
      (List.replicate 65536 0) 65536 rfl s0 s1 s2 hP (List.length_replicate _ _) hlen b0 b1 b2
      rfl rfl rfl rfl rfl

/-- C30 (amended): the pack loop of LoadObject, entered with `iBlock = 0` and
`iCurrentBuffer = 0`, on an info region in which every pack has `block_count >= 1`, the block
counts sum to `n_block_sizes` and no entry of the block-size table is larger than a read
buffer (`max_block_size_v` bytes), and a file that holds the blocks.  What the loop loads
(memory, pack
pointers, temp pointer) is what decoding the packs block by block gives, pack `i` from the
blocks of the entries `[blockStart i, blockStart i + block_count)` of the block-size table,
each block decoded from its own bytes.  When pack `i` is entered the block index is
`blockStart i`, the sum of the block counts of the earlier packs, and for `i > 0` the current
buffer holds the first block of pack `i`, which the read-ahead has put there.  Every index of
a block of pack `i` is below `n_block_sizes`, and so is the index `blockStart i +
block_count` of the read-ahead whenever there is a next pack. -/
theorem LoadObject_reads_blocks_in_table_order {κ δ : Type} (codec : xcompression.codec κ δ)
    (Allocate : Nat → mem_type → Nat → Nat → Nat) (I : info) (L0 : loading)
    (hib : L0.iBlock = 0) (hcur : L0.iCurrentBuffer = 0)
    (h1 : ∀ i, i < I.m_nPacks → 1 ≤ (I.pPack i).m_nBlocks)
    (h2 : I.blockStart I.m_nPacks = I.m_nBlockSizes)
    (hfile : L0.File.pos + I.blockOffset I.m_nBlockSizes ≤ L0.File.data.length)
    (hbs : ∀ k, k < I.m_nBlockSizes → I.pBlockSizes k ≤ max_block_size_v) :
    (loadPacks codec Allocate I I.m_nPacks 0 L0).map
        (fun L => (L.mem, L.pPackPointers, L.m_pTempBlockData))
      = sequentialLoad codec Allocate I (I.blocks (L0.File.data.drop L0.File.pos)) I.m_nPacks 0
          (L0.mem, L0.pPackPointers, L0.m_pTempBlockData)
    ∧ (∀ (i : Nat) (L : loading), i ≤ I.m_nPacks →
        loadPacks codec Allocate I i 0 L0 = some L →
        L.iBlock = I.blockStart i ∧ L.iCurrentBuffer ≤ 1
        ∧ (0 < i → i < I.m_nPacks →
            L.span L.iCurrentBuffer (I.pBlockSizes (I.blockStart i))
                = I.block (L0.File.data.drop L0.File.pos) (I.blockStart i)
            ∧ L.File.pos = L0.File.pos + I.blockOffset (I.blockStart i + 1)))
    ∧ (∀ i, i < I.m_nPacks →
        I.blockStart i + (I.pPack i).m_nBlocks ≤ I.m_nBlockSizes
        ∧ (i + 1 < I.m_nPacks → I.blockStart i + (I.pPack i).m_nBlocks < I.m_nBlockSizes)) := by
  have hB0 : Before I L0.File.data L0.File.pos L0 0 := by
    refine ⟨rfl, by rw [hib]; rfl, by rw [hcur]; omega, ?_⟩
    rw [if_pos (Or.inl rfl)]
    rfl
  refine ⟨?_, ?_, ?_⟩
  · have := loadPacks_sim codec Allocate I L0.File.data L0.File.pos h1 h2 hfile hbs
      I.m_nPacks 0 L0
      (by omega) hB0
    cases hs : sequentialLoad codec Allocate I (I.blocks (L0.File.data.drop L0.File.pos))
        I.m_nPacks 0 (L0.mem, L0.pPackPointers, L0.m_pTempBlockData) with
    | none =>
      rw [hs] at this
      simp only at this
      rw [this]
      rfl
    | some st =>
      rw [hs] at this
      simp only at this
      obtain ⟨L1, hL1, hst, _⟩ := this
      rw [hL1, ← hst]
      rfl
  · intro i L hi hL
    have := loadPacks_sim codec Allocate I L0.File.data L0.File.pos h1 h2 hfile hbs i 0 L0
      (by omega) hB0
    cases hs : sequentialLoad codec Allocate I (I.blocks (L0.File.data.drop L0.File.pos))
        i 0 (L0.mem, L0.pPackPointers, L0.m_pTempBlockData) with
    | none =>
      rw [hs] at this
      simp only at this
      rw [this] at hL
      cases hL
    | some st =>
      rw [hs] at this
      simp only at this
      obtain ⟨L1, hL1, _, hB⟩ := this
      rw [hL1] at hL
      cases hL
      rw [Nat.zero_add] at hB
      obtain ⟨_, hb, hc, hif⟩ := hB
      refine ⟨hb, hc, ?_⟩
      intro h0 hlt
      rw [if_neg (by omega)] at hif
      exact ⟨hif.2.2.1, hif.2.1⟩
  · intro i hi
    have hs := blockStart_succ I i
    have hm := blockStart_mono I (i + 1) I.m_nPacks (by omega)
    refine ⟨by omega, ?_⟩
    intro hlt
    have hs2 := blockStart_succ I (i + 1)
    have := h1 (i + 1) hlt
    have hm2 := blockStart_mono I (i + 1 + 1) I.m_nPacks (by omega)
    omega

/-- Witness of C30 (amended): the pack loop on the file that Save wrote for the root of eight temp
arrays (two packs of one block each). -/
theorem LoadObject_reads_blocks_in_table_order_witness :
    (loadPacks rle bumpAllocate eightInfo eightInfo.m_nPacks 0 eightLoading).map
        (fun L => (L.mem, L.pPackPointers, L.m_pTempBlockData))
      = sequentialLoad rle bumpAllocate eightInfo
          (eightInfo.blocks (eightLoading.File.data.drop eightLoading.File.pos))
          eightInfo.m_nPacks 0
          (eightLoading.mem, eightLoading.pPackPointers, eightLoading.m_pTempBlockData)
    ∧ (∀ i, i < eightInfo.m_nPacks →
        eightInfo.blockStart i + (eightInfo.pPack i).m_nBlocks ≤ eightInfo.m_nBlockSizes
        ∧ (i + 1 < eightInfo.m_nPacks →
            eightInfo.blockStart i + (eightInfo.pPack i).m_nBlocks
              < eightInfo.m_nBlockSizes)) :=
  ⟨(LoadObject_reads_blocks_in_table_order rle bumpAllocate eightInfo eightLoading rfl rfl
      (by decide!) (by decide!) (by decide!) (by decide!)).1,
    (LoadObject_reads_blocks_in_table_order rle bumpAllocate eightInfo eightLoading rfl rfl
      (by decide!) (by decide!) (by decide!) (by decide!)).2.2⟩

end xserializer
